import Mathlib

/-!
# Ft_irc: a shallow embedding of the IRC server core

Byte strings (`std::string`) are lists of characters; a position `pos` inside a
string is represented by the suffix that starts at `pos`, so that
`while (pos < s.size() && isspace(s[pos])) pos++` is `List.dropWhile isspace`
on the suffix and `s.find(' ', pos)` is a `takeWhile`/`dropWhile` pair.
-/

namespace Irc

/-- A `std::string`. -/
abbrev Str := List Char

/-- The C function `isspace` in the "C" locale: space, `\t`, `\n`, `\v`, `\f`, `\r`. -/
def isspace (c : Char) : Bool :=
  c.toNat = 32 || (9 ≤ c.toNat && c.toNat ≤ 13)

/-- The C function `isdigit`: the characters `0`..`9`. -/
def isdigit (c : Char) : Bool :=
  48 ≤ c.toNat && c.toNat ≤ 57

/-- The line terminator appended by `Client::sendMessage`. -/
def CRLF : Str := ['\r', '\n']

namespace Utils

/-- `Utils::toLower`: `::tolower` applied to every character. -/
def toLower (str : Str) : Str := str.map Char.toLower

/-- `Utils::toUpper`: `::toupper` applied to every character. -/
def toUpper (str : Str) : Str := str.map Char.toUpper

/-- `Utils::toString` on a non-negative value: its decimal digits. -/
def toString (value : Nat) : Str := (Nat.repr value).toList

/-- The forbidden characters tested by the loop of `Utils::isValidNickname`. -/
def nickForbidden (c : Char) : Bool :=
  c = ' ' || c = ',' || c = '*' || c = '?' || c = '!' || c = '@' ||
  c = '.' || c = '$' || c = ':'

/-- `Utils::isValidNickname` (Utils.cpp 255-281). -/
def isValidNickname (nickname : Str) : Bool :=
  match nickname with
  | [] => false
  | c0 :: _ =>
    if isdigit c0 || c0 = '-' || c0 = '#' || c0 = '&' then false
    else !(nickname.any nickForbidden)

/-- `Utils::isValidChannelName` (Utils.cpp 223-248): the scan for forbidden characters
starts at index 1. -/
def isValidChannelName (name : Str) : Bool :=
  match name with
  | [] => false
  | c0 :: rest =>
    if c0 ≠ '#' ∧ c0 ≠ '&' then false
    else !(rest.any (fun c => c = ' ' || c = ',' || c.toNat = 7))

/-- The parameter loop of `Utils::formatIRCMessage`: the last parameter gets a
leading `:` when it contains a space and does not already start with `:`. -/
def formatParams : List Str → Str
  | [] => []
  | [p] =>
    if p.contains ' ' && p.head? != some ':' then [' ', ':'] ++ p else ' ' :: p
  | p :: q :: ps => ' ' :: p ++ formatParams (q :: ps)

/-- `Utils::formatIRCMessage` (Utils.cpp 290-319). -/
def formatIRCMessage (pfx command : Str) (params : List Str) : Str :=
  (if pfx ≠ [] then ':' :: pfx ++ [' '] else []) ++ command ++ formatParams params

/-- The parameter loop of `Utils::parseIRCMessage` (Utils.cpp 387-413), started at the
suffix `rest`. Every iteration consumes at least one character, so `rest.length`
iterations suffice; `fuel` bounds the iterations. -/
def parseIRCParams : Nat → Str → List Str
  | 0, _ => []
  | fuel + 1, rest =>
    match rest with
    | [] => []
    | c :: tl =>
      if c = ':' then [tl]
      else
        rest.takeWhile (fun x => !isspace x) ::
          parseIRCParams fuel ((rest.dropWhile (fun x => !isspace x)).dropWhile isspace)

/-- The part of `Utils::parseIRCMessage` after the optional prefix (Utils.cpp 365-415):
`rest` is the message from `pos` on. -/
def parseIRCCommand (rest pfx : Str) : Str × Str × List Str :=
  match rest.dropWhile (fun x => x != ' ') with
  | [] => (pfx, rest, [])
  | _ :: after =>
    (pfx, rest.takeWhile (fun x => x != ' '),
      parseIRCParams (after.length + 1) (after.dropWhile isspace))

/-- `Utils::parseIRCMessage` (Utils.cpp 328-416). The out-parameters `prefix` and
`command` are passed in with the values the caller's variables hold (`pfx0`,
`command0`) and returned with the parameter vector. -/
def parseIRCMessage (message pfx0 command0 : Str) : Str × Str × List Str :=
  match message with
  | [] => (pfx0, command0, [])
  | c :: _ =>
    if c = ':' then
      match message.dropWhile (fun x => x != ' ') with
      | [] => (pfx0, command0, [])
      | _ :: after =>
        parseIRCCommand (after.dropWhile isspace)
          ((message.takeWhile (fun x => x != ' ')).drop 1)
    else
      parseIRCCommand message pfx0

end Utils

/-- `enum ClientStatus` (Client.hpp). -/
inductive ClientStatus where
  | CONNECTING
  | PASSWORD_SENT
  | REGISTERED
  | DISCONNECTED
  deriving DecidableEq, Repr

/-- The outcome of one `send(2)` call on a non-blocking socket, as
`Client::processMessages` distinguishes them. -/
inductive SendResult where
  /-- `-1` with `errno` equal to `EAGAIN` or `EWOULDBLOCK`. -/
  | wouldBlock
  /-- `-1` with any other `errno`. -/
  | fatal
  /-- A non-negative return value: the number of bytes the kernel accepted. -/
  | accepted (n : Nat)
  deriving DecidableEq, Repr

/-- `class Client` (Client.hpp). A `Channel*` held in `_channels` is represented by the
key under which the server's channel map stores that channel. `wire` is not a member
of the class: it records the bytes the kernel has accepted from `send` on this
socket, so that what a peer is sent can be stated. `addr` is not a member either: it
is the address of the object, the value of the `Client*` that the member maps of the
channels use as key and iterate in ascending order. -/
structure Client where
  fd : Nat
  nickname : Str := []
  username : Str := []
  hostname : Str := []
  realname : Str := []
  buffer : Str := []
  status : ClientStatus := ClientStatus.CONNECTING
  channels : List Str := []
  messages : List Str := []
  away_message : Str := []
  isAway : Bool := false
  isOperator : Bool := false
  wire : Str := []
  addr : Nat := 0
  deriving DecidableEq, Repr

/-- `class Channel` (Channel.hpp). `clients` is `std::map<Client*, unsigned int>`: a
`Client*` is represented by the descriptor of the session, and the list is kept in
the iteration order of the map, which is the ascending order of the addresses of the
sessions (`Client.addr`). `_creationTime` is omitted. -/
structure Channel where
  name : Str
  topic : Str := []
  clients : List (Nat × Nat) := []
  modes : Nat := 0
  password : Str := []
  userLimit : Nat := 0
  invitedUsers : List Str := []
  deriving DecidableEq, Repr

/-- The state owned by `class Server` (Server.hpp) together with the environment it
talks to: `clients` is `_clients` in ascending descriptor order, `channels` is
`_channels` (key: lowercased name), `fds` is `_fds[0 .. _nfds)`, and `env` lists the
outcomes of the future `send` calls in the order they will be made (when it is
exhausted `send` answers `EAGAIN`). -/
structure Server where
  serverSocket : Nat
  password : Str
  serverName : Str
  creationDate : Str
  clients : List Client := []
  channels : List (Str × Channel) := []
  fds : List Nat := []
  env : List SendResult := []
  deriving DecidableEq, Repr

/-- `MAX_CLIENTS` (Server.hpp). -/
def MAX_CLIENTS : Nat := 100

/-- `BUFFER_SIZE` (Server.hpp). -/
def BUFFER_SIZE : Nat := 1024

/-- `MODE_INVITE_ONLY`. -/
def MODE_INVITE_ONLY : Nat := 1
/-- `MODE_TOPIC_LOCKED`. -/
def MODE_TOPIC_LOCKED : Nat := 2
/-- `MODE_PASSWORD`. -/
def MODE_PASSWORD : Nat := 4
/-- `MODE_USER_LIMIT`. -/
def MODE_USER_LIMIT : Nat := 8
/-- `USER_MODE_OPERATOR`. -/
def USER_MODE_OPERATOR : Nat := 1
/-- `USER_MODE_VOICE`. -/
def USER_MODE_VOICE : Nat := 2

/-- Bitwise complement of an `unsigned int`. -/
def bitNot32 (m : Nat) : Nat := (2 ^ 32 - 1) ^^^ m

/-- The loop of `Client::processMessages` (Client.cpp 382-421) on the queue `q`:
returns the queue left, the unused `send` outcomes, the bytes on the wire and
whether a fatal error was met (the caller then sets `DISCONNECTED`). -/
def sendLoop : List Str → List SendResult → Str → List Str × List SendResult × Str × Bool
  | [], env, wire => ([], env, wire, false)
  | m :: q, [], wire => (m :: q, [], wire, false)
  | m :: q, r :: env, wire =>
    match r with
    | SendResult.wouldBlock => (m :: q, env, wire, false)
    | SendResult.fatal => (m :: q, env, wire, true)
    | SendResult.accepted n =>
      if n < m.length then (m.drop n :: q, env, wire ++ m.take n, false)
      else sendLoop q env (wire ++ m)

namespace Client

/-- `Client::isRegistered`. -/
def isRegistered (c : Client) : Bool := c.status = ClientStatus.REGISTERED

/-- `Client::setNickname`. -/
@[simp] def setNickname (c : Client) (nickname : Str) : Client := { c with nickname := nickname }

/-- `Client::setUsername`. -/
@[simp] def setUsername (c : Client) (username : Str) : Client := { c with username := username }

/-- `Client::setRealname`. -/
@[simp] def setRealname (c : Client) (realname : Str) : Client := { c with realname := realname }

/-- `Client::setStatus`. -/
@[simp] def setStatus (c : Client) (status : ClientStatus) : Client := { c with status := status }

/-- `Client::setOperator`. -/
@[simp] def setOperator (c : Client) (op : Bool) : Client := { c with isOperator := op }

/-- `Client::joinChannel` (Client.cpp 244-263). -/
def joinChannel (c : Client) (key : Str) : Client :=
  if key ∈ c.channels then c else { c with channels := c.channels ++ [key] }

/-- `Client::leaveChannel` (Client.cpp 269-291): erases the first occurrence. -/
def leaveChannel (c : Client) (key : Str) : Client :=
  { c with channels := c.channels.erase key }

/-- `_messages.push(line)`. -/
def enqueue (c : Client) (line : Str) : Client :=
  { c with messages := c.messages ++ [line] }

/-- Everything this session has been sent or has queued: the bytes accepted by the
kernel followed by the outbound queue. -/
def outStream (c : Client) : Str := c.wire ++ c.messages.flatten

end Client

namespace Channel

/-- `Channel::hasMode`. -/
def hasMode (ch : Channel) (mode : Nat) : Bool := ch.modes &&& mode != 0

/-- `Channel::setMode` (Channel.cpp 146-185). -/
def setMode (ch : Channel) (mode : Nat) (enabled : Bool) : Channel :=
  if enabled then { ch with modes := ch.modes ||| mode }
  else { ch with modes := ch.modes &&& bitNot32 mode }

/-- `_clients.find(client)`: the flags of the member, if it is one. -/
def findClient (ch : Channel) (fd : Nat) : Option Nat :=
  (ch.clients.find? (fun m => m.1 = fd)).map Prod.snd

/-- `Channel::hasClient(Client*)`. -/
def hasClient (ch : Channel) (fd : Nat) : Bool := (ch.findClient fd).isSome

/-- `Channel::isOperator`. -/
def isOperator (ch : Channel) (fd : Nat) : Bool :=
  match ch.findClient fd with
  | none => false
  | some flags => flags &&& USER_MODE_OPERATOR != 0

/-- `Channel::hasVoice`. -/
def hasVoice (ch : Channel) (fd : Nat) : Bool :=
  match ch.findClient fd with
  | none => false
  | some flags => flags &&& USER_MODE_VOICE != 0

/-- `Channel::getClientCount`. -/
def getClientCount (ch : Channel) : Nat := ch.clients.length

/-- The assignment `_clients[client] = flags` on the member map: `addr` gives the
address of the session with a given descriptor, and `std::map` keeps its keys, the
`Client*` values, in ascending order. A key already present keeps its place and takes
the new value; a new key goes before the first key with a greater address. -/
def insertMember (addr : Nat → Nat) (fd flags : Nat) : List (Nat × Nat) → List (Nat × Nat)
  | [] => [(fd, flags)]
  | m :: ms =>
    if fd = m.1 then (fd, flags) :: ms
    else if addr fd < addr m.1 then (fd, flags) :: m :: ms
    else m :: insertMember addr fd flags ms

/-- `_clients.erase(it)` for the member `fd`. -/
def eraseMember (ch : Channel) (fd : Nat) : Channel :=
  { ch with clients := ch.clients.filter (fun m => m.1 != fd) }

/-- `Channel::setOperator` (Channel.cpp 336-362). -/
def setOperator (ch : Channel) (fd : Nat) (op : Bool) : Channel :=
  { ch with clients := ch.clients.map (fun m =>
      if m.1 = fd then
        (m.1, if op then m.2 ||| USER_MODE_OPERATOR else m.2 &&& bitNot32 USER_MODE_OPERATOR)
      else m) }

/-- `Channel::inviteUser`: insertion into the set `_invitedUsers`. -/
def inviteUser (ch : Channel) (nickname : Str) : Channel :=
  if Utils.toLower nickname ∈ ch.invitedUsers then ch
  else { ch with invitedUsers := ch.invitedUsers ++ [Utils.toLower nickname] }

/-- `Channel::isInvited`. -/
def isInvited (ch : Channel) (nickname : Str) : Bool :=
  decide (Utils.toLower nickname ∈ ch.invitedUsers)

/-- `Channel::removeInvite`. -/
def removeInvite (ch : Channel) (nickname : Str) : Channel :=
  { ch with invitedUsers := ch.invitedUsers.filter (fun n => n != Utils.toLower nickname) }

/-- `Channel::clientCanJoin` (Channel.cpp 549-579) for a non-null client whose nickname
is `nickname`. -/
def clientCanJoin (ch : Channel) (nickname password : Str) : Bool :=
  if ch.hasMode MODE_INVITE_ONLY && !ch.isInvited nickname then false
  else if ch.hasMode MODE_PASSWORD && password != ch.password then false
  else if ch.hasMode MODE_USER_LIMIT && decide (ch.getClientCount ≥ ch.userLimit) then false
  else true

/-- `Channel::clientCanChangeTopic` (Channel.cpp 581-604) for a non-null client. -/
def clientCanChangeTopic (ch : Channel) (fd : Nat) : Bool :=
  if !ch.hasClient fd then false
  else if ch.hasMode MODE_TOPIC_LOCKED then ch.isOperator fd
  else true

end Channel

namespace Server

/-- `Server::getClient`. -/
def getClient (s : Server) (fd : Nat) : Option Client :=
  s.clients.find? (fun c => c.fd = fd)

/-- The value of the pointer `Server::getClient(fd)`: the address of the session with
descriptor `fd` (0 when there is none). -/
def addressOf (s : Server) (fd : Nat) : Nat :=
  match s.getClient fd with
  | none => 0
  | some c => c.addr

/-- `Server::getClientByNickname` (Server.cpp 191-199): the first session, in map
order, whose lowercased nickname equals the lowercased argument. -/
def getClientByNickname (s : Server) (nickname : Str) : Option Client :=
  s.clients.find? (fun c => Utils.toLower c.nickname = Utils.toLower nickname)

/-- `Server::getClientCount`. -/
def getClientCount (s : Server) : Nat := s.clients.length

/-- `Server::getChannelCount`. -/
def getChannelCount (s : Server) : Nat := s.channels.length

/-- `Server::getChannel` (Server.cpp 218-224). -/
def getChannel (s : Server) (name : Str) : Option Channel :=
  (s.channels.find? (fun kc => kc.1 = Utils.toLower name)).map Prod.snd

/-- A write through a `Client*`: `f` is applied to the session with descriptor `fd`. -/
def modifyClient (s : Server) (fd : Nat) (f : Client → Client) : Server :=
  { s with clients := s.clients.map (fun c => if c.fd = fd then f c else c) }

/-- A write through a `Channel*`: `f` is applied to the channel stored under `key`. -/
def modifyChannel (s : Server) (key : Str) (f : Channel → Channel) : Server :=
  { s with channels := s.channels.map (fun kc => if kc.1 = key then (kc.1, f kc.2) else kc) }

/-- `_clients[fd] = client`: insertion into the session map in descriptor order. -/
def insertClient (c : Client) : List Client → List Client
  | [] => [c]
  | d :: ds =>
    if c.fd < d.fd then c :: d :: ds
    else if c.fd = d.fd then c :: ds
    else d :: insertClient c ds

/-- `Client::processMessages` (Client.cpp 382-421) on the session `fd`, consuming `send`
outcomes from the environment: the queue left and the bytes on the wire are written
back to the session, and its status becomes `DISCONNECTED` on a fatal error. -/
def processMessages (s : Server) (fd : Nat) : Server :=
  match s.getClient fd with
  | none => s
  | some c =>
    match sendLoop c.messages s.env c.wire with
    | (q, env1, wire1, failed) =>
      { s.modifyClient fd (fun d =>
          { d with messages := q, wire := wire1,
                   status := if failed then ClientStatus.DISCONNECTED else d.status }) with
        env := env1 }

/-- `Client::sendMessage` (Client.cpp 350-357) on the session `fd`: push
`message + "\r\n"`, then `processMessages`. -/
def sendMessage (s : Server) (fd : Nat) (message : Str) : Server :=
  (s.modifyClient fd (fun c => c.enqueue (message ++ CRLF))).processMessages fd

/-- `Client::sendReply` (Client.cpp 363-367). -/
def sendReply (s : Server) (fd : Nat) (reply : Str) : Server :=
  s.sendMessage fd (':' :: s.serverName ++ ' ' :: reply)

/-- The loop of `Channel::broadcast` over the members `members`. -/
def broadcastTo (s : Server) (members : List (Nat × Nat)) (message : Str)
    (exclude : Option Nat) : Server :=
  members.foldl (fun acc m => if some m.1 = exclude then acc else acc.sendMessage m.1 message) s

/-- `Channel::broadcast` (Channel.cpp 530-542) on the channel stored under `key`. -/
def channelBroadcast (s : Server) (key : Str) (message : Str) (exclude : Option Nat) : Server :=
  match s.channels.find? (fun kc => kc.1 = key) with
  | none => s
  | some kc => s.broadcastTo kc.2.clients message exclude

/-- `Server::broadcast` (Server.cpp 201-208): every registered session other than
`excludeFd`. -/
def broadcast (s : Server) (message : Str) (excludeFd : Nat) : Server :=
  s.clients.foldl (fun acc c =>
    if c.fd ≠ excludeFd ∧ (acc.getClient c.fd).any Client.isRegistered then
      acc.sendMessage c.fd message
    else acc) s

/-- `Channel::addClient` (Channel.cpp 191-214) on the channel stored under `key`. -/
def addClient (s : Server) (key : Str) (fd : Nat) (asOperator : Bool) : Server :=
  match s.channels.find? (fun kc => kc.1 = key) with
  | none => s
  | some kc =>
    if kc.2.hasClient fd then s
    else
      let flags := if asOperator then USER_MODE_OPERATOR else 0
      let s1 := s.modifyChannel key
        (fun ch => { ch with clients := Channel.insertMember s.addressOf fd flags ch.clients })
      s1.modifyClient fd (fun c => c.joinChannel key)

/-- `Channel::removeClient` (Channel.cpp 220-245) on the channel stored under `key`. -/
def channelRemoveClient (s : Server) (key : Str) (fd : Nat) : Server :=
  match s.channels.find? (fun kc => kc.1 = key) with
  | none => s
  | some kc =>
    if kc.2.hasClient fd then
      (s.modifyChannel key (fun ch => ch.eraseMember fd)).modifyClient fd
        (fun c => c.leaveChannel key)
    else s

/-- `Server::createChannel` (Server.cpp 226-236): `new Channel(name, creator)` adds the
creator as operator, then the channel is stored under the lowercased name. -/
def createChannel (s : Server) (name : Str) (creator : Nat) : Server :=
  match s.getChannel name with
  | some _ => s
  | none =>
    let newChannel : Channel := { name := name, clients := [(creator, USER_MODE_OPERATOR)] }
    let s1 : Server := { s with channels := s.channels ++ [(Utils.toLower name, newChannel)] }
    s1.modifyClient creator (fun c => c.joinChannel (Utils.toLower name))

/-- `Server::removeChannel` (Server.cpp 238-245). -/
def removeChannel (s : Server) (name : Str) : Server :=
  { s with channels := s.channels.filter (fun kc => kc.1 != Utils.toLower name) }

end Server

/-- `Utils::toInt` (Utils.cpp 129-147): `operator>>` into an `int` skips leading white
space, reads an optional sign and decimal digits, and fails (result 0) when there is
no digit or the value does not fit an `int`. -/
def Utils.toInt (str : Str) : Int :=
  let s1 := str.dropWhile isspace
  let neg := s1.head? = some '-'
  let s2 := if s1.head? = some '-' ∨ s1.head? = some '+' then s1.drop 1 else s1
  let digits := s2.takeWhile isdigit
  if digits = [] then 0
  else
    let v : Int := (digits.foldl (fun a d => 10 * a + (d.toNat - 48)) 0 : Nat)
    let r : Int := if neg then -v else v
    if r < -(2 ^ 31) ∨ 2 ^ 31 - 1 < r then 0 else r

/-- The expression `":" + nick + "!" + user + "@" + host` the handlers build from the
sender. -/
def Client.hostmask (c : Client) : Str :=
  ':' :: c.nickname ++ '!' :: c.username ++ '@' :: c.hostname

namespace Command

open Server

/-- `PassCommand::execute` (Command.cpp 76-99). -/
def passExecute (s : Server) (fd : Nat) (params : List Str) : Option Server :=
  match s.getClient fd, params with
  | some c, p0 :: _ =>
    if c.status ≠ ClientStatus.CONNECTING then
      some (s.sendReply fd "462 :You may not reregister".toList)
    else if p0 ≠ s.password then
      some (s.sendReply fd "464 :Password incorrect".toList)
    else
      some (s.modifyClient fd (fun d => d.setStatus ClientStatus.PASSWORD_SENT))
  | _, _ => none

/-- `NickCommand::sendWelcomeMessages` (Command.cpp 177-212). -/
def sendWelcomeMessages (s : Server) (fd : Nat) : Server :=
  match s.getClient fd with
  | none => s
  | some c =>
    let s1 := s.sendReply fd ("001 :Welcome to the Internet Relay Network ".toList ++
      c.nickname ++ '!' :: c.username ++ '@' :: c.hostname)
    let s2 := s1.sendReply fd ("002 :Your host is ".toList ++ s.serverName ++
      ", running version ft_irc 1.0".toList)
    let s3 := s2.sendReply fd ("003 :This server was created ".toList ++ s.creationDate)
    let s4 := s3.sendReply fd ("004 ".toList ++ s.serverName ++ " ft_irc 1.0 o o".toList)
    let s5 := s4.sendReply fd ("251 :There are ".toList ++ Utils.toString s.getClientCount ++
      " users and 0 invisible on 1 servers".toList)
    let s6 := s5.sendReply fd "252 0 :operator(s) online".toList
    let s7 := s6.sendReply fd ("254 ".toList ++ Utils.toString s.getChannelCount ++
      " :channels formed".toList)
    let s8 := s7.sendReply fd ("255 :I have ".toList ++ Utils.toString s.getClientCount ++
      " clients and 1 servers".toList)
    let s9 := s8.sendReply fd ("375 :- ".toList ++ s.serverName ++
      " Message of the day - ".toList)
    let s10 := s9.sendReply fd "372 :- Welcome to ft_irc!".toList
    let s11 := s10.sendReply fd "372 :- This server is running ft_irc 1.0".toList
    let s12 := s11.sendReply fd "372 :- Have fun!".toList
    s12.sendReply fd "376 :End of /MOTD command".toList

/-- `NickCommand::execute` (Command.cpp 118-171). -/
def nickExecute (s : Server) (fd : Nat) (params : List Str) : Option Server :=
  match s.getClient fd, params with
  | some c, newNick :: _ =>
    if !Utils.isValidNickname newNick then
      some (s.sendReply fd ("432 ".toList ++ newNick ++ " :Erroneous nickname".toList))
    else if (s.getClientByNickname newNick).isSome then
      some (s.sendReply fd ("433 ".toList ++ newNick ++ " :Nickname is already in use".toList))
    else
      let oldNick := c.nickname
      let s1 := s.modifyClient fd (fun d => d.setNickname newNick)
      if c.isRegistered then
        let message := ':' :: oldNick ++ '!' :: c.username ++ '@' :: c.hostname ++
          " NICK :".toList ++ newNick
        let s2 := s1.sendMessage fd message
        some (c.channels.foldl (fun acc key => acc.channelBroadcast key message (some fd)) s2)
      else if c.status = ClientStatus.PASSWORD_SENT ∧ c.username ≠ [] then
        some (sendWelcomeMessages
          (s1.modifyClient fd (fun d => d.setStatus ClientStatus.REGISTERED)) fd)
      else some s1
  | _, _ => none

/-- `UserCommand::execute` (Command.cpp 231-262). -/
def userExecute (s : Server) (fd : Nat) (params : List Str) : Option Server :=
  match s.getClient fd, params with
  | some c, p0 :: _ :: _ :: p3 :: _ =>
    if c.isRegistered then
      some (s.sendReply fd "462 :You may not reregister".toList)
    else
      let s1 := s.modifyClient fd (fun d => (d.setUsername p0).setRealname p3)
      if c.status = ClientStatus.PASSWORD_SENT ∧ c.nickname ≠ [] then
        some (sendWelcomeMessages
          (s1.modifyClient fd (fun d => d.setStatus ClientStatus.REGISTERED)) fd)
      else some s1
  | _, _ => none

/-- `QuitCommand::execute` (Command.cpp 281-302). -/
def quitExecute (s : Server) (fd : Nat) (params : List Str) : Option Server :=
  match s.getClient fd with
  | none => none
  | some c =>
    let quitMessage := match params with
      | [] => "Quit".toList
      | p0 :: _ => p0
    let s1 := s.modifyClient fd (fun d => d.setStatus ClientStatus.DISCONNECTED)
    let message := c.hostmask ++ " QUIT :".toList ++ quitMessage
    some (c.channels.foldl (fun acc key => acc.channelBroadcast key message (some fd)) s1)

/-- The name list built by `JoinCommand::sendNames` (Command.cpp 415-436). -/
def namesList (s : Server) (ch : Channel) : Str :=
  [' '].intercalate (ch.clients.map (fun m =>
    (if ch.isOperator m.1 then ['@'] else if ch.hasVoice m.1 then ['+'] else []) ++
      (match s.getClient m.1 with
        | some d => d.nickname
        | none => [])))

/-- `JoinCommand::sendNames` (Command.cpp 409-443). -/
def sendNames (s : Server) (fd : Nat) (nickname : Str) (ch : Channel) : Server :=
  let s1 := s.sendReply fd ("353 ".toList ++ nickname ++ " = ".toList ++ ch.name ++
    " :".toList ++ namesList s ch)
  s1.sendReply fd ("366 ".toList ++ nickname ++ ' ' :: ch.name ++ " :End of /NAMES list".toList)

/-- The end of `JoinCommand::execute` (Command.cpp 381-402), once the client is a member
of the channel stored under `key`. -/
def joinTail (s : Server) (fd : Nat) (c : Client) (channelName key : Str) : Server :=
  let s1 := if (s.getChannel channelName).any (fun ch => ch.isInvited c.nickname) then
      s.modifyChannel key (fun ch => ch.removeInvite c.nickname)
    else s
  let message := c.hostmask ++ " JOIN :".toList ++ channelName
  let s2 := s1.channelBroadcast key message none
  match s2.getChannel channelName with
  | none => s2
  | some ch =>
    let s3 := if ch.topic ≠ [] then
        s2.sendReply fd ("332 ".toList ++ c.nickname ++ ' ' :: channelName ++
          " :".toList ++ ch.topic)
      else s2
    sendNames s3 fd c.nickname ch

/-- `JoinCommand::execute` (Command.cpp 321-402). -/
def joinExecute (s : Server) (fd : Nat) (params : List Str) : Option Server :=
  match s.getClient fd, params with
  | some c, channelName :: rest =>
    let password := match rest with
      | [] => []
      | p1 :: _ => p1
    let key := Utils.toLower channelName
    if !Utils.isValidChannelName channelName then
      some (s.sendReply fd ("403 ".toList ++ channelName ++ " :No such channel".toList))
    else
      match s.getChannel channelName with
      | none => some (joinTail (s.createChannel channelName fd) fd c channelName key)
      | some ch =>
        if !ch.clientCanJoin c.nickname password then
          if ch.hasMode MODE_INVITE_ONLY && !ch.isInvited c.nickname then
            some (s.sendReply fd ("473 ".toList ++ channelName ++
              " :Cannot join channel (+i)".toList))
          else if ch.hasMode MODE_PASSWORD && password != ch.password then
            some (s.sendReply fd ("475 ".toList ++ channelName ++
              " :Cannot join channel (+k)".toList))
          else if ch.hasMode MODE_USER_LIMIT && decide (ch.getClientCount ≥ ch.userLimit) then
            some (s.sendReply fd ("471 ".toList ++ channelName ++
              " :Cannot join channel (+l)".toList))
          else
            some (s.sendReply fd ("474 ".toList ++ channelName ++
              " :Cannot join channel".toList))
        else
          some (joinTail (s.addClient key fd false) fd c channelName key)
  | _, _ => none

/-- `PartCommand::execute` (Command.cpp 462-504). -/
def partExecute (s : Server) (fd : Nat) (params : List Str) : Option Server :=
  match s.getClient fd, params with
  | some c, channelName :: rest =>
    let partMessage0 := match rest with
      | [] => "Leaving".toList
      | p1 :: _ => p1
    let partMessage := if partMessage0.head? = some ':' then partMessage0.drop 1 else partMessage0
    let key := Utils.toLower channelName
    match s.getChannel channelName with
    | none => some (s.sendReply fd ("403 ".toList ++ channelName ++ " :No such channel".toList))
    | some ch =>
      if !ch.hasClient fd then
        some (s.sendReply fd ("442 ".toList ++ channelName ++
          " :You're not on that channel".toList))
      else
        let message := c.hostmask ++ " PART ".toList ++ channelName ++ " :".toList ++ partMessage
        let s1 := s.channelBroadcast key message none
        let s2 := s1.channelRemoveClient key fd
        if (s2.getChannel channelName).any (fun ch2 => ch2.getClientCount = 0) then
          some (s2.removeChannel channelName)
        else some s2
  | _, _ => none

/-- `PrivmsgCommand::execute` (Command.cpp 523-586). -/
def privmsgExecute (s : Server) (fd : Nat) (params : List Str) : Option Server :=
  match s.getClient fd, params with
  | some c, target :: message :: _ =>
    if target.head? = some '#' ∨ target.head? = some '&' then
      match s.getChannel target with
      | none => some (s.sendReply fd ("403 ".toList ++ target ++ " :No such channel".toList))
      | some ch =>
        if !ch.hasClient fd then
          some (s.sendReply fd ("442 ".toList ++ target ++
            " :You're not on that channel".toList))
        else
          let msg := c.hostmask ++ " PRIVMSG ".toList ++ target ++ " :".toList ++ message
          some (s.channelBroadcast (Utils.toLower target) msg (some fd))
    else
      match s.getClientByNickname target with
      | none =>
        some (s.sendReply fd ("401 ".toList ++ target ++ " :No such nick/channel".toList))
      | some t =>
        let msg := c.hostmask ++ " PRIVMSG ".toList ++ target ++ " :".toList ++ message
        let s1 := s.sendMessage t.fd msg
        match s1.getClient t.fd with
        | none => some s1
        | some t1 =>
          if t1.isAway then
            some (s1.sendReply fd ("301 ".toList ++ target ++ " :".toList ++ t1.away_message))
          else some s1
  | _, _ => none

/-- `NoticeCommand::execute` (Command.cpp 605-659). -/
def noticeExecute (s : Server) (fd : Nat) (params : List Str) : Option Server :=
  match s.getClient fd, params with
  | some c, target :: message :: _ =>
    if target.head? = some '#' ∨ target.head? = some '&' then
      match s.getChannel target with
      | none => some s
      | some ch =>
        if !ch.hasClient fd then some s
        else
          let msg := c.hostmask ++ " NOTICE ".toList ++ target ++ " :".toList ++ message
          some (s.channelBroadcast (Utils.toLower target) msg (some fd))
    else
      match s.getClientByNickname target with
      | none => some s
      | some t =>
        let msg := c.hostmask ++ " NOTICE ".toList ++ target ++ " :".toList ++ message
        some (s.sendMessage t.fd msg)
  | _, _ => none

/-- The local variables of the loop of `ModeCommand::handleChannelMode`. -/
structure ModeLoop where
  server : Server
  add : Bool := true
  paramIndex : Nat := 0
  modeChanges : Str := ['+']
  paramChanges : Str := []

/-- One iteration of the loop of `ModeCommand::handleChannelMode` (Command.cpp 734-874)
for the mode character `mode`. -/
def channelModeStep (fd : Nat) (channelName key : Str) (modeParams : List Str)
    (st : ModeLoop) (mode : Char) : ModeLoop :=
  let s := st.server
  if mode = '+' then { st with add := true, modeChanges := st.modeChanges ++ ['+'] }
  else if mode = '-' then { st with add := false, modeChanges := st.modeChanges ++ ['-'] }
  else if mode = 'i' then
    { st with server := s.modifyChannel key (fun ch => ch.setMode MODE_INVITE_ONLY st.add),
              modeChanges := st.modeChanges ++ ['i'] }
  else if mode = 't' then
    { st with server := s.modifyChannel key (fun ch => ch.setMode MODE_TOPIC_LOCKED st.add),
              modeChanges := st.modeChanges ++ ['t'] }
  else if mode = 'k' then
    if st.add then
      match modeParams.get? st.paramIndex with
      | none => { st with server := s.sendReply fd "461 MODE :Not enough parameters".toList }
      | some p =>
        { st with server := s.modifyChannel key
                    (fun ch => ({ ch with password := p } : Channel).setMode MODE_PASSWORD true),
                  modeChanges := st.modeChanges ++ ['k'],
                  paramChanges := st.paramChanges ++ ' ' :: p,
                  paramIndex := st.paramIndex + 1 }
    else
      { st with server := s.modifyChannel key
                  (fun ch => ({ ch with password := [] } : Channel).setMode MODE_PASSWORD false),
                modeChanges := st.modeChanges ++ ['k'] }
  else if mode = 'l' then
    if st.add then
      match modeParams.get? st.paramIndex with
      | none => { st with server := s.sendReply fd "461 MODE :Not enough parameters".toList }
      | some p =>
        if Utils.toInt p ≤ 0 then
          { st with server := s.sendReply fd "501 :Invalid user limit".toList }
        else
          { st with server := s.modifyChannel key
                      (fun ch => ({ ch with userLimit := (Utils.toInt p).toNat } :
                        Channel).setMode MODE_USER_LIMIT true),
                    modeChanges := st.modeChanges ++ ['l'],
                    paramChanges := st.paramChanges ++ ' ' :: p,
                    paramIndex := st.paramIndex + 1 }
    else
      { st with server := s.modifyChannel key
                  (fun ch => ({ ch with userLimit := 0 } : Channel).setMode MODE_USER_LIMIT false),
                modeChanges := st.modeChanges ++ ['l'] }
  else if mode = 'o' then
    match modeParams.get? st.paramIndex with
    | none => { st with server := s.sendReply fd "461 MODE :Not enough parameters".toList }
    | some p =>
      match s.getClientByNickname p with
      | none =>
        { st with server := s.sendReply fd ("401 ".toList ++ p ++
            " :No such nick/channel".toList) }
      | some t =>
        if (s.getChannel channelName).any (fun ch => ch.hasClient t.fd) then
          { st with server := s.modifyChannel key (fun ch => ch.setOperator t.fd st.add),
                    modeChanges := st.modeChanges ++ ['o'],
                    paramChanges := st.paramChanges ++ ' ' :: p,
                    paramIndex := st.paramIndex + 1 }
        else
          { st with server := s.sendReply fd ("441 ".toList ++ p ++ ' ' :: channelName ++
              " :They aren't on that channel".toList) }
  else
    { st with server := s.sendReply fd ("472 ".toList ++ mode ::
        " :is unknown mode char to me".toList) }

/-- `ModeCommand::handleChannelMode` (Command.cpp 686-885). -/
def handleChannelMode (s : Server) (fd : Nat) (c : Client) (channelName modes : Str)
    (modeParams : List Str) : Server :=
  match s.getChannel channelName with
  | none => s.sendReply fd ("403 ".toList ++ channelName ++ " :No such channel".toList)
  | some ch =>
    if modes = [] then
      let modeStr := ['+'] ++ (if ch.hasMode MODE_INVITE_ONLY then ['i'] else []) ++
        (if ch.hasMode MODE_TOPIC_LOCKED then ['t'] else []) ++
        (if ch.hasMode MODE_PASSWORD then ['k'] else []) ++
        (if ch.hasMode MODE_USER_LIMIT then ['l'] else [])
      let paramStr := (if ch.hasMode MODE_PASSWORD then ' ' :: ch.password else []) ++
        (if ch.hasMode MODE_USER_LIMIT then ' ' :: Utils.toString ch.userLimit else [])
      s.sendReply fd ("324 ".toList ++ channelName ++ ' ' :: modeStr ++ paramStr)
    else if !ch.isOperator fd then
      s.sendReply fd ("482 ".toList ++ channelName ++ " :You're not channel operator".toList)
    else
      let key := Utils.toLower channelName
      let st := modes.foldl (channelModeStep fd channelName key modeParams) { server := s }
      let message := c.hostmask ++ " MODE ".toList ++ channelName ++ ' ' :: st.modeChanges ++
        st.paramChanges
      st.server.channelBroadcast key message none

/-- One iteration of the loop of `ModeCommand::handleUserMode` (Command.cpp 912-953);
the state is the server and the local `add`. -/
def userModeStep (fd : Nat) (st : Server × Bool) (mode : Char) : Server × Bool :=
  let s := st.1
  if mode = '+' then (s, true)
  else if mode = '-' then (s, false)
  else if mode = 'o' then
    if st.2 then (s.sendReply fd "501 :Cannot set user mode +o".toList, st.2)
    else
      match s.getClient fd with
      | none => st
      | some d =>
        if d.isOperator then
          let s1 := s.modifyClient fd (fun e => e.setOperator false)
          (s1.sendMessage fd (d.hostmask ++ " MODE ".toList ++ d.nickname ++ " -o".toList), st.2)
        else st
  else (s.sendReply fd "501 :Unknown MODE flag".toList, st.2)

/-- `ModeCommand::handleUserMode` (Command.cpp 887-954). -/
def handleUserMode (s : Server) (fd : Nat) (c : Client) (targetNick modes : Str) : Server :=
  if targetNick ≠ c.nickname then
    s.sendReply fd "502 :Cannot change mode for other users".toList
  else if modes = [] then
    s.sendReply fd ("221 ".toList ++ '+' :: (if c.isOperator then ['o'] else []))
  else (modes.foldl (userModeStep fd) (s, true)).1

/-- `ModeCommand::execute` (Command.cpp 668-685). For a channel target the argument
`std::vector<std::string>(params.begin() + 2, params.end())` is built before the call;
with fewer than two parameters `params.begin() + 2` lies beyond `params.end()` and the
behaviour is undefined (`none`). -/
def modeExecute (s : Server) (fd : Nat) (params : List Str) : Option Server :=
  match s.getClient fd, params with
  | some c, target :: rest =>
    let modes := match rest with
      | [] => []
      | p1 :: _ => p1
    if target.head? = some '#' ∨ target.head? = some '&' then
      match rest with
      | [] => none
      | _ :: modeParams => some (handleChannelMode s fd c target modes modeParams)
    else some (handleUserMode s fd c target modes)
  | _, _ => none

/-- `TopicCommand::execute` (Command.cpp 963-1026). -/
def topicExecute (s : Server) (fd : Nat) (params : List Str) : Option Server :=
  match s.getClient fd, params with
  | some c, channelName :: rest =>
    match s.getChannel channelName with
    | none => some (s.sendReply fd ("403 ".toList ++ channelName ++ " :No such channel".toList))
    | some ch =>
      if !ch.hasClient fd then
        some (s.sendReply fd ("442 ".toList ++ channelName ++
          " :You're not on that channel".toList))
      else
        match rest with
        | [] =>
          if ch.topic = [] then
            some (s.sendReply fd ("331 ".toList ++ channelName ++ " :No topic is set".toList))
          else
            some (s.sendReply fd ("332 ".toList ++ channelName ++ " :".toList ++ ch.topic))
        | newTopic :: _ =>
          if !ch.clientCanChangeTopic fd then
            some (s.sendReply fd ("482 ".toList ++ channelName ++
              " :You're not channel operator".toList))
          else
            let key := Utils.toLower channelName
            let s1 := s.modifyChannel key (fun x => { x with topic := newTopic })
            let message := c.hostmask ++ " TOPIC ".toList ++ channelName ++ " :".toList ++
              newTopic
            some (s1.channelBroadcast key message none)
  | _, _ => none

/-- `KickCommand::execute` (Command.cpp 1035-1102). -/
def kickExecute (s : Server) (fd : Nat) (params : List Str) : Option Server :=
  match s.getClient fd, params with
  | some c, channelName :: targetNick :: rest =>
    let kickMessage := match rest with
      | [] => "No reason given".toList
      | p2 :: _ => p2
    match s.getChannel channelName with
    | none => some (s.sendReply fd ("403 ".toList ++ channelName ++ " :No such channel".toList))
    | some ch =>
      if !ch.hasClient fd then
        some (s.sendReply fd ("442 ".toList ++ channelName ++
          " :You're not on that channel".toList))
      else if !ch.isOperator fd then
        some (s.sendReply fd ("482 ".toList ++ channelName ++
          " :You're not channel operator".toList))
      else
        match s.getClientByNickname targetNick with
        | none =>
          some (s.sendReply fd ("401 ".toList ++ targetNick ++ " :No such nick/channel".toList))
        | some t =>
          if !ch.hasClient t.fd then
            some (s.sendReply fd ("441 ".toList ++ targetNick ++ ' ' :: channelName ++
              " :They aren't on that channel".toList))
          else
            let key := Utils.toLower channelName
            let message := c.hostmask ++ " KICK ".toList ++ channelName ++ ' ' :: targetNick ++
              " :".toList ++ kickMessage
            let s1 := s.channelBroadcast key message none
            some (s1.channelRemoveClient key t.fd)
  | _, _ => none

/-- `PingCommand::execute` (Command.cpp 1156-1160). -/
def pingExecute (s : Server) (fd : Nat) (params : List Str) : Option Server :=
  match s.getClient fd, params with
  | some _, p0 :: _ =>
    some (s.sendMessage fd (':' :: s.serverName ++ " PONG ".toList ++ s.serverName ++
      " :".toList ++ p0))
  | _, _ => none

/-- The handlers whose body is empty in the source (`PONG`, `INVITE`, `NAMES`, `LIST`,
`AWAY`, `WHO`, `WHOIS`, `OPER`, `FILE`, `BOT`; Command.cpp 1111-1265). -/
def stubExecute (s : Server) (_fd : Nat) (_params : List Str) : Option Server := some s

end Command

/-- The commands registered by `CommandHandler::registerCommands`
(CommandHandler.cpp 42-78). -/
inductive CommandKind where
  | PASS | NICK | USER | QUIT | JOIN | PART | PRIVMSG | NOTICE | MODE | TOPIC | KICK
  | INVITE | NAMES | LIST | PING | PONG | AWAY | WHO | WHOIS | OPER | FILE | BOT
  deriving DecidableEq, Repr

namespace CommandKind

/-- The key under which the command is registered in `_commands`. -/
def name : CommandKind → Str
  | PASS => "PASS".toList | NICK => "NICK".toList | USER => "USER".toList
  | QUIT => "QUIT".toList | JOIN => "JOIN".toList | PART => "PART".toList
  | PRIVMSG => "PRIVMSG".toList | NOTICE => "NOTICE".toList | MODE => "MODE".toList
  | TOPIC => "TOPIC".toList | KICK => "KICK".toList | INVITE => "INVITE".toList
  | NAMES => "NAMES".toList | LIST => "LIST".toList | PING => "PING".toList
  | PONG => "PONG".toList | AWAY => "AWAY".toList | WHO => "WHO".toList
  | WHOIS => "WHOIS".toList | OPER => "OPER".toList | FILE => "FILE".toList
  | BOT => "BOT".toList

/-- `Command::requiresRegistration`, as each constructor in Command.cpp sets it. -/
def requiresRegistration : CommandKind → Bool
  | PASS => false | NICK => false | USER => false | QUIT => false
  | PING => false | PONG => false
  | _ => true

/-- `Command::getMinParams`, as each constructor in Command.cpp sets it. -/
def getMinParams : CommandKind → Nat
  | PASS => 1 | NICK => 1 | USER => 4 | QUIT => 0 | JOIN => 1 | PART => 1
  | PRIVMSG => 2 | NOTICE => 2 | MODE => 1 | TOPIC => 1 | KICK => 2 | INVITE => 2
  | NAMES => 0 | LIST => 0 | PING => 1 | PONG => 0 | AWAY => 0 | WHO => 0
  | WHOIS => 1 | OPER => 2 | FILE => 2 | BOT => 1

/-- The virtual call `cmd->execute(client, parsedParams)`. -/
def execute : CommandKind → Server → Nat → List Str → Option Server
  | PASS => Command.passExecute
  | NICK => Command.nickExecute
  | USER => Command.userExecute
  | QUIT => Command.quitExecute
  | JOIN => Command.joinExecute
  | PART => Command.partExecute
  | PRIVMSG => Command.privmsgExecute
  | NOTICE => Command.noticeExecute
  | MODE => Command.modeExecute
  | TOPIC => Command.topicExecute
  | KICK => Command.kickExecute
  | PING => Command.pingExecute
  | _ => Command.stubExecute

/-- Every registered command. -/
def all : List CommandKind :=
  [PASS, NICK, USER, QUIT, JOIN, PART, PRIVMSG, NOTICE, MODE, TOPIC, KICK,
   INVITE, NAMES, LIST, PING, PONG, AWAY, WHO, WHOIS, OPER, FILE, BOT]

end CommandKind

namespace CommandHandler

/-- `_commands.find(cmdName)`. -/
def findCommand (cmdName : Str) : Option CommandKind :=
  CommandKind.all.find? (fun k => k.name = cmdName)

/-- The loop of `CommandHandler::parseParams` (CommandHandler.cpp 100-132), started at
the suffix `rest`. Every iteration that does not leave the loop consumes at least one
character; `fuel` bounds the iterations. -/
def parseParamsLoop : Nat → Str → List Str
  | 0, _ => []
  | fuel + 1, rest =>
    match rest with
    | [] => []
    | c :: tl =>
      if c = ':' then [tl]
      else
        match rest.dropWhile isspace with
        | [] => []
        | d :: r1 =>
          (d :: r1).takeWhile (fun x => !isspace x) ::
            parseParamsLoop fuel ((d :: r1).dropWhile (fun x => !isspace x))

/-- `CommandHandler::parseParams` (CommandHandler.cpp 85-135). -/
def parseParams (paramsStr : Str) : List Str :=
  if paramsStr = [] then [] else parseParamsLoop (paramsStr.length + 1) paramsStr

/-- The code printed with `std::setw(3) << std::setfill('0')`. -/
def code3 (code : Nat) : Str :=
  List.replicate (3 - (Utils.toString code).length) '0' ++ Utils.toString code

/-- `CommandHandler::formatReply(int, Client*, const std::string&)`
(CommandHandler.cpp 214-227). -/
def formatReply (code : Nat) (client : Client) (message : Str) : Str :=
  code3 code ++ ' ' :: (if client.nickname = [] then ['*'] else client.nickname) ++
    ' ' :: message

/-- `ERR_UNKNOWNCOMMAND`. -/
def ERR_UNKNOWNCOMMAND : Nat := 421
/-- `ERR_NOTREGISTERED`. -/
def ERR_NOTREGISTERED : Nat := 451
/-- `ERR_NEEDMOREPARAMS`. -/
def ERR_NEEDMOREPARAMS : Nat := 461

/-- The command name `executeCommand` and `handleClientMessage` take from a line: the
text before the first space (the whole line when there is none), uppercased. -/
def commandName (message : Str) : Str :=
  Utils.toUpper (message.takeWhile (fun x => x != ' '))

/-- The parameter text `executeCommand` takes from a line: what follows the first
space, empty when there is none. -/
def paramText (message : Str) : Str :=
  match message.dropWhile (fun x => x != ' ') with
  | [] => []
  | _ :: after => after

/-- `CommandHandler::executeCommand` (CommandHandler.cpp 142-205). A null `client` is a
descriptor without a session. -/
def executeCommand (s : Server) (fd : Nat) (message : Str) : Option Server :=
  match s.getClient fd with
  | none => some s
  | some client =>
    let cmdName := commandName message
    let params := paramText message
    match findCommand cmdName with
    | none =>
      some (s.sendReply fd
        (formatReply ERR_UNKNOWNCOMMAND client (cmdName ++ " :Unknown command".toList)))
    | some cmd =>
      if cmd.requiresRegistration && !client.isRegistered then
        some (s.sendReply fd
          (formatReply ERR_NOTREGISTERED client ":You have not registered".toList))
      else
        let parsedParams := parseParams params
        if parsedParams.length < cmd.getMinParams then
          some (s.sendReply fd
            (formatReply ERR_NEEDMOREPARAMS client (cmdName ++ " :Not enough parameters".toList)))
        else cmd.execute s fd parsedParams

end CommandHandler

namespace Server

/-- `clientBuffer.find("\r\n")`: the text before the first CR LF and the text after it. -/
def findCRLF : Str → Option (Str × Str)
  | [] => none
  | [_] => none
  | a :: b :: rest =>
    if a = '\r' ∧ b = '\n' then some ([], rest)
    else
      match findCRLF (b :: rest) with
      | none => none
      | some (m, r) => some (a :: m, r)

/-- `clientBuffer.find("\n")`: the text before the first LF and the text after it. -/
def findLF : Str → Option (Str × Str)
  | [] => none
  | a :: rest =>
    if a = '\n' then some ([], rest)
    else
      match findLF rest with
      | none => none
      | some (m, r) => some (a :: m, r)

/-- The condition and the first two statements of the loop of
`Server::handleClientMessage` (Server.cpp 408-411): the first CR LF of the whole buffer
is looked for first, and a lone LF only when the buffer holds no CR LF. -/
def nextMessage (clientBuffer : Str) : Option (Str × Str) :=
  match findCRLF clientBuffer with
  | some r => some r
  | none => findLF clientBuffer

/-- The text of the reply sent by the password gate (Server.cpp 422). -/
def passwordRequired : Str :=
  "464 : You must provide a valid password first with PASS command".toList

/-- The body of the loop of `Server::handleClientMessage` for a non-empty message
(Server.cpp 412-430). -/
def processLine (s : Server) (fd : Nat) (message : Str) : Option Server :=
  match s.getClient fd with
  | none => some s
  | some client =>
    let cmdName := CommandHandler.commandName message
    if client.status = ClientStatus.CONNECTING ∧ cmdName ≠ "PASS".toList ∧
        cmdName ≠ "QUIT".toList ∧ cmdName ≠ "PING".toList then
      some (s.sendMessage fd passwordRequired)
    else CommandHandler.executeCommand s fd message

/-- The loop of `Server::handleClientMessage` (Server.cpp 408-438) on the local copy
`clientBuffer`; returns the server and the buffer left. Each iteration removes a
terminator from the buffer; `fuel` bounds the iterations. -/
def messageLoop : Nat → Server → Nat → Str → Option (Server × Str)
  | 0, s, _, clientBuffer => some (s, clientBuffer)
  | fuel + 1, s, fd, clientBuffer =>
    match nextMessage clientBuffer with
    | none => some (s, clientBuffer)
    | some (message, rest) =>
      if message ≠ [] then
        match processLine s fd message with
        | none => none
        | some s1 => messageLoop fuel s1 fd rest
      else messageLoop fuel s fd rest

/-- The removal of emptied channels inside `Server::removeClient` (Server.cpp 146-152):
one iteration, for the channel stored under `key`. -/
def leaveAndReap (clientFd : Nat) (s : Server) (key : Str) : Server :=
  let s1 := s.channelRemoveClient key clientFd
  match s1.channels.find? (fun kc => kc.1 = key) with
  | none => s1
  | some kc =>
    if kc.2.getClientCount = 0 then
      { s1 with channels := s1.channels.filter (fun x => x.1 != Utils.toLower kc.2.name) }
    else s1

/-- The compaction of the poll array at the end of `Server::removeClient`
(Server.cpp 157-166). The inner loop `for (j = i; j < _nfds - 1; ++i)` never changes
`j`: it does not terminate unless the descriptor is the last one tracked (`none`). -/
def compactFds (fds : List Nat) (clientFd : Nat) : Option (List Nat) :=
  if clientFd ∈ fds then
    if fds.indexOf clientFd + 1 < fds.length then none
    else some fds.dropLast
  else some fds

/-- `Server::removeClient` (Server.cpp 132-167). -/
def removeClient (s : Server) (clientFd : Nat) : Option Server :=
  match s.getClient clientFd with
  | none => some s
  | some client =>
    let s1 := if client.isRegistered ∧ client.nickname ≠ [] then
        s.broadcast (':' :: client.nickname ++ " !".toList ++ client.username ++
          '@' :: client.hostname ++ " QUIT :Connection closed".toList) clientFd
      else s
    let s2 := client.channels.foldl (leaveAndReap clientFd) s1
    let s3 : Server := { s2 with clients := s2.clients.filter (fun d => d.fd != clientFd) }
    match compactFds s3.fds clientFd with
    | none => none
    | some fds1 => some { s3 with fds := fds1 }

/-- `Server::acceptNewConnection` (Server.cpp 360-389) when `accept` returned the
descriptor `clientFd` for a peer whose address prints as `host`, and `new Client`
returned the address `addr`. -/
def acceptNewConnection (s : Server) (clientFd : Nat) (host : Str) (addr : Nat) : Server :=
  if s.fds.length ≥ MAX_CLIENTS + 1 then s
  else
    { s with clients := insertClient { fd := clientFd, hostname := host, addr := addr } s.clients,
             fds := s.fds ++ [clientFd] }

/-- `Server::handleClientMessage` (Server.cpp 391-442) when `recv` produced `data`;
`data = []` stands for a return value `<= 0`. -/
def handleClientMessage (s : Server) (clientFd : Nat) (data : Str) : Option Server :=
  match s.getClient clientFd with
  | none => some s
  | some client =>
    if data = [] then s.removeClient clientFd
    else
      let s1 := s.modifyClient clientFd (fun d => { d with buffer := d.buffer ++ data })
      let clientBuffer := client.buffer ++ data
      match messageLoop (clientBuffer.length + 1) s1 clientFd clientBuffer with
      | none => none
      | some (s2, rest) =>
        some ((s2.modifyClient clientFd (fun d => { d with buffer := rest })).processMessages
          clientFd)

/-- The server after its constructor and `setupServerSocket`: no session, no channel,
the listening socket alone in the poll array. `env` is what `send` will answer. -/
def init (serverSocket : Nat) (password creationDate : Str) (env : List SendResult) : Server :=
  { serverSocket := serverSocket, password := password, serverName := "ft_irc".toList,
    creationDate := creationDate, fds := [serverSocket], env := env }

end Server

/-- What the poll loop of `Server::start` reacts to: a connection accepted on the
listening socket (with the descriptor and the peer address `accept` returned and the
address of the `Client` object allocated for it), or the result of `recv` on a client
socket. -/
inductive Event where
  | accept (fd : Nat) (host : Str) (addr : Nat)
  | recv (fd : Nat) (data : Str)
  deriving DecidableEq, Repr

/-- One reaction of the poll loop; `none` when the reaction does not return. -/
def step (s : Server) : Event → Option Server
  | Event.accept fd host addr => some (s.acceptNewConnection fd host addr)
  | Event.recv fd data => s.handleClientMessage fd data

/-- The run of a list of events from `s`. -/
def run (s : Server) : List Event → Option Server
  | [] => some s
  | e :: es =>
    match step s e with
    | none => none
    | some s1 => run s1 es

/-- The states the server can be in: those a run of events leads to from an initial
state. -/
inductive Reachable : Server → Prop where
  | init (serverSocket : Nat) (password creationDate : Str) (env : List SendResult) :
      Reachable (Server.init serverSocket password creationDate env)
  | step {s s1 : Server} (e : Event) : Reachable s → step s e = some s1 → Reachable s1

/-! ## Predicates used to state the properties -/

/-- No `send` call of the environment ends in a fatal error (the `socket-error`
transition of the registration state machine does not fire). -/
def NoFatal (env : List SendResult) : Prop := SendResult.fatal ∉ env

instance instDecidableNoFatal (env : List SendResult) : Decidable (NoFatal env) :=
  inferInstanceAs (Decidable (SendResult.fatal ∉ env))

namespace Server

/-- Everything the session `fd` has been sent or has queued. -/
def outStream (s : Server) (fd : Nat) : Str :=
  match s.getClient fd with
  | none => []
  | some c => c.outStream

/-- The server with the outbound side of the session `fd` (its queue and the bytes on
its wire) and the `send` outcomes erased: two states with the same image differ at
most in the outbound queue of `fd`. -/
def forgetOutbound (s : Server) (fd : Nat) : Server :=
  { s with env := [],
           clients := s.clients.map (fun c =>
             if c.fd = fd then { c with messages := [], wire := [] } else c) }

end Server

/-! ## Concrete states used to instantiate the theorems -/

/-- A run that registers `alice` (descriptor 4) and `bob` (descriptor 5), has both join
`#foo`, leaves descriptor 6 before `PASS`, descriptor 7 after a correct `PASS`, and
descriptor 8 after a correct `PASS` and a `USER`. -/
def demoEvents : List Event :=
  [Event.accept 4 "h1".toList 4096,
   Event.recv 4 "PASS secret\r\nNICK alice\r\nUSER alice 0 * :Alice\r\nJOIN #foo\r\n".toList,
   Event.accept 5 "h2".toList 8192,
   Event.recv 5 "PASS secret\r\nNICK bob\r\nUSER bob 0 * :Bob\r\nJOIN #foo\r\n".toList,
   Event.accept 6 "h3".toList 12288,
   Event.accept 7 "h4".toList 16384,
   Event.recv 7 "PASS secret\r\n".toList,
   Event.accept 8 "h5".toList 20480,
   Event.recv 8 "PASS secret\r\nUSER carol 0 * :Carol\r\n".toList]

/-- The initial state of the demonstration run; `send` always answers `EAGAIN`. -/
def demoInit : Server := Server.init 3 "secret".toList "today".toList []

/-- The state the demonstration run ends in. -/
def demoServer : Server := (run demoInit demoEvents).getD demoInit

/-- The session `d` is the session `c` after a step that touched neither its identity
nor its registration: same descriptor, nickname, user name and host, and a status that
is unchanged or has become `DISCONNECTED`. -/
def Client.Evolves (c d : Client) : Prop :=
  d.fd = c.fd ∧ d.nickname = c.nickname ∧ d.username = c.username ∧
  d.hostname = c.hostname ∧
  (d.status = c.status ∨ d.status = ClientStatus.DISCONNECTED)

/-- The server `t` has the sessions of `s`, in the same order, each evolved in the
sense of `Client.Evolves`. -/
def Benign (s t : Server) : Prop := List.Forall₂ Client.Evolves s.clients t.clients

/-- The nicknames C7 says `NICK` answers with 432: the empty one, those whose first
character is a digit, `-`, `#` or `&`, and those containing one of
`space , * ? ! @ . $ :`. -/
def nickErroneous (n : Str) : Prop :=
  n = [] ∨
  (∃ c, n.head? = some c ∧
    c ∈ ['0', '1', '2', '3', '4', '5', '6', '7', '8', '9', '-', '#', '&']) ∨
  ∃ c ∈ n, c ∈ [' ', ',', '*', '?', '!', '@', '.', '$', ':']

/-- Whether `Client::processMessages`, run on the session `fd` once `line` and CR LF
have been pushed on its queue, meets a fatal `send` error (Client.cpp 402-407: the
session is then set to `DISCONNECTED`). The answer is the flag `sendLoop` returns. -/
def Server.sendFails (s : Server) (fd : Nat) (line : Str) : Bool :=
  match s.getClient fd with
  | none => false
  | some c => (sendLoop (c.messages ++ [line ++ CRLF]) s.env c.wire).2.2.2

/-- Whether one of the successive `sendMessage` calls for the lines `ls`, made on a
session with the queue `q` and the bytes `wire` on the wire, under the `send` outcomes
`env`, meets a fatal `send` error. -/
def blockFails : List Str → List SendResult → Str → List Str → Bool
  | _, _, _, [] => false
  | q, env, wire, l :: ls =>
    (sendLoop (q ++ [l ++ CRLF]) env wire).2.2.2 ||
      blockFails (sendLoop (q ++ [l ++ CRLF]) env wire).1
        (sendLoop (q ++ [l ++ CRLF]) env wire).2.1
        (sendLoop (q ++ [l ++ CRLF]) env wire).2.2.1 ls

/-- Whether one of the successive calls `client->sendReply(r)` for the replies `rs` on
the session `fd` meets a fatal `send` error. -/
def Server.repliesFail (s : Server) (fd : Nat) (rs : List Str) : Bool :=
  match s.getClient fd with
  | none => false
  | some c =>
    blockFails c.messages s.env c.wire (rs.map (fun r => ':' :: s.serverName ++ ' ' :: r))

/-- The step from `s` to `t` did nothing but send `line` to the session `fd`, whatever
`send` answered: the session is sent `line` and CR LF, and the two states differ at
most in the outbound side of `fd` and, exactly when the `send` of the line met a fatal
error (`Server.sendFails`), in the status of `fd`, which `Client::processMessages` has
then set to `DISCONNECTED`. -/
def RepliedOnly (s t : Server) (fd : Nat) (line : Str) : Prop :=
  t.outStream fd = s.outStream fd ++ (line ++ CRLF) ∧
  t.forgetOutbound fd =
    (if s.sendFails fd line then
      s.modifyClient fd (fun c => c.setStatus ClientStatus.DISCONNECTED)
    else s).forgetOutbound fd

/-- The initial state of a run in which `send` answers `EAGAIN` 35 times (as many
times as the demonstration run calls it) and then fails with a fatal error. -/
def failingInit : Server :=
  Server.init 3 "secret".toList "today".toList
    (List.replicate 35 SendResult.wouldBlock ++ [SendResult.fatal])

/-- The state the demonstration run ends in from `failingInit`: the sessions and the
channel of the demonstration state, and a next `send` that fails with a fatal error. -/
def failingServer : Server := (run failingInit demoEvents).getD failingInit

/-- The successive calls `client->sendReply(r)` for the replies `rs`. -/
def Server.sendReplies (s : Server) (fd : Nat) (rs : List Str) : Server :=
  rs.foldl (fun acc r => acc.sendReply fd r) s

/-- The numeric codes of the welcome block, in the order the specification gives:
001, 002, 003, 004, 251, 252, 254, 255, 375, 372 (three banner lines), 376. -/
def welcomeCodes : List Str :=
  ["001".toList, "002".toList, "003".toList, "004".toList, "251".toList, "252".toList,
   "254".toList, "255".toList, "375".toList, "372".toList, "372".toList, "372".toList,
   "376".toList]

/-- The replies of the welcome block sent by the server `s` to a session with the
identity of `c`: each starts with its three-digit code. -/
def welcomeReplies (s : Server) (c : Client) : List Str :=
  ["001 :Welcome to the Internet Relay Network ".toList ++ c.nickname ++ '!' :: c.username ++
     '@' :: c.hostname,
   "002 :Your host is ".toList ++ s.serverName ++ ", running version ft_irc 1.0".toList,
   "003 :This server was created ".toList ++ s.creationDate,
   "004 ".toList ++ s.serverName ++ " ft_irc 1.0 o o".toList,
   "251 :There are ".toList ++ Utils.toString s.clients.length ++
     " users and 0 invisible on 1 servers".toList,
   "252 0 :operator(s) online".toList,
   "254 ".toList ++ Utils.toString s.channels.length ++ " :channels formed".toList,
   "255 :I have ".toList ++ Utils.toString s.clients.length ++ " clients and 1 servers".toList,
   "375 :- ".toList ++ s.serverName ++ " Message of the day - ".toList,
   "372 :- Welcome to ft_irc!".toList,
   "372 :- This server is running ft_irc 1.0".toList,
   "372 :- Have fun!".toList,
   "376 :End of /MOTD command".toList]

/-- The bytes of a sequence of replies of the server `s`: each reply `r` as the line
`:<server> <r>` followed by CR LF. -/
def replyBytes (s : Server) (rs : List Str) : Str :=
  (rs.map (fun r => ':' :: s.serverName ++ ' ' :: r ++ CRLF)).flatten

/-! ## The tuples of the parser round trip -/

/-- A non-final parameter in the sense of C10: non-empty, without white space, not
starting with `:`. -/
def isMiddleParam (p : Str) : Bool :=
  p != [] && !p.any isspace && p.head? != some ':'

/-- The tuples C10 calls well-formed: prefix and command without spaces, every
non-final parameter non-empty, without white space and not starting with `:`, the
final parameter any text without CR or LF. -/
def wellFormedAsClaimed (pfx command : Str) (params : List Str) : Bool :=
  !pfx.contains ' ' && !command.contains ' ' && params.dropLast.all isMiddleParam &&
  (match params.getLast? with
    | none => true
    | some p => !p.contains '\r' && !p.contains '\n')

/-- A final parameter on which `formatIRCMessage` and `parseIRCMessage` agree:
non-empty, not starting with `:`, and either containing a space or free of white
space. -/
def isFinalParam (p : Str) : Bool :=
  p != [] && p.head? != some ':' && (p.contains ' ' || !p.any isspace)

/-- Every parameter but the last is a middle parameter and the last one is a final
parameter. -/
def paramsRoundTrip : List Str → Bool
  | [] => true
  | [p] => isFinalParam p
  | p :: q :: ps => isMiddleParam p && paramsRoundTrip (q :: ps)

/-- The tuples on which the round trip holds: prefix without spaces; command non-empty,
without spaces, starting neither with `:` nor with white space; parameters as in
`paramsRoundTrip`. -/
def wellFormedAmended (pfx command : Str) (params : List Str) : Bool :=
  !pfx.contains ' ' && command != [] && !command.contains ' ' && command.head? != some ':' &&
  !command.head?.any isspace && paramsRoundTrip params

/-! ## Invariants of the session map -/

/-- The session map lists its sessions in strictly ascending descriptor order; in
particular every descriptor has at most one session. -/
def SortedFds (s : Server) : Prop := (s.clients.map Client.fd).Pairwise (fun a b => a < b)

/-- Every `REGISTERED` session has a non-empty nickname and a non-empty user name. -/
def RegisteredNamed (s : Server) : Prop :=
  ∀ c ∈ s.clients, c.status = ClientStatus.REGISTERED → c.nickname ≠ [] ∧ c.username ≠ []

/-- No two sessions with different descriptors have non-empty nicknames that are equal
after ASCII lowercasing. -/
def NickUnique (s : Server) : Prop :=
  ∀ c1 ∈ s.clients, ∀ c2 ∈ s.clients, c1.fd ≠ c2.fd → c1.nickname ≠ [] →
    Utils.toLower c1.nickname ≠ Utils.toLower c2.nickname

/-- The three invariants together. -/
def SessionInv (s : Server) : Prop := SortedFds s ∧ RegisteredNamed s ∧ NickUnique s

/-- The events after which `#foo` has the key `hunter2` and descriptor 8 is registered
as `carol`. -/
def keyedEvents : List Event :=
  [Event.recv 4 "MODE #foo +k hunter2\r\n".toList,
   Event.recv 8 "NICK carol\r\n".toList]

/-- The demonstration state after `keyedEvents`. -/
def keyedServer : Server := (run demoServer keyedEvents).getD demoServer

/-! ## Framing -/

namespace Server

/-- The messages the loop of `Server::handleClientMessage` (Server.cpp 408-411) cuts
from the local copy `clientBuffer` and hands to its body, in order (the empty ones are
skipped by the test `!message.empty()`), and the buffer the loop leaves. -/
def frameLoop : Nat → Str → List Str × Str
  | 0, clientBuffer => ([], clientBuffer)
  | fuel + 1, clientBuffer =>
    match nextMessage clientBuffer with
    | none => ([], clientBuffer)
    | some (message, rest) =>
      if message ≠ [] then (message :: (frameLoop fuel rest).1, (frameLoop fuel rest).2)
      else frameLoop fuel rest

/-- The messages cut from `clientBuffer` and the buffer left, with the fuel
`handleClientMessage` runs its loop with. -/
def frames (clientBuffer : Str) : List Str × Str :=
  frameLoop (clientBuffer.length + 1) clientBuffer

/-- The loop body run on each of `lines` in turn. -/
def dispatchLines (s : Server) (fd : Nat) : List Str → Option Server
  | [] => some s
  | line :: lines =>
    match s.processLine fd line with
    | none => none
    | some s1 => dispatchLines s1 fd lines

end Server

/-- The step from `s` to `t` kept the descriptors of the session map, in order: no
session was created or deleted. -/
def FdsKept (s t : Server) : Prop := t.clients.map Client.fd = s.clients.map Client.fd

/-- The part of a channel that membership depends on: the key it is stored under, its
name, and the descriptors of its members. -/
abbrev ChanView := Str × Str × List Nat

/-- The part of a session that membership depends on: its descriptor and the keys of
the channels in its list. -/
abbrev SessView := Nat × List Str

/-- The membership data of the server: the views of its channels and of its
sessions, in map order. -/
def Server.roomView (s : Server) : List ChanView × List SessView :=
  (s.channels.map (fun kc => (kc.1, kc.2.name, kc.2.clients.map Prod.fst)),
   s.clients.map (fun c => (c.fd, c.channels)))

/-- The descriptor `fd` is in the member map of a channel stored under `key`. -/
def inMembers (chs : List ChanView) (fd : Nat) (key : Str) : Prop :=
  ∃ v ∈ chs, v.1 = key ∧ fd ∈ v.2.2

/-- The channel list of a session with descriptor `fd` holds `key`. -/
def inLists (cls : List SessView) (fd : Nat) (key : Str) : Prop :=
  ∃ v ∈ cls, v.1 = fd ∧ key ∈ v.2

/-- The membership invariant on the views: descriptors and keys are not repeated, every
channel is stored under its lowercased name, no member map and no channel list repeats
an entry, and the member maps and the channel lists describe the same pairs. -/
def RoomInvOn (chs : List ChanView) (cls : List SessView) : Prop :=
  (cls.map Prod.fst).Nodup ∧
  (chs.map Prod.fst).Nodup ∧
  (∀ v ∈ chs, v.1 = Utils.toLower v.2.1) ∧
  (∀ v ∈ chs, v.2.2.Nodup) ∧
  (∀ v ∈ cls, v.2.Nodup) ∧
  (∀ fd key, inMembers chs fd key ↔ inLists cls fd key)

/-- The membership invariant of a server state. -/
def RoomInv (s : Server) : Prop := RoomInvOn s.roomView.1 s.roomView.2

/-- The view of `modifyChannel`: `g` is applied to the members of the channels stored
under `key`. -/
def chanMap (key : Str) (g : List Nat → List Nat) (chs : List ChanView) : List ChanView :=
  chs.map (fun v => if v.1 = key then (v.1, v.2.1, g v.2.2) else v)

/-- The view of `modifyClient`: `h` is applied to the channel list of the sessions with
descriptor `fd`. -/
def sessMap (fd : Nat) (h : List Str → List Str) (cls : List SessView) : List SessView :=
  cls.map (fun v => if v.1 = fd then (v.1, h v.2) else v)

/-- The descriptors of `Channel.insertMember`. -/
def insertFd (addr : Nat → Nat) (fd : Nat) : List Nat → List Nat
  | [] => [fd]
  | m :: ms =>
    if fd = m then fd :: ms
    else if addr fd < addr m then fd :: m :: ms
    else m :: insertFd addr fd ms

/-- The channel list after `Client::joinChannel`. -/
def joinKey (key : Str) (keys : List Str) : List Str :=
  if key ∈ keys then keys else keys ++ [key]

/-- The step from `s` to `t` left the membership data alone. -/
def SameRooms (s t : Server) : Prop := t.roomView = s.roomView

/-- The descriptor returned by `accept` is not the descriptor of a session: the
operating system hands out a descriptor that is not open. -/
def Event.fresh (s : Server) : Event → Bool
  | Event.accept fd _ _ => (s.getClient fd).isNone
  | Event.recv _ _ => true

/-- The states of a server whose `accept` calls return fresh descriptors. -/
inductive Attainable : Server → Prop where
  | init (serverSocket : Nat) (password creationDate : Str) (env : List SendResult) :
      Attainable (Server.init serverSocket password creationDate env)
  | step {s s1 : Server} (e : Event) :
      Attainable s → e.fresh s = true → step s e = some s1 → Attainable s1

/-- Every `accept` of the run of `es` from `s` returns a fresh descriptor. -/
def freshRun (s : Server) : List Event → Bool
  | [] => true
  | e :: es =>
    e.fresh s &&
      (match step s e with
        | none => true
        | some s1 => freshRun s1 es)

/-- The two sides of membership agree: a session is in the member map of a channel
exactly when its channel list holds that channel, every channel of a channel list is
in the channel map, every member of a channel is a session, and no channel list holds
a channel twice. -/
def MembershipAgrees (s : Server) : Prop :=
  (∀ c ∈ s.clients, ∀ kc ∈ s.channels, kc.2.hasClient c.fd = true ↔ kc.1 ∈ c.channels) ∧
  (∀ c ∈ s.clients, ∀ key ∈ c.channels, ∃ kc ∈ s.channels, kc.1 = key) ∧
  (∀ kc ∈ s.channels, ∀ m ∈ kc.2.clients, ∃ c ∈ s.clients, c.fd = m.1) ∧
  (∀ c ∈ s.clients, c.channels.Nodup)

/-- The replies `JoinCommand::execute` sends to the joiner after the `JOIN` line
(Command.cpp 390-396 and `sendNames`): 332 when the topic of the channel is not empty,
then 353 with the name list, then 366. -/
def joinReplies (s : Server) (nickname channelName : Str) (ch : Channel) : List Str :=
  (if ch.topic ≠ [] then
      ["332 ".toList ++ nickname ++ ' ' :: channelName ++ " :".toList ++ ch.topic]
    else []) ++
  ["353 ".toList ++ nickname ++ " = ".toList ++ ch.name ++ " :".toList ++
      Command.namesList s ch,
   "366 ".toList ++ nickname ++ ' ' :: ch.name ++ " :End of /NAMES list".toList]

/-- The state after one session (descriptor 4) has registered with the nickname
`Alice`. -/
def capsServer : Server :=
  (run demoInit
    [Event.accept 4 "h1".toList 4096,
     Event.recv 4 "PASS secret\r\nNICK Alice\r\nUSER alice 0 * :Alice\r\n".toList]).getD demoInit

/-- The demonstration state after `alice` has locked the topic of `#foo`
(`MODE #foo +t`). -/
def lockedServer : Server :=
  (run demoServer [Event.recv 4 "MODE #foo +t\r\n".toList]).getD demoServer

/-- The text `PartCommand::execute` puts after ` :` in the `PART` line
(Command.cpp 469-471): the second parameter, `Leaving` when there is none, without its
first character when that is `:`. -/
def partText (rest : List Str) : Str :=
  if (rest.headD "Leaving".toList).head? = some ':' then (rest.headD "Leaving".toList).drop 1
  else rest.headD "Leaving".toList

/-- The demonstration state after `bob` has left `#foo`: `alice` is its only member. -/
def soloServer : Server :=
  (run demoServer [Event.recv 5 "PART #foo\r\n".toList]).getD demoServer

/-! ## Nicknames of channel members -/

/-- Every session has a nickname that `Utils::isValidNickname` accepts, or has no
nickname yet and is in no channel. -/
def NamesInv (s : Server) : Prop :=
  ∀ c ∈ s.clients, (c.nickname = [] ∧ c.channels = []) ∨ Utils.isValidNickname c.nickname = true

/-- The step from `s` to `t` changed no nickname and put no session without channel
into a channel: every session of `t` is a session of `s` with the same nickname, and
its channel list is empty if it was. -/
def NamesShrunk (s t : Server) : Prop :=
  ∀ d ∈ t.clients, ∃ c ∈ s.clients, d.nickname = c.nickname ∧ (c.channels = [] → d.channels = [])

/-- The entry of the member `m` in the name list built by `JoinCommand::sendNames`
(Command.cpp 418-430): `@` for an operator, else `+` for a voiced member, then the
nickname. -/
def Command.nameEntry (s : Server) (ch : Channel) (m : Nat × Nat) : Str :=
  (if ch.isOperator m.1 then ['@'] else if ch.hasVoice m.1 then ['+'] else []) ++
    (match s.getClient m.1 with
      | some d => d.nickname
      | none => [])

/-- A run after which `alice` (descriptor 4) has created `#foo` and `bob`
(descriptor 5) is registered and in no channel. -/
def lobbyEvents : List Event :=
  [Event.accept 4 "h1".toList 4096,
   Event.recv 4 "PASS secret\r\nNICK alice\r\nUSER alice 0 * :Alice\r\nJOIN #foo\r\n".toList,
   Event.accept 5 "h2".toList 8192,
   Event.recv 5 "PASS secret\r\nNICK bob\r\nUSER bob 0 * :Bob\r\n".toList]

/-- The state `lobbyEvents` leads to. -/
def lobbyServer : Server := (run demoInit lobbyEvents).getD demoInit

/-- The demonstration state after `alice` and `bob` have both joined a second channel,
`#bar`: they share two channels. -/
def twoRoomsServer : Server :=
  (run demoServer [Event.recv 4 "JOIN #bar\r\n".toList,
    Event.recv 5 "JOIN #bar\r\n".toList]).getD demoServer

/-- The successive calls `client->sendMessage(m)`, each on the session whose descriptor
is paired with the message, in list order. -/
def Server.sendCalls (s : Server) (calls : List (Nat × Str)) : Server :=
  calls.foldl (fun acc p => acc.sendMessage p.1 p.2) s

/-- A server with one session, descriptor 4, whose socket will answer the next `send`
calls with: 3 bytes accepted, `EAGAIN`, 4 bytes accepted, 1 byte accepted, a fatal
error. -/
def trickleServer : Server :=
  (Server.init 3 "secret".toList "today".toList
    [SendResult.accepted 3, SendResult.wouldBlock, SendResult.accepted 4,
      SendResult.accepted 1, SendResult.fatal]).acceptNewConnection 4 "h1".toList 4096

/-- The demonstration state with the global operator flag of `alice` set. No command of
the server sets the flag (`OPER` is an empty handler): the state serves to exercise the
branches of the user `MODE` that read it. -/
def operServer : Server := demoServer.modifyClient 4 (fun c => c.setOperator true)

/-- A run in which the `Client` object of `carol` (descriptor 8) is allocated at an
address between those of `alice` (descriptor 4) and `bob` (descriptor 5): `alice` and
`bob` are in `#foo`, `carol` is registered and in no channel. -/
def shuffledEvents : List Event :=
  [Event.accept 4 "h1".toList 4096,
   Event.recv 4 "PASS secret\r\nNICK alice\r\nUSER alice 0 * :Alice\r\nJOIN #foo\r\n".toList,
   Event.accept 5 "h2".toList 12288,
   Event.recv 5 "PASS secret\r\nNICK bob\r\nUSER bob 0 * :Bob\r\nJOIN #foo\r\n".toList,
   Event.accept 8 "h5".toList 8192,
   Event.recv 8 "PASS secret\r\nNICK carol\r\nUSER carol 0 * :Carol\r\n".toList]

/-- The state `shuffledEvents` leads to. -/
def shuffledServer : Server := (run demoInit shuffledEvents).getD demoInit

/-- `Channel::setVoice` (Channel.cpp 430-458). -/
def Channel.setVoice (ch : Channel) (fd : Nat) (voice : Bool) : Channel :=
  { ch with clients := ch.clients.map (fun m =>
      if m.1 = fd then
        (m.1, if voice then m.2 ||| USER_MODE_VOICE else m.2 &&& bitNot32 USER_MODE_VOICE)
      else m) }

/-- The state `shuffledServer` after `Channel::setVoice(bob, true)` on `#foo`. No
command of the server calls `setVoice`: the state serves to exercise the `+` of the
name list. -/
def voicedServer : Server :=
  shuffledServer.modifyChannel "#foo".toList (fun ch => ch.setVoice 5 true)

theorem find_fd_map (l : List Client) (h : Client → Client) (hfd : ∀ c, (h c).fd = c.fd)
    (fd : Nat) :
    (l.map h).find? (fun c => c.fd = fd) = (l.find? (fun c => c.fd = fd)).map h := by
  induction l with
  | nil => rfl
  | cons a l ih =>
    by_cases ha : a.fd = fd
    · simp [List.find?, hfd, ha]
    · simp [List.find?, hfd, ha, ih]

theorem getClient_fd {s : Server} {fd : Nat} {c : Client} (h : s.getClient fd = some c) :
    c.fd = fd := by
  have := List.find?_some h
  simpa using this

theorem getClient_mem {s : Server} {fd : Nat} {c : Client} (h : s.getClient fd = some c) :
    c ∈ s.clients := List.mem_of_find?_eq_some h

theorem getClient_modifyClient (s : Server) (fd fd1 : Nat) (f : Client → Client)
    (hf : ∀ c, (f c).fd = c.fd) :
    (s.modifyClient fd f).getClient fd1 =
      (s.getClient fd1).map (fun c => if c.fd = fd then f c else c) := by
  unfold Server.getClient Server.modifyClient
  simp only
  apply find_fd_map
  intro c
  split <;> simp [hf]

theorem getClient_modifyClient_self (s : Server) (fd : Nat) (f : Client → Client)
    (hf : ∀ c, (f c).fd = c.fd) :
    (s.modifyClient fd f).getClient fd = (s.getClient fd).map f := by
  rw [getClient_modifyClient s fd fd f hf]
  cases h : s.getClient fd with
  | none => rfl
  | some c => simp [getClient_fd h]

theorem getClient_modifyClient_other (s : Server) (fd fd1 : Nat) (f : Client → Client)
    (hf : ∀ c, (f c).fd = c.fd) (hne : fd1 ≠ fd) :
    (s.modifyClient fd f).getClient fd1 = s.getClient fd1 := by
  rw [getClient_modifyClient s fd fd1 f hf]
  cases h : s.getClient fd1 with
  | none => rfl
  | some c => simp [getClient_fd h, hne]

/-! ### The outbound path -/

theorem sendLoop_stream (q : List Str) (env : List SendResult) (wire : Str) :
    (sendLoop q env wire).2.2.1 ++ (sendLoop q env wire).1.flatten = wire ++ q.flatten := by
  induction q generalizing env wire with
  | nil => simp [sendLoop]
  | cons m q ih =>
    cases env with
    | nil => simp [sendLoop]
    | cons r env =>
      cases r with
      | wouldBlock => simp [sendLoop]
      | fatal => simp [sendLoop]
      | accepted n =>
        simp only [sendLoop]
        split
        · simp [List.append_assoc]
          rw [← List.append_assoc (List.take n m), List.take_append_drop]
        · rw [ih]; simp

theorem sendLoop_env_suffix (q : List Str) (env : List SendResult) (wire : Str) :
    (sendLoop q env wire).2.1 <:+ env := by
  induction q generalizing env wire with
  | nil => simp [sendLoop]
  | cons m q ih =>
    cases env with
    | nil => simp [sendLoop]
    | cons r env =>
      cases r with
      | wouldBlock => simp [sendLoop]
      | fatal => simp [sendLoop]
      | accepted n =>
        simp only [sendLoop]
        split
        · simp
        · exact (ih env _).trans (List.suffix_cons _ _)

theorem sendLoop_noFatal (q : List Str) (env : List SendResult) (wire : Str)
    (h : NoFatal env) : (sendLoop q env wire).2.2.2 = false := by
  induction q generalizing env wire with
  | nil => simp [sendLoop]
  | cons m q ih =>
    cases env with
    | nil => simp [sendLoop]
    | cons r env =>
      cases r with
      | wouldBlock => simp [sendLoop]
      | fatal => simp [NoFatal] at h
      | accepted n =>
        simp only [sendLoop]
        split
        · simp
        · apply ih
          simp [NoFatal] at h ⊢
          exact h

theorem NoFatal.suffix {env env1 : List SendResult} (h : NoFatal env) (hs : env1 <:+ env) :
    NoFatal env1 := fun hm => h (hs.subset hm)

theorem map_modify_modify (l : List Client) (fd : Nat) (f g : Client → Client)
    (hf : ∀ c, (f c).fd = c.fd) :
    (l.map (fun c => if c.fd = fd then f c else c)).map (fun c => if c.fd = fd then g c else c)
      = l.map (fun c => if c.fd = fd then g (f c) else c) := by
  rw [List.map_map]
  apply List.map_congr_left
  intro d _
  by_cases hd : d.fd = fd <;> simp [hd, hf]

/-- The closed form of `sendMessage` on an existing session. -/
theorem sendMessage_eq {s : Server} {fd : Nat} {c : Client} (h : s.getClient fd = some c)
    (message : Str) :
    s.sendMessage fd message =
      { s with
        env := (sendLoop (c.messages ++ [message ++ CRLF]) s.env c.wire).2.1,
        clients := s.clients.map (fun d =>
          if d.fd = fd then
            { d with
              messages := (sendLoop (c.messages ++ [message ++ CRLF]) s.env c.wire).1,
              wire := (sendLoop (c.messages ++ [message ++ CRLF]) s.env c.wire).2.2.1,
              status := if (sendLoop (c.messages ++ [message ++ CRLF]) s.env c.wire).2.2.2
                then ClientStatus.DISCONNECTED else d.status }
          else d) } := by
  unfold Server.sendMessage Server.processMessages
  rw [getClient_modifyClient_self s fd (fun c => c.enqueue (message ++ CRLF)) (fun _ => rfl), h]
  simp only [Option.map_some', Server.modifyClient, Client.enqueue]
  congr 1
  rw [List.map_map]
  apply List.map_congr_left
  intro d _
  by_cases hd : d.fd = fd <;> simp [hd]

theorem sendMessage_none {s : Server} {fd : Nat} (h : s.getClient fd = none) (message : Str) :
    s.sendMessage fd message = s := by
  unfold Server.sendMessage Server.processMessages
  rw [getClient_modifyClient_self s fd (fun c => c.enqueue (message ++ CRLF)) (fun _ => rfl), h]
  simp only [Option.map_none', Server.modifyClient]
  have : ∀ d ∈ s.clients, ¬ d.fd = fd := by
    intro d hd hfd
    have := List.find?_eq_none.mp h d hd
    simp [hfd] at this
  have hmap : s.clients.map (fun c => if c.fd = fd then
      c.enqueue (message ++ CRLF) else c) = s.clients := by
    conv_rhs => rw [← List.map_id s.clients]
    apply List.map_congr_left
    intro d hd
    simp [this d hd]
  rw [hmap]

@[simp] theorem modifyClient_channels (s : Server) (fd : Nat) (f : Client → Client) :
    (s.modifyClient fd f).channels = s.channels := rfl

@[simp] theorem modifyClient_env (s : Server) (fd : Nat) (f : Client → Client) :
    (s.modifyClient fd f).env = s.env := rfl

@[simp] theorem modifyClient_serverName (s : Server) (fd : Nat) (f : Client → Client) :
    (s.modifyClient fd f).serverName = s.serverName := rfl

@[simp] theorem modifyClient_password (s : Server) (fd : Nat) (f : Client → Client) :
    (s.modifyClient fd f).password = s.password := rfl

@[simp] theorem modifyClient_creationDate (s : Server) (fd : Nat) (f : Client → Client) :
    (s.modifyClient fd f).creationDate = s.creationDate := rfl

@[simp] theorem modifyClient_fds (s : Server) (fd : Nat) (f : Client → Client) :
    (s.modifyClient fd f).fds = s.fds := rfl

@[simp] theorem modifyClient_clients_length (s : Server) (fd : Nat) (f : Client → Client) :
    (s.modifyClient fd f).clients.length = s.clients.length := by
  simp [Server.modifyClient]

/-- What `sendMessage` leaves alone. -/
theorem sendMessage_frame (s : Server) (fd : Nat) (m : Str) :
    (s.sendMessage fd m).channels = s.channels ∧
    (s.sendMessage fd m).serverName = s.serverName ∧
    (s.sendMessage fd m).password = s.password ∧
    (s.sendMessage fd m).creationDate = s.creationDate ∧
    (s.sendMessage fd m).fds = s.fds ∧
    (s.sendMessage fd m).serverSocket = s.serverSocket ∧
    (s.sendMessage fd m).clients.length = s.clients.length := by
  cases h : s.getClient fd with
  | none => rw [sendMessage_none h]; simp
  | some c => rw [sendMessage_eq h]; simp

@[simp] theorem sendMessage_channels (s : Server) (fd : Nat) (m : Str) :
    (s.sendMessage fd m).channels = s.channels := (sendMessage_frame s fd m).1

@[simp] theorem sendMessage_serverName (s : Server) (fd : Nat) (m : Str) :
    (s.sendMessage fd m).serverName = s.serverName := (sendMessage_frame s fd m).2.1

@[simp] theorem sendMessage_password (s : Server) (fd : Nat) (m : Str) :
    (s.sendMessage fd m).password = s.password := (sendMessage_frame s fd m).2.2.1

@[simp] theorem sendMessage_creationDate (s : Server) (fd : Nat) (m : Str) :
    (s.sendMessage fd m).creationDate = s.creationDate := (sendMessage_frame s fd m).2.2.2.1

@[simp] theorem sendMessage_fds (s : Server) (fd : Nat) (m : Str) :
    (s.sendMessage fd m).fds = s.fds := (sendMessage_frame s fd m).2.2.2.2.1

@[simp] theorem sendMessage_clients_length (s : Server) (fd : Nat) (m : Str) :
    (s.sendMessage fd m).clients.length = s.clients.length :=
  (sendMessage_frame s fd m).2.2.2.2.2.2

@[simp] theorem sendMessage_getClientCount (s : Server) (fd : Nat) (m : Str) :
    (s.sendMessage fd m).getClientCount = s.getClientCount := by
  simp [Server.getClientCount]

@[simp] theorem sendMessage_getChannelCount (s : Server) (fd : Nat) (m : Str) :
    (s.sendMessage fd m).getChannelCount = s.getChannelCount := by
  simp [Server.getChannelCount]

@[simp] theorem sendMessage_getChannel (s : Server) (fd : Nat) (m : Str) (name : Str) :
    (s.sendMessage fd m).getChannel name = s.getChannel name := by
  simp [Server.getChannel]

theorem sendMessage_env_suffix (s : Server) (fd : Nat) (m : Str) :
    (s.sendMessage fd m).env <:+ s.env := by
  cases h : s.getClient fd with
  | none => rw [sendMessage_none h]
  | some c => rw [sendMessage_eq h]; exact sendLoop_env_suffix _ _ _

theorem sendMessage_noFatal {s : Server} (h : NoFatal s.env) (fd : Nat) (m : Str) :
    NoFatal (s.sendMessage fd m).env := h.suffix (sendMessage_env_suffix s fd m)

theorem getClient_sendMessage_self {s : Server} {fd : Nat} {c : Client}
    (h : s.getClient fd = some c) (m : Str) :
    (s.sendMessage fd m).getClient fd = some
      { c with
        messages := (sendLoop (c.messages ++ [m ++ CRLF]) s.env c.wire).1,
        wire := (sendLoop (c.messages ++ [m ++ CRLF]) s.env c.wire).2.2.1,
        status := if (sendLoop (c.messages ++ [m ++ CRLF]) s.env c.wire).2.2.2
          then ClientStatus.DISCONNECTED else c.status } := by
  rw [sendMessage_eq h]
  unfold Server.getClient at h ⊢
  simp only
  rw [find_fd_map _ (fun d => if d.fd = fd then _ else d) _ fd, h]
  · simp [getClient_fd (s := s) h]
  · intro d; by_cases hd : d.fd = fd <;> simp [hd]

theorem getClient_sendMessage_other (s : Server) {fd fd1 : Nat} (hne : fd1 ≠ fd) (m : Str) :
    (s.sendMessage fd m).getClient fd1 = s.getClient fd1 := by
  cases h : s.getClient fd with
  | none => rw [sendMessage_none h]
  | some c =>
    rw [sendMessage_eq h]
    unfold Server.getClient
    simp only
    rw [find_fd_map _ (fun d => if d.fd = fd then _ else d) _ fd1]
    · cases h1 : List.find? (fun c => decide (c.fd = fd1)) s.clients with
      | none => rfl
      | some d =>
        have : d.fd = fd1 := by simpa using List.find?_some h1
        simp [this, hne]
    · intro d; by_cases hd : d.fd = fd <;> simp [hd]

theorem getClient_sendMessage_isSome (s : Server) (fd fd1 : Nat) (m : Str) :
    ((s.sendMessage fd m).getClient fd1).isSome = (s.getClient fd1).isSome := by
  by_cases hne : fd1 = fd
  · subst hne
    cases h : s.getClient fd1 with
    | none => rw [sendMessage_none h, h]
    | some c => rw [getClient_sendMessage_self h]; rfl
  · rw [getClient_sendMessage_other s hne]

/-- `sendMessage` appends the line and CR LF to what the session is sent, whatever
`send` answers. -/
theorem outStream_sendMessage_self {s : Server} {fd : Nat} {c : Client}
    (h : s.getClient fd = some c) (m : Str) :
    (s.sendMessage fd m).outStream fd = s.outStream fd ++ (m ++ CRLF) := by
  unfold Server.outStream
  rw [getClient_sendMessage_self h, h]
  simp only [Client.outStream]
  rw [sendLoop_stream]
  simp

theorem outStream_sendMessage_other (s : Server) {fd fd1 : Nat} (hne : fd1 ≠ fd) (m : Str) :
    (s.sendMessage fd m).outStream fd1 = s.outStream fd1 := by
  unfold Server.outStream
  rw [getClient_sendMessage_other s hne]

/-- Without a fatal `send` error, `sendMessage` changes nothing but the outbound side
of the session. -/
theorem forgetOutbound_sendMessage {s : Server} (hnf : NoFatal s.env) (fd : Nat) (m : Str) :
    (s.sendMessage fd m).forgetOutbound fd = s.forgetOutbound fd := by
  cases h : s.getClient fd with
  | none => rw [sendMessage_none h]
  | some c =>
    rw [sendMessage_eq h]
    unfold Server.forgetOutbound
    simp only [List.map_map, sendLoop_noFatal _ _ _ hnf]
    congr 1
    apply List.map_congr_left
    intro d _
    by_cases hd : d.fd = fd <;> simp [hd]

theorem status_sendMessage_self {s : Server} (hnf : NoFatal s.env) {fd : Nat} {c : Client}
    (h : s.getClient fd = some c) (m : Str) :
    ∃ d, (s.sendMessage fd m).getClient fd = some d ∧ d.status = c.status ∧
      d.nickname = c.nickname ∧ d.username = c.username ∧ d.hostname = c.hostname ∧
      d.realname = c.realname ∧ d.channels = c.channels ∧ d.fd = c.fd ∧
      d.buffer = c.buffer ∧ d.isOperator = c.isOperator := by
  refine ⟨_, getClient_sendMessage_self h m, ?_⟩
  simp [sendLoop_noFatal _ _ _ hnf]

theorem sendLoop_failed (q : List Str) (env : List SendResult) (wire : Str)
    (h : (sendLoop q env wire).2.2.2 = true) : SendResult.fatal ∈ env := by
  by_contra hn
  rw [sendLoop_noFatal q env wire hn] at h
  cases h

theorem sendFails_fatal {s : Server} {fd : Nat} {line : Str}
    (h : s.sendFails fd line = true) : SendResult.fatal ∈ s.env := by
  unfold Server.sendFails at h
  split at h
  · cases h
  · exact sendLoop_failed _ _ _ h

theorem sendFails_noFatal {s : Server} (hnf : NoFatal s.env) (fd : Nat) (line : Str) :
    s.sendFails fd line = false := by
  cases h : s.sendFails fd line with
  | false => rfl
  | true => exact absurd (sendFails_fatal h) hnf

/-- Whatever `send` answers, `sendMessage` changes nothing but the outbound side of the
session and, exactly when the `send` fails with a fatal error, its status. -/
theorem forgetOutbound_sendMessage_exact (s : Server) (fd : Nat) (m : Str) :
    (s.sendMessage fd m).forgetOutbound fd =
      (if s.sendFails fd m then
        s.modifyClient fd (fun c => c.setStatus ClientStatus.DISCONNECTED)
      else s).forgetOutbound fd := by
  cases h : s.getClient fd with
  | none =>
    rw [sendMessage_none h]
    simp [Server.sendFails, h]
  | some c =>
    have hsf : s.sendFails fd m = (sendLoop (c.messages ++ [m ++ CRLF]) s.env c.wire).2.2.2 := by
      simp [Server.sendFails, h]
    rw [hsf]
    cases hf : (sendLoop (c.messages ++ [m ++ CRLF]) s.env c.wire).2.2.2 with
    | false =>
      rw [sendMessage_eq h]
      unfold Server.forgetOutbound
      simp only [List.map_map, hf, Bool.false_eq_true, ↓reduceIte]
      congr 1
      apply List.map_congr_left
      intro d _
      by_cases hd : d.fd = fd <;> simp [hd]
    | true =>
      rw [sendMessage_eq h]
      unfold Server.forgetOutbound Server.modifyClient
      simp only [List.map_map, hf, ↓reduceIte]
      congr 1
      apply List.map_congr_left
      intro d _
      by_cases hd : d.fd = fd <;> simp [hd]

theorem demoServer_reachable : run demoInit demoEvents = some demoServer := by rfl

/-! ### Steps that leave identities and registrations alone -/

theorem Client.Evolves.erefl (c : Client) : Client.Evolves c c :=
  ⟨rfl, rfl, rfl, rfl, Or.inl rfl⟩

theorem Client.Evolves.etrans {c d e : Client} (h1 : Client.Evolves c d)
    (h2 : Client.Evolves d e) : Client.Evolves c e := by
  obtain ⟨a1, a2, a3, a4, a5⟩ := h1
  obtain ⟨b1, b2, b3, b4, b5⟩ := h2
  refine ⟨b1.trans a1, b2.trans a2, b3.trans a3, b4.trans a4, ?_⟩
  rcases b5 with b5 | b5
  · rcases a5 with a5 | a5
    · exact Or.inl (b5.trans a5)
    · exact Or.inr (b5.trans a5)
  · exact Or.inr b5

theorem forall₂_evolves_map (l : List Client) (h : Client → Client)
    (hh : ∀ c, Client.Evolves c (h c)) : List.Forall₂ Client.Evolves l (l.map h) := by
  induction l with
  | nil => exact List.Forall₂.nil
  | cons a l ih => exact List.Forall₂.cons (hh a) ih

theorem Benign.refl (s : Server) : Benign s s := by
  unfold Benign
  have := forall₂_evolves_map s.clients id (fun c => Client.Evolves.erefl c)
  simpa using this

theorem forall₂_evolves_trans {l1 l2 l3 : List Client}
    (h1 : List.Forall₂ Client.Evolves l1 l2) (h2 : List.Forall₂ Client.Evolves l2 l3) :
    List.Forall₂ Client.Evolves l1 l3 := by
  induction h1 generalizing l3 with
  | nil => cases h2; exact List.Forall₂.nil
  | cons hab _ ih =>
    cases h2 with
    | cons hbc h2 => exact List.Forall₂.cons (hab.etrans hbc) (ih h2)

theorem Benign.trans {s t u : Server} (h1 : Benign s t) (h2 : Benign t u) : Benign s u :=
  forall₂_evolves_trans h1 h2

theorem benign_of_clients_eq {s t : Server} (h : t.clients = s.clients) : Benign s t := by
  unfold Benign; rw [h]; exact Benign.refl s

theorem benign_modifyClient (s : Server) (fd : Nat) (f : Client → Client)
    (hf : ∀ c, Client.Evolves c (f c)) : Benign s (s.modifyClient fd f) := by
  unfold Benign Server.modifyClient
  apply forall₂_evolves_map
  intro c
  split
  · exact hf c
  · exact Client.Evolves.erefl c

theorem benign_modifyChannel (s : Server) (key : Str) (f : Channel → Channel) :
    Benign s (s.modifyChannel key f) := benign_of_clients_eq rfl

theorem benign_sendMessage (s : Server) (fd : Nat) (m : Str) : Benign s (s.sendMessage fd m) := by
  cases h : s.getClient fd with
  | none => rw [sendMessage_none h]; exact Benign.refl s
  | some c =>
    rw [sendMessage_eq h]
    unfold Benign
    apply forall₂_evolves_map
    intro d
    by_cases hd : d.fd = fd
    · rw [if_pos hd]
      refine ⟨rfl, rfl, rfl, rfl, ?_⟩
      by_cases hf : (sendLoop (c.messages ++ [m ++ CRLF]) s.env c.wire).2.2.2 = true
      · simp [hf]
      · simp [hf]
    · rw [if_neg hd]
      exact Client.Evolves.erefl d

theorem benign_sendReply (s : Server) (fd : Nat) (m : Str) : Benign s (s.sendReply fd m) :=
  benign_sendMessage s fd _

theorem benign_foldl {α : Type} (l : List α) (g : Server → α → Server)
    (hg : ∀ s a, Benign s (g s a)) (s : Server) : Benign s (l.foldl g s) := by
  induction l generalizing s with
  | nil => exact Benign.refl s
  | cons a l ih => exact (hg s a).trans (ih (g s a))

theorem benign_broadcastTo (s : Server) (members : List (Nat × Nat)) (m : Str)
    (exclude : Option Nat) : Benign s (s.broadcastTo members m exclude) := by
  unfold Server.broadcastTo
  apply benign_foldl
  intro s a
  split
  · exact Benign.refl s
  · exact benign_sendMessage s _ _

theorem benign_channelBroadcast (s : Server) (key : Str) (m : Str) (exclude : Option Nat) :
    Benign s (s.channelBroadcast key m exclude) := by
  unfold Server.channelBroadcast
  split
  · exact Benign.refl s
  · exact benign_broadcastTo s _ _ _

theorem benign_broadcast (s : Server) (m : Str) (excludeFd : Nat) :
    Benign s (s.broadcast m excludeFd) := by
  unfold Server.broadcast
  apply benign_foldl
  intro s a
  split
  · exact benign_sendMessage s _ _
  · exact Benign.refl s

theorem evolves_joinChannel (c : Client) (key : Str) : Client.Evolves c (c.joinChannel key) := by
  unfold Client.joinChannel
  split
  · exact Client.Evolves.erefl c
  · exact ⟨rfl, rfl, rfl, rfl, Or.inl rfl⟩

theorem evolves_leaveChannel (c : Client) (key : Str) :
    Client.Evolves c (c.leaveChannel key) := ⟨rfl, rfl, rfl, rfl, Or.inl rfl⟩

theorem benign_addClient (s : Server) (key : Str) (fd : Nat) (asOperator : Bool) :
    Benign s (s.addClient key fd asOperator) := by
  unfold Server.addClient
  split
  · exact Benign.refl s
  · split
    · exact Benign.refl s
    · exact (benign_modifyChannel s _ _).trans
        (benign_modifyClient _ _ _ (fun c => evolves_joinChannel c key))

theorem benign_channelRemoveClient (s : Server) (key : Str) (fd : Nat) :
    Benign s (s.channelRemoveClient key fd) := by
  unfold Server.channelRemoveClient
  split
  · exact Benign.refl s
  · split
    · exact (benign_modifyChannel s _ _).trans
        (benign_modifyClient _ _ _ (fun c => evolves_leaveChannel c key))
    · exact Benign.refl s

theorem benign_createChannel (s : Server) (name : Str) (creator : Nat) :
    Benign s (s.createChannel name creator) := by
  unfold Server.createChannel
  split
  · exact Benign.refl s
  · exact (benign_of_clients_eq (s := s) rfl).trans
      (benign_modifyClient _ _ _ (fun c => evolves_joinChannel c _))

theorem benign_removeChannel (s : Server) (name : Str) : Benign s (s.removeChannel name) :=
  benign_of_clients_eq rfl

theorem benign_processMessages (s : Server) (fd : Nat) : Benign s (s.processMessages fd) := by
  unfold Server.processMessages
  split
  · exact Benign.refl s
  · refine (benign_modifyClient s fd _ ?_).trans (benign_of_clients_eq rfl)
    intro c
    refine ⟨rfl, rfl, rfl, rfl, ?_⟩
    split
    · exact Or.inr rfl
    · exact Or.inl rfl

theorem forall₂_evolves_find {l1 l2 : List Client} (h : List.Forall₂ Client.Evolves l1 l2)
    (fd : Nat) :
    (∀ c, l1.find? (fun x => x.fd = fd) = some c →
      ∃ d, l2.find? (fun x => x.fd = fd) = some d ∧ Client.Evolves c d) ∧
    (l1.find? (fun x => x.fd = fd) = none → l2.find? (fun x => x.fd = fd) = none) := by
  induction h with
  | nil => simp
  | @cons a b l1 l2 hab _ ih =>
    by_cases ha : a.fd = fd
    · have hb : b.fd = fd := hab.1.trans ha
      simp only [List.find?, ha, hb, decide_True]
      constructor
      · intro c hc
        cases hc
        exact ⟨b, rfl, hab⟩
      · intro hc; cases hc
    · have hb : ¬ b.fd = fd := fun h => ha (hab.1.symm.trans h)
      simp only [List.find?, ha, hb, decide_False]
      exact ih

/-- A benign step keeps the session of a descriptor, evolved. -/
theorem Benign.getClient {s t : Server} (h : Benign s t) {fd : Nat} {c : Client}
    (hc : s.getClient fd = some c) : ∃ d, t.getClient fd = some d ∧ Client.Evolves c d :=
  (forall₂_evolves_find h fd).1 c hc

theorem Benign.getClient_none {s t : Server} (h : Benign s t) {fd : Nat}
    (hc : s.getClient fd = none) : t.getClient fd = none :=
  (forall₂_evolves_find h fd).2 hc

theorem Benign.sendReply_right {s x : Server} (h : Benign s x) (fd : Nat) (m : Str) :
    Benign s (x.sendReply fd m) := h.trans (benign_sendReply x fd m)

theorem Benign.sendMessage_right {s x : Server} (h : Benign s x) (fd : Nat) (m : Str) :
    Benign s (x.sendMessage fd m) := h.trans (benign_sendMessage x fd m)

theorem Benign.channelBroadcast_right {s x : Server} (h : Benign s x) (key m : Str)
    (exclude : Option Nat) : Benign s (x.channelBroadcast key m exclude) :=
  h.trans (benign_channelBroadcast x key m exclude)

theorem Benign.modifyChannel_right {s x : Server} (h : Benign s x) (key : Str)
    (f : Channel → Channel) : Benign s (x.modifyChannel key f) :=
  h.trans (benign_modifyChannel x key f)

theorem Benign.addClient_right {s x : Server} (h : Benign s x) (key : Str) (fd : Nat)
    (asOperator : Bool) : Benign s (x.addClient key fd asOperator) :=
  h.trans (benign_addClient x key fd asOperator)

theorem Benign.channelRemoveClient_right {s x : Server} (h : Benign s x) (key : Str) (fd : Nat) :
    Benign s (x.channelRemoveClient key fd) := h.trans (benign_channelRemoveClient x key fd)

theorem Benign.createChannel_right {s x : Server} (h : Benign s x) (name : Str) (fd : Nat) :
    Benign s (x.createChannel name fd) := h.trans (benign_createChannel x name fd)

theorem Benign.removeChannel_right {s x : Server} (h : Benign s x) (name : Str) :
    Benign s (x.removeChannel name) := h.trans (benign_removeChannel x name)

theorem Benign.foldl_channelBroadcast {s x : Server} (h : Benign s x) (keys : List Str)
    (m : Str) (exclude : Option Nat) :
    Benign s (keys.foldl (fun acc key => acc.channelBroadcast key m exclude) x) :=
  h.trans (benign_foldl keys _ (fun s a => benign_channelBroadcast s a m exclude) x)

theorem benign_sendNames (s : Server) (fd : Nat) (nickname : Str) (ch : Channel) :
    Benign s (Command.sendNames s fd nickname ch) := by
  unfold Command.sendNames
  exact ((Benign.refl s).sendReply_right _ _).sendReply_right _ _

theorem benign_joinTail (s : Server) (fd : Nat) (c : Client) (channelName key : Str) :
    Benign s (Command.joinTail s fd c channelName key) := by
  unfold Command.joinTail
  simp only
  split
  · apply Benign.channelBroadcast_right
    split
    · exact benign_modifyChannel _ _ _
    · exact Benign.refl s
  · refine Benign.trans ?_ (benign_sendNames _ _ _ _)
    split
    · apply Benign.sendReply_right
      apply Benign.channelBroadcast_right
      split
      · exact benign_modifyChannel _ _ _
      · exact Benign.refl s
    · apply Benign.channelBroadcast_right
      split
      · exact benign_modifyChannel _ _ _
      · exact Benign.refl s

theorem benign_joinExecute {s t : Server} {fd : Nat} {params : List Str}
    (h : Command.joinExecute s fd params = some t) : Benign s t := by
  unfold Command.joinExecute at h
  split at h
  · simp only at h
    repeat' split at h
    all_goals
      cases h
      first
        | with_reducible exact benign_sendReply _ _ _
        | with_reducible exact (benign_createChannel _ _ _).trans (benign_joinTail _ _ _ _ _)
        | with_reducible exact (benign_addClient _ _ _ _).trans (benign_joinTail _ _ _ _ _)
  · cases h

theorem benign_quitExecute {s t : Server} {fd : Nat} {params : List Str}
    (h : Command.quitExecute s fd params = some t) : Benign s t := by
  unfold Command.quitExecute at h
  split at h
  · cases h
  · cases h
    apply Benign.foldl_channelBroadcast
    apply benign_modifyClient
    intro c
    exact ⟨rfl, rfl, rfl, rfl, Or.inr rfl⟩

theorem benign_partExecute {s t : Server} {fd : Nat} {params : List Str}
    (h : Command.partExecute s fd params = some t) : Benign s t := by
  unfold Command.partExecute at h
  split at h
  · simp only at h
    repeat' split at h
    all_goals
      cases h
      first
        | with_reducible exact benign_sendReply _ _ _
        | with_reducible exact (((Benign.refl _).channelBroadcast_right _ _ _).channelRemoveClient_right _ _).removeChannel_right _
        | with_reducible exact ((Benign.refl _).channelBroadcast_right _ _ _).channelRemoveClient_right _ _
  · cases h

theorem benign_privmsgExecute {s t : Server} {fd : Nat} {params : List Str}
    (h : Command.privmsgExecute s fd params = some t) : Benign s t := by
  unfold Command.privmsgExecute at h
  split at h
  · simp only at h
    repeat' split at h
    all_goals
      cases h
      first
        | with_reducible exact benign_sendReply _ _ _
        | with_reducible exact benign_channelBroadcast _ _ _ _
        | with_reducible exact benign_sendMessage _ _ _
        | with_reducible exact ((Benign.refl _).sendMessage_right _ _).sendReply_right _ _
  · cases h

theorem benign_noticeExecute {s t : Server} {fd : Nat} {params : List Str}
    (h : Command.noticeExecute s fd params = some t) : Benign s t := by
  unfold Command.noticeExecute at h
  split at h
  · simp only at h
    repeat' split at h
    all_goals
      cases h
      first
        | with_reducible exact Benign.refl _
        | with_reducible exact benign_channelBroadcast _ _ _ _
        | with_reducible exact benign_sendMessage _ _ _
  · cases h

theorem benign_topicExecute {s t : Server} {fd : Nat} {params : List Str}
    (h : Command.topicExecute s fd params = some t) : Benign s t := by
  unfold Command.topicExecute at h
  split at h
  · simp only at h
    repeat' split at h
    all_goals
      cases h
      first
        | with_reducible exact benign_sendReply _ _ _
        | with_reducible exact ((Benign.refl _).modifyChannel_right _ _).channelBroadcast_right _ _ _
  · cases h

theorem benign_kickExecute {s t : Server} {fd : Nat} {params : List Str}
    (h : Command.kickExecute s fd params = some t) : Benign s t := by
  unfold Command.kickExecute at h
  split at h
  · simp only at h
    repeat' split at h
    all_goals
      cases h
      first
        | with_reducible exact benign_sendReply _ _ _
        | with_reducible exact ((Benign.refl _).channelBroadcast_right _ _ _).channelRemoveClient_right _ _
  · cases h

theorem benign_pingExecute {s t : Server} {fd : Nat} {params : List Str}
    (h : Command.pingExecute s fd params = some t) : Benign s t := by
  unfold Command.pingExecute at h
  split at h
  · cases h; exact benign_sendMessage _ _ _
  · cases h

theorem benign_stubExecute {s t : Server} {fd : Nat} {params : List Str}
    (h : Command.stubExecute s fd params = some t) : Benign s t := by
  unfold Command.stubExecute at h
  cases h; exact Benign.refl _

theorem benign_channelModeStep (fd : Nat) (channelName key : Str) (modeParams : List Str)
    (st : Command.ModeLoop) (mode : Char) :
    Benign st.server (Command.channelModeStep fd channelName key modeParams st mode).server := by
  unfold Command.channelModeStep
  simp only
  repeat' split
  all_goals
    first
      | with_reducible exact Benign.refl _
      | with_reducible exact benign_modifyChannel _ _ _
      | with_reducible exact benign_sendReply _ _ _

theorem benign_channelModeLoop (fd : Nat) (channelName key : Str) (modeParams : List Str)
    (modes : List Char) (st : Command.ModeLoop) :
    Benign st.server
      (modes.foldl (Command.channelModeStep fd channelName key modeParams) st).server := by
  induction modes generalizing st with
  | nil => exact Benign.refl _
  | cons m ms ih =>
    exact (benign_channelModeStep fd channelName key modeParams st m).trans (ih _)

theorem benign_handleChannelMode (s : Server) (fd : Nat) (c : Client) (channelName modes : Str)
    (modeParams : List Str) :
    Benign s (Command.handleChannelMode s fd c channelName modes modeParams) := by
  unfold Command.handleChannelMode
  repeat' split
  all_goals
    first
      | with_reducible exact benign_sendReply _ _ _
      | exact (benign_channelModeLoop fd channelName _ modeParams modes
          { server := s }).channelBroadcast_right _ _ _

theorem benign_userModeStep (fd : Nat) (st : Server × Bool) (mode : Char) :
    Benign st.1 (Command.userModeStep fd st mode).1 := by
  unfold Command.userModeStep
  simp only
  repeat' split
  all_goals
    first
      | with_reducible exact Benign.refl _
      | with_reducible exact benign_sendReply _ _ _
      | (refine Benign.sendMessage_right (benign_modifyClient _ _ _ ?_) _ _
         intro c
         exact ⟨rfl, rfl, rfl, rfl, Or.inl rfl⟩)

theorem benign_userModeLoop (fd : Nat) (modes : List Char) (st : Server × Bool) :
    Benign st.1 (modes.foldl (Command.userModeStep fd) st).1 := by
  induction modes generalizing st with
  | nil => exact Benign.refl _
  | cons m ms ih => exact (benign_userModeStep fd st m).trans (ih _)

theorem benign_handleUserMode (s : Server) (fd : Nat) (c : Client) (targetNick modes : Str) :
    Benign s (Command.handleUserMode s fd c targetNick modes) := by
  unfold Command.handleUserMode
  repeat' split
  all_goals
    first
      | with_reducible exact benign_sendReply _ _ _
      | exact benign_userModeLoop fd modes (s, true)

theorem benign_modeExecute {s t : Server} {fd : Nat} {params : List Str}
    (h : Command.modeExecute s fd params = some t) : Benign s t := by
  unfold Command.modeExecute at h
  split at h
  · simp only at h
    repeat' split at h
    all_goals
      first
        | cases h; done
        | cases h; exact benign_handleChannelMode _ _ _ _ _ _
        | cases h; exact benign_handleUserMode _ _ _ _ _
  · cases h

/-! ### Replies -/

theorem isdigit_iff (c : Char) :
    isdigit c = true ↔ c ∈ ['0', '1', '2', '3', '4', '5', '6', '7', '8', '9'] := by
  constructor
  · intro h
    simp only [isdigit, Bool.and_eq_true, decide_eq_true_eq] at h
    obtain ⟨h1, h2⟩ := h
    have hc : c = Char.ofNat c.toNat := (Char.ofNat_toNat c).symm
    generalize c.toNat = k at h1 h2 hc
    subst hc
    interval_cases k <;> decide
  · intro h
    simp only [List.mem_cons, List.mem_singleton] at h
    rcases h with h | h | h | h | h | h | h | h | h | h | h <;> first | (subst h; decide) | simp at h

theorem nickForbidden_iff (c : Char) :
    Utils.nickForbidden c = true ↔ c ∈ [' ', ',', '*', '?', '!', '@', '.', '$', ':'] := by
  simp only [Utils.nickForbidden, Bool.or_eq_true, decide_eq_true_eq, List.mem_cons,
    List.mem_singleton, List.not_mem_nil, or_false, or_assoc]

theorem isValidNickname_false_iff (n : Str) :
    Utils.isValidNickname n = false ↔ nickErroneous n := by
  cases n with
  | nil => simp [Utils.isValidNickname, nickErroneous]
  | cons c0 tl =>
    have hany : (c0 :: tl).any Utils.nickForbidden = true ↔
        ∃ c ∈ c0 :: tl, c ∈ [' ', ',', '*', '?', '!', '@', '.', '$', ':'] := by
      rw [List.any_eq_true]
      constructor
      · rintro ⟨x, hx, hx2⟩; exact ⟨x, hx, (nickForbidden_iff x).mp hx2⟩
      · rintro ⟨x, hx, hx2⟩; exact ⟨x, hx, (nickForbidden_iff x).mpr hx2⟩
    have hfirst : (isdigit c0 || decide (c0 = '-') || decide (c0 = '#') || decide (c0 = '&'))
        = true ↔
        c0 ∈ ['0', '1', '2', '3', '4', '5', '6', '7', '8', '9', '-', '#', '&'] := by
      have hd := isdigit_iff c0
      simp only [Bool.or_eq_true, decide_eq_true_eq, hd, List.mem_cons, List.mem_singleton,
        List.not_mem_nil, or_false, or_assoc]
    unfold Utils.isValidNickname nickErroneous
    simp only [List.head?_cons, Option.some.injEq, exists_eq_left', reduceCtorEq, false_or]
    by_cases h1 : (isdigit c0 || decide (c0 = '-') || decide (c0 = '#') || decide (c0 = '&'))
        = true
    · rw [if_pos h1]
      exact ⟨fun _ => Or.inl (hfirst.mp h1), fun _ => rfl⟩
    · rw [if_neg h1]
      rw [Bool.not_eq_false', hany]
      constructor
      · intro h; exact Or.inr h
      · rintro (h | h)
        · exact absurd (hfirst.mpr h) h1
        · exact h

theorem repliedOnly_sendReply {s : Server} {fd : Nat} {c : Client}
    (hc : s.getClient fd = some c) (reply : Str) :
    RepliedOnly s (s.sendReply fd reply) fd (':' :: s.serverName ++ ' ' :: reply) :=
  ⟨outStream_sendMessage_self hc _, forgetOutbound_sendMessage_exact _ _ _⟩

theorem repliedOnly_sendMessage {s : Server} {fd : Nat} {c : Client}
    (hc : s.getClient fd = some c) (m : Str) :
    RepliedOnly s (s.sendMessage fd m) fd m :=
  ⟨outStream_sendMessage_self hc _, forgetOutbound_sendMessage_exact _ _ _⟩

/-- The two cases of `RepliedOnly`: nothing but the outbound side of `fd` differs, or a
fatal error is among the answers of `send` and the status of `fd` is `DISCONNECTED`. -/
theorem RepliedOnly.split_cases {s t : Server} {fd : Nat} {line : Str}
    (h : RepliedOnly s t fd line) :
    t.forgetOutbound fd = s.forgetOutbound fd ∨
    (SendResult.fatal ∈ s.env ∧
      t.forgetOutbound fd =
        (s.modifyClient fd (fun c => c.setStatus ClientStatus.DISCONNECTED)).forgetOutbound
          fd) := by
  have h2 := h.2
  cases hf : s.sendFails fd line with
  | false =>
    rw [hf] at h2
    exact Or.inl h2
  | true =>
    rw [hf] at h2
    exact Or.inr ⟨sendFails_fatal hf, h2⟩

/-- Two states with the same image under `forgetOutbound fd` have the same channels,
the same sessions up to the outbound side of `fd`, and the same sessions elsewhere. -/
theorem forgetOutbound_eq_imp {s t : Server} {fd : Nat}
    (h : t.forgetOutbound fd = s.forgetOutbound fd) :
    t.channels = s.channels ∧ t.fds = s.fds ∧ t.password = s.password ∧
    (∀ fd1, (t.getClient fd1).map Client.status = (s.getClient fd1).map Client.status ∧
      (t.getClient fd1).map Client.nickname = (s.getClient fd1).map Client.nickname ∧
      (t.getClient fd1).map Client.username = (s.getClient fd1).map Client.username ∧
      (t.getClient fd1).map Client.channels = (s.getClient fd1).map Client.channels) ∧
    (∀ fd1, fd1 ≠ fd → t.getClient fd1 = s.getClient fd1) := by
  have hch : t.channels = s.channels := by
    have : (t.forgetOutbound fd).channels = (s.forgetOutbound fd).channels := by rw [h]
    exact this
  have hfds : t.fds = s.fds := by
    have : (t.forgetOutbound fd).fds = (s.forgetOutbound fd).fds := by rw [h]
    exact this
  have hpw : t.password = s.password := by
    have : (t.forgetOutbound fd).password = (s.forgetOutbound fd).password := by rw [h]
    exact this
  have hcl : (t.forgetOutbound fd).clients = (s.forgetOutbound fd).clients := by rw [h]
  simp only [Server.forgetOutbound] at hcl
  have key : ∀ fd1, (t.getClient fd1).map (fun c =>
        if c.fd = fd then { c with messages := [], wire := [] } else c) =
      (s.getClient fd1).map (fun c =>
        if c.fd = fd then { c with messages := [], wire := [] } else c) := by
    intro fd1
    unfold Server.getClient
    rw [← find_fd_map, ← find_fd_map, hcl]
    · intro c; split <;> rfl
    · intro c; split <;> rfl
  refine ⟨hch, hfds, hpw, ?_, ?_⟩
  · intro fd1
    have := key fd1
    cases ht : t.getClient fd1 with
    | none =>
      cases hs : s.getClient fd1 with
      | none => simp
      | some d => rw [ht, hs] at this; simp at this
    | some e =>
      cases hs : s.getClient fd1 with
      | none => rw [ht, hs] at this; simp at this
      | some d =>
        rw [ht, hs] at this
        simp only [Option.map_some', Option.some.injEq] at this ⊢
        by_cases he : e.fd = fd <;> by_cases hd : d.fd = fd <;>
          simp only [he, hd, ↓reduceIte] at this <;>
          (first
            | (subst this; simp)
            | (have h1 := congrArg Client.status this
               have h2 := congrArg Client.nickname this
               have h3 := congrArg Client.username this
               have h4 := congrArg Client.channels this
               simp only at h1 h2 h3 h4
               simp [h1, h2, h3, h4]))
  · intro fd1 hne
    have := key fd1
    cases ht : t.getClient fd1 with
    | none =>
      cases hs : s.getClient fd1 with
      | none => rfl
      | some d => rw [ht, hs] at this; simp at this
    | some e =>
      cases hs : s.getClient fd1 with
      | none => rw [ht, hs] at this; simp at this
      | some d =>
        rw [ht, hs] at this
        have he : ¬ e.fd = fd := by rw [getClient_fd ht]; exact hne
        have hd : ¬ d.fd = fd := by rw [getClient_fd hs]; exact hne
        simpa [he, hd] using this

/-- Under `RepliedOnly` the status of the session is `DISCONNECTED` when the `send` of
the line met a fatal error, and what it was otherwise. -/
theorem RepliedOnly.status_eq {s t : Server} {fd : Nat} {line : Str} {c : Client}
    (h : RepliedOnly s t fd line) (hc : s.getClient fd = some c) :
    (t.getClient fd).map Client.status =
      some (if s.sendFails fd line then ClientStatus.DISCONNECTED else c.status) := by
  have h2 := h.2
  cases hf : s.sendFails fd line with
  | false =>
    rw [hf] at h2
    simp only [Bool.false_eq_true, ↓reduceIte] at h2 ⊢
    rw [((forgetOutbound_eq_imp h2).2.2.2.1 fd).1, hc]
    rfl
  | true =>
    rw [hf] at h2
    simp only [↓reduceIte] at h2 ⊢
    rw [((forgetOutbound_eq_imp h2).2.2.2.1 fd).1,
      getClient_modifyClient_self s fd (fun c => c.setStatus ClientStatus.DISCONNECTED)
        (fun _ => rfl), hc]
    rfl

/-- What `RepliedOnly` leaves alone: the channels, the poll array and the password; the
nickname, the user name and the channel list of every session; every session other
than `fd`; and the status of every session, except that the status of `fd` is
`DISCONNECTED` exactly when the `send` of the line met a fatal error. -/
theorem RepliedOnly.frame {s t : Server} {fd : Nat} {line : Str}
    (h : RepliedOnly s t fd line) :
    t.channels = s.channels ∧ t.fds = s.fds ∧ t.password = s.password ∧
    (∀ fd1, (fd1 = fd → (t.getClient fd).map Client.status =
        (s.getClient fd).map (fun c =>
          if s.sendFails fd line then ClientStatus.DISCONNECTED else c.status)) ∧
      (fd1 ≠ fd → (t.getClient fd1).map Client.status = (s.getClient fd1).map Client.status) ∧
      (t.getClient fd1).map Client.nickname = (s.getClient fd1).map Client.nickname ∧
      (t.getClient fd1).map Client.username = (s.getClient fd1).map Client.username ∧
      (t.getClient fd1).map Client.channels = (s.getClient fd1).map Client.channels) ∧
    (∀ fd1, fd1 ≠ fd → t.getClient fd1 = s.getClient fd1) := by
  have hst : (t.getClient fd).map Client.status =
      (s.getClient fd).map (fun c =>
        if s.sendFails fd line then ClientStatus.DISCONNECTED else c.status) := by
    cases hs : s.getClient fd with
    | none =>
      have h2 := h.2
      have hf : s.sendFails fd line = false := by simp [Server.sendFails, hs]
      rw [hf] at h2
      simp only [Bool.false_eq_true, ↓reduceIte] at h2
      rw [((forgetOutbound_eq_imp h2).2.2.2.1 fd).1, hs]
      rfl
    | some c =>
      rw [h.status_eq hs]
      rfl
  rcases h.split_cases with h2 | ⟨_, h2⟩
  · obtain ⟨a, b, c, d, e⟩ := forgetOutbound_eq_imp h2
    exact ⟨a, b, c, fun fd1 => ⟨fun _ => hst, fun _ => (d fd1).1, (d fd1).2.1,
      (d fd1).2.2.1, (d fd1).2.2.2⟩, e⟩
  · obtain ⟨a, b, c, d, e⟩ := forgetOutbound_eq_imp h2
    have hg : ∀ fd1, (s.modifyClient fd
        (fun c => c.setStatus ClientStatus.DISCONNECTED)).getClient fd1 =
        (s.getClient fd1).map (fun c => if c.fd = fd then
          c.setStatus ClientStatus.DISCONNECTED else c) :=
      fun fd1 => getClient_modifyClient s fd fd1 _ (fun _ => rfl)
    have ho : ∀ fd1, fd1 ≠ fd → (s.modifyClient fd
        (fun c => c.setStatus ClientStatus.DISCONNECTED)).getClient fd1 = s.getClient fd1 :=
      fun fd1 hne => getClient_modifyClient_other s fd fd1
        (fun c => c.setStatus ClientStatus.DISCONNECTED) (fun _ => rfl) hne
    refine ⟨a, b, c, fun fd1 => ⟨fun _ => hst, fun hne => ?_, ?_, ?_, ?_⟩, ?_⟩
    · rw [(d fd1).1, ho fd1 hne]
    · rw [(d fd1).2.1, hg fd1]
      cases s.getClient fd1 with
      | none => rfl
      | some x => by_cases hx : x.fd = fd <;> simp [hx]
    · rw [(d fd1).2.2.1, hg fd1]
      cases s.getClient fd1 with
      | none => rfl
      | some x => by_cases hx : x.fd = fd <;> simp [hx]
    · rw [(d fd1).2.2.2, hg fd1]
      cases s.getClient fd1 with
      | none => rfl
      | some x => by_cases hx : x.fd = fd <;> simp [hx]
    · intro fd1 hne
      rw [e fd1 hne, ho fd1 hne]

theorem RepliedOnly.outStream_other {s t : Server} {fd : Nat} {line : Str}
    (h : RepliedOnly s t fd line) (x : Nat) (hx : x ≠ fd) :
    t.outStream x = s.outStream x := by
  unfold Server.outStream
  rw [h.frame.2.2.2.2 x hx]

theorem sendMessage_env {s : Server} {fd : Nat} {c : Client} (hc : s.getClient fd = some c)
    (m : Str) :
    (s.sendMessage fd m).env = (sendLoop (c.messages ++ [m ++ CRLF]) s.env c.wire).2.1 ∧
    (s.sendMessage fd m).serverName = s.serverName := by
  rw [sendMessage_eq hc]
  exact ⟨rfl, rfl⟩

/-- The status of a session after the successive replies `rs`: `DISCONNECTED` exactly
when one of the `send` calls met a fatal error, and what it was otherwise. -/
theorem status_sendReplies (fd : Nat) (rs : List Str) :
    ∀ (s : Server) (c : Client), s.getClient fd = some c →
      ((s.sendReplies fd rs).getClient fd).map Client.status =
        some (if s.repliesFail fd rs then ClientStatus.DISCONNECTED else c.status) := by
  induction rs with
  | nil =>
    intro s c hc
    simp [Server.sendReplies, Server.repliesFail, hc, blockFails]
  | cons r rs ih =>
    intro s c hc
    have h1 := getClient_sendMessage_self hc (':' :: s.serverName ++ ' ' :: r)
    have h2 := sendMessage_env hc (':' :: s.serverName ++ ' ' :: r)
    have h3 := ih (s.sendReply fd r) _ h1
    have e : s.sendReplies fd (r :: rs) = (s.sendReply fd r).sendReplies fd rs := rfl
    rw [e, h3]
    have e2 : (s.sendReply fd r).repliesFail fd rs =
        blockFails (sendLoop (c.messages ++ [(':' :: s.serverName ++ ' ' :: r) ++ CRLF])
            s.env c.wire).1
          (sendLoop (c.messages ++ [(':' :: s.serverName ++ ' ' :: r) ++ CRLF]) s.env c.wire).2.1
          (sendLoop (c.messages ++ [(':' :: s.serverName ++ ' ' :: r) ++ CRLF])
            s.env c.wire).2.2.1
          (rs.map (fun r => ':' :: s.serverName ++ ' ' :: r)) := by
      unfold Server.repliesFail
      have h1a : (s.sendReply fd r).getClient fd = _ := h1
      have h2a : (s.sendReply fd r).env = _ := h2.1
      have h2b : (s.sendReply fd r).serverName = _ := h2.2
      rw [h1a, h2a, h2b]
    have e3 : s.repliesFail fd (r :: rs) =
        ((sendLoop (c.messages ++ [(':' :: s.serverName ++ ' ' :: r) ++ CRLF])
            s.env c.wire).2.2.2 ||
          (s.sendReply fd r).repliesFail fd rs) := by
      rw [e2]
      unfold Server.repliesFail
      rw [hc]
      simp only [List.map_cons, blockFails]
    rw [e3]
    congr 1
    cases (sendLoop (c.messages ++ [(':' :: s.serverName ++ ' ' :: r) ++ CRLF])
      s.env c.wire).2.2.2 <;>
    cases (s.sendReply fd r).repliesFail fd rs <;> simp

/-- A write to a session that touches neither its queue nor its wire leaves
`repliesFail` as it is. -/
theorem repliesFail_modifyClient (s : Server) (fd : Nat) (f : Client → Client)
    (hfd : ∀ c, (f c).fd = c.fd) (hm : ∀ c, (f c).messages = c.messages)
    (hw : ∀ c, (f c).wire = c.wire) (rs : List Str) :
    (s.modifyClient fd f).repliesFail fd rs = s.repliesFail fd rs := by
  unfold Server.repliesFail
  rw [getClient_modifyClient_self s fd f hfd]
  cases s.getClient fd with
  | none => rfl
  | some c =>
    simp only [Option.map_some', hm, hw]
    rfl

theorem repliesFail_fatal {s : Server} {fd : Nat} {rs : List Str}
    (h : s.repliesFail fd rs = true) : SendResult.fatal ∈ s.env := by
  by_contra hn
  have key : ∀ (ls : List Str) (q : List Str) (env : List SendResult) (wire : Str),
      NoFatal env → blockFails q env wire ls = false := by
    intro ls
    induction ls with
    | nil => intro q env wire _; rfl
    | cons l ls ih =>
      intro q env wire hnf
      simp only [blockFails, sendLoop_noFatal _ _ _ hnf, Bool.false_or]
      apply ih
      intro hmem
      exact hnf ((sendLoop_env_suffix _ _ _).mem hmem)
  unfold Server.repliesFail at h
  split at h
  · cases h
  · rw [key _ _ _ _ hn] at h
    cases h

theorem benign_sendWelcomeMessages (s : Server) (fd : Nat) :
    Benign s (Command.sendWelcomeMessages s fd) := by
  unfold Command.sendWelcomeMessages
  split
  · exact Benign.refl s
  · simp only
    repeat' apply Benign.sendReply_right
    exact Benign.refl s

theorem getClientByNickname_isSome_iff (s : Server) (n : Str) :
    (s.getClientByNickname n).isSome = true ↔
      ∃ d ∈ s.clients, Utils.toLower d.nickname = Utils.toLower n := by
  unfold Server.getClientByNickname
  rw [List.find?_isSome]
  simp

theorem sendReplies_frame (s : Server) (fd : Nat) (rs : List Str) :
    (s.sendReplies fd rs).serverName = s.serverName ∧
    ((s.sendReplies fd rs).getClient fd).isSome = (s.getClient fd).isSome ∧
    (s.sendReplies fd rs).env <:+ s.env := by
  unfold Server.sendReplies
  induction rs generalizing s with
  | nil => exact ⟨rfl, rfl, List.suffix_refl _⟩
  | cons r rs ih =>
    obtain ⟨h1, h2, h3⟩ := ih (s.sendReply fd r)
    refine ⟨?_, ?_, ?_⟩
    · rw [List.foldl_cons, h1]; exact sendMessage_serverName _ _ _
    · rw [List.foldl_cons, h2]; exact getClient_sendMessage_isSome _ _ _ _
    · rw [List.foldl_cons]; exact h3.trans (sendMessage_env_suffix _ _ _)

/-- A sequence of replies is appended, in order, to what the session is sent. -/
theorem outStream_sendReplies {s : Server} {fd : Nat} {c : Client}
    (hc : s.getClient fd = some c) (rs : List Str) :
    (s.sendReplies fd rs).outStream fd = s.outStream fd ++
      (rs.map (fun r => ':' :: s.serverName ++ ' ' :: r ++ CRLF)).flatten := by
  induction rs generalizing s c with
  | nil => simp [Server.sendReplies]
  | cons r rs ih =>
    have hsome : ((s.sendReply fd r).getClient fd).isSome = true := by
      unfold Server.sendReply
      rw [getClient_sendMessage_isSome, hc]; rfl
    obtain ⟨d, hd⟩ := Option.isSome_iff_exists.mp hsome
    have := ih hd
    unfold Server.sendReplies at this ⊢
    rw [List.foldl_cons, this]
    unfold Server.sendReply
    rw [outStream_sendMessage_self hc, sendMessage_serverName]
    simp [List.append_assoc]

theorem forgetOutbound_sendReplies (fd : Nat) (rs : List Str) :
    ∀ s : Server, NoFatal s.env →
      (s.sendReplies fd rs).forgetOutbound fd = s.forgetOutbound fd := by
  induction rs with
  | nil => intro s _; rfl
  | cons r rs ih =>
    intro s hnf
    have h1 := ih (s.sendReply fd r) (sendMessage_noFatal hnf _ _)
    unfold Server.sendReplies at h1 ⊢
    rw [List.foldl_cons, h1]
    exact forgetOutbound_sendMessage hnf _ _

theorem welcomeReplies_codes (s : Server) (c : Client) :
    (welcomeReplies s c).map (fun r => (r.take 3, (r.drop 3).head?)) =
      welcomeCodes.map (fun k => (k, some ' ')) := by
  rfl

/-- The welcome block, as bytes appended to what the new session is sent. -/
theorem sendWelcomeMessages_spec {s : Server} {fd : Nat} {c : Client}
    (hc : s.getClient fd = some c) :
    (Command.sendWelcomeMessages s fd).outStream fd =
      s.outStream fd ++ replyBytes s (welcomeReplies s c) ∧
    (NoFatal s.env →
      (Command.sendWelcomeMessages s fd).forgetOutbound fd = s.forgetOutbound fd) := by
  have heq : Command.sendWelcomeMessages s fd = s.sendReplies fd (welcomeReplies s c) := by
    unfold Command.sendWelcomeMessages
    rw [hc]
    simp only [Server.sendReplies, welcomeReplies, List.foldl, Server.getClientCount,
      Server.getChannelCount]
  rw [heq]
  exact ⟨outStream_sendReplies hc _, fun hnf => forgetOutbound_sendReplies _ _ _ hnf⟩

theorem outStream_modifyClient (s : Server) (fd fd1 : Nat) (f : Client → Client)
    (hfd : ∀ c, (f c).fd = c.fd) (hout : ∀ c, (f c).outStream = c.outStream) :
    (s.modifyClient fd f).outStream fd1 = s.outStream fd1 := by
  unfold Server.outStream
  rw [getClient_modifyClient s fd fd1 f hfd]
  cases s.getClient fd1 with
  | none => rfl
  | some d => by_cases hd : d.fd = fd <;> simp [hd, hout]

theorem formatReply_eq (code : Nat) (c : Client) (m : Str) (h : 100 ≤ code ∧ code < 1000) :
    CommandHandler.formatReply code c m =
      Utils.toString code ++ ' ' :: (if c.nickname = [] then ['*'] else c.nickname) ++ ' ' :: m := by
  obtain ⟨h1, h2⟩ := h
  unfold CommandHandler.formatReply CommandHandler.code3
  have : (Utils.toString code).length = 3 := by
    unfold Utils.toString
    interval_cases code <;> rfl
  rw [this]
  simp

set_option maxRecDepth 100000 in
/-- C8 (code bug): `CommandHandler::parseParams` tests for `:` before it skips the
spaces, so a `:` that follows a space starts an ordinary token. `#foo :hello world`
parses to `#foo`, `:hello`, `world`, and for `PRIVMSG #foo :hello` sent by `bob` the
text relayed to `alice` is `:hello`, while `Utils::parseIRCMessage` reads the same
line as `#foo`, `hello world`. -/
theorem parseParams_trailing_counterexample :
    CommandHandler.parseParams "#foo :hello world".toList =
      ["#foo".toList, ":hello".toList, "world".toList] ∧
    (Utils.parseIRCMessage "PRIVMSG #foo :hello world".toList [] []).2.2 =
      ["#foo".toList, "hello world".toList] ∧
    (CommandHandler.executeCommand demoServer 5 "PRIVMSG #foo :hello".toList).map
        (fun t => t.outStream 4) =
      some (demoServer.outStream 4 ++ ":bob!bob@h2 PRIVMSG #foo ::hello\r\n".toList) := by
  refine ⟨by decide, by decide, by rfl⟩

set_option maxRecDepth 100000 in
/-- C9 (code bug): `CommandHandler::executeCommand` takes the text before the first
space as the command even when the line starts with `:`. `alice` sending
`:alice PING x` is answered `421 alice :ALICE :Unknown command`, while `PING x` is
answered with a `PONG`, and `Utils::parseIRCMessage` reads the first line as prefix
`alice`, command `PING`, parameter `x`. -/
theorem executeCommand_prefix_counterexample :
    (CommandHandler.executeCommand demoServer 4 ":alice PING x".toList).map
        (fun t => t.outStream 4) =
      some (demoServer.outStream 4 ++ ":ft_irc 421 alice :ALICE :Unknown command\r\n".toList) ∧
    (CommandHandler.executeCommand demoServer 4 "PING x".toList).map
        (fun t => t.outStream 4) =
      some (demoServer.outStream 4 ++ ":ft_irc PONG ft_irc :x\r\n".toList) ∧
    Utils.parseIRCMessage ":alice PING x".toList [] [] =
      ("alice".toList, "PING".toList, ["x".toList]) := by
  refine ⟨by rfl, by rfl, by decide⟩

/-! ### The parser round trip -/

theorem parseIRCParams_nil (fuel : Nat) : Utils.parseIRCParams fuel [] = [] := by
  cases fuel <;> rfl

theorem isMiddleParam_iff (p : Str) :
    isMiddleParam p = true ↔
      p ≠ [] ∧ (∀ c ∈ p, isspace c = false) ∧ p.head? ≠ some ':' := by
  simp [isMiddleParam, and_assoc]

theorem dropWhile_isspace_of_head {c : Char} {tl : Str} (h : isspace c = false) :
    (c :: tl).dropWhile isspace = c :: tl := by
  simp [List.dropWhile, h]

/-- The parameters written by `formatParams` are read back by the parameter loop of
`parseIRCMessage`. -/
theorem formatParams_parse (ps : List Str) (hne : ps ≠ []) (h : paramsRoundTrip ps = true) :
    ∃ body, Utils.formatParams ps = ' ' :: body ∧ body.dropWhile isspace = body ∧
      ∀ fuel, body.length < fuel → Utils.parseIRCParams fuel body = ps := by
  induction ps with
  | nil => exact absurd rfl hne
  | cons p ps ih =>
    cases ps with
    | nil =>
      simp only [paramsRoundTrip, isFinalParam, Bool.and_eq_true, bne_iff_ne, ne_eq,
        Bool.or_eq_true, Bool.not_eq_true'] at h
      obtain ⟨⟨hp, hh⟩, hsp⟩ := h
      cases p with
      | nil => exact absurd rfl hp
      | cons c tl =>
        have hc : c ≠ ':' := by simpa using hh
        by_cases hcont : (c :: tl).contains ' ' = true
        · refine ⟨':' :: c :: tl, ?_, ?_, ?_⟩
          · have hb : ((c :: tl).contains ' ' && (c :: tl).head? != some ':') = true := by
              rw [Bool.and_eq_true]
              exact ⟨hcont, by simpa using hc⟩
            simp only [Utils.formatParams, hb, ↓reduceIte]
            rfl
          · exact dropWhile_isspace_of_head (by decide)
          · intro fuel hf
            cases fuel with
            | zero => simp at hf
            | succ n => simp [Utils.parseIRCParams]
        · have hns : (c :: tl).any isspace = false := by
            rcases hsp with h1 | h1
            · exact absurd h1 hcont
            · exact h1
          have hall : ∀ x ∈ c :: tl, (!isspace x) = true := by
            intro x hx
            have := List.any_eq_false.mp hns x hx
            simpa using this
          have hcs : isspace c = false := by
            simpa using hall c (List.mem_cons_self _ _)
          refine ⟨c :: tl, ?_, ?_, ?_⟩
          · have hb : ((c :: tl).contains ' ' && (c :: tl).head? != some ':') = false := by
              rw [Bool.and_eq_false_iff]
              exact Or.inl (by simpa using hcont)
            simp only [Utils.formatParams, hb, Bool.false_eq_true, ↓reduceIte]
          · exact dropWhile_isspace_of_head hcs
          · intro fuel hf
            cases fuel with
            | zero => simp at hf
            | succ n =>
              have h1 : (c :: tl).takeWhile (fun x => !isspace x) = c :: tl :=
                List.takeWhile_eq_self_iff.mpr hall
              have h2 : (c :: tl).dropWhile (fun x => !isspace x) = [] :=
                List.dropWhile_eq_nil_iff.mpr hall
              simp only [Utils.parseIRCParams, hc, ↓reduceIte, h1, h2, List.dropWhile_nil,
                parseIRCParams_nil]
    | cons q qs =>
      simp only [paramsRoundTrip, Bool.and_eq_true] at h
      obtain ⟨hp, hrest⟩ := h
      obtain ⟨hp1, hp2, hp3⟩ := (isMiddleParam_iff p).mp hp
      obtain ⟨body, hb1, hb2, hb3⟩ := ih (by simp) hrest
      cases p with
      | nil => exact absurd rfl hp1
      | cons c tl =>
        have hc : c ≠ ':' := by simpa using hp3
        have hcs : isspace c = false := hp2 c (List.mem_cons_self _ _)
        have hall : ∀ x ∈ c :: tl, (!isspace x) = true := by
          intro x hx
          simp [hp2 x hx]
        refine ⟨(c :: tl) ++ ' ' :: body, ?_, ?_, ?_⟩
        · simp [Utils.formatParams, hb1]
        · exact dropWhile_isspace_of_head hcs
        · intro fuel hf
          cases fuel with
          | zero => simp at hf
          | succ n =>
            have h1 : ((c :: tl) ++ ' ' :: body).takeWhile (fun x => !isspace x) = c :: tl := by
              rw [List.takeWhile_append_of_pos hall]
              simp [isspace]
            have h2 : ((c :: tl) ++ ' ' :: body).dropWhile (fun x => !isspace x) =
                ' ' :: body := by
              rw [List.dropWhile_append_of_pos hall]
              simp [isspace]
            have h3 : (' ' :: body).dropWhile isspace = body := by
              rw [List.dropWhile_cons_of_pos (by decide), hb2]
            have hlen : body.length < n := by
              simp only [List.length_append, List.length_cons] at hf
              omega
            have h4 := hb3 n hlen
            have hstep : Utils.parseIRCParams (n + 1) ((c :: tl) ++ ' ' :: body) =
                ((c :: tl) ++ ' ' :: body).takeWhile (fun x => !isspace x) ::
                  Utils.parseIRCParams n
                    ((((c :: tl) ++ ' ' :: body).dropWhile (fun x => !isspace x)).dropWhile
                      isspace) := by
              simp [Utils.parseIRCParams, hc]
            rw [hstep, h1, h2, h3, h4]

theorem parseIRCCommand_format (command : Str) (params : List Str) (pfx : Str)
    (hcmd : ∀ x ∈ command, (x != ' ') = true) (hps : paramsRoundTrip params = true) :
    Utils.parseIRCCommand (command ++ Utils.formatParams params) pfx =
      (pfx, command, params) := by
  cases hp : params with
  | nil =>
    have h1 : command.dropWhile (fun x => x != ' ') = [] :=
      List.dropWhile_eq_nil_iff.mpr hcmd
    simp only [Utils.formatParams, List.append_nil, Utils.parseIRCCommand, h1]
  | cons p ps =>
    obtain ⟨body, hb1, hb2, hb3⟩ := formatParams_parse (p :: ps) (by simp) (hp ▸ hps)
    have h1 : (command ++ ' ' :: body).dropWhile (fun x => x != ' ') = ' ' :: body := by
      rw [List.dropWhile_append_of_pos hcmd]
      simp
    have h2 : (command ++ ' ' :: body).takeWhile (fun x => x != ' ') = command := by
      rw [List.takeWhile_append_of_pos hcmd]
      simp
    rw [hb1]
    simp only [Utils.parseIRCCommand, h1, h2, hb2]
    rw [hb3 _ (Nat.lt_succ_self _)]

/-- C10, amended: for every prefix without spaces, every command that is non-empty,
has no space and starts neither with `:` nor with white space, and every parameter list
whose non-final parameters are non-empty, without white space and not starting with
`:` and whose final parameter is non-empty, does not start with `:` and either contains
a space or is free of white space, `Utils::parseIRCMessage` applied to
`Utils::formatIRCMessage(prefix, command, params)` (with the out-parameters initially
empty) returns the same prefix, command and parameters. -/
theorem parse_format_roundtrip (pfx command : Str) (params : List Str)
    (h : wellFormedAmended pfx command params = true) :
    Utils.parseIRCMessage (Utils.formatIRCMessage pfx command params) [] [] =
      (pfx, command, params) := by
  simp only [wellFormedAmended, Bool.and_eq_true, Bool.not_eq_true', bne_iff_ne, ne_eq] at h
  obtain ⟨⟨⟨⟨⟨hpfx, hne⟩, hsp⟩, hcolon⟩, hws⟩, hps⟩ := h
  have hpfx1 : ∀ x ∈ pfx, (x != ' ') = true := by
    intro x hx
    simp only [bne_iff_ne, ne_eq]
    rintro rfl
    simp [hx] at hpfx
  have hcmd1 : ∀ x ∈ command, (x != ' ') = true := by
    intro x hx
    simp only [bne_iff_ne, ne_eq]
    rintro rfl
    simp [hx] at hsp
  cases hcommand : command with
  | nil => exact absurd hcommand hne
  | cons c0 ctl =>
    rw [hcommand] at hcolon hws hcmd1
    have hc0 : c0 ≠ ':' := by simpa using hcolon
    have hc0s : isspace c0 = false := by simpa using hws
    have hR := fun P => parseIRCCommand_format (c0 :: ctl) params P hcmd1 hps
    by_cases hp : pfx = []
    · subst hp
      have hmsg : Utils.formatIRCMessage [] (c0 :: ctl) params =
          c0 :: (ctl ++ Utils.formatParams params) := by
        simp [Utils.formatIRCMessage]
      rw [hmsg]
      have := hR []
      simp only [List.cons_append] at this
      simp only [Utils.parseIRCMessage, hc0, ↓reduceIte, this]
    · have hmsg : Utils.formatIRCMessage pfx (c0 :: ctl) params =
          ':' :: (pfx ++ ' ' :: ((c0 :: ctl) ++ Utils.formatParams params)) := by
        simp [Utils.formatIRCMessage, hp]
      rw [hmsg]
      have h1 : (':' :: (pfx ++ ' ' :: ((c0 :: ctl) ++ Utils.formatParams params))).dropWhile
          (fun x => x != ' ') = ' ' :: ((c0 :: ctl) ++ Utils.formatParams params) := by
        rw [List.dropWhile_cons_of_pos (by decide), List.dropWhile_append_of_pos hpfx1]
        simp
      have h2 : (':' :: (pfx ++ ' ' :: ((c0 :: ctl) ++ Utils.formatParams params))).takeWhile
          (fun x => x != ' ') = ':' :: pfx := by
        rw [List.takeWhile_cons_of_pos (by decide), List.takeWhile_append_of_pos hpfx1]
        simp
      have h3 : ((c0 :: ctl) ++ Utils.formatParams params).dropWhile isspace =
          (c0 :: ctl) ++ Utils.formatParams params := by
        rw [List.cons_append]
        exact dropWhile_isspace_of_head hc0s
      simp only [Utils.parseIRCMessage, ↓reduceIte, h1, h2, h3, List.drop_succ_cons,
        List.drop_zero, hR pfx]

/-- C10 as stated fails: `("", PRIVMSG, [#foo, :hi])` and `("", PRIVMSG, [#foo, ""])` are
well-formed in the sense of the claim, and the parameters read back are `[#foo, hi]`
and `[#foo]`, not the ones that were formatted. -/
theorem parse_format_counterexample :
    wellFormedAsClaimed [] "PRIVMSG".toList ["#foo".toList, ":hi".toList] = true ∧
    Utils.parseIRCMessage
        (Utils.formatIRCMessage [] "PRIVMSG".toList ["#foo".toList, ":hi".toList]) [] [] ≠
      ([], "PRIVMSG".toList, ["#foo".toList, ":hi".toList]) ∧
    Utils.parseIRCMessage
        (Utils.formatIRCMessage [] "PRIVMSG".toList ["#foo".toList, ":hi".toList]) [] [] =
      ([], "PRIVMSG".toList, ["#foo".toList, "hi".toList]) ∧
    wellFormedAsClaimed [] "PRIVMSG".toList ["#foo".toList, []] = true ∧
    Utils.parseIRCMessage
        (Utils.formatIRCMessage [] "PRIVMSG".toList ["#foo".toList, []]) [] [] =
      ([], "PRIVMSG".toList, ["#foo".toList]) := by
  decide

/-- C10, amended, on `(bob, PRIVMSG, [#foo, hello world])`. -/
theorem parse_format_roundtrip_witness :
    Utils.parseIRCMessage
        (Utils.formatIRCMessage "bob".toList "PRIVMSG".toList
          ["#foo".toList, "hello world".toList]) [] [] =
      ("bob".toList, "PRIVMSG".toList, ["#foo".toList, "hello world".toList]) :=
  parse_format_roundtrip "bob".toList "PRIVMSG".toList ["#foo".toList, "hello world".toList]
    (by decide)

/-! ### Invariants of the session map -/

theorem forall₂_evolves_fds {l1 l2 : List Client} (h : List.Forall₂ Client.Evolves l1 l2) :
    l2.map Client.fd = l1.map Client.fd := by
  induction h with
  | nil => rfl
  | cons hab _ ih => simp [hab.1, ih]

theorem forall₂_evolves_mem {l1 l2 : List Client} (h : List.Forall₂ Client.Evolves l1 l2) :
    ∀ d ∈ l2, ∃ c ∈ l1, Client.Evolves c d := by
  induction h with
  | nil => intro d hd; cases hd
  | @cons a b l1 l2 hab _ ih =>
    intro d hd
    rcases List.mem_cons.mp hd with rfl | hd
    · exact ⟨a, List.mem_cons_self _ _, hab⟩
    · obtain ⟨c, hc, hcd⟩ := ih d hd
      exact ⟨c, List.mem_cons_of_mem _ hc, hcd⟩

/-- A benign step preserves the invariants of the session map. -/
theorem SessionInv.benign {s t : Server} (hinv : SessionInv s) (h : Benign s t) :
    SessionInv t := by
  obtain ⟨h1, h2, h3⟩ := hinv
  refine ⟨?_, ?_, ?_⟩
  · unfold SortedFds at h1 ⊢
    rw [forall₂_evolves_fds h]; exact h1
  · intro d hd hst
    obtain ⟨c, hc, hev⟩ := forall₂_evolves_mem h d hd
    have hcs : c.status = ClientStatus.REGISTERED := by
      rcases hev.2.2.2.2 with h5 | h5
      · rw [← h5]; exact hst
      · rw [h5] at hst; cases hst
    have := h2 c hc hcs
    rw [hev.2.1, hev.2.2.1]
    exact this
  · intro d1 hd1 d2 hd2 hfd hn
    obtain ⟨c1, hc1, hev1⟩ := forall₂_evolves_mem h d1 hd1
    obtain ⟨c2, hc2, hev2⟩ := forall₂_evolves_mem h d2 hd2
    rw [hev1.2.1, hev2.2.1]
    apply h3 c1 hc1 c2 hc2
    · rw [← hev1.1, ← hev2.1]; exact hfd
    · rw [← hev1.2.1]; exact hn

theorem sorted_fd_unique {l : List Client}
    (h : (l.map Client.fd).Pairwise (fun a b => a < b)) {c d : Client}
    (hc : c ∈ l) (hd : d ∈ l) (hfd : c.fd = d.fd) : c = d := by
  induction l with
  | nil => cases hc
  | cons a l ih =>
    simp only [List.map_cons, List.pairwise_cons, List.mem_map, forall_exists_index,
      and_imp, forall_apply_eq_imp_iff₂] at h
    obtain ⟨ha, hl⟩ := h
    rcases List.mem_cons.mp hc with hc2 | hc2
    · rcases List.mem_cons.mp hd with hd2 | hd2
      · rw [hc2, hd2]
      · have := ha d hd2
        rw [← hc2] at this
        omega
    · rcases List.mem_cons.mp hd with hd2 | hd2
      · have := ha c hc2
        rw [← hd2] at this
        omega
      · exact ih hl hc2 hd2

theorem SortedFds.getClient_unique {s : Server} (h : SortedFds s) {fd : Nat} {c d : Client}
    (hc : s.getClient fd = some c) (hd : d ∈ s.clients) (hfd : d.fd = fd) : d = c :=
  sorted_fd_unique h hd (getClient_mem hc) (hfd.trans (getClient_fd hc).symm)

theorem mem_modifyClient {s : Server} {fd : Nat} {f : Client → Client} {d : Client}
    (hd : d ∈ (s.modifyClient fd f).clients) :
    ∃ c ∈ s.clients, d = if c.fd = fd then f c else c := by
  unfold Server.modifyClient at hd
  simp only [List.mem_map] at hd
  obtain ⟨c, hc, rfl⟩ := hd
  exact ⟨c, hc, rfl⟩

theorem sortedFds_modifyClient {s : Server} (h : SortedFds s) (fd : Nat) (f : Client → Client)
    (hf : ∀ c, (f c).fd = c.fd) : SortedFds (s.modifyClient fd f) := by
  unfold SortedFds Server.modifyClient at *
  simp only [List.map_map]
  have : (Client.fd ∘ fun c => if c.fd = fd then f c else c) = Client.fd := by
    funext c
    simp only [Function.comp]
    split <;> simp [hf]
  rw [this]; exact h

theorem toLower_eq_nil {n : Str} (h : Utils.toLower n = []) : n = [] := by
  simpa [Utils.toLower] using h

/-- A write to the session `fd` that keeps descriptor, nickname and user name and does
not make the session `REGISTERED` preserves the invariants. -/
theorem SessionInv.modifyClient_plain {s : Server} (hinv : SessionInv s) (fd : Nat)
    (f : Client → Client)
    (hf : ∀ c, (f c).fd = c.fd ∧ (f c).nickname = c.nickname ∧ (f c).username = c.username ∧
      ((f c).status = c.status ∨ (f c).status ≠ ClientStatus.REGISTERED)) :
    SessionInv (s.modifyClient fd f) := by
  obtain ⟨h1, h2, h3⟩ := hinv
  have key : ∀ d ∈ (s.modifyClient fd f).clients, ∃ c ∈ s.clients, d.fd = c.fd ∧
      d.nickname = c.nickname ∧ d.username = c.username ∧
      (d.status = c.status ∨ d.status ≠ ClientStatus.REGISTERED) := by
    intro d hd
    obtain ⟨c, hc, rfl⟩ := mem_modifyClient hd
    refine ⟨c, hc, ?_⟩
    split
    · exact hf c
    · exact ⟨rfl, rfl, rfl, Or.inl rfl⟩
  refine ⟨sortedFds_modifyClient h1 fd f (fun c => (hf c).1), ?_, ?_⟩
  · intro d hd hst
    obtain ⟨c, hc, e1, e2, e3, e4⟩ := key d hd
    rcases e4 with e4 | e4
    · rw [e2, e3]; exact h2 c hc (e4 ▸ hst)
    · exact absurd hst e4
  · intro d1 hd1 d2 hd2 hfd hn
    obtain ⟨c1, hc1, a1, a2, _, _⟩ := key d1 hd1
    obtain ⟨c2, hc2, b1, b2, _, _⟩ := key d2 hd2
    rw [a2, b2]
    exact h3 c1 hc1 c2 hc2 (by rw [← a1, ← b1]; exact hfd) (by rw [← a2]; exact hn)

/-- A write to the one session of the descriptor `fd` preserves the invariants when it
keeps the descriptor, leaves a session that is `REGISTERED` only with a nickname and a
user name, and either keeps the nickname or sets a non-empty one that no session
has. -/
theorem SessionInv.modifyClient_of {s : Server} (hinv : SessionInv s) {fd : Nat} {c : Client}
    (hc : s.getClient fd = some c) (f : Client → Client) (hfd : ∀ x, (f x).fd = x.fd)
    (hreg : (f c).status = ClientStatus.REGISTERED →
      (f c).nickname ≠ [] ∧ (f c).username ≠ [])
    (hnick : (f c).nickname = c.nickname ∨
      ((f c).nickname ≠ [] ∧
        ∀ x ∈ s.clients, Utils.toLower x.nickname ≠ Utils.toLower (f c).nickname)) :
    SessionInv (s.modifyClient fd f) := by
  obtain ⟨h1, h2, h3⟩ := hinv
  have key : ∀ d ∈ (s.modifyClient fd f).clients,
      (d = f c ∧ d.fd = fd) ∨ (d ∈ s.clients ∧ d.fd ≠ fd) := by
    intro d hd
    obtain ⟨c0, hc0, rfl⟩ := mem_modifyClient hd
    by_cases h0 : c0.fd = fd
    · have : c0 = c := SortedFds.getClient_unique h1 hc hc0 h0
      subst this
      left
      simp [h0, hfd]
    · right
      simp [h0, hc0]
  have hcm : c ∈ s.clients := getClient_mem hc
  have hcfd : c.fd = fd := getClient_fd hc
  refine ⟨sortedFds_modifyClient h1 fd f hfd, ?_, ?_⟩
  · intro d hd hst
    rcases key d hd with ⟨rfl, _⟩ | ⟨hd0, _⟩
    · exact hreg hst
    · exact h2 d hd0 hst
  · intro d1 hd1 d2 hd2 hne hn
    rcases key d1 hd1 with ⟨e1, f1⟩ | ⟨m1, f1⟩ <;> rcases key d2 hd2 with ⟨e2, f2⟩ | ⟨m2, f2⟩
    · exact absurd (f1.trans f2.symm) hne
    · rcases hnick with hk | ⟨_, hk⟩
      · rw [e1, hk]
        apply h3 c hcm d2 m2
        · rw [hcfd]; exact fun h => f2 h.symm
        · rw [← hk, ← e1]; exact hn
      · rw [e1]
        exact fun h => hk d2 m2 h.symm
    · rcases hnick with hk | ⟨_, hk⟩
      · rw [e2, hk]
        apply h3 d1 m1 c hcm
        · rw [hcfd]; exact f1
        · exact hn
      · rw [e2]
        exact hk d1 m1
    · exact h3 d1 m1 d2 m2 hne hn

theorem isValidNickname_ne_nil {n : Str} (h : Utils.isValidNickname n = true) : n ≠ [] := by
  rintro rfl
  simp [Utils.isValidNickname] at h

theorem getClientByNickname_none {s : Server} {n : Str}
    (h : (s.getClientByNickname n).isSome = false) :
    ∀ x ∈ s.clients, Utils.toLower x.nickname ≠ Utils.toLower n := by
  intro x hx heq
  have := (getClientByNickname_isSome_iff s n).mpr ⟨x, hx, heq⟩
  rw [h] at this
  cases this

/-- `NICK` preserves the invariants of the session map, from every state. -/
theorem SessionInv.nickExecute {s t : Server} (hinv : SessionInv s) {fd : Nat}
    {params : List Str} (h : Command.nickExecute s fd params = some t) : SessionInv t := by
  unfold Command.nickExecute at h
  split at h
  · rename_i c newNick rest hc
    simp only at h
    split at h
    · cases h; exact hinv.benign (benign_sendReply _ _ _)
    · rename_i hv0
      have hv : Utils.isValidNickname newNick = true := by simpa using hv0
      split at h
      · cases h; exact hinv.benign (benign_sendReply _ _ _)
      · rename_i hu
        simp only [Bool.not_eq_true] at hu
        have hs1 : SessionInv (s.modifyClient fd (fun d => d.setNickname newNick)) := by
          refine hinv.modifyClient_of hc (fun d => d.setNickname newNick) (fun _ => rfl) ?_ ?_
          · intro hst
            exact ⟨isValidNickname_ne_nil hv, (hinv.2.1 c (getClient_mem hc) hst).2⟩
          · right
            exact ⟨isValidNickname_ne_nil hv, getClientByNickname_none hu⟩
        split at h
        · cases h
          exact hs1.benign ((benign_sendMessage _ _ _).foldl_channelBroadcast _ _ _)
        · split at h
          · rename_i hps
            cases h
            have hc1 : (s.modifyClient fd (fun d => d.setNickname newNick)).getClient fd =
                some (c.setNickname newNick) := by
              simp [getClient_modifyClient_self, hc]
            have hs2 := hs1.modifyClient_of hc1
              (fun d => d.setStatus ClientStatus.REGISTERED) (fun _ => rfl)
              (fun _ => ⟨isValidNickname_ne_nil hv, hps.2⟩) (Or.inl rfl)
            exact hs2.benign (benign_sendWelcomeMessages _ _)
          · cases h; exact hs1
  · cases h

/-- `USER` preserves the invariants when its first parameter is not empty. -/
theorem SessionInv.userExecute {s t : Server} (hinv : SessionInv s) {fd : Nat}
    {params : List Str} (hp : params.head? ≠ some [])
    (h : Command.userExecute s fd params = some t) : SessionInv t := by
  unfold Command.userExecute at h
  split at h
  · rename_i c p0 p1 p2 p3 rest hc
    have hp0 : p0 ≠ [] := by simpa using hp
    simp only at h
    split at h
    · cases h; exact hinv.benign (benign_sendReply _ _ _)
    · rename_i hreg
      have hnr : c.status ≠ ClientStatus.REGISTERED := by
        simpa [Client.isRegistered] using hreg
      have hs1 : SessionInv (s.modifyClient fd
          (fun d => (d.setUsername p0).setRealname p3)) := by
        refine hinv.modifyClient_of hc (fun d => (d.setUsername p0).setRealname p3)
          (fun _ => rfl) ?_ ?_
        · intro hst; exact absurd hst hnr
        · left; rfl
      split at h
      · rename_i hps
        cases h
        have hc1 : (s.modifyClient fd (fun d => (d.setUsername p0).setRealname p3)).getClient fd
            = some ((c.setUsername p0).setRealname p3) := by
          simp [getClient_modifyClient_self, hc]
        have hs2 := hs1.modifyClient_of hc1
          (fun d => d.setStatus ClientStatus.REGISTERED) (fun _ => rfl)
          (fun _ => ⟨hps.2, hp0⟩) (Or.inl rfl)
        exact hs2.benign (benign_sendWelcomeMessages _ _)
      · cases h; exact hs1
  · cases h

theorem SessionInv.passExecute {s t : Server} (hinv : SessionInv s) {fd : Nat}
    {params : List Str} (h : Command.passExecute s fd params = some t) : SessionInv t := by
  unfold Command.passExecute at h
  split at h
  · rename_i c p0 rest hc
    split at h
    · cases h; exact hinv.benign (benign_sendReply _ _ _)
    · split at h
      · cases h; exact hinv.benign (benign_sendReply _ _ _)
      · cases h
        refine hinv.modifyClient_of hc (fun d => d.setStatus ClientStatus.PASSWORD_SENT)
          (fun _ => rfl) ?_ ?_
        · intro hst; cases hst
        · left; rfl
  · cases h

theorem dropWhile_head_false {p : Char → Bool} :
    ∀ (l : Str) (d : Char) (r : Str), l.dropWhile p = d :: r → p d = false := by
  intro l
  induction l with
  | nil => intro d r h; cases h
  | cons a l ih =>
    intro d r h
    by_cases ha : p a = true
    · rw [List.dropWhile_cons_of_pos ha] at h
      exact ih d r h
    · rw [List.dropWhile_cons_of_neg ha] at h
      cases h
      simpa using ha

/-- A parameter list of `parseParams` with at least two entries starts with a non-empty
token: only a line whose parameter text starts with `:` yields an empty parameter, and
then it is the only one. -/
theorem parseParams_head_ne_nil (paramsStr : Str)
    (h : 2 ≤ (CommandHandler.parseParams paramsStr).length) :
    (CommandHandler.parseParams paramsStr).head? ≠ some [] := by
  unfold CommandHandler.parseParams at h ⊢
  split at h
  · simp at h
  · rename_i hne
    rw [if_neg hne]
    cases paramsStr with
    | nil => exact absurd rfl hne
    | cons c tl =>
      simp only [List.length_cons, CommandHandler.parseParamsLoop] at h ⊢
      split at h
      · simp at h
      · rename_i hc
        rw [if_neg hc]
        split
        · simp
        · rename_i d r1 hd
          have := dropWhile_head_false _ _ _ hd
          simp [List.takeWhile, this]

theorem SessionInv.execute {s t : Server} (hinv : SessionInv s) (cmd : CommandKind) {fd : Nat}
    {params : List Str} (hp : cmd = CommandKind.USER → params.head? ≠ some [])
    (h : cmd.execute s fd params = some t) : SessionInv t := by
  cases cmd <;> simp only [CommandKind.execute] at h
  case PASS => exact hinv.passExecute h
  case NICK => exact hinv.nickExecute h
  case USER => exact hinv.userExecute (hp rfl) h
  case QUIT => exact hinv.benign (benign_quitExecute h)
  case JOIN => exact hinv.benign (benign_joinExecute h)
  case PART => exact hinv.benign (benign_partExecute h)
  case PRIVMSG => exact hinv.benign (benign_privmsgExecute h)
  case NOTICE => exact hinv.benign (benign_noticeExecute h)
  case MODE => exact hinv.benign (benign_modeExecute h)
  case TOPIC => exact hinv.benign (benign_topicExecute h)
  case KICK => exact hinv.benign (benign_kickExecute h)
  case PING => exact hinv.benign (benign_pingExecute h)
  all_goals exact hinv.benign (benign_stubExecute h)

theorem SessionInv.executeCommand {s t : Server} (hinv : SessionInv s) {fd : Nat} {line : Str}
    (h : CommandHandler.executeCommand s fd line = some t) : SessionInv t := by
  unfold CommandHandler.executeCommand at h
  split at h
  · cases h; exact hinv
  · simp only at h
    split at h
    · cases h; exact hinv.benign (benign_sendReply _ _ _)
    · rename_i cmd hcmd
      split at h
      · cases h; exact hinv.benign (benign_sendReply _ _ _)
      · split at h
        · cases h; exact hinv.benign (benign_sendReply _ _ _)
        · rename_i hlen
          refine hinv.execute cmd ?_ h
          intro hu
          subst hu
          apply parseParams_head_ne_nil
          simp only [CommandKind.getMinParams, Nat.not_lt] at hlen
          omega

theorem SessionInv.processLine {s t : Server} (hinv : SessionInv s) {fd : Nat} {line : Str}
    (h : s.processLine fd line = some t) : SessionInv t := by
  unfold Server.processLine at h
  split at h
  · cases h; exact hinv
  · simp only at h
    split at h
    · cases h; exact hinv.benign (benign_sendMessage _ _ _)
    · exact hinv.executeCommand h

theorem SessionInv.messageLoop (fuel : Nat) :
    ∀ {s t : Server} {fd : Nat} {buf rest : Str}, SessionInv s →
      Server.messageLoop fuel s fd buf = some (t, rest) → SessionInv t := by
  induction fuel with
  | zero =>
    intro s t fd buf rest hinv h
    simp only [Server.messageLoop, Option.some.injEq, Prod.mk.injEq] at h
    rw [← h.1]; exact hinv
  | succ n ih =>
    intro s t fd buf rest hinv h
    simp only [Server.messageLoop] at h
    split at h
    · simp only [Option.some.injEq, Prod.mk.injEq] at h
      rw [← h.1]; exact hinv
    · split at h
      · split at h
        · cases h
        · rename_i s1 hs1
          exact ih (hinv.processLine hs1) h
      · exact ih hinv h

theorem mem_insertClient {c d : Client} {l : List Client} (h : d ∈ Server.insertClient c l) :
    d = c ∨ d ∈ l := by
  induction l with
  | nil => simpa [Server.insertClient] using h
  | cons a l ih =>
    simp only [Server.insertClient] at h
    split at h
    · rcases List.mem_cons.mp h with h | h
      · exact Or.inl h
      · exact Or.inr h
    · split at h
      · rcases List.mem_cons.mp h with h | h
        · exact Or.inl h
        · exact Or.inr (List.mem_cons_of_mem _ h)
      · rcases List.mem_cons.mp h with h | h
        · exact Or.inr (h ▸ List.mem_cons_self _ _)
        · rcases ih h with h | h
          · exact Or.inl h
          · exact Or.inr (List.mem_cons_of_mem _ h)

theorem sorted_insertClient (c : Client) (l : List Client)
    (h : (l.map Client.fd).Pairwise (fun a b => a < b)) :
    ((Server.insertClient c l).map Client.fd).Pairwise (fun a b => a < b) := by
  induction l with
  | nil => simp [Server.insertClient]
  | cons a l ih =>
    simp only [List.map_cons, List.pairwise_cons, List.mem_map, forall_exists_index, and_imp,
      forall_apply_eq_imp_iff₂] at h
    obtain ⟨ha, hl⟩ := h
    simp only [Server.insertClient]
    split
    · rename_i hlt
      simp only [List.map_cons, List.pairwise_cons, List.mem_cons, List.mem_map,
        forall_eq_or_imp, forall_exists_index, and_imp, forall_apply_eq_imp_iff₂]
      refine ⟨⟨hlt, fun x hx => lt_trans hlt (ha x hx)⟩, ha, hl⟩
    · split
      · rename_i heq
        simp only [List.map_cons, List.pairwise_cons, List.mem_map, forall_exists_index,
          and_imp, forall_apply_eq_imp_iff₂]
        exact ⟨fun x hx => heq ▸ ha x hx, hl⟩
      · rename_i hnlt hne
        simp only [List.map_cons, List.pairwise_cons, List.mem_map, forall_exists_index,
          and_imp, forall_apply_eq_imp_iff₂]
        refine ⟨?_, ih hl⟩
        intro x hx
        rcases mem_insertClient hx with rfl | hx
        · omega
        · exact ha x hx

theorem SessionInv.acceptNewConnection {s : Server} (hinv : SessionInv s) (fd : Nat)
    (host : Str) (addr : Nat) : SessionInv (s.acceptNewConnection fd host addr) := by
  unfold Server.acceptNewConnection
  split
  · exact hinv
  · obtain ⟨h1, h2, h3⟩ := hinv
    refine ⟨sorted_insertClient _ _ h1, ?_, ?_⟩
    · intro d hd hst
      rcases mem_insertClient hd with rfl | hd
      · cases hst
      · exact h2 d hd hst
    · intro d1 hd1 d2 hd2 hne hn
      rcases mem_insertClient hd1 with rfl | hd1
      · exact absurd rfl hn
      · rcases mem_insertClient hd2 with rfl | hd2
        · intro heq
          exact hn (toLower_eq_nil heq)
        · exact h3 d1 hd1 d2 hd2 hne hn

theorem SessionInv.filterClients {s : Server} (hinv : SessionInv s) (p : Client → Bool) :
    SessionInv { s with clients := s.clients.filter p } := by
  obtain ⟨h1, h2, h3⟩ := hinv
  refine ⟨?_, ?_, ?_⟩
  · exact List.Pairwise.sublist ((List.filter_sublist _).map _) h1
  · intro d hd hst
    exact h2 d (List.mem_of_mem_filter hd) hst
  · intro d1 hd1 d2 hd2 hne hn
    exact h3 d1 (List.mem_of_mem_filter hd1) d2 (List.mem_of_mem_filter hd2) hne hn

theorem benign_leaveAndReap (clientFd : Nat) (s : Server) (key : Str) :
    Benign s (Server.leaveAndReap clientFd s key) := by
  unfold Server.leaveAndReap
  simp only
  split
  · exact benign_channelRemoveClient _ _ _
  · split
    · exact (benign_channelRemoveClient _ _ _).trans (benign_of_clients_eq rfl)
    · exact benign_channelRemoveClient _ _ _

theorem SessionInv.removeClient {s t : Server} (hinv : SessionInv s) {fd : Nat}
    (h : s.removeClient fd = some t) : SessionInv t := by
  unfold Server.removeClient at h
  split at h
  · cases h; exact hinv
  · rename_i client hc
    simp only at h
    split at h
    · cases h
    · rename_i fds1 hfds
      cases h
      have hb : Benign s (List.foldl (Server.leaveAndReap fd)
          (if client.isRegistered = true ∧ client.nickname ≠ [] then
            s.broadcast (':' :: client.nickname ++ " !".toList ++ client.username ++
              '@' :: client.hostname ++ " QUIT :Connection closed".toList) fd
          else s) client.channels) := by
        refine Benign.trans ?_ (benign_foldl _ _ (fun x k => benign_leaveAndReap fd x k) _)
        split
        · exact benign_broadcast _ _ _
        · exact Benign.refl s
      have := (hinv.benign hb).filterClients (fun d => d.fd != fd)
      exact this

theorem SessionInv.handleClientMessage {s t : Server} (hinv : SessionInv s) {fd : Nat}
    {data : Str} (h : s.handleClientMessage fd data = some t) : SessionInv t := by
  unfold Server.handleClientMessage at h
  split at h
  · cases h; exact hinv
  · rename_i client hc
    split at h
    · exact hinv.removeClient h
    · simp only at h
      split at h
      · cases h
      · rename_i s2 rest hloop
        cases h
        have h1 : SessionInv (s.modifyClient fd (fun d => { d with buffer := d.buffer ++ data })) :=
          hinv.benign (benign_modifyClient _ _ _ (fun c => ⟨rfl, rfl, rfl, rfl, Or.inl rfl⟩))
        have h2 := SessionInv.messageLoop _ h1 hloop
        refine h2.benign (Benign.trans ?_ (benign_processMessages _ _))
        exact benign_modifyClient _ _ _ (fun c => ⟨rfl, rfl, rfl, rfl, Or.inl rfl⟩)

theorem SessionInv.init (serverSocket : Nat) (password creationDate : Str)
    (env : List SendResult) : SessionInv (Server.init serverSocket password creationDate env) := by
  refine ⟨?_, ?_, ?_⟩
  · simp [SortedFds, Server.init]
  · intro c hc; simp [Server.init] at hc
  · intro c hc; simp [Server.init] at hc

theorem SessionInv.step {s t : Server} (hinv : SessionInv s) (e : Event)
    (h : step s e = some t) : SessionInv t := by
  cases e with
  | accept fd host addr =>
    simp only [Irc.step, Option.some.injEq] at h
    rw [← h]; exact hinv.acceptNewConnection fd host addr
  | recv fd data => exact hinv.handleClientMessage h

/-- Every reachable state satisfies the invariants of the session map. -/
theorem SessionInv.reachable {s : Server} (h : Reachable s) : SessionInv s := by
  induction h with
  | init sock pw date env => exact SessionInv.init sock pw date env
  | step e _ hstep ih => exact ih.step e hstep

theorem reachable_run {s t : Server} (hs : Reachable s) (es : List Event)
    (h : run s es = some t) : Reachable t := by
  induction es generalizing s with
  | nil => simp only [run, Option.some.injEq] at h; rw [← h]; exact hs
  | cons e es ih =>
    simp only [run] at h
    split at h
    · cases h
    · rename_i s1 hs1
      exact ih (Reachable.step e hs hs1) h

theorem demoServer_is_reachable : Reachable demoServer :=
  reachable_run (Reachable.init 3 "secret".toList "today".toList []) demoEvents
    demoServer_reachable

/-- C5: in every state reachable from the initial state by accepted connections and
received data (each line going through the password gate and the dispatcher), a session
whose status is `REGISTERED` has a non-empty nickname and a non-empty user name. -/
theorem registered_session_named (s : Server) (h : Reachable s) :
    ∀ c ∈ s.clients, c.status = ClientStatus.REGISTERED → c.nickname ≠ [] ∧ c.username ≠ [] :=
  (SessionInv.reachable h).2.1

/-- C5 on the demonstration state: the session of descriptor 4 is registered and has a
nickname and a user name. -/
theorem registered_session_named_witness :
    ∃ c, demoServer.getClient 4 = some c ∧ c.status = ClientStatus.REGISTERED ∧
      c.nickname ≠ [] ∧ c.username ≠ [] := by
  have hst : (demoServer.getClient 4).map Client.status = some ClientStatus.REGISTERED := by
    rfl
  cases hc : demoServer.getClient 4 with
  | none => rw [hc] at hst; cases hst
  | some c =>
    rw [hc] at hst
    have hreg : c.status = ClientStatus.REGISTERED := by simpa using hst
    exact ⟨c, rfl, hreg,
      registered_session_named demoServer demoServer_is_reachable c (getClient_mem hc) hreg⟩

/-- C6: in every reachable state each descriptor has one session, and no two sessions
with different descriptors have non-empty nicknames that are equal after ASCII
lowercasing; the state a `NICK` command leaves has the same property. -/
theorem nickname_unique (s : Server) (h : Reachable s) :
    (s.clients.map Client.fd).Nodup ∧
    (∀ c1 ∈ s.clients, ∀ c2 ∈ s.clients, c1.fd ≠ c2.fd → c1.nickname ≠ [] →
      Utils.toLower c1.nickname ≠ Utils.toLower c2.nickname) ∧
    (∀ fd params t, Command.nickExecute s fd params = some t →
      (t.clients.map Client.fd).Nodup ∧
      ∀ c1 ∈ t.clients, ∀ c2 ∈ t.clients, c1.fd ≠ c2.fd → c1.nickname ≠ [] →
        Utils.toLower c1.nickname ≠ Utils.toLower c2.nickname) := by
  have hinv := SessionInv.reachable h
  have nodup : ∀ u : Server, SessionInv u → (u.clients.map Client.fd).Nodup :=
    fun u hu => List.Pairwise.imp (fun hab => Nat.ne_of_lt hab) hu.1
  refine ⟨nodup s hinv, hinv.2.2, ?_⟩
  intro fd params t ht
  have := hinv.nickExecute ht
  exact ⟨nodup t this, this.2.2⟩

/-- C6 on the demonstration state: the sessions of descriptors 4 (`alice`) and 5
(`bob`) have different lowercased nicknames. -/
theorem nickname_unique_witness :
    (demoServer.clients.map Client.fd).Nodup ∧
    ∃ c1 c2, demoServer.getClient 4 = some c1 ∧ demoServer.getClient 5 = some c2 ∧
      c1.nickname = "alice".toList ∧
      Utils.toLower c1.nickname ≠ Utils.toLower c2.nickname := by
  refine ⟨(nickname_unique demoServer demoServer_is_reachable).1, ?_⟩
  have hn : (demoServer.getClient 4).map Client.nickname = some "alice".toList := by rfl
  have hs : (demoServer.getClient 5).isSome = true := by rfl
  cases h1 : demoServer.getClient 4 with
  | none => rw [h1] at hn; cases hn
  | some c1 =>
    cases h2 : demoServer.getClient 5 with
    | none => rw [h2] at hs; cases hs
    | some c2 =>
      rw [h1] at hn
      have hn1 : c1.nickname = "alice".toList := by simpa using hn
      refine ⟨c1, c2, rfl, rfl, hn1, ?_⟩
      apply (nickname_unique demoServer demoServer_is_reachable).2.1 c1 (getClient_mem h1) c2
        (getClient_mem h2)
      · rw [getClient_fd h1, getClient_fd h2]; decide
      · rw [hn1]; decide

/-! ### The bounded loops never run out of fuel -/

theorem length_dropWhile_le {α : Type} (p : α → Bool) (l : List α) :
    (l.dropWhile p).length ≤ l.length := by
  induction l with
  | nil => simp
  | cons a l ih =>
    by_cases h : p a = true
    · rw [List.dropWhile_cons_of_pos h]; simp only [List.length_cons]; omega
    · rw [List.dropWhile_cons_of_neg h]

/-- `parseParamsLoop` gives the same parameters for every fuel above the length of the
text: the loop of `CommandHandler::parseParams` ends before the bound is reached. -/
theorem parseParamsLoop_fuel (n : Nat) :
    ∀ (m : Nat) (rest : Str), rest.length < n → rest.length < m →
      CommandHandler.parseParamsLoop n rest = CommandHandler.parseParamsLoop m rest := by
  induction n with
  | zero => intro m rest h; omega
  | succ k ih =>
    intro m rest hn hm
    cases m with
    | zero => omega
    | succ j =>
      cases rest with
      | nil => rfl
      | cons c tl =>
        simp only [CommandHandler.parseParamsLoop]
        split
        · rfl
        · split
          · rfl
          · rename_i d r1 hd
            have h1 : (d :: r1).length ≤ (c :: tl).length := by
              rw [← hd]; exact length_dropWhile_le _ _
            have hds : isspace d = false := dropWhile_head_false _ _ _ hd
            have h2 : ((d :: r1).dropWhile (fun x => !isspace x)).length ≤ r1.length := by
              rw [List.dropWhile_cons_of_pos (by simp [hds])]
              exact length_dropWhile_le _ _
            simp only [List.length_cons] at h1 hn hm
            congr 1
            apply ih <;> omega

/-- `parseIRCParams` gives the same parameters for every fuel above the length of the
text. -/
theorem parseIRCParams_fuel (n : Nat) :
    ∀ (m : Nat) (rest : Str), rest.length < n → rest.length < m →
      Utils.parseIRCParams n rest = Utils.parseIRCParams m rest := by
  induction n with
  | zero => intro m rest h; omega
  | succ k ih =>
    intro m rest hn hm
    cases m with
    | zero => omega
    | succ j =>
      cases rest with
      | nil => rfl
      | cons c tl =>
        simp only [Utils.parseIRCParams]
        split
        · rfl
        · have h2 : (((c :: tl).dropWhile (fun x => !isspace x)).dropWhile isspace).length
              ≤ tl.length := by
            by_cases hc : isspace c = true
            · rw [List.dropWhile_cons_of_neg (by simp [hc]), List.dropWhile_cons_of_pos hc]
              exact length_dropWhile_le _ _
            · rw [List.dropWhile_cons_of_pos (by simpa using hc)]
              exact le_trans (length_dropWhile_le _ _) (length_dropWhile_le _ _)
          simp only [List.length_cons] at hn hm
          congr 1
          apply ih <;> omega

theorem findCRLF_length {buf m r : Str} (h : Server.findCRLF buf = some (m, r)) :
    r.length < buf.length := by
  induction buf generalizing m r with
  | nil => simp [Server.findCRLF] at h
  | cons a tl ih =>
    cases tl with
    | nil => simp [Server.findCRLF] at h
    | cons b rest =>
      simp only [Server.findCRLF] at h
      split at h
      · simp only [Option.some.injEq, Prod.mk.injEq] at h
        rw [← h.2]; simp only [List.length_cons]; omega
      · split at h
        · cases h
        · rename_i m1 r1 h1
          simp only [Option.some.injEq, Prod.mk.injEq] at h
          have := ih h1
          rw [← h.2]
          simp only [List.length_cons] at this ⊢
          omega

theorem findLF_length {buf m r : Str} (h : Server.findLF buf = some (m, r)) :
    r.length < buf.length := by
  induction buf generalizing m r with
  | nil => simp [Server.findLF] at h
  | cons a tl ih =>
    simp only [Server.findLF] at h
    split at h
    · simp only [Option.some.injEq, Prod.mk.injEq] at h
      rw [← h.2]; simp only [List.length_cons]; omega
    · split at h
      · cases h
      · rename_i m1 r1 h1
        simp only [Option.some.injEq, Prod.mk.injEq] at h
        have := ih h1
        rw [← h.2]
        simp only [List.length_cons]
        omega

theorem nextMessage_length {buf m r : Str} (h : Server.nextMessage buf = some (m, r)) :
    r.length < buf.length := by
  unfold Server.nextMessage at h
  split at h
  · rename_i x hx
    cases h
    exact findCRLF_length hx
  · exact findLF_length h

/-- `messageLoop` gives the same result for every fuel above the length of the buffer:
the loop of `Server::handleClientMessage` ends before the bound is reached. -/
theorem messageLoop_fuel (n : Nat) :
    ∀ (m : Nat) (s : Server) (fd : Nat) (buf : Str), buf.length < n → buf.length < m →
      Server.messageLoop n s fd buf = Server.messageLoop m s fd buf := by
  induction n with
  | zero => intro m s fd buf h; omega
  | succ k ih =>
    intro m s fd buf hn hm
    cases m with
    | zero => omega
    | succ j =>
      simp only [Server.messageLoop]
      split
      · rfl
      · rename_i message rest hnext
        have hlen := nextMessage_length hnext
        split
        · split
          · rfl
          · apply ih <;> omega
        · apply ih <;> omega

/-! ### One complete line through `handleClientMessage` -/

theorem findCRLF_append (line rest : Str) (hcr : '\r' ∉ line) :
    Server.findCRLF (line ++ '\r' :: '\n' :: rest) = some (line, rest) := by
  induction line with
  | nil => simp [Server.findCRLF]
  | cons a tl ih =>
    have ha : a ≠ '\r' := fun h => hcr (by simp [h])
    have htl : '\r' ∉ tl := fun h => hcr (List.mem_cons_of_mem _ h)
    have ih1 := ih htl
    cases tl with
    | nil =>
      simp [Server.findCRLF, ha]
    | cons b r =>
      simp only [List.cons_append] at ih1
      show Server.findCRLF (a :: b :: (r ++ '\r' :: '\n' :: rest)) = _
      simp only [Server.findCRLF, ha, false_and, ↓reduceIte]
      rw [ih1]

theorem messageLoop_nil (fuel : Nat) (s : Server) (fd : Nat) :
    Server.messageLoop fuel s fd [] = some (s, []) := by
  cases fuel <;> rfl

/-- A complete line received on an empty buffer: `Server::handleClientMessage` runs the
loop body once on the line, empties the buffer and flushes the queue. -/
theorem handleClientMessage_line (s : Server) (fd : Nat) (c : Client) (line : Str)
    (hc : s.getClient fd = some c) (hbuf : c.buffer = []) (hne : line ≠ [])
    (hcr : '\r' ∉ line) :
    s.handleClientMessage fd (line ++ CRLF) =
      (Server.processLine
          (s.modifyClient fd (fun d => { d with buffer := d.buffer ++ (line ++ CRLF) }))
          fd line).map
        (fun s2 => (s2.modifyClient fd (fun d => { d with buffer := [] })).processMessages
          fd) := by
  unfold Server.handleClientMessage
  rw [hc]
  have hd : line ++ CRLF ≠ [] := by simp [CRLF]
  simp only [hd, ↓reduceIte, hbuf, List.nil_append]
  have hn : Server.nextMessage (line ++ CRLF) = some (line, []) := by
    unfold Server.nextMessage
    rw [show line ++ CRLF = line ++ '\r' :: '\n' :: [] from rfl, findCRLF_append line [] hcr]
  simp only [Server.messageLoop, hn, ne_eq, hne, not_false_eq_true, ↓reduceIte]
  cases Server.processLine
    (s.modifyClient fd (fun d => { d with buffer := d.buffer ++ (line ++ CRLF) })) fd line with
  | none => rfl
  | some s1 => simp only [messageLoop_nil, Option.map_some']

/-! ### Sending leaves the channel map alone -/

@[simp] theorem sendReply_channels (s : Server) (fd : Nat) (m : Str) :
    (s.sendReply fd m).channels = s.channels := by
  unfold Server.sendReply; simp

@[simp] theorem broadcastTo_channels (members : List (Nat × Nat)) (m : Str)
    (exclude : Option Nat) : ∀ s : Server, (s.broadcastTo members m exclude).channels = s.channels := by
  induction members with
  | nil => intro s; rfl
  | cons a l ih =>
    intro s
    unfold Server.broadcastTo at ih ⊢
    simp only [List.foldl_cons]
    rw [ih]
    split <;> simp

@[simp] theorem channelBroadcast_channels (s : Server) (key m : Str) (exclude : Option Nat) :
    (s.channelBroadcast key m exclude).channels = s.channels := by
  unfold Server.channelBroadcast
  split
  · rfl
  · simp

theorem getChannel_congr {s t : Server} (h : t.channels = s.channels) (name : Str) :
    t.getChannel name = s.getChannel name := by
  unfold Server.getChannel; rw [h]

@[simp] theorem sendNames_channels (s : Server) (fd : Nat) (n : Str) (ch : Channel) :
    (Command.sendNames s fd n ch).channels = s.channels := by
  unfold Command.sendNames; simp

theorem getChannel_createChannel {s : Server} {name : Str} (h : s.getChannel name = none)
    (fd : Nat) :
    (s.createChannel name fd).channels =
      s.channels ++ [(Utils.toLower name, { name := name, clients := [(fd, USER_MODE_OPERATOR)] })] ∧
    (s.createChannel name fd).getChannel name =
      some { name := name, clients := [(fd, USER_MODE_OPERATOR)] } := by
  have hch : (s.createChannel name fd).channels =
      s.channels ++ [(Utils.toLower name, { name := name, clients := [(fd, USER_MODE_OPERATOR)] })] := by
    unfold Server.createChannel
    rw [h]
    simp
  refine ⟨hch, ?_⟩
  unfold Server.getChannel at h ⊢
  rw [hch, List.find?_append]
  simp only [Option.map_eq_none'] at h
  rw [h]
  simp

/-! ### Channels: lookup and update -/

theorem find_key_map (l : List (Str × Channel)) (h : Str × Channel → Str × Channel)
    (hk : ∀ kc, (h kc).1 = kc.1) (key1 : Str) :
    (l.map h).find? (fun kc => kc.1 = key1) = (l.find? (fun kc => kc.1 = key1)).map h := by
  induction l with
  | nil => rfl
  | cons a l ih =>
    by_cases ha : a.1 = key1
    · simp [List.find?, hk, ha]
    · simp [List.find?, hk, ha, ih]

theorem modifyChannel_key (key : Str) (f : Channel → Channel) (kc : Str × Channel) :
    (if kc.1 = key then (kc.1, f kc.2) else kc).1 = kc.1 := by
  split <;> rfl

theorem getChannel_modifyChannel_self (s : Server) (name : Str) (f : Channel → Channel) :
    (s.modifyChannel (Utils.toLower name) f).getChannel name = (s.getChannel name).map f := by
  unfold Server.getChannel Server.modifyChannel
  simp only
  rw [find_key_map _ _ (modifyChannel_key _ f)]
  cases h : s.channels.find? (fun kc => kc.1 = Utils.toLower name) with
  | none => rfl
  | some kc =>
    have hk : kc.1 = Utils.toLower name := by simpa using List.find?_some h
    simp [hk]

theorem getChannel_modifyChannel_other (s : Server) (key name : Str) (f : Channel → Channel)
    (hne : Utils.toLower name ≠ key) :
    (s.modifyChannel key f).getChannel name = s.getChannel name := by
  unfold Server.getChannel Server.modifyChannel
  simp only
  rw [find_key_map _ _ (modifyChannel_key _ f)]
  cases h : s.channels.find? (fun kc => kc.1 = Utils.toLower name) with
  | none => rfl
  | some kc =>
    have hk : kc.1 = Utils.toLower name := by simpa using List.find?_some h
    simp [hk, hne]

theorem getChannel_find {s : Server} {name : Str} {ch : Channel}
    (h : s.getChannel name = some ch) :
    s.channels.find? (fun kc => kc.1 = Utils.toLower name) = some (Utils.toLower name, ch) := by
  unfold Server.getChannel at h
  cases hf : s.channels.find? (fun kc => kc.1 = Utils.toLower name) with
  | none => rw [hf] at h; cases h
  | some kc =>
    rw [hf] at h
    have hk : kc.1 = Utils.toLower name := by simpa using List.find?_some hf
    simp only [Option.map_some', Option.some.injEq] at h
    rw [← h, ← hk]

theorem find_insertMember_other (addr : Nat → Nat) (fd flags fd1 : Nat) (l : List (Nat × Nat))
    (hne : fd1 ≠ fd) :
    (Channel.insertMember addr fd flags l).find? (fun m => m.1 = fd1) =
      l.find? (fun m => m.1 = fd1) := by
  induction l with
  | nil => simp [Channel.insertMember, List.find?, hne.symm]
  | cons a l ih =>
    unfold Channel.insertMember
    split
    · rename_i h1
      have : ¬ a.1 = fd1 := fun e => hne (e.symm.trans h1.symm)
      simp [List.find?, hne.symm, this]
    · split
      · simp [List.find?, hne.symm]
      · by_cases ha : a.1 = fd1
        · simp [List.find?, ha]
        · simp [List.find?, ha, ih]

theorem getChannel_addClient {s : Server} {name : Str} {ch : Channel}
    (h : s.getChannel name = some ch) (fd : Nat) (asOperator : Bool) :
    (s.addClient (Utils.toLower name) fd asOperator).getChannel name =
      some (if ch.hasClient fd then ch
        else
          let flags := if asOperator then USER_MODE_OPERATOR else 0
          { ch with clients := Channel.insertMember s.addressOf fd flags ch.clients }) := by
  unfold Server.addClient
  rw [getChannel_find h]
  simp only
  split
  · exact h
  · rw [getChannel_congr (modifyClient_channels _ _ _), getChannel_modifyChannel_self, h]
    rfl

/-- C14: a `JOIN` with a valid channel name for which `Server::getChannel` finds no
channel (no key of the channel map equals the lowercased name) creates the channel
through `Server::createChannel`: the map gains one entry, stored under the lowercased
name, whose channel keeps the name as given, has the joiner as only member with the
operator flag, and has no mode, no topic, no key and no limit. -/
theorem joinExecute_creates (s : Server) (fd : Nat) (c : Client) (name : Str)
    (rest : List Str) (hc : s.getClient fd = some c)
    (hv : Utils.isValidChannelName name = true) (hno : s.getChannel name = none) :
    (∀ kc ∈ s.channels, kc.1 ≠ Utils.toLower name) ∧
    (s.createChannel name fd).channels =
      s.channels ++
        [(Utils.toLower name, { name := name, clients := [(fd, USER_MODE_OPERATOR)] })] ∧
    ∃ t ch, Command.joinExecute s fd (name :: rest) = some t ∧
      t.channels = s.channels ++ [(Utils.toLower name, ch)] ∧
      t.getChannel name = some ch ∧
      ch.name = name ∧
      ch.clients = [(fd, USER_MODE_OPERATOR)] ∧
      (∀ fd1, ch.hasClient fd1 = true ↔ fd1 = fd) ∧
      ch.isOperator fd = true ∧
      ch.modes = 0 ∧ ch.topic = [] ∧ ch.password = [] ∧ ch.userLimit = 0 ∧
      ch.invitedUsers = [] := by
  have hcr := getChannel_createChannel hno fd
  refine ⟨?_, hcr.1, ?_⟩
  · intro kc hkc hk
    unfold Server.getChannel at hno
    simp only [Option.map_eq_none', List.find?_eq_none, decide_eq_true_eq] at hno
    exact hno kc hkc hk
  · have hinv : Channel.isInvited
        ({ name := name, clients := [(fd, USER_MODE_OPERATOR)] } : Channel) c.nickname = false := by
      simp [Channel.isInvited]
    have hj : Command.joinExecute s fd (name :: rest) =
        some (Command.sendNames
          ((s.createChannel name fd).channelBroadcast (Utils.toLower name)
            (c.hostmask ++ " JOIN :".toList ++ name) none) fd c.nickname
          { name := name, clients := [(fd, USER_MODE_OPERATOR)] }) := by
      unfold Command.joinExecute
      rw [hc]
      simp only [hv, Bool.not_true, Bool.false_eq_true, ↓reduceIte, hno]
      unfold Command.joinTail
      simp only [hcr.2, Option.any_some, hinv, Bool.false_eq_true, ↓reduceIte]
      rw [getChannel_congr (channelBroadcast_channels _ _ _ _), hcr.2]
      simp
    have hchan : (Command.sendNames
          ((s.createChannel name fd).channelBroadcast (Utils.toLower name)
            (c.hostmask ++ " JOIN :".toList ++ name) none) fd c.nickname
          { name := name, clients := [(fd, USER_MODE_OPERATOR)] }).channels =
        (s.createChannel name fd).channels := by simp
    refine ⟨_, { name := name, clients := [(fd, USER_MODE_OPERATOR)] }, hj, ?_, ?_,
      rfl, rfl, ?_, ?_, rfl, rfl, rfl, rfl, rfl⟩
    · rw [hchan, hcr.1]
    · rw [getChannel_congr hchan, hcr.2]
    · intro fd1
      unfold Channel.hasClient Channel.findClient
      by_cases h : fd = fd1
      · simp [List.find?, h]
      · have h2 : ¬ fd1 = fd := fun e => h e.symm
        simp [List.find?, h, h2]
    · simp [Channel.isOperator, Channel.findClient, List.find?, USER_MODE_OPERATOR]

set_option maxRecDepth 100000 in
/-- C14 on the demonstration state: `alice` joins `#Bar`, which does not exist; the
channel is stored under `#bar` with the name `#Bar` and `alice` as operator. -/
theorem joinExecute_creates_witness :
    ∃ t ch, Command.joinExecute demoServer 4 ["#Bar".toList] = some t ∧
      t.getChannel "#bar".toList = some ch ∧ ch.name = "#Bar".toList ∧
      ch.clients = [(4, USER_MODE_OPERATOR)] ∧ ch.isOperator 4 = true := by
  obtain ⟨_, _, t, ch, h1, h2, h3, h4, h5, _, h7, _⟩ :=
    joinExecute_creates demoServer 4
      ((demoServer.getClient 4).getD { fd := 4 }) "#Bar".toList [] (by rfl) (by decide)
      (by rfl)
  exact ⟨t, ch, h1, h3, h4, h5, h7⟩

theorem joinTail_channels (s : Server) (fd : Nat) (c : Client) (name key : Str) :
    (Command.joinTail s fd c name key).channels =
      (if (s.getChannel name).any (fun ch => ch.isInvited c.nickname) then
        s.modifyChannel key (fun ch => ch.removeInvite c.nickname) else s).channels := by
  unfold Command.joinTail
  simp only
  split
  · simp
  · split <;> simp

/-- The loop of `handleClientMessage` runs its body on the messages of `frameLoop`, in
order, and leaves the buffer `frameLoop` leaves. -/
theorem messageLoop_eq_dispatch (fuel : Nat) :
    ∀ (s : Server) (fd : Nat) (buf : Str),
      Server.messageLoop fuel s fd buf =
        (s.dispatchLines fd (Server.frameLoop fuel buf).1).map
          (fun t => (t, (Server.frameLoop fuel buf).2)) := by
  induction fuel with
  | zero => intro s fd buf; rfl
  | succ k ih =>
    intro s fd buf
    cases hn : Server.nextMessage buf with
    | none => simp only [Server.messageLoop, Server.frameLoop, hn]; rfl
    | some mr =>
      obtain ⟨message, rest⟩ := mr
      by_cases hm : message = []
      · simp only [Server.messageLoop, Server.frameLoop, hn, hm, ne_eq, not_true_eq_false,
          ↓reduceIte]
        exact ih s fd rest
      · simp only [Server.messageLoop, Server.frameLoop, hn, ne_eq, hm, not_false_eq_true,
          ↓reduceIte, Server.dispatchLines]
        cases hp : s.processLine fd message with
        | none => rfl
        | some s1 => exact ih s1 fd rest

theorem frameLoop_fuel (n : Nat) :
    ∀ (m : Nat) (buf : Str), buf.length < n → buf.length < m →
      Server.frameLoop n buf = Server.frameLoop m buf := by
  induction n with
  | zero => intro m buf h; omega
  | succ k ih =>
    intro m buf hn hm
    cases m with
    | zero => omega
    | succ j =>
      cases hnext : Server.nextMessage buf with
      | none => simp only [Server.frameLoop, hnext]
      | some mr =>
        obtain ⟨message, rest⟩ := mr
        have hlen := nextMessage_length hnext
        simp only [Server.frameLoop, hnext]
        rw [ih j rest (by omega) (by omega)]

theorem FdsKept.rfl' (s : Server) : FdsKept s s := rfl

theorem FdsKept.ktrans {s t u : Server} (h1 : FdsKept s t) (h2 : FdsKept t u) : FdsKept s u := by
  unfold FdsKept at *; rw [h2, h1]

theorem Benign.fdsKept {s t : Server} (h : Benign s t) : FdsKept s t :=
  forall₂_evolves_fds h

theorem fdsKept_modifyClient (s : Server) (fd : Nat) (f : Client → Client)
    (hf : ∀ c, (f c).fd = c.fd) : FdsKept s (s.modifyClient fd f) := by
  unfold FdsKept Server.modifyClient
  simp only [List.map_map]
  apply List.map_congr_left
  intro c _
  simp only [Function.comp]
  split
  · exact hf c
  · rfl

theorem FdsKept.of_modifyClient {s t : Server} {fd : Nat} {f : Client → Client}
    (h : FdsKept (s.modifyClient fd f) t) (hf : ∀ c, (f c).fd = c.fd) : FdsKept s t :=
  (fdsKept_modifyClient s fd f hf).ktrans h

theorem FdsKept.getClient_isSome {s t : Server} (h : FdsKept s t) (fd : Nat) :
    (t.getClient fd).isSome = (s.getClient fd).isSome := by
  have key : ∀ l : List Client, (l.find? (fun c => c.fd = fd)).isSome =
      decide (fd ∈ l.map Client.fd) := by
    intro l
    induction l with
    | nil => simp
    | cons a l ih =>
      by_cases ha : a.fd = fd
      · simp [List.find?, ha]
      · have : ¬ fd = a.fd := fun e => ha e.symm
        simp only [List.find?, ha, decide_False, ih, List.map_cons, List.mem_cons, this, false_or]
  unfold Server.getClient
  rw [key, key, h]

theorem fdsKept_nickExecute {s t : Server} {fd : Nat} {params : List Str}
    (h : Command.nickExecute s fd params = some t) : FdsKept s t := by
  unfold Command.nickExecute at h
  split at h
  · simp only at h
    split at h
    · cases h; exact (benign_sendReply _ _ _).fdsKept
    · split at h
      · cases h; exact (benign_sendReply _ _ _).fdsKept
      · split at h
        · cases h
          exact FdsKept.of_modifyClient
            ((benign_sendMessage _ _ _).foldl_channelBroadcast _ _ _).fdsKept (fun _ => rfl)
        · split at h
          · cases h
            exact FdsKept.of_modifyClient (FdsKept.of_modifyClient
              (benign_sendWelcomeMessages _ _).fdsKept (fun _ => rfl)) (fun _ => rfl)
          · cases h; exact fdsKept_modifyClient s fd _ (fun _ => rfl)
  · cases h

theorem fdsKept_userExecute {s t : Server} {fd : Nat} {params : List Str}
    (h : Command.userExecute s fd params = some t) : FdsKept s t := by
  unfold Command.userExecute at h
  split at h
  · simp only at h
    split at h
    · cases h; exact (benign_sendReply _ _ _).fdsKept
    · split at h
      · cases h
        exact FdsKept.of_modifyClient (FdsKept.of_modifyClient
          (benign_sendWelcomeMessages _ _).fdsKept (fun _ => rfl)) (fun _ => rfl)
      · cases h; exact fdsKept_modifyClient s fd _ (fun _ => rfl)
  · cases h

theorem fdsKept_passExecute {s t : Server} {fd : Nat} {params : List Str}
    (h : Command.passExecute s fd params = some t) : FdsKept s t := by
  unfold Command.passExecute at h
  split at h
  · split at h
    · cases h; exact (benign_sendReply _ _ _).fdsKept
    · split at h
      · cases h; exact (benign_sendReply _ _ _).fdsKept
      · cases h; exact fdsKept_modifyClient s fd _ (fun _ => rfl)
  · cases h

theorem fdsKept_execute (cmd : CommandKind) {s t : Server} {fd : Nat} {params : List Str}
    (h : cmd.execute s fd params = some t) : FdsKept s t := by
  cases cmd <;> simp only [CommandKind.execute] at h
  case PASS => exact fdsKept_passExecute h
  case NICK => exact fdsKept_nickExecute h
  case USER => exact fdsKept_userExecute h
  case QUIT => exact (benign_quitExecute h).fdsKept
  case JOIN => exact (benign_joinExecute h).fdsKept
  case PART => exact (benign_partExecute h).fdsKept
  case PRIVMSG => exact (benign_privmsgExecute h).fdsKept
  case NOTICE => exact (benign_noticeExecute h).fdsKept
  case MODE => exact (benign_modeExecute h).fdsKept
  case TOPIC => exact (benign_topicExecute h).fdsKept
  case KICK => exact (benign_kickExecute h).fdsKept
  case PING => exact (benign_pingExecute h).fdsKept
  all_goals exact (benign_stubExecute h).fdsKept

theorem fdsKept_executeCommand {s t : Server} {fd : Nat} {line : Str}
    (h : CommandHandler.executeCommand s fd line = some t) : FdsKept s t := by
  unfold CommandHandler.executeCommand at h
  split at h
  · cases h; rfl
  · simp only at h
    split at h
    · cases h; exact (benign_sendReply _ _ _).fdsKept
    · split at h
      · cases h; exact (benign_sendReply _ _ _).fdsKept
      · split at h
        · cases h; exact (benign_sendReply _ _ _).fdsKept
        · exact fdsKept_execute _ h

theorem fdsKept_processLine {s t : Server} {fd : Nat} {line : Str}
    (h : s.processLine fd line = some t) : FdsKept s t := by
  unfold Server.processLine at h
  split at h
  · cases h; rfl
  · simp only at h
    split at h
    · cases h; exact (benign_sendMessage _ _ _).fdsKept
    · exact fdsKept_executeCommand h

theorem fdsKept_dispatchLines (fd : Nat) (lines : List Str) :
    ∀ {s t : Server}, s.dispatchLines fd lines = some t → FdsKept s t := by
  induction lines with
  | nil => intro s t h; simp only [Server.dispatchLines, Option.some.injEq] at h; rw [h]; rfl
  | cons l ls ih =>
    intro s t h
    simp only [Server.dispatchLines] at h
    split at h
    · cases h
    · rename_i s1 hs1
      exact (fdsKept_processLine hs1).ktrans (ih h)

/-! ### When a line is dispatched to completion -/

theorem getClient_processMessages_buffer (s : Server) (fd fd1 : Nat) :
    ((s.processMessages fd).getClient fd1).map Client.buffer =
      (s.getClient fd1).map Client.buffer := by
  unfold Server.processMessages
  split
  · rfl
  · simp only
    rw [show ∀ (x : Server) (e : List SendResult), ({ x with env := e } : Server).getClient fd1 =
      x.getClient fd1 from fun _ _ => rfl]
    rw [getClient_modifyClient]
    · cases s.getClient fd1 with
      | none => rfl
      | some d => simp only [Option.map_some']; split <;> rfl
    · intro _; rfl

/-- `Server::handleClientMessage` on a non-empty read: the loop body is run on the
messages cut from the accumulated bytes, the rest becomes the receive buffer, and the
outbound queue is flushed. -/
theorem handleClientMessage_eq_dispatch (s : Server) (fd : Nat) (c : Client) (data : Str)
    (hc : s.getClient fd = some c) (hd : data ≠ []) :
    s.handleClientMessage fd data =
      ((s.modifyClient fd (fun d => { d with buffer := d.buffer ++ data })).dispatchLines fd
          (Server.frames (c.buffer ++ data)).1).map
        (fun s2 => (s2.modifyClient fd
          (fun d => { d with buffer := (Server.frames (c.buffer ++ data)).2 })).processMessages
            fd) := by
  unfold Server.handleClientMessage
  rw [hc]
  simp only [hd, ↓reduceIte]
  rw [messageLoop_eq_dispatch]
  unfold Server.frames
  cases (s.modifyClient fd (fun d => { d with buffer := d.buffer ++ data })).dispatchLines fd
    (Server.frameLoop ((c.buffer ++ data).length + 1) (c.buffer ++ data)).1 <;> rfl

/-- The receive buffer after a read that `handleClientMessage` processed to the end. -/
theorem receive_buffer_after_read {s t : Server} {fd : Nat} {c : Client} {data : Str}
    (hc : s.getClient fd = some c) (hd : data ≠ [])
    (ht : s.handleClientMessage fd data = some t) :
    ∃ c2, t.getClient fd = some c2 ∧ c2.buffer = (Server.frames (c.buffer ++ data)).2 := by
  rw [handleClientMessage_eq_dispatch s fd c data hc hd] at ht
  cases hdl : (s.modifyClient fd (fun d => { d with buffer := d.buffer ++ data })).dispatchLines
    fd (Server.frames (c.buffer ++ data)).1 with
  | none => rw [hdl] at ht; cases ht
  | some s2 =>
    rw [hdl] at ht
    simp only [Option.map_some', Option.some.injEq] at ht
    have hk := (fdsKept_modifyClient s fd
      (fun d => { d with buffer := d.buffer ++ data }) (fun _ => rfl)).ktrans
      (fdsKept_dispatchLines fd _ hdl)
    have hsome : (s2.getClient fd).isSome = true := by
      rw [hk.getClient_isSome, hc]; rfl
    obtain ⟨d2, hd2⟩ := Option.isSome_iff_exists.mp hsome
    have hb : (t.getClient fd).map Client.buffer =
        some (Server.frames (c.buffer ++ data)).2 := by
      rw [← ht, getClient_processMessages_buffer, getClient_modifyClient_self, hd2]
      · rfl
      · intro _; rfl
    cases hg : t.getClient fd with
    | none => rw [hg] at hb; cases hb
    | some c2 =>
      rw [hg] at hb
      simp only [Option.map_some', Option.some.injEq] at hb
      exact ⟨c2, rfl, hb⟩

set_option maxRecDepth 100000 in
/-- C11 (code bug): the loop of `Server::handleClientMessage` looks for the first CR LF
of the whole buffer before it looks for an LF, so an LF that precedes a CR LF does not
end a line. The bytes `A`, LF, `B`, CR, LF received in one read are dispatched as the
single line `A LF B`; received as `A LF` and then `B CR LF` they are dispatched as `A`
and `B`. `alice` sending `PING a`, LF, `PING b`, CR, LF gets one `PONG` in one read and
two in two reads. -/
theorem frames_lf_before_crlf_counterexample :
    Server.frames "A\nB\r\n".toList = (["A\nB".toList], []) ∧
    Server.frames "A\n".toList = (["A".toList], []) ∧
    Server.frames "B\r\n".toList = (["B".toList], []) ∧
    (demoServer.handleClientMessage 4 "PING a\nPING b\r\n".toList).map
        (fun t => t.outStream 4) =
      some (demoServer.outStream 4 ++ ":ft_irc PONG ft_irc :a\r\n".toList) ∧
    (run demoServer [Event.recv 4 "PING a\n".toList, Event.recv 4 "PING b\r\n".toList]).map
        (fun t => t.outStream 4) =
      some (demoServer.outStream 4 ++
        ":ft_irc PONG ft_irc :a\r\n:ft_irc PONG ft_irc :b\r\n".toList) := by
  refine ⟨by rfl, by rfl, by rfl, by rfl, by rfl⟩

theorem findLF_of_not_mem {buf : Str} (h : '\n' ∉ buf) : Server.findLF buf = none := by
  induction buf with
  | nil => rfl
  | cons a tl ih =>
    simp only [List.mem_cons, not_or] at h
    have ha : ¬ a = '\n' := fun e => h.1 e.symm
    simp only [Server.findLF, ha, ↓reduceIte, ih h.2]

theorem findCRLF_of_not_mem {buf : Str} (h : '\n' ∉ buf) : Server.findCRLF buf = none := by
  induction buf with
  | nil => rfl
  | cons a tl ih =>
    cases tl with
    | nil => rfl
    | cons b rest =>
      simp only [List.mem_cons, not_or] at h
      have hb : ¬ b = '\n' := fun e => h.2.1 e.symm
      have ih1 := ih (by simp only [List.mem_cons, not_or]; exact h.2)
      simp only [Server.findCRLF, hb, and_false, ↓reduceIte, ih1]

theorem frames_of_not_mem {buf : Str} (h : '\n' ∉ buf) : Server.frames buf = ([], buf) := by
  unfold Server.frames
  simp only [Server.frameLoop, Server.nextMessage, findCRLF_of_not_mem h, findLF_of_not_mem h]

theorem frameLoop_nil (fuel : Nat) : Server.frameLoop fuel [] = ([], []) := by
  cases fuel <;> rfl

theorem frames_line (line : Str) (hne : line ≠ []) (hcr : '\r' ∉ line) :
    Server.frames (line ++ CRLF) = ([line], []) := by
  have hn : Server.nextMessage (line ++ CRLF) = some (line, []) := by
    unfold Server.nextMessage
    rw [show line ++ CRLF = line ++ '\r' :: '\n' :: [] from rfl, findCRLF_append line [] hcr]
  unfold Server.frames
  simp only [Server.frameLoop, hn, ne_eq, hne, not_false_eq_true, ↓reduceIte, frameLoop_nil]

/-- C13 (as amended): `Server::handleClientMessage` applies no length limit. A line of
any length (non-empty, without CR) followed by CR LF is cut from the buffer whole, and
for a session past the password gate whose buffer was empty it is passed whole to
`CommandHandler::executeCommand`; bytes received without an LF are all appended to the
receive buffer, which therefore grows by the size of every such read. -/
theorem handleClientMessage_no_truncation (s : Server) (fd : Nat) (c : Client)
    (hc : s.getClient fd = some c) :
    (∀ line : Str, line ≠ [] → '\r' ∉ line →
      Server.frames (line ++ CRLF) = ([line], []) ∧
      (c.buffer = [] → c.status ≠ ClientStatus.CONNECTING →
        s.handleClientMessage fd (line ++ CRLF) =
          (CommandHandler.executeCommand
              (s.modifyClient fd (fun d => { d with buffer := d.buffer ++ (line ++ CRLF) }))
              fd line).map
            (fun s2 => (s2.modifyClient fd (fun d => { d with buffer := [] })).processMessages
              fd))) ∧
    (∀ data : Str, data ≠ [] → '\n' ∉ c.buffer ++ data →
      ∃ t c2, s.handleClientMessage fd data = some t ∧ t.getClient fd = some c2 ∧
        c2.buffer = c.buffer ++ data ∧ c2.buffer.length = c.buffer.length + data.length) := by
  constructor
  · intro line hne hcr
    refine ⟨frames_line line hne hcr, ?_⟩
    intro hbuf hst
    rw [handleClientMessage_line s fd c line hc hbuf hne hcr]
    have hg : (s.modifyClient fd
        (fun d => { d with buffer := d.buffer ++ (line ++ CRLF) })).getClient fd =
        some { c with buffer := c.buffer ++ (line ++ CRLF) } := by
      rw [getClient_modifyClient_self, hc]
      · rfl
      · intro _; rfl
    have hp : Server.processLine (s.modifyClient fd
        (fun d => { d with buffer := d.buffer ++ (line ++ CRLF) })) fd line =
        CommandHandler.executeCommand (s.modifyClient fd
          (fun d => { d with buffer := d.buffer ++ (line ++ CRLF) })) fd line := by
      unfold Server.processLine
      rw [hg]
      simp only [hst, false_and, ↓reduceIte]
    rw [hp]
  · intro data hd hn
    have hfr := frames_of_not_mem hn
    have heq := handleClientMessage_eq_dispatch s fd c data hc hd
    rw [hfr] at heq
    simp only [Server.dispatchLines, Option.map_some'] at heq
    obtain ⟨c2, hc2, hb⟩ := receive_buffer_after_read hc hd heq
    rw [hfr] at hb
    exact ⟨_, c2, heq, hc2, hb, by rw [hb, List.length_append]⟩

set_option maxRecDepth 1000000 in
/-- C13 as stated fails: `alice` sends a `PING` line of 605 bytes; the line is cut from
the buffer whole and the `PONG` echoes all 600 bytes of its parameter. -/
theorem handleClientMessage_long_line_counterexample :
    (Server.frames ("PING ".toList ++ List.replicate 600 'x' ++ CRLF)).1 =
      ["PING ".toList ++ List.replicate 600 'x'] ∧
    ("PING ".toList ++ List.replicate 600 'x').length = 605 ∧
    (demoServer.handleClientMessage 4 ("PING ".toList ++ List.replicate 600 'x' ++ CRLF)).map
        (fun t => t.outStream 4) =
      some (demoServer.outStream 4 ++ ":ft_irc PONG ft_irc :".toList ++
        List.replicate 600 'x' ++ CRLF) := by
  refine ⟨by rfl, by rfl, by rfl⟩

set_option maxRecDepth 100000 in
/-- C13 on the demonstration state: `alice` sends `PING x` and CR LF, and descriptor 6
sends four bytes without LF. -/
theorem handleClientMessage_no_truncation_witness :
    Server.frames "PING x\r\n".toList = (["PING x".toList], []) ∧
    ∃ t c2, demoServer.handleClientMessage 6 "PASS".toList = some t ∧
      t.getClient 6 = some c2 ∧ c2.buffer = "PASS".toList := by
  refine ⟨((handleClientMessage_no_truncation demoServer 4
    ((demoServer.getClient 4).getD { fd := 4 }) (by rfl)).1 "PING x".toList
      (by decide) (by decide)).1, ?_⟩
  obtain ⟨t, c2, h1, h2, h3, _⟩ := (handleClientMessage_no_truncation demoServer 6
    ((demoServer.getClient 6).getD { fd := 6 }) (by rfl)).2 "PASS".toList (by decide) (by decide)
  exact ⟨t, c2, h1, h2, h3⟩

/-! ### Membership on the views -/

theorem mem_insertFd (addr : Nat → Nat) (fd x : Nat) (l : List Nat) :
    x ∈ insertFd addr fd l ↔ x = fd ∨ x ∈ l := by
  induction l with
  | nil => simp [insertFd]
  | cons m ms ih =>
    unfold insertFd
    split
    · rename_i h; subst h; simp
    · split
      · simp
      · simp only [List.mem_cons, ih]
        constructor
        · rintro (h | h | h)
          · exact Or.inr (Or.inl h)
          · exact Or.inl h
          · exact Or.inr (Or.inr h)
        · rintro (h | h | h)
          · exact Or.inr (Or.inl h)
          · exact Or.inl h
          · exact Or.inr (Or.inr h)

theorem nodup_insertFd (addr : Nat → Nat) (fd : Nat) (l : List Nat) (hfd : fd ∉ l)
    (h : l.Nodup) : (insertFd addr fd l).Nodup := by
  induction l with
  | nil => simp [insertFd]
  | cons m ms ih =>
    simp only [List.mem_cons, not_or] at hfd
    unfold insertFd
    split
    · rename_i h2; exact absurd h2 hfd.1
    · split
      · exact List.nodup_cons.mpr ⟨by simp [hfd.1, hfd.2], h⟩
      · have hn := List.nodup_cons.mp h
        refine List.nodup_cons.mpr ⟨?_, ih hfd.2 hn.2⟩
        rw [mem_insertFd]
        intro hx
        rcases hx with hx | hx
        · exact hfd.1 hx.symm
        · exact hn.1 hx

theorem map_fst_insertMember (addr : Nat → Nat) (fd flags : Nat) (l : List (Nat × Nat)) :
    (Channel.insertMember addr fd flags l).map Prod.fst = insertFd addr fd (l.map Prod.fst) := by
  induction l with
  | nil => rfl
  | cons m ms ih =>
    unfold Channel.insertMember
    simp only [List.map_cons, insertFd]
    split
    · rfl
    · split
      · rfl
      · simp only [List.map_cons, ih]

theorem mem_joinKey (key k : Str) (keys : List Str) :
    k ∈ joinKey key keys ↔ k = key ∨ k ∈ keys := by
  unfold joinKey
  split
  · rename_i h
    constructor
    · intro hk; exact Or.inr hk
    · rintro (hk | hk)
      · rw [hk]; exact h
      · exact hk
  · simp only [List.mem_append, List.mem_singleton]
    exact or_comm

theorem nodup_joinKey (key : Str) (keys : List Str) (h : keys.Nodup) :
    (joinKey key keys).Nodup := by
  unfold joinKey
  split
  · exact h
  · rename_i hk
    rw [List.nodup_append]
    exact ⟨h, List.nodup_singleton _, by
      intro a ha hb
      simp only [List.mem_singleton] at hb
      exact hk (hb ▸ ha)⟩

theorem chanMap_keys (key : Str) (g : List Nat → List Nat) (chs : List ChanView) :
    (chanMap key g chs).map Prod.fst = chs.map Prod.fst := by
  unfold chanMap
  rw [List.map_map]
  apply List.map_congr_left
  intro v _
  simp only [Function.comp]
  split <;> rfl

theorem sessMap_fds (fd : Nat) (h : List Str → List Str) (cls : List SessView) :
    (sessMap fd h cls).map Prod.fst = cls.map Prod.fst := by
  unfold sessMap
  rw [List.map_map]
  apply List.map_congr_left
  intro v _
  simp only [Function.comp]
  split <;> rfl

theorem inMembers_chanMap (key : Str) (g : List Nat → List Nat) (chs : List ChanView)
    (x : Nat) (k : Str) :
    inMembers (chanMap key g chs) x k ↔
      ∃ v ∈ chs, v.1 = k ∧ x ∈ (if k = key then g v.2.2 else v.2.2) := by
  unfold inMembers chanMap
  constructor
  · rintro ⟨v', hv', hk, hx⟩
    obtain ⟨v, hv, rfl⟩ := List.mem_map.mp hv'
    by_cases hvk : v.1 = key
    · simp only [hvk, ↓reduceIte] at hk hx
      exact ⟨v, hv, hvk.trans hk, by simpa [← hk] using hx⟩
    · simp only [hvk, ↓reduceIte] at hk hx
      have : ¬ k = key := fun e => hvk (hk.trans e)
      exact ⟨v, hv, hk, by simpa [this] using hx⟩
  · rintro ⟨v, hv, hk, hx⟩
    refine ⟨_, List.mem_map.mpr ⟨v, hv, rfl⟩, ?_, ?_⟩
    · split <;> exact hk
    · by_cases hkk : k = key
      · have hvk : v.1 = key := hk.trans hkk
        simp only [hkk, ↓reduceIte] at hx
        simpa [hvk] using hx
      · have hvk : ¬ v.1 = key := fun e => hkk (hk.symm.trans e)
        simp only [hkk, ↓reduceIte] at hx
        simpa [hvk] using hx

theorem inLists_sessMap (fd : Nat) (h : List Str → List Str) (cls : List SessView)
    (x : Nat) (k : Str) :
    inLists (sessMap fd h cls) x k ↔
      ∃ v ∈ cls, v.1 = x ∧ k ∈ (if x = fd then h v.2 else v.2) := by
  unfold inLists sessMap
  constructor
  · rintro ⟨v', hv', hk, hx⟩
    obtain ⟨v, hv, rfl⟩ := List.mem_map.mp hv'
    by_cases hvk : v.1 = fd
    · simp only [hvk, ↓reduceIte] at hk hx
      exact ⟨v, hv, hvk.trans hk, by simpa [← hk] using hx⟩
    · simp only [hvk, ↓reduceIte] at hk hx
      have : ¬ x = fd := fun e => hvk (hk.trans e)
      exact ⟨v, hv, hk, by simpa [this] using hx⟩
  · rintro ⟨v, hv, hk, hx⟩
    refine ⟨_, List.mem_map.mpr ⟨v, hv, rfl⟩, ?_, ?_⟩
    · split <;> exact hk
    · by_cases hkk : x = fd
      · have hvk : v.1 = fd := hk.trans hkk
        simp only [hkk, ↓reduceIte] at hx
        simpa [hvk] using hx
      · have hvk : ¬ v.1 = fd := fun e => hkk (hk.symm.trans e)
        simp only [hkk, ↓reduceIte] at hx
        simpa [hvk] using hx

theorem RoomInvOn.maps {chs : List ChanView} {cls : List SessView} (hinv : RoomInvOn chs cls)
    (key : Str) (fd : Nat) (g : List Nat → List Nat) (h : List Str → List Str)
    (hg : ∀ v ∈ chs, v.1 = key → (g v.2.2).Nodup)
    (hh : ∀ v ∈ cls, v.1 = fd → (h v.2).Nodup)
    (hagree : ∀ x k,
      (∃ v ∈ chs, v.1 = k ∧ x ∈ (if k = key then g v.2.2 else v.2.2)) ↔
      (∃ v ∈ cls, v.1 = x ∧ k ∈ (if x = fd then h v.2 else v.2))) :
    RoomInvOn (chanMap key g chs) (sessMap fd h cls) := by
  obtain ⟨h1, h2, h3, h4, h5, _⟩ := hinv
  refine ⟨by rw [sessMap_fds]; exact h1, by rw [chanMap_keys]; exact h2, ?_, ?_, ?_, ?_⟩
  · intro v' hv'
    obtain ⟨v, hv, rfl⟩ := List.mem_map.mp hv'
    split
    · exact h3 v hv
    · exact h3 v hv
  · intro v' hv'
    obtain ⟨v, hv, rfl⟩ := List.mem_map.mp hv'
    split
    · rename_i hk; exact hg v hv hk
    · exact h4 v hv
  · intro v' hv'
    obtain ⟨v, hv, rfl⟩ := List.mem_map.mp hv'
    split
    · rename_i hk; exact hh v hv hk
    · exact h5 v hv
  · intro x k
    rw [inMembers_chanMap, inLists_sessMap]
    exact hagree x k

/-- Adding the pair (`fd`, `key`) on both sides keeps the invariant. -/
theorem RoomInvOn.add {chs : List ChanView} {cls : List SessView} (hinv : RoomInvOn chs cls)
    {key : Str} {fd : Nat} (hch : ∃ v ∈ chs, v.1 = key) (hcl : ∃ v ∈ cls, v.1 = fd)
    (hnot : ¬ inMembers chs fd key) (addr : Nat → Nat) :
    RoomInvOn (chanMap key (insertFd addr fd) chs) (sessMap fd (joinKey key) cls) := by
  have hinv0 := hinv
  obtain ⟨h1, h2, h3, h4, h5, h6⟩ := hinv
  refine hinv0.maps key fd _ _ ?_ ?_ ?_
  · intro v hv hk
    exact nodup_insertFd addr fd _ (fun hx => hnot ⟨v, hv, hk, hx⟩) (h4 v hv)
  · intro v hv _
    exact nodup_joinKey key _ (h5 v hv)
  · intro x k
    have hL : (∃ v ∈ chs, v.1 = k ∧ x ∈ (if k = key then insertFd addr fd v.2.2 else v.2.2)) ↔
        (inMembers chs x k ∨ (x = fd ∧ k = key)) := by
      constructor
      · rintro ⟨v, hv, hk, hx⟩
        by_cases hkk : k = key
        · simp only [hkk, ↓reduceIte, mem_insertFd] at hx
          rcases hx with hx | hx
          · exact Or.inr ⟨hx, hkk⟩
          · exact Or.inl ⟨v, hv, hk, hx⟩
        · simp only [hkk, ↓reduceIte] at hx
          exact Or.inl ⟨v, hv, hk, hx⟩
      · rintro (⟨v, hv, hk, hx⟩ | ⟨hx, hkk⟩)
        · refine ⟨v, hv, hk, ?_⟩
          split
          · rw [mem_insertFd]; exact Or.inr hx
          · exact hx
        · obtain ⟨v, hv, hvk⟩ := hch
          refine ⟨v, hv, hvk.trans hkk.symm, ?_⟩
          simp only [hkk, ↓reduceIte, mem_insertFd]
          exact Or.inl hx
    have hR : (∃ v ∈ cls, v.1 = x ∧ k ∈ (if x = fd then joinKey key v.2 else v.2)) ↔
        (inLists cls x k ∨ (x = fd ∧ k = key)) := by
      constructor
      · rintro ⟨v, hv, hk, hx⟩
        by_cases hkk : x = fd
        · simp only [hkk, ↓reduceIte, mem_joinKey] at hx
          rcases hx with hx | hx
          · exact Or.inr ⟨hkk, hx⟩
          · exact Or.inl ⟨v, hv, hk, hx⟩
        · simp only [hkk, ↓reduceIte] at hx
          exact Or.inl ⟨v, hv, hk, hx⟩
      · rintro (⟨v, hv, hk, hx⟩ | ⟨hkk, hx⟩)
        · refine ⟨v, hv, hk, ?_⟩
          split
          · rw [mem_joinKey]; exact Or.inr hx
          · exact hx
        · obtain ⟨v, hv, hvk⟩ := hcl
          refine ⟨v, hv, hvk.trans hkk.symm, ?_⟩
          simp only [hkk, ↓reduceIte, mem_joinKey]
          exact Or.inl hx
    rw [hL, hR, h6 x k]

/-- Removing the pair (`fd`, `key`) on both sides keeps the invariant. -/
theorem RoomInvOn.remove {chs : List ChanView} {cls : List SessView}
    (hinv : RoomInvOn chs cls) (key : Str) (fd : Nat) :
    RoomInvOn (chanMap key (fun l => l.filter (fun m => m != fd)) chs)
      (sessMap fd (fun ks => ks.erase key) cls) := by
  have hinv0 := hinv
  obtain ⟨h1, h2, h3, h4, h5, h6⟩ := hinv
  refine hinv0.maps key fd _ _ ?_ ?_ ?_
  · intro v hv _
    exact (h4 v hv).filter _
  · intro v hv _
    exact (h5 v hv).erase _
  · intro x k
    have hL : (∃ v ∈ chs, v.1 = k ∧
          x ∈ (if k = key then v.2.2.filter (fun m => m != fd) else v.2.2)) ↔
        (inMembers chs x k ∧ ¬ (x = fd ∧ k = key)) := by
      constructor
      · rintro ⟨v, hv, hk, hx⟩
        by_cases hkk : k = key
        · simp only [hkk, ↓reduceIte, List.mem_filter, bne_iff_ne, ne_eq] at hx
          exact ⟨⟨v, hv, hk, hx.1⟩, fun e => hx.2 e.1⟩
        · simp only [hkk, ↓reduceIte] at hx
          exact ⟨⟨v, hv, hk, hx⟩, fun e => hkk e.2⟩
      · rintro ⟨⟨v, hv, hk, hx⟩, hne⟩
        refine ⟨v, hv, hk, ?_⟩
        split
        · rename_i hkk
          simp only [List.mem_filter, bne_iff_ne, ne_eq]
          exact ⟨hx, fun e => hne ⟨e, hkk⟩⟩
        · exact hx
    have hR : (∃ v ∈ cls, v.1 = x ∧ k ∈ (if x = fd then v.2.erase key else v.2)) ↔
        (inLists cls x k ∧ ¬ (x = fd ∧ k = key)) := by
      constructor
      · rintro ⟨v, hv, hk, hx⟩
        by_cases hkk : x = fd
        · simp only [hkk, ↓reduceIte] at hx
          rw [(h5 v hv).mem_erase_iff] at hx
          exact ⟨⟨v, hv, hk, hx.2⟩, fun e => hx.1 e.2⟩
        · simp only [hkk, ↓reduceIte] at hx
          exact ⟨⟨v, hv, hk, hx⟩, fun e => hkk e.1⟩
      · rintro ⟨⟨v, hv, hk, hx⟩, hne⟩
        refine ⟨v, hv, hk, ?_⟩
        split
        · rename_i hkk
          rw [(h5 v hv).mem_erase_iff]
          exact ⟨fun e => hne ⟨hkk, e⟩, hx⟩
        · exact hx
    rw [hL, hR, h6 x k]

theorem inLists_join {cls : List SessView} {fd : Nat} (hcl : ∃ v ∈ cls, v.1 = fd) (key : Str)
    (x : Nat) (k : Str) :
    inLists (sessMap fd (joinKey key) cls) x k ↔ (inLists cls x k ∨ (x = fd ∧ k = key)) := by
  rw [inLists_sessMap]
  constructor
  · rintro ⟨v, hv, hk, hx⟩
    by_cases hkk : x = fd
    · simp only [hkk, ↓reduceIte, mem_joinKey] at hx
      rcases hx with hx | hx
      · exact Or.inr ⟨hkk, hx⟩
      · exact Or.inl ⟨v, hv, hk, hx⟩
    · simp only [hkk, ↓reduceIte] at hx
      exact Or.inl ⟨v, hv, hk, hx⟩
  · rintro (⟨v, hv, hk, hx⟩ | ⟨hkk, hx⟩)
    · refine ⟨v, hv, hk, ?_⟩
      split
      · rw [mem_joinKey]; exact Or.inr hx
      · exact hx
    · obtain ⟨v, hv, hvk⟩ := hcl
      refine ⟨v, hv, hvk.trans hkk.symm, ?_⟩
      simp only [hkk, ↓reduceIte, mem_joinKey]
      exact Or.inl hx

/-- Storing a new channel with the single member `fd` keeps the invariant. -/
theorem RoomInvOn.create {chs : List ChanView} {cls : List SessView}
    (hinv : RoomInvOn chs cls) {name : Str} {fd : Nat}
    (hkey : Utils.toLower name ∉ chs.map Prod.fst) (hcl : ∃ v ∈ cls, v.1 = fd) :
    RoomInvOn (chs ++ [(Utils.toLower name, name, [fd])])
      (sessMap fd (joinKey (Utils.toLower name)) cls) := by
  obtain ⟨h1, h2, h3, h4, h5, h6⟩ := hinv
  refine ⟨by rw [sessMap_fds]; exact h1, ?_, ?_, ?_, ?_, ?_⟩
  · rw [List.map_append, List.nodup_append]
    refine ⟨h2, List.nodup_singleton _, ?_⟩
    intro a ha hb
    simp only [List.map_cons, List.map_nil, List.mem_singleton] at hb
    exact hkey (hb ▸ ha)
  · intro v hv
    rcases List.mem_append.mp hv with hv | hv
    · exact h3 v hv
    · simp only [List.mem_singleton] at hv; rw [hv]
  · intro v hv
    rcases List.mem_append.mp hv with hv | hv
    · exact h4 v hv
    · simp only [List.mem_singleton] at hv; rw [hv]; exact List.nodup_singleton _
  · intro v' hv'
    obtain ⟨v, hv, rfl⟩ := List.mem_map.mp hv'
    split
    · exact nodup_joinKey _ _ (h5 v hv)
    · exact h5 v hv
  · intro x k
    rw [inLists_join hcl, ← h6 x k]
    unfold inMembers
    constructor
    · rintro ⟨v, hv, hk, hx⟩
      rcases List.mem_append.mp hv with hv | hv
      · exact Or.inl ⟨v, hv, hk, hx⟩
      · simp only [List.mem_singleton] at hv
        subst hv
        simp only [List.mem_singleton] at hx
        exact Or.inr ⟨hx, hk.symm⟩
    · rintro (⟨v, hv, hk, hx⟩ | ⟨hx, hk⟩)
      · exact ⟨v, List.mem_append_left _ hv, hk, hx⟩
      · exact ⟨_, List.mem_append_right _ (List.mem_singleton_self _), hk.symm, by simp [hx]⟩

/-- Erasing the channels stored under `key`, which have no member, keeps the
invariant. -/
theorem RoomInvOn.dropChannel {chs : List ChanView} {cls : List SessView}
    (hinv : RoomInvOn chs cls) {key : Str} (hempty : ∀ v ∈ chs, v.1 = key → v.2.2 = []) :
    RoomInvOn (chs.filter (fun v => v.1 != key)) cls := by
  obtain ⟨h1, h2, h3, h4, h5, h6⟩ := hinv
  refine ⟨h1, ?_, ?_, ?_, h5, ?_⟩
  · exact (List.filter_sublist chs).map Prod.fst |>.nodup h2
  · intro v hv; exact h3 v (List.mem_of_mem_filter hv)
  · intro v hv; exact h4 v (List.mem_of_mem_filter hv)
  · intro x k
    rw [← h6 x k]
    unfold inMembers
    constructor
    · rintro ⟨v, hv, hk, hx⟩
      exact ⟨v, List.mem_of_mem_filter hv, hk, hx⟩
    · rintro ⟨v, hv, hk, hx⟩
      refine ⟨v, List.mem_filter.mpr ⟨hv, ?_⟩, hk, hx⟩
      simp only [bne_iff_ne, ne_eq]
      intro e
      rw [hempty v hv e] at hx
      cases hx

/-- Erasing the sessions with descriptor `fd`, whose channel lists are empty, keeps the
invariant. -/
theorem RoomInvOn.dropSession {chs : List ChanView} {cls : List SessView}
    (hinv : RoomInvOn chs cls) {fd : Nat} (hempty : ∀ v ∈ cls, v.1 = fd → v.2 = []) :
    RoomInvOn chs (cls.filter (fun v => v.1 != fd)) := by
  obtain ⟨h1, h2, h3, h4, h5, h6⟩ := hinv
  refine ⟨?_, h2, h3, h4, ?_, ?_⟩
  · exact (List.filter_sublist cls).map Prod.fst |>.nodup h1
  · intro v hv; exact h5 v (List.mem_of_mem_filter hv)
  · intro x k
    rw [h6 x k]
    unfold inLists
    constructor
    · rintro ⟨v, hv, hk, hx⟩
      refine ⟨v, List.mem_filter.mpr ⟨hv, ?_⟩, hk, hx⟩
      simp only [bne_iff_ne, ne_eq]
      intro e
      rw [hempty v hv e] at hx
      cases hx
    · rintro ⟨v, hv, hk, hx⟩
      exact ⟨v, List.mem_of_mem_filter hv, hk, hx⟩

/-- A new session without channels keeps the invariant. -/
theorem RoomInvOn.newSession {chs : List ChanView} {cls cls1 : List SessView}
    (hinv : RoomInvOn chs cls) {fd : Nat}
    (hmem : ∀ v, v ∈ cls1 ↔ v = (fd, []) ∨ v ∈ cls) (hnd : (cls1.map Prod.fst).Nodup) :
    RoomInvOn chs cls1 := by
  obtain ⟨h1, h2, h3, h4, h5, h6⟩ := hinv
  refine ⟨hnd, h2, h3, h4, ?_, ?_⟩
  · intro v hv
    rcases (hmem v).mp hv with hv | hv
    · rw [hv]; exact List.nodup_nil
    · exact h5 v hv
  · intro x k
    rw [h6 x k]
    unfold inLists
    constructor
    · rintro ⟨v, hv, hk, hx⟩
      exact ⟨v, (hmem v).mpr (Or.inr hv), hk, hx⟩
    · rintro ⟨v, hv, hk, hx⟩
      rcases (hmem v).mp hv with hv | hv
      · rw [hv] at hx; cases hx
      · exact ⟨v, hv, hk, hx⟩

/-! ### Steps that leave membership alone -/

theorem SameRooms.srefl (s : Server) : SameRooms s s := rfl

theorem SameRooms.strans {s t u : Server} (h1 : SameRooms s t) (h2 : SameRooms t u) :
    SameRooms s u := by
  unfold SameRooms at *; rw [h2, h1]

theorem RoomInv.sameRooms {s t : Server} (hinv : RoomInv s) (h : SameRooms s t) : RoomInv t := by
  unfold RoomInv; rw [h]; exact hinv

theorem sameRooms_of_eq {s t : Server} (h1 : t.channels = s.channels)
    (h2 : t.clients = s.clients) : SameRooms s t := by
  unfold SameRooms Server.roomView; rw [h1, h2]

theorem roomView_modifyClient (s : Server) (fd : Nat) (f : Client → Client)
    (h : List Str → List Str) (hfd : ∀ c, (f c).fd = c.fd)
    (hch : ∀ c, (f c).channels = h c.channels) :
    (s.modifyClient fd f).roomView = (s.roomView.1, sessMap fd h s.roomView.2) := by
  unfold Server.roomView Server.modifyClient sessMap
  simp only [List.map_map, Prod.mk.injEq, true_and]
  apply List.map_congr_left
  intro c _
  simp only [Function.comp]
  split
  · rw [hfd, hch]
  · rfl

theorem roomView_modifyChannel (s : Server) (key : Str) (f : Channel → Channel)
    (g : List Nat → List Nat) (hn : ∀ ch, (f ch).name = ch.name)
    (hm : ∀ ch, (f ch).clients.map Prod.fst = g (ch.clients.map Prod.fst)) :
    (s.modifyChannel key f).roomView = (chanMap key g s.roomView.1, s.roomView.2) := by
  unfold Server.roomView Server.modifyChannel chanMap
  simp only [List.map_map, Prod.mk.injEq, and_true]
  apply List.map_congr_left
  intro kc _
  simp only [Function.comp]
  split
  · rw [hn, hm]
  · rfl

theorem sessMap_id (fd : Nat) (cls : List SessView) : sessMap fd (fun ks => ks) cls = cls := by
  unfold sessMap
  conv_rhs => rw [← List.map_id cls]
  apply List.map_congr_left
  intro v _
  split <;> rfl

theorem chanMap_id (key : Str) (chs : List ChanView) : chanMap key (fun l => l) chs = chs := by
  unfold chanMap
  conv_rhs => rw [← List.map_id chs]
  apply List.map_congr_left
  intro v _
  split <;> rfl

theorem sameRooms_modifyClient (s : Server) (fd : Nat) (f : Client → Client)
    (hf : ∀ c, (f c).fd = c.fd ∧ (f c).channels = c.channels) :
    SameRooms s (s.modifyClient fd f) := by
  unfold SameRooms
  rw [roomView_modifyClient s fd f (fun ks => ks) (fun c => (hf c).1) (fun c => (hf c).2),
    sessMap_id]

theorem sameRooms_modifyChannel (s : Server) (key : Str) (f : Channel → Channel)
    (hf : ∀ ch, (f ch).name = ch.name ∧ (f ch).clients.map Prod.fst = ch.clients.map Prod.fst) :
    SameRooms s (s.modifyChannel key f) := by
  unfold SameRooms
  rw [roomView_modifyChannel s key f (fun l => l) (fun c => (hf c).1) (fun c => (hf c).2),
    chanMap_id]

theorem sameRooms_processMessages (s : Server) (fd : Nat) :
    SameRooms s (s.processMessages fd) := by
  unfold Server.processMessages
  split
  · exact SameRooms.srefl s
  · simp only
    exact sameRooms_modifyClient s fd _ (fun _ => ⟨rfl, rfl⟩)

theorem sameRooms_sendMessage (s : Server) (fd : Nat) (m : Str) :
    SameRooms s (s.sendMessage fd m) := by
  unfold Server.sendMessage
  exact (sameRooms_modifyClient s fd (fun c => c.enqueue (m ++ CRLF))
    (fun _ => ⟨rfl, rfl⟩)).strans (sameRooms_processMessages _ fd)

theorem sameRooms_sendReply (s : Server) (fd : Nat) (m : Str) :
    SameRooms s (s.sendReply fd m) := sameRooms_sendMessage s fd _

theorem sameRooms_foldl {α : Type} (l : List α) (g : Server → α → Server)
    (hg : ∀ s a, SameRooms s (g s a)) (s : Server) : SameRooms s (l.foldl g s) := by
  induction l generalizing s with
  | nil => exact SameRooms.srefl s
  | cons a l ih => exact (hg s a).strans (ih (g s a))

theorem sameRooms_broadcastTo (s : Server) (members : List (Nat × Nat)) (m : Str)
    (exclude : Option Nat) : SameRooms s (s.broadcastTo members m exclude) := by
  unfold Server.broadcastTo
  apply sameRooms_foldl
  intro s a
  split
  · exact SameRooms.srefl s
  · exact sameRooms_sendMessage s _ _

theorem sameRooms_channelBroadcast (s : Server) (key : Str) (m : Str) (exclude : Option Nat) :
    SameRooms s (s.channelBroadcast key m exclude) := by
  unfold Server.channelBroadcast
  split
  · exact SameRooms.srefl s
  · exact sameRooms_broadcastTo s _ _ _

theorem sameRooms_broadcast (s : Server) (m : Str) (excludeFd : Nat) :
    SameRooms s (s.broadcast m excludeFd) := by
  unfold Server.broadcast
  apply sameRooms_foldl
  intro s a
  split
  · exact sameRooms_sendMessage s _ _
  · exact SameRooms.srefl s

theorem SameRooms.sendReply_then {s x : Server} (h : SameRooms s x) (fd : Nat) (m : Str) :
    SameRooms s (x.sendReply fd m) := h.strans (sameRooms_sendReply x fd m)

theorem SameRooms.sendMessage_then {s x : Server} (h : SameRooms s x) (fd : Nat) (m : Str) :
    SameRooms s (x.sendMessage fd m) := h.strans (sameRooms_sendMessage x fd m)

theorem SameRooms.channelBroadcast_then {s x : Server} (h : SameRooms s x) (key m : Str)
    (exclude : Option Nat) : SameRooms s (x.channelBroadcast key m exclude) :=
  h.strans (sameRooms_channelBroadcast x key m exclude)

theorem SameRooms.foldl_broadcasts {s x : Server} (h : SameRooms s x) (keys : List Str)
    (m : Str) (exclude : Option Nat) :
    SameRooms s (keys.foldl (fun acc key => acc.channelBroadcast key m exclude) x) :=
  h.strans (sameRooms_foldl keys _ (fun s a => sameRooms_channelBroadcast s a m exclude) x)

theorem SameRooms.after_modifyClient {s t : Server} {fd : Nat} {f : Client → Client}
    (h : SameRooms (s.modifyClient fd f) t)
    (hf : ∀ c, (f c).fd = c.fd ∧ (f c).channels = c.channels) : SameRooms s t :=
  (sameRooms_modifyClient s fd f hf).strans h

theorem SameRooms.of_modifyChannel {s t : Server} {key : Str} {f : Channel → Channel}
    (h : SameRooms (s.modifyChannel key f) t)
    (hf : ∀ ch, (f ch).name = ch.name ∧
      (f ch).clients.map Prod.fst = ch.clients.map Prod.fst) : SameRooms s t :=
  (sameRooms_modifyChannel s key f hf).strans h

theorem sameRooms_sendNames (s : Server) (fd : Nat) (nickname : Str) (ch : Channel) :
    SameRooms s (Command.sendNames s fd nickname ch) := by
  unfold Command.sendNames
  exact (sameRooms_sendReply _ _ _).sendReply_then _ _

theorem sameRooms_sendWelcomeMessages (s : Server) (fd : Nat) :
    SameRooms s (Command.sendWelcomeMessages s fd) := by
  unfold Command.sendWelcomeMessages
  split
  · exact SameRooms.srefl s
  · simp only
    repeat apply SameRooms.sendReply_then
    exact SameRooms.srefl s

theorem sameRooms_nickExecute {s t : Server} {fd : Nat} {params : List Str}
    (h : Command.nickExecute s fd params = some t) : SameRooms s t := by
  unfold Command.nickExecute at h
  split at h
  · simp only at h
    split at h
    · cases h; exact sameRooms_sendReply _ _ _
    · split at h
      · cases h; exact sameRooms_sendReply _ _ _
      · split at h
        · cases h
          exact SameRooms.after_modifyClient
            ((sameRooms_sendMessage _ _ _).foldl_broadcasts _ _ _) (fun _ => ⟨rfl, rfl⟩)
        · split at h
          · cases h
            exact SameRooms.after_modifyClient (SameRooms.after_modifyClient
              (sameRooms_sendWelcomeMessages _ _) (fun _ => ⟨rfl, rfl⟩)) (fun _ => ⟨rfl, rfl⟩)
          · cases h; exact sameRooms_modifyClient s fd _ (fun _ => ⟨rfl, rfl⟩)
  · cases h

theorem sameRooms_userExecute {s t : Server} {fd : Nat} {params : List Str}
    (h : Command.userExecute s fd params = some t) : SameRooms s t := by
  unfold Command.userExecute at h
  split at h
  · simp only at h
    split at h
    · cases h; exact sameRooms_sendReply _ _ _
    · split at h
      · cases h
        exact SameRooms.after_modifyClient (SameRooms.after_modifyClient
          (sameRooms_sendWelcomeMessages _ _) (fun _ => ⟨rfl, rfl⟩)) (fun _ => ⟨rfl, rfl⟩)
      · cases h; exact sameRooms_modifyClient s fd _ (fun _ => ⟨rfl, rfl⟩)
  · cases h

theorem sameRooms_passExecute {s t : Server} {fd : Nat} {params : List Str}
    (h : Command.passExecute s fd params = some t) : SameRooms s t := by
  unfold Command.passExecute at h
  split at h
  · split at h
    · cases h; exact sameRooms_sendReply _ _ _
    · split at h
      · cases h; exact sameRooms_sendReply _ _ _
      · cases h; exact sameRooms_modifyClient s fd _ (fun _ => ⟨rfl, rfl⟩)
  · cases h

theorem sameRooms_quitExecute {s t : Server} {fd : Nat} {params : List Str}
    (h : Command.quitExecute s fd params = some t) : SameRooms s t := by
  unfold Command.quitExecute at h
  split at h
  · cases h
  · simp only [Option.some.injEq] at h
    rw [← h]
    exact SameRooms.after_modifyClient ((SameRooms.srefl _).foldl_broadcasts _ _ _)
      (fun _ => ⟨rfl, rfl⟩)

theorem sameRooms_privmsgExecute {s t : Server} {fd : Nat} {params : List Str}
    (h : Command.privmsgExecute s fd params = some t) : SameRooms s t := by
  unfold Command.privmsgExecute at h
  split at h
  · simp only at h
    repeat' split at h
    all_goals
      cases h
      first
        | with_reducible exact sameRooms_sendReply _ _ _
        | with_reducible exact sameRooms_channelBroadcast _ _ _ _
        | with_reducible exact sameRooms_sendMessage _ _ _
        | with_reducible exact ((SameRooms.srefl _).sendMessage_then _ _).sendReply_then _ _
  · cases h

theorem sameRooms_noticeExecute {s t : Server} {fd : Nat} {params : List Str}
    (h : Command.noticeExecute s fd params = some t) : SameRooms s t := by
  unfold Command.noticeExecute at h
  split at h
  · simp only at h
    repeat' split at h
    all_goals
      cases h
      first
        | with_reducible exact SameRooms.srefl _
        | with_reducible exact sameRooms_channelBroadcast _ _ _ _
        | with_reducible exact sameRooms_sendMessage _ _ _
  · cases h

theorem sameRooms_topicExecute {s t : Server} {fd : Nat} {params : List Str}
    (h : Command.topicExecute s fd params = some t) : SameRooms s t := by
  unfold Command.topicExecute at h
  split at h
  · simp only at h
    repeat' split at h
    all_goals
      cases h
      first
        | with_reducible exact sameRooms_sendReply _ _ _
        | exact SameRooms.of_modifyChannel (sameRooms_channelBroadcast _ _ _ _)
            (fun _ => ⟨rfl, rfl⟩)
  · cases h

theorem sameRooms_pingExecute {s t : Server} {fd : Nat} {params : List Str}
    (h : Command.pingExecute s fd params = some t) : SameRooms s t := by
  unfold Command.pingExecute at h
  split at h
  · cases h; exact sameRooms_sendMessage _ _ _
  · cases h

theorem sameRooms_stubExecute {s t : Server} {fd : Nat} {params : List Str}
    (h : Command.stubExecute s fd params = some t) : SameRooms s t := by
  cases h; exact SameRooms.srefl s

theorem setMode_view (ch : Channel) (mode : Nat) (enabled : Bool) :
    (ch.setMode mode enabled).name = ch.name ∧
    (ch.setMode mode enabled).clients.map Prod.fst = ch.clients.map Prod.fst := by
  unfold Channel.setMode
  split <;> exact ⟨rfl, rfl⟩

theorem setOperator_view (ch : Channel) (fd : Nat) (op : Bool) :
    (ch.setOperator fd op).name = ch.name ∧
    (ch.setOperator fd op).clients.map Prod.fst = ch.clients.map Prod.fst := by
  unfold Channel.setOperator
  refine ⟨rfl, ?_⟩
  simp only [List.map_map]
  apply List.map_congr_left
  intro m _
  simp only [Function.comp]
  split <;> rfl

theorem sameRooms_channelModeStep (fd : Nat) (channelName key : Str) (modeParams : List Str)
    (st : Command.ModeLoop) (mode : Char) :
    SameRooms st.server
      (Command.channelModeStep fd channelName key modeParams st mode).server := by
  unfold Command.channelModeStep
  simp only
  repeat' split
  all_goals
    first
      | with_reducible exact SameRooms.srefl _
      | with_reducible exact sameRooms_sendReply _ _ _
      | exact SameRooms.of_modifyChannel (SameRooms.srefl _) (fun ch => setMode_view _ _ _)
      | exact SameRooms.of_modifyChannel (SameRooms.srefl _) (fun ch => setOperator_view _ _ _)

theorem sameRooms_channelModeLoop (fd : Nat) (channelName key : Str) (modeParams : List Str)
    (modes : List Char) (st : Command.ModeLoop) :
    SameRooms st.server
      (modes.foldl (Command.channelModeStep fd channelName key modeParams) st).server := by
  induction modes generalizing st with
  | nil => exact SameRooms.srefl _
  | cons m ms ih =>
    exact (sameRooms_channelModeStep fd channelName key modeParams st m).strans (ih _)

theorem sameRooms_handleChannelMode (s : Server) (fd : Nat) (c : Client)
    (channelName modes : Str) (modeParams : List Str) :
    SameRooms s (Command.handleChannelMode s fd c channelName modes modeParams) := by
  unfold Command.handleChannelMode
  repeat' split
  all_goals
    first
      | with_reducible exact sameRooms_sendReply _ _ _
      | exact (sameRooms_channelModeLoop fd channelName _ modeParams modes
          { server := s }).channelBroadcast_then _ _ _

theorem sameRooms_userModeStep (fd : Nat) (st : Server × Bool) (mode : Char) :
    SameRooms st.1 (Command.userModeStep fd st mode).1 := by
  unfold Command.userModeStep
  simp only
  repeat' split
  all_goals
    first
      | with_reducible exact SameRooms.srefl _
      | with_reducible exact sameRooms_sendReply _ _ _
      | exact SameRooms.after_modifyClient (sameRooms_sendMessage _ _ _) (fun _ => ⟨rfl, rfl⟩)

theorem sameRooms_userModeLoop (fd : Nat) (modes : List Char) (st : Server × Bool) :
    SameRooms st.1 (modes.foldl (Command.userModeStep fd) st).1 := by
  induction modes generalizing st with
  | nil => exact SameRooms.srefl _
  | cons m ms ih => exact (sameRooms_userModeStep fd st m).strans (ih _)

theorem sameRooms_handleUserMode (s : Server) (fd : Nat) (c : Client) (targetNick modes : Str) :
    SameRooms s (Command.handleUserMode s fd c targetNick modes) := by
  unfold Command.handleUserMode
  repeat' split
  all_goals
    first
      | with_reducible exact sameRooms_sendReply _ _ _
      | exact sameRooms_userModeLoop fd modes (s, true)

theorem sameRooms_modeExecute {s t : Server} {fd : Nat} {params : List Str}
    (h : Command.modeExecute s fd params = some t) : SameRooms s t := by
  unfold Command.modeExecute at h
  split at h
  · simp only at h
    repeat' split at h
    all_goals
      first
        | cases h; done
        | cases h; exact sameRooms_handleChannelMode _ _ _ _ _ _
        | cases h; exact sameRooms_handleUserMode _ _ _ _ _
  · cases h

/-! ### Membership under the operations of the server -/

theorem hasClient_iff (ch : Channel) (fd : Nat) :
    ch.hasClient fd = true ↔ fd ∈ ch.clients.map Prod.fst := by
  unfold Channel.hasClient Channel.findClient
  simp only [Option.isSome_map', List.find?_isSome, decide_eq_true_eq, List.mem_map]

theorem key_unique {α : Type} {l : List (Str × α)} (h : (l.map Prod.fst).Nodup)
    {a b : Str × α} (ha : a ∈ l) (hb : b ∈ l) (hab : a.1 = b.1) : a = b :=
  List.inj_on_of_nodup_map h ha hb hab

theorem mem_roomView_channels {s : Server} {v : ChanView} (hv : v ∈ s.roomView.1) :
    ∃ kc ∈ s.channels, v = (kc.1, kc.2.name, kc.2.clients.map Prod.fst) := by
  unfold Server.roomView at hv
  obtain ⟨kc, hkc, rfl⟩ := List.mem_map.mp hv
  exact ⟨kc, hkc, rfl⟩

theorem mem_roomView_clients {s : Server} {v : SessView} (hv : v ∈ s.roomView.2) :
    ∃ c ∈ s.clients, v = (c.fd, c.channels) := by
  unfold Server.roomView at hv
  obtain ⟨c, hc, rfl⟩ := List.mem_map.mp hv
  exact ⟨c, hc, rfl⟩

theorem roomView_keys (s : Server) : s.roomView.1.map Prod.fst = s.channels.map Prod.fst := by
  unfold Server.roomView
  simp only [List.map_map]
  rfl

theorem roomView_fds (s : Server) : s.roomView.2.map Prod.fst = s.clients.map Client.fd := by
  unfold Server.roomView
  simp only [List.map_map]
  rfl

theorem session_view_of_getClient {s : Server} {fd : Nat} (h : (s.getClient fd).isSome = true) :
    ∃ v ∈ s.roomView.2, v.1 = fd := by
  obtain ⟨c, hc⟩ := Option.isSome_iff_exists.mp h
  exact ⟨(c.fd, c.channels), List.mem_map.mpr ⟨c, getClient_mem hc, rfl⟩, getClient_fd hc⟩

/-- Under the invariant, the channel found under a key is the only one stored under
it: membership in it is `inMembers`. -/
theorem RoomInv.inMembers_iff {s : Server} (hinv : RoomInv s) {key : Str} {kc : Str × Channel}
    (hf : s.channels.find? (fun x => x.1 = key) = some kc) (fd : Nat) :
    inMembers s.roomView.1 fd key ↔ kc.2.hasClient fd = true := by
  have hmem : kc ∈ s.channels := List.mem_of_find?_eq_some hf
  have hk : kc.1 = key := by simpa using List.find?_some hf
  have hnd : (s.channels.map Prod.fst).Nodup := by rw [← roomView_keys]; exact hinv.2.1
  rw [hasClient_iff]
  constructor
  · rintro ⟨v, hv, hvk, hx⟩
    obtain ⟨kc', hkc', rfl⟩ := mem_roomView_channels hv
    have : kc' = kc := key_unique hnd hkc' hmem (hvk.trans hk.symm)
    rw [← this]; exact hx
  · intro hx
    exact ⟨_, List.mem_map.mpr ⟨kc, hmem, rfl⟩, hk, hx⟩

theorem joinChannel_channels (c : Client) (key : Str) :
    (c.joinChannel key).fd = c.fd ∧ (c.joinChannel key).channels = joinKey key c.channels := by
  unfold Client.joinChannel joinKey
  split <;> exact ⟨rfl, rfl⟩

theorem RoomInv.addClient {s : Server} (hinv : RoomInv s) (key : Str) {fd : Nat}
    (hc : (s.getClient fd).isSome = true) (asOperator : Bool) :
    RoomInv (s.addClient key fd asOperator) := by
  unfold Server.addClient
  split
  · exact hinv
  · rename_i kc hf
    split
    · exact hinv
    · rename_i hnot
      simp only
      unfold RoomInv
      rw [roomView_modifyClient _ fd _ (joinKey key)]
      rotate_left
      · exact fun c => (joinChannel_channels c key).1
      · exact fun c => (joinChannel_channels c key).2
      rw [roomView_modifyChannel s key _ (insertFd s.addressOf fd)]
      rotate_left
      · exact fun _ => rfl
      · exact fun ch => map_fst_insertMember s.addressOf fd _ ch.clients
      refine RoomInvOn.add hinv ?_ ?_ ?_ s.addressOf
      · have hmem : kc ∈ s.channels := List.mem_of_find?_eq_some hf
        have hk : kc.1 = key := by simpa using List.find?_some hf
        exact ⟨_, List.mem_map.mpr ⟨kc, hmem, rfl⟩, hk⟩
      · exact session_view_of_getClient hc
      · intro hm
        exact hnot ((hinv.inMembers_iff hf fd).mp hm)

theorem eraseMember_view (ch : Channel) (fd : Nat) :
    (ch.eraseMember fd).name = ch.name ∧
    (ch.eraseMember fd).clients.map Prod.fst =
      (ch.clients.map Prod.fst).filter (fun m => m != fd) := by
  unfold Channel.eraseMember
  refine ⟨rfl, ?_⟩
  simp only [List.filter_map]
  rfl

theorem RoomInv.channelRemoveClient {s : Server} (hinv : RoomInv s) (key : Str) (fd : Nat) :
    RoomInv (s.channelRemoveClient key fd) := by
  unfold Server.channelRemoveClient
  split
  · exact hinv
  · split
    · unfold RoomInv
      rw [roomView_modifyClient _ fd _ (fun ks => ks.erase key)]
      rotate_left
      · exact fun _ => rfl
      · exact fun _ => rfl
      rw [roomView_modifyChannel s key _ (fun l => l.filter (fun m => m != fd))]
      rotate_left
      · exact fun ch => (eraseMember_view ch fd).1
      · exact fun ch => (eraseMember_view ch fd).2
      exact RoomInvOn.remove hinv key fd
    · exact hinv

theorem RoomInv.createChannel {s : Server} (hinv : RoomInv s) (name : Str) {fd : Nat}
    (hc : (s.getClient fd).isSome = true) : RoomInv (s.createChannel name fd) := by
  unfold Server.createChannel
  split
  · exact hinv
  · rename_i hnone
    simp only
    unfold RoomInv
    rw [roomView_modifyClient _ fd _ (joinKey (Utils.toLower name))]
    rotate_left
    · exact fun c => (joinChannel_channels c _).1
    · exact fun c => (joinChannel_channels c _).2
    have hview : (Server.roomView { s with channels := s.channels ++
        [(Utils.toLower name, { name := name, clients := [(fd, USER_MODE_OPERATOR)] })] }) =
        (s.roomView.1 ++ [(Utils.toLower name, name, [fd])], s.roomView.2) := by
      unfold Server.roomView
      simp only [List.map_append, List.map_cons, List.map_nil]
    rw [hview]
    apply RoomInvOn.create hinv
    · rw [roomView_keys]
      intro hmem
      obtain ⟨kc, hkc, hk⟩ := List.mem_map.mp hmem
      unfold Server.getChannel at hnone
      simp only [Option.map_eq_none', List.find?_eq_none, decide_eq_true_eq] at hnone
      exact hnone kc hkc hk
    · exact session_view_of_getClient hc

theorem roomView_filter_channels (s : Server) (key : Str) :
    (Server.roomView { s with channels := s.channels.filter (fun kc => kc.1 != key) }) =
      (s.roomView.1.filter (fun v => v.1 != key), s.roomView.2) := by
  unfold Server.roomView
  simp only [List.filter_map, Prod.mk.injEq, and_true]
  rfl

/-- Erasing the entry under `key` keeps the invariant when the channel found under
`key` has no member. -/
theorem RoomInv.eraseKey {s : Server} (hinv : RoomInv s) {key : Str} {kc : Str × Channel}
    (hf : s.channels.find? (fun x => x.1 = key) = some kc) (hz : kc.2.getClientCount = 0) :
    RoomInv { s with channels := s.channels.filter (fun x => x.1 != key) } := by
  unfold RoomInv
  rw [roomView_filter_channels]
  apply RoomInvOn.dropChannel hinv
  intro v hv hvk
  by_contra hne
  obtain ⟨x, hx⟩ := List.exists_mem_of_ne_nil _ hne
  have hm : inMembers s.roomView.1 x key := ⟨v, hv, hvk, hx⟩
  have := (hinv.inMembers_iff hf x).mp hm
  rw [hasClient_iff] at this
  unfold Channel.getClientCount at hz
  rw [List.length_eq_zero.mp hz] at this
  cases this

theorem RoomInv.removeChannel {s : Server} (hinv : RoomInv s) {name : Str}
    (hz : (s.getChannel name).any (fun ch => ch.getClientCount = 0) = true) :
    RoomInv (s.removeChannel name) := by
  unfold Server.removeChannel
  cases hg : s.getChannel name with
  | none => rw [hg] at hz; cases hz
  | some ch =>
    rw [hg] at hz
    simp only [Option.any_some, decide_eq_true_eq] at hz
    exact hinv.eraseKey (getChannel_find hg) hz

theorem RoomInv.leaveAndReap {s : Server} (hinv : RoomInv s) (clientFd : Nat) (key : Str) :
    RoomInv (Server.leaveAndReap clientFd s key) := by
  unfold Server.leaveAndReap
  have h1 := hinv.channelRemoveClient key clientFd
  simp only
  split
  · exact h1
  · rename_i kc hf
    split
    · rename_i hz
      have hk : kc.1 = key := by simpa using List.find?_some hf
      have hmem : kc ∈ (s.channelRemoveClient key clientFd).channels :=
        List.mem_of_find?_eq_some hf
      have hkeyed : kc.1 = Utils.toLower kc.2.name :=
        h1.2.2.1 _ (List.mem_map.mpr ⟨kc, hmem, rfl⟩)
      rw [← hkeyed, hk]
      exact h1.eraseKey hf hz
    · exact h1

theorem sameRooms_joinTail (s : Server) (fd : Nat) (c : Client) (channelName key : Str) :
    SameRooms s (Command.joinTail s fd c channelName key) := by
  unfold Command.joinTail
  simp only
  have h1 : SameRooms s
      (if (s.getChannel channelName).any (fun ch => ch.isInvited c.nickname) then
        s.modifyChannel key (fun ch => ch.removeInvite c.nickname) else s) := by
    split
    · exact sameRooms_modifyChannel s key _ (fun _ => ⟨rfl, rfl⟩)
    · exact SameRooms.srefl s
  generalize (if (s.getChannel channelName).any (fun ch => ch.isInvited c.nickname) then
        s.modifyChannel key (fun ch => ch.removeInvite c.nickname) else s) = s1 at h1 ⊢
  have h2 := h1.channelBroadcast_then key (c.hostmask ++ " JOIN :".toList ++ channelName) none
  split
  · exact h2
  · split
    · exact (h2.sendReply_then _ _).strans (sameRooms_sendNames _ _ _ _)
    · exact h2.strans (sameRooms_sendNames _ _ _ _)

theorem RoomInv.joinExecute {s t : Server} (hinv : RoomInv s) {fd : Nat} {params : List Str}
    (h : Command.joinExecute s fd params = some t) : RoomInv t := by
  unfold Command.joinExecute at h
  split at h
  · rename_i c channelName rest hc
    have hsome : (s.getClient fd).isSome = true := by rw [hc]; rfl
    simp only at h
    split at h
    · cases h; exact hinv.sameRooms (sameRooms_sendReply _ _ _)
    · split at h
      · cases h
        exact (hinv.createChannel channelName hsome).sameRooms (sameRooms_joinTail _ _ _ _ _)
      · split at h
        · repeat' split at h
          all_goals
            cases h
            exact hinv.sameRooms (sameRooms_sendReply _ _ _)
        · cases h
          exact (hinv.addClient _ hsome false).sameRooms (sameRooms_joinTail _ _ _ _ _)
  · cases h

theorem RoomInv.partExecute {s t : Server} (hinv : RoomInv s) {fd : Nat} {params : List Str}
    (h : Command.partExecute s fd params = some t) : RoomInv t := by
  unfold Command.partExecute at h
  split at h
  · simp only at h
    split at h
    · cases h; exact hinv.sameRooms (sameRooms_sendReply _ _ _)
    · split at h
      · cases h; exact hinv.sameRooms (sameRooms_sendReply _ _ _)
      · have h2 : ∀ key m, RoomInv ((s.channelBroadcast key m none).channelRemoveClient key fd) :=
          fun key m => (hinv.sameRooms (sameRooms_channelBroadcast s key m none)).channelRemoveClient
            key fd
        repeat' split at h
        all_goals
          cases h
          first
            | exact RoomInv.removeChannel (h2 _ _) (by assumption)
            | exact h2 _ _
  · cases h

theorem RoomInv.kickExecute {s t : Server} (hinv : RoomInv s) {fd : Nat} {params : List Str}
    (h : Command.kickExecute s fd params = some t) : RoomInv t := by
  unfold Command.kickExecute at h
  split at h
  · simp only at h
    repeat' split at h
    all_goals
      cases h
      first
        | exact hinv.sameRooms (sameRooms_sendReply _ _ _)
        | exact (hinv.sameRooms (sameRooms_channelBroadcast s _ _ _)).channelRemoveClient _ _
  · cases h

theorem sameRooms_execute (cmd : CommandKind) (hcmd : cmd ≠ CommandKind.JOIN ∧
    cmd ≠ CommandKind.PART ∧ cmd ≠ CommandKind.KICK) {s t : Server} {fd : Nat}
    {params : List Str} (h : cmd.execute s fd params = some t) : SameRooms s t := by
  cases cmd <;> simp only [CommandKind.execute] at h
  case PASS => exact sameRooms_passExecute h
  case NICK => exact sameRooms_nickExecute h
  case USER => exact sameRooms_userExecute h
  case QUIT => exact sameRooms_quitExecute h
  case JOIN => exact absurd rfl hcmd.1
  case PART => exact absurd rfl hcmd.2.1
  case PRIVMSG => exact sameRooms_privmsgExecute h
  case NOTICE => exact sameRooms_noticeExecute h
  case MODE => exact sameRooms_modeExecute h
  case TOPIC => exact sameRooms_topicExecute h
  case KICK => exact absurd rfl hcmd.2.2
  case PING => exact sameRooms_pingExecute h
  all_goals exact sameRooms_stubExecute h

theorem RoomInv.execute_cmd {s t : Server} (hinv : RoomInv s) (cmd : CommandKind) {fd : Nat}
    {params : List Str} (h : cmd.execute s fd params = some t) : RoomInv t := by
  by_cases h1 : cmd = CommandKind.JOIN
  · subst h1; exact hinv.joinExecute h
  · by_cases h2 : cmd = CommandKind.PART
    · subst h2; exact hinv.partExecute h
    · by_cases h3 : cmd = CommandKind.KICK
      · subst h3; exact hinv.kickExecute h
      · exact hinv.sameRooms (sameRooms_execute cmd ⟨h1, h2, h3⟩ h)

theorem RoomInv.execute_line {s t : Server} (hinv : RoomInv s) {fd : Nat} {line : Str}
    (h : CommandHandler.executeCommand s fd line = some t) : RoomInv t := by
  unfold CommandHandler.executeCommand at h
  split at h
  · cases h; exact hinv
  · simp only at h
    split at h
    · cases h; exact hinv.sameRooms (sameRooms_sendReply _ _ _)
    · split at h
      · cases h; exact hinv.sameRooms (sameRooms_sendReply _ _ _)
      · split at h
        · cases h; exact hinv.sameRooms (sameRooms_sendReply _ _ _)
        · exact hinv.execute_cmd _ h

theorem RoomInv.process_line {s t : Server} (hinv : RoomInv s) {fd : Nat} {line : Str}
    (h : s.processLine fd line = some t) : RoomInv t := by
  unfold Server.processLine at h
  split at h
  · cases h; exact hinv
  · simp only at h
    split at h
    · cases h; exact hinv.sameRooms (sameRooms_sendMessage _ _ _)
    · exact hinv.execute_line h

theorem RoomInv.dispatchLines (fd : Nat) (lines : List Str) :
    ∀ {s t : Server}, RoomInv s → s.dispatchLines fd lines = some t → RoomInv t := by
  induction lines with
  | nil => intro s t hinv h; simp only [Server.dispatchLines, Option.some.injEq] at h; rw [← h]; exact hinv
  | cons l ls ih =>
    intro s t hinv h
    simp only [Server.dispatchLines] at h
    split at h
    · cases h
    · rename_i s1 hs1
      exact ih (hinv.process_line hs1) h

theorem getClient_isSome_iff (s : Server) (fd : Nat) :
    (s.getClient fd).isSome = true ↔ fd ∈ s.clients.map Client.fd := by
  unfold Server.getClient
  simp only [List.find?_isSome, decide_eq_true_eq, List.mem_map]

theorem leaveAndReap_sessions (clientFd : Nat) (s : Server) (key : Str) :
    (Server.leaveAndReap clientFd s key).roomView.2 =
      (s.channelRemoveClient key clientFd).roomView.2 := by
  unfold Server.leaveAndReap
  simp only
  split
  · rfl
  · split <;> rfl

/-- Under the invariant, leaving the channel at the head of the channel list of the
session `fd` leaves the session with the rest of its list. -/
theorem RoomInv.leaveAndReap_lists {s : Server} (hinv : RoomInv s) {fd : Nat} {k : Str}
    {rest : List Str} (hl : ∀ v ∈ s.roomView.2, v.1 = fd → v.2 = k :: rest) :
    ∀ v ∈ (Server.leaveAndReap fd s k).roomView.2, v.1 = fd → v.2 = rest := by
  rw [leaveAndReap_sessions]
  have hno : ∀ v ∈ s.roomView.2, v.1 = fd → inMembers s.roomView.1 fd k := by
    intro v hv hfd
    exact (hinv.2.2.2.2.2 fd k).mpr ⟨v, hv, hfd, by rw [hl v hv hfd]; exact List.mem_cons_self _ _⟩
  have hnd : (k :: rest).Nodup → (k :: rest).erase k = rest := by
    intro _; simp
  unfold Server.channelRemoveClient
  split
  · rename_i hnone
    intro v hv hfd
    obtain ⟨w, hw, hwk, _⟩ := hno v hv hfd
    obtain ⟨kc, hkc, rfl⟩ := mem_roomView_channels hw
    have := List.find?_eq_none.mp hnone kc hkc
    simp only [decide_eq_true_eq] at this
    exact absurd hwk this
  · rename_i kc hf
    split
    · rw [roomView_modifyClient _ fd _ (fun ks => ks.erase k)]
      rotate_left
      · exact fun _ => rfl
      · exact fun _ => rfl
      intro v hv hfd
      simp only [Server.roomView, Server.modifyChannel] at hv
      unfold sessMap at hv
      obtain ⟨v0, hv0, rfl⟩ := List.mem_map.mp hv
      have hv0' : v0 ∈ s.roomView.2 := hv0
      by_cases h0 : v0.1 = fd
      · simp only [h0, ↓reduceIte]
        rw [hl v0 hv0' h0]
        simp
      · simp only [h0, ↓reduceIte] at hfd
    · rename_i hnot
      intro v hv hfd
      exact absurd ((hinv.inMembers_iff hf fd).mp (hno v hv hfd)) hnot

theorem RoomInv.leaveAndReap_fold (fd : Nat) :
    ∀ (keys : List Str) (s : Server), RoomInv s →
      (∀ v ∈ s.roomView.2, v.1 = fd → v.2 = keys) →
      RoomInv (keys.foldl (Server.leaveAndReap fd) s) ∧
      ∀ v ∈ (keys.foldl (Server.leaveAndReap fd) s).roomView.2, v.1 = fd → v.2 = [] := by
  intro keys
  induction keys with
  | nil => intro s hinv hl; exact ⟨hinv, hl⟩
  | cons k rest ih =>
    intro s hinv hl
    simp only [List.foldl_cons]
    exact ih _ (hinv.leaveAndReap fd k) (hinv.leaveAndReap_lists hl)

theorem roomView_filter_clients (s : Server) (fd : Nat) :
    (Server.roomView { s with clients := s.clients.filter (fun d => d.fd != fd) }) =
      (s.roomView.1, s.roomView.2.filter (fun v => v.1 != fd)) := by
  unfold Server.roomView
  simp only [List.filter_map, Prod.mk.injEq, true_and]
  rfl

theorem RoomInv.remove_session {s t : Server} (hinv : RoomInv s) {fd : Nat}
    (h : s.removeClient fd = some t) : RoomInv t := by
  unfold Server.removeClient at h
  split at h
  · cases h; exact hinv
  · rename_i client hc
    simp only at h
    have hs1 : ∀ m, SameRooms s
        (if client.isRegistered = true ∧ client.nickname ≠ [] then s.broadcast m fd else s) := by
      intro m
      split
      · exact sameRooms_broadcast s m fd
      · exact SameRooms.srefl s
    generalize hm : (':' :: client.nickname ++ " !".toList ++ client.username ++
      '@' :: client.hostname ++ " QUIT :Connection closed".toList) = m at h
    have hs1m := hs1 m
    generalize (if client.isRegistered = true ∧ client.nickname ≠ [] then s.broadcast m fd
      else s) = s1 at h hs1m
    have hinv1 : RoomInv s1 := hinv.sameRooms hs1m
    have hl : ∀ v ∈ s1.roomView.2, v.1 = fd → v.2 = client.channels := by
      rw [hs1m]
      intro v hv hfd
      obtain ⟨c', hc', rfl⟩ := mem_roomView_clients hv
      have hnd : (s.clients.map Client.fd).Nodup := by rw [← roomView_fds]; exact hinv.1
      have : c' = client :=
        List.inj_on_of_nodup_map hnd hc' (getClient_mem hc) (hfd.trans (getClient_fd hc).symm)
      rw [this]
    obtain ⟨hinv2, hl2⟩ := RoomInv.leaveAndReap_fold fd client.channels s1 hinv1 hl
    have hinv3 : RoomInv { (client.channels.foldl (Server.leaveAndReap fd) s1) with
        clients := (client.channels.foldl (Server.leaveAndReap fd) s1).clients.filter
          (fun d => d.fd != fd) } := by
      unfold RoomInv
      rw [roomView_filter_clients]
      exact RoomInvOn.dropSession hinv2 hl2
    split at h
    · cases h
    · cases h
      exact hinv3

theorem mem_insertClient_iff (c d : Client) (l : List Client) (hc : c.fd ∉ l.map Client.fd) :
    d ∈ Server.insertClient c l ↔ d = c ∨ d ∈ l := by
  induction l with
  | nil => simp [Server.insertClient]
  | cons a l ih =>
    simp only [List.map_cons, List.mem_cons, not_or] at hc
    unfold Server.insertClient
    split
    · simp
    · split
      · rename_i h2; exact absurd h2 hc.1
      · simp only [List.mem_cons, ih hc.2]
        constructor
        · rintro (h | h | h)
          · exact Or.inr (Or.inl h)
          · exact Or.inl h
          · exact Or.inr (Or.inr h)
        · rintro (h | h | h)
          · exact Or.inr (Or.inl h)
          · exact Or.inl h
          · exact Or.inr (Or.inr h)

theorem nodup_insertClient (c : Client) (l : List Client) (hc : c.fd ∉ l.map Client.fd)
    (h : (l.map Client.fd).Nodup) : ((Server.insertClient c l).map Client.fd).Nodup := by
  induction l with
  | nil => simp [Server.insertClient]
  | cons a l ih =>
    simp only [List.map_cons, List.mem_cons, not_or] at hc
    have hn := List.nodup_cons.mp h
    unfold Server.insertClient
    split
    · simp only [List.map_cons]
      refine List.nodup_cons.mpr ⟨?_, h⟩
      simp only [List.mem_cons, not_or]
      exact hc
    · split
      · rename_i h2; exact absurd h2 hc.1
      · simp only [List.map_cons]
        refine List.nodup_cons.mpr ⟨?_, ih hc.2 hn.2⟩
        intro hmem
        obtain ⟨d, hd, hfd⟩ := List.mem_map.mp hmem
        rcases (mem_insertClient_iff c d l hc.2).mp hd with hd | hd
        · rw [hd] at hfd; exact hc.1 hfd
        · exact hn.1 (List.mem_map.mpr ⟨d, hd, hfd⟩)

theorem RoomInv.accept_fresh {s : Server} (hinv : RoomInv s) {fd : Nat}
    (hfresh : s.getClient fd = none) (host : Str) (addr : Nat) :
    RoomInv (s.acceptNewConnection fd host addr) := by
  unfold Server.acceptNewConnection
  split
  · exact hinv
  · have hnot : fd ∉ s.clients.map Client.fd := by
      intro hm
      have := (getClient_isSome_iff s fd).mpr hm
      rw [hfresh] at this
      cases this
    have hnd : (s.clients.map Client.fd).Nodup := by rw [← roomView_fds]; exact hinv.1
    unfold RoomInv
    apply RoomInvOn.newSession hinv
    · intro v
      simp only [Server.roomView, List.mem_map]
      constructor
      · rintro ⟨d, hd, rfl⟩
        rcases (mem_insertClient_iff _ d _ hnot).mp hd with hd | hd
        · left; rw [hd]
        · right; exact ⟨d, hd, rfl⟩
      · rintro (hv | ⟨d, hd, rfl⟩)
        · exact ⟨{ fd := fd, hostname := host, addr := addr },
            (mem_insertClient_iff _ _ _ hnot).mpr (Or.inl rfl), hv.symm⟩
        · exact ⟨d, (mem_insertClient_iff _ _ _ hnot).mpr (Or.inr hd), rfl⟩
    · rw [roomView_fds]
      exact nodup_insertClient _ _ hnot hnd

theorem RoomInv.handle_read {s t : Server} (hinv : RoomInv s) {fd : Nat} {data : Str}
    (h : s.handleClientMessage fd data = some t) : RoomInv t := by
  cases hc : s.getClient fd with
  | none =>
    unfold Server.handleClientMessage at h
    rw [hc] at h
    cases h
    exact hinv
  | some c =>
    by_cases hd : data = []
    · unfold Server.handleClientMessage at h
      rw [hc] at h
      simp only [hd, ↓reduceIte] at h
      exact hinv.remove_session h
    · rw [handleClientMessage_eq_dispatch s fd c data hc hd] at h
      cases hdl : (s.modifyClient fd (fun d => { d with buffer := d.buffer ++ data })).dispatchLines
        fd (Server.frames (c.buffer ++ data)).1 with
      | none => rw [hdl] at h; cases h
      | some s2 =>
        rw [hdl] at h
        simp only [Option.map_some', Option.some.injEq] at h
        rw [← h]
        have h1 : RoomInv (s.modifyClient fd (fun d => { d with buffer := d.buffer ++ data })) :=
          hinv.sameRooms (sameRooms_modifyClient s fd _ (fun _ => ⟨rfl, rfl⟩))
        have h2 := RoomInv.dispatchLines fd _ h1 hdl
        exact h2.sameRooms (SameRooms.after_modifyClient (sameRooms_processMessages _ _)
          (fun _ => ⟨rfl, rfl⟩))

theorem RoomInv.init_state (serverSocket : Nat) (password creationDate : Str)
    (env : List SendResult) : RoomInv (Server.init serverSocket password creationDate env) := by
  unfold RoomInv RoomInvOn Server.roomView Server.init inMembers inLists
  simp

theorem RoomInv.attainable {s : Server} (h : Attainable s) : RoomInv s := by
  induction h with
  | init a b c d => exact RoomInv.init_state a b c d
  | step e _ hf hs ih =>
    cases e with
    | accept fd host addr =>
      simp only [step, Option.some.injEq] at hs
      rw [← hs]
      apply ih.accept_fresh
      simpa [Event.fresh] using hf
    | recv fd data =>
      simp only [step] at hs
      exact ih.handle_read hs

theorem Attainable.to_reachable {s : Server} (h : Attainable s) : Reachable s := by
  induction h with
  | init a b c d => exact Reachable.init a b c d
  | step e _ _ hs ih => exact Reachable.step e ih hs

theorem attainable_run {s : Server} (hs : Attainable s) (es : List Event) :
    ∀ {t : Server}, freshRun s es = true → run s es = some t → Attainable t := by
  induction es generalizing s with
  | nil => intro t _ h; simp only [run, Option.some.injEq] at h; rw [← h]; exact hs
  | cons e es ih =>
    intro t hf h
    simp only [run] at h
    simp only [freshRun, Bool.and_eq_true] at hf
    cases hst : step s e with
    | none => rw [hst] at h; cases h
    | some s1 =>
      rw [hst] at h hf
      exact ih (Attainable.step e hs hf.1 hst) hf.2 h

theorem RoomInv.agrees {s : Server} (hinv : RoomInv s) : MembershipAgrees s := by
  have hinv0 := hinv
  obtain ⟨h1, h2, _, _, h5, h6⟩ := hinv
  have hfd : (s.clients.map Client.fd).Nodup := by rw [← roomView_fds]; exact h1
  have hkey : (s.channels.map Prod.fst).Nodup := by rw [← roomView_keys]; exact h2
  refine ⟨?_, ?_, ?_, ?_⟩
  · intro c hc kc hkc
    constructor
    · intro hm
      rw [hasClient_iff] at hm
      have : inMembers s.roomView.1 c.fd kc.1 := ⟨_, List.mem_map.mpr ⟨kc, hkc, rfl⟩, rfl, hm⟩
      obtain ⟨v, hv, hvfd, hk⟩ := (h6 c.fd kc.1).mp this
      obtain ⟨c', hc', rfl⟩ := mem_roomView_clients hv
      have : c' = c := List.inj_on_of_nodup_map hfd hc' hc hvfd
      rw [← this]; exact hk
    · intro hk
      have : inLists s.roomView.2 c.fd kc.1 := ⟨_, List.mem_map.mpr ⟨c, hc, rfl⟩, rfl, hk⟩
      obtain ⟨v, hv, hvk, hm⟩ := (h6 c.fd kc.1).mpr this
      obtain ⟨kc', hkc', rfl⟩ := mem_roomView_channels hv
      have : kc' = kc := key_unique hkey hkc' hkc hvk
      rw [hasClient_iff, ← this]; exact hm
  · intro c hc key hk
    have : inLists s.roomView.2 c.fd key := ⟨_, List.mem_map.mpr ⟨c, hc, rfl⟩, rfl, hk⟩
    obtain ⟨v, hv, hvk, _⟩ := (h6 c.fd key).mpr this
    obtain ⟨kc', hkc', rfl⟩ := mem_roomView_channels hv
    exact ⟨kc', hkc', hvk⟩
  · intro kc hkc m hm
    have : inMembers s.roomView.1 m.1 kc.1 :=
      ⟨_, List.mem_map.mpr ⟨kc, hkc, rfl⟩, rfl, List.mem_map.mpr ⟨m, hm, rfl⟩⟩
    obtain ⟨v, hv, hvfd, _⟩ := (h6 m.1 kc.1).mp this
    obtain ⟨c', hc', rfl⟩ := mem_roomView_clients hv
    exact ⟨c', hc', hvfd⟩
  · intro c hc
    exact h5 _ (List.mem_map.mpr ⟨c, hc, rfl⟩)

theorem demoServer_attainable : Attainable demoServer :=
  attainable_run (Attainable.init 3 "secret".toList "today".toList []) demoEvents (by rfl)
    demoServer_reachable

/-- C16: in every state the server reaches (with `accept` returning unused
descriptors), a session is in the member map of a channel exactly when its channel
list holds that channel; no channel list names a channel that is not in the channel
map, no member map names a descriptor without session, and no channel list holds a
channel twice. `Channel::addClient`, `Channel::removeClient`, `JOIN`, `PART`, `KICK`
and `Server::removeClient` lead from such a state to a state with the same
properties. -/
theorem membership_symmetric (s : Server) (h : Attainable s) :
    MembershipAgrees s ∧
    (∀ key fd asOperator, (s.getClient fd).isSome = true →
      MembershipAgrees (s.addClient key fd asOperator)) ∧
    (∀ key fd, MembershipAgrees (s.channelRemoveClient key fd)) ∧
    (∀ fd params t, Command.joinExecute s fd params = some t → MembershipAgrees t) ∧
    (∀ fd params t, Command.partExecute s fd params = some t → MembershipAgrees t) ∧
    (∀ fd params t, Command.kickExecute s fd params = some t → MembershipAgrees t) ∧
    (∀ fd t, s.removeClient fd = some t → MembershipAgrees t) := by
  have hinv := RoomInv.attainable h
  exact ⟨hinv.agrees,
    fun key fd asOperator hc => (hinv.addClient key hc asOperator).agrees,
    fun key fd => (hinv.channelRemoveClient key fd).agrees,
    fun fd params t ht => (hinv.joinExecute ht).agrees,
    fun fd params t ht => (hinv.partExecute ht).agrees,
    fun fd params t ht => (hinv.kickExecute ht).agrees,
    fun fd t ht => (hinv.remove_session ht).agrees⟩

set_option maxRecDepth 100000 in
/-- C16 on the demonstration state: `bob` (descriptor 5) is a member of `#foo` and
`#foo` is in his channel list. -/
theorem membership_symmetric_witness :
    ∃ c kc, demoServer.getClient 5 = some c ∧ kc ∈ demoServer.channels ∧
      kc.1 = "#foo".toList ∧ (kc.2.hasClient 5 = true ↔ kc.1 ∈ c.channels) ∧
      kc.2.hasClient 5 = true ∧ c.channels.Nodup := by
  have hc : demoServer.getClient 5 = some ((demoServer.getClient 5).getD { fd := 5 }) := by rfl
  have hk : demoServer.channels.find? (fun x => x.1 = "#foo".toList) =
      some ((demoServer.channels.find? (fun x => x.1 = "#foo".toList)).getD ([], { name := [] })) := by
    rfl
  have hag := (membership_symmetric demoServer demoServer_attainable).1
  exact ⟨_, _, hc, List.mem_of_find?_eq_some hk, by rfl,
    hag.1 _ (getClient_mem hc) _ (List.mem_of_find?_eq_some hk), by rfl,
    hag.2.2.2 _ (getClient_mem hc)⟩

set_option maxRecDepth 100000 in
/-- C17 (code bug): `KickCommand::execute` removes the target from the channel and does
not look at the member count. `alice` creates `#solo` and kicks herself: the channel
stays in the channel map with no member. The same run with `PART` in place of `KICK`
removes the channel. -/
theorem kick_leaves_empty_channel_counterexample :
    (run demoInit (demoEvents ++
        [Event.recv 4 "JOIN #solo\r\nKICK #solo alice\r\n".toList])).map
        (fun t => (t.getChannel "#solo".toList).map (fun ch => ch.getClientCount)) =
      some (some 0) ∧
    (run demoInit (demoEvents ++
        [Event.recv 4 "JOIN #solo\r\nPART #solo\r\n".toList])).map
        (fun t => (t.getChannel "#solo".toList).map (fun ch => ch.getClientCount)) =
      some none := by
  refine ⟨by rfl, by rfl⟩

theorem addClient_of_member {s : Server} {name : Str} {ch : Channel}
    (hch : s.getChannel name = some ch) {fd : Nat} (hm : ch.hasClient fd = true)
    (asOperator : Bool) : s.addClient (Utils.toLower name) fd asOperator = s := by
  unfold Server.addClient
  rw [getChannel_find hch]
  simp only [hm, ↓reduceIte]

theorem find_view (l : List Client) (fd : Nat) :
    (l.find? (fun c => c.fd = fd)).map (fun c => (c.fd, c.channels)) =
      (l.map (fun c => (c.fd, c.channels))).find? (fun v => v.1 = fd) := by
  induction l with
  | nil => rfl
  | cons a l ih =>
    by_cases ha : a.fd = fd
    · simp [List.find?, ha]
    · simp [List.find?, ha, ih]

theorem SameRooms.getClient_channels {s t : Server} (h : SameRooms s t) (fd : Nat) :
    (t.getClient fd).map Client.channels = (s.getClient fd).map Client.channels := by
  have h2 : (t.clients.map (fun c => (c.fd, c.channels))) =
      (s.clients.map (fun c => (c.fd, c.channels))) := congrArg Prod.snd h
  have e : ∀ x : Server, (x.getClient fd).map Client.channels =
      ((x.clients.map (fun c => (c.fd, c.channels))).find? (fun v => v.1 = fd)).map Prod.snd := by
    intro x
    rw [← find_view]
    unfold Server.getClient
    cases x.clients.find? (fun c => c.fd = fd) <;> rfl
  rw [e t, e s, h2]

/-- What `JOIN` does on an existing channel that the sender is already a member of:
one of the rejections, or the tail of the handler on the unchanged state. -/
theorem joinExecute_of_member {s : Server} {fd : Nat} {c : Client} {name : Str}
    {ch : Channel} (rest : List Str) (hc : s.getClient fd = some c)
    (hv : Utils.isValidChannelName name = true) (hch : s.getChannel name = some ch)
    (hm : ch.hasClient fd = true) :
    (∃ reply, ch.clientCanJoin c.nickname (rest.headD []) = false ∧
      Command.joinExecute s fd (name :: rest) = some (s.sendReply fd reply)) ∨
    (ch.clientCanJoin c.nickname (rest.headD []) = true ∧
      Command.joinExecute s fd (name :: rest) =
        some (Command.joinTail s fd c name (Utils.toLower name))) := by
  have hj : Command.joinExecute s fd (name :: rest) =
      if !ch.clientCanJoin c.nickname (rest.headD []) then
        if ch.hasMode MODE_INVITE_ONLY && !ch.isInvited c.nickname then
          some (s.sendReply fd ("473 ".toList ++ name ++ " :Cannot join channel (+i)".toList))
        else if ch.hasMode MODE_PASSWORD && rest.headD [] != ch.password then
          some (s.sendReply fd ("475 ".toList ++ name ++ " :Cannot join channel (+k)".toList))
        else if ch.hasMode MODE_USER_LIMIT && decide (ch.getClientCount ≥ ch.userLimit) then
          some (s.sendReply fd ("471 ".toList ++ name ++ " :Cannot join channel (+l)".toList))
        else
          some (s.sendReply fd ("474 ".toList ++ name ++ " :Cannot join channel".toList))
      else
        some (Command.joinTail (s.addClient (Utils.toLower name) fd false) fd c name
          (Utils.toLower name)) := by
    unfold Command.joinExecute
    rw [hc]
    cases rest <;> simp only [hv, Bool.not_true, Bool.false_eq_true, ↓reduceIte, hch] <;> rfl
  rw [hj, addClient_of_member hch hm]
  cases hcan : ch.clientCanJoin c.nickname (rest.headD [])
  · left
    simp only [Bool.not_false, ↓reduceIte]
    repeat' split
    all_goals exact ⟨_, trivial, rfl⟩
  · right
    exact ⟨rfl, by simp⟩

/-- C18: a `JOIN` by a session that is already a member of the channel leaves the
membership data of the server as it was: the member map of the channel is unchanged
(the session keeps its flags, and in a state the server reaches it is in the map
exactly once), every channel list is unchanged, and the modes, topic, key, limit and
name of the channel are unchanged. The whole channel map is unchanged unless the
nickname was in the invite set, from which `JOIN` removes it. -/
theorem joinExecute_member_unchanged (s : Server) (fd : Nat) (c : Client) (name : Str)
    (rest : List Str) (ch : Channel) (hc : s.getClient fd = some c)
    (hv : Utils.isValidChannelName name = true) (hch : s.getChannel name = some ch)
    (hm : ch.hasClient fd = true) :
    ∃ t ch2, Command.joinExecute s fd (name :: rest) = some t ∧
      t.getChannel name = some ch2 ∧
      ch2.clients = ch.clients ∧ ch2.isOperator fd = ch.isOperator fd ∧
      ch2.modes = ch.modes ∧ ch2.topic = ch.topic ∧ ch2.password = ch.password ∧
      ch2.userLimit = ch.userLimit ∧ ch2.name = ch.name ∧
      (t.getClient fd).map Client.channels = some c.channels ∧
      t.roomView = s.roomView ∧
      (Utils.toLower c.nickname ∉ ch.invitedUsers → t.channels = s.channels) ∧
      (Attainable s → (ch2.clients.map Prod.fst).count fd = 1) := by
  have hcount : Attainable s → (ch.clients.map Prod.fst).count fd = 1 := by
    intro ha
    have hinv := RoomInv.attainable ha
    have hmem : (Utils.toLower name, ch) ∈ s.channels :=
      List.mem_of_find?_eq_some (getChannel_find hch)
    have hnd : (ch.clients.map Prod.fst).Nodup :=
      hinv.2.2.2.1 _ (List.mem_map.mpr ⟨_, hmem, rfl⟩)
    exact List.count_eq_one_of_mem hnd ((hasClient_iff ch fd).mp hm)
  have hlist : ∀ t, SameRooms s t → (t.getClient fd).map Client.channels = some c.channels := by
    intro t ht
    rw [ht.getClient_channels, hc]; rfl
  rcases joinExecute_of_member rest hc hv hch hm with ⟨reply, _, hj⟩ | ⟨_, hj⟩
  · have hs := sameRooms_sendReply s fd reply
    refine ⟨_, ch, hj, ?_, rfl, rfl, rfl, rfl, rfl, rfl, rfl, hlist _ hs, hs, ?_, hcount⟩
    · rw [getChannel_congr (sendReply_channels _ _ _), hch]
    · intro _; exact sendReply_channels _ _ _
  · have hs := sameRooms_joinTail s fd c name (Utils.toLower name)
    have hcs := joinTail_channels s fd c name (Utils.toLower name)
    rw [hch] at hcs
    simp only [Option.any_some] at hcs
    by_cases hi : ch.isInvited c.nickname = true
    · simp only [hi, ↓reduceIte] at hcs
      refine ⟨_, ch.removeInvite c.nickname, hj, ?_, rfl, rfl, rfl, rfl, rfl, rfl, rfl,
        hlist _ hs, hs, ?_, hcount⟩
      · rw [getChannel_congr hcs, getChannel_modifyChannel_self, hch]; rfl
      · intro hn
        simp only [Channel.isInvited, decide_eq_true_eq] at hi
        exact absurd hi hn
    · simp only [hi, Bool.false_eq_true, ↓reduceIte] at hcs
      refine ⟨_, ch, hj, ?_, rfl, rfl, rfl, rfl, rfl, rfl, rfl, hlist _ hs, hs, ?_, hcount⟩
      · rw [getChannel_congr hcs, hch]
      · intro _; exact hcs

set_option maxRecDepth 100000 in
/-- C18 on the demonstration state: `alice`, operator of `#foo`, sends `JOIN #foo`
again. -/
theorem joinExecute_member_unchanged_witness :
    ∃ t ch2, Command.joinExecute demoServer 4 ["#foo".toList] = some t ∧
      t.getChannel "#foo".toList = some ch2 ∧ ch2.clients = [(4, 1), (5, 0)] ∧
      ch2.isOperator 4 = true ∧
      (t.getClient 4).map Client.channels = some ["#foo".toList] ∧
      t.channels = demoServer.channels := by
  obtain ⟨t, ch2, h1, h2, h3, h4, _, _, _, _, _, h10, _, h12, _⟩ :=
    joinExecute_member_unchanged demoServer 4 ((demoServer.getClient 4).getD { fd := 4 })
      "#foo".toList [] { name := "#foo".toList, clients := [(4, 1), (5, 0)] }
      (by rfl) (by decide) (by rfl) (by decide)
  exact ⟨t, ch2, h1, h2, h3, h4, h10, h12 (by decide)⟩

set_option maxRecDepth 100000 in
/-- C19 (code bug): `JoinCommand::execute` does not look whether the sender is already
a member: `Channel::addClient` returns early, and the handler goes on to broadcast the
`JOIN` line. `alice`, a member of `#foo`, sends `JOIN #foo`: `bob` is sent her `JOIN`
line again, and so is she, followed by the name list. -/
theorem join_member_rebroadcast_counterexample :
    (demoServer.getChannel "#foo".toList).map (fun ch => ch.hasClient 4) = some true ∧
    (CommandHandler.executeCommand demoServer 4 "JOIN #foo".toList).map
        (fun t => t.outStream 5) =
      some (demoServer.outStream 5 ++ ":alice!alice@h1 JOIN :#foo\r\n".toList) ∧
    (CommandHandler.executeCommand demoServer 4 "JOIN #foo".toList).map
        (fun t => t.outStream 4) =
      some (demoServer.outStream 4 ++
        (":alice!alice@h1 JOIN :#foo\r\n:ft_irc 353 alice = #foo :@alice bob\r\n" ++
         ":ft_irc 366 alice #foo :End of /NAMES list\r\n").toList) := by
  refine ⟨by rfl, by rfl, by rfl⟩

set_option maxRecDepth 100000 in
/-- C20 as stated fails: `alice` joins `#bar`, whose topic is empty; she is sent the
`JOIN` line, 353 and 366, and no 331 in between. -/
theorem join_empty_topic_counterexample :
    (CommandHandler.executeCommand demoServer 4 "JOIN #bar".toList).map
        (fun t => ((t.getChannel "#bar".toList).map (fun ch => ch.topic), t.outStream 4)) =
      some (some [], demoServer.outStream 4 ++
        (":alice!alice@h1 JOIN :#bar\r\n:ft_irc 353 alice = #bar :@alice\r\n" ++
         ":ft_irc 366 alice #bar :End of /NAMES list\r\n").toList) := by
  decide

/-! ### What a broadcast sends -/

theorem outStream_congr {s t : Server} (h : t.clients = s.clients) (fd : Nat) :
    t.outStream fd = s.outStream fd := by
  unfold Server.outStream Server.getClient; rw [h]

theorem outStream_modifyChannel (s : Server) (key : Str) (f : Channel → Channel) (fd : Nat) :
    (s.modifyChannel key f).outStream fd = s.outStream fd := rfl

theorem joinChannel_outStream (c : Client) (key : Str) :
    (c.joinChannel key).fd = c.fd ∧ (c.joinChannel key).outStream = c.outStream := by
  unfold Client.joinChannel
  split <;> exact ⟨rfl, rfl⟩

theorem outStream_addClient (s : Server) (key : Str) (fd : Nat) (asOperator : Bool) (x : Nat) :
    (s.addClient key fd asOperator).outStream x = s.outStream x := by
  unfold Server.addClient
  split
  · rfl
  · split
    · rfl
    · simp only
      rw [outStream_modifyClient _ _ _ _ (fun c => (joinChannel_outStream c key).1)
        (fun c => (joinChannel_outStream c key).2)]
      rfl

theorem outStream_createChannel (s : Server) (name : Str) (fd : Nat) (x : Nat) :
    (s.createChannel name fd).outStream x = s.outStream x := by
  unfold Server.createChannel
  split
  · rfl
  · simp only
    rw [outStream_modifyClient _ _ _ _ (fun c => (joinChannel_outStream c _).1)
      (fun c => (joinChannel_outStream c _).2)]
    rfl

/-- A broadcast without exclusion over a member map without repeated descriptor sends
the line once to every member that is a session, and nothing to the others. -/
theorem outStream_broadcastTo (members : List (Nat × Nat)) (m : Str) (x : Nat)
    (hnd : (members.map Prod.fst).Nodup) :
    ∀ s : Server, (s.getClient x).isSome = true →
      (s.broadcastTo members m none).outStream x =
        s.outStream x ++ (if x ∈ members.map Prod.fst then m ++ CRLF else []) := by
  induction members with
  | nil => intro s _; simp [Server.broadcastTo]
  | cons a l ih =>
    intro s hx
    rw [List.map_cons] at hnd
    have hn := List.nodup_cons.mp hnd
    have hstep : s.broadcastTo (a :: l) m none = (s.sendMessage a.1 m).broadcastTo l m none := by
      simp [Server.broadcastTo]
    rw [hstep]
    have hx1 : ((s.sendMessage a.1 m).getClient x).isSome = true := by
      rw [getClient_sendMessage_isSome]; exact hx
    rw [ih hn.2 _ hx1]
    by_cases hax : a.1 = x
    · have hxl : x ∉ l.map Prod.fst := by rw [← hax]; exact hn.1
      obtain ⟨c, hc⟩ := Option.isSome_iff_exists.mp hx
      rw [hax, outStream_sendMessage_self hc]
      simp only [hxl, ↓reduceIte, List.append_nil, List.map_cons, hax, List.mem_cons, true_or]
    · have hxa : x ≠ a.1 := fun e => hax e.symm
      rw [outStream_sendMessage_other s hxa]
      simp only [List.map_cons, List.mem_cons, hxa, false_or]

theorem namesList_benign {s t : Server} (h : Benign s t) (ch : Channel) :
    Command.namesList t ch = Command.namesList s ch := by
  unfold Command.namesList
  congr 1
  apply List.map_congr_left
  intro m _
  congr 1
  cases hg : s.getClient m.1 with
  | none => rw [h.getClient_none hg]
  | some d =>
    obtain ⟨e, he, hev⟩ := h.getClient hg
    rw [he]
    exact hev.2.1

@[simp] theorem broadcastTo_serverName (members : List (Nat × Nat)) (m : Str)
    (exclude : Option Nat) :
    ∀ s : Server, (s.broadcastTo members m exclude).serverName = s.serverName := by
  induction members with
  | nil => intro s; rfl
  | cons a l ih =>
    intro s
    unfold Server.broadcastTo at ih ⊢
    simp only [List.foldl_cons]
    rw [ih]
    split <;> simp

theorem outStream_sendReplies_other (fd x : Nat) (hne : x ≠ fd) (rs : List Str) :
    ∀ s : Server, (s.sendReplies fd rs).outStream x = s.outStream x := by
  induction rs with
  | nil => intro s; rfl
  | cons r rs ih =>
    intro s
    unfold Server.sendReplies at ih ⊢
    rw [List.foldl_cons, ih]
    unfold Server.sendReply
    exact outStream_sendMessage_other s hne _

theorem benign_sendReplies (fd : Nat) (rs : List Str) :
    ∀ s : Server, Benign s (s.sendReplies fd rs) := by
  induction rs with
  | nil => intro s; exact Benign.refl s
  | cons r rs ih =>
    intro s
    unfold Server.sendReplies at ih ⊢
    rw [List.foldl_cons]
    exact (benign_sendReply s fd r).trans (ih _)

@[simp] theorem sendReplies_channels (fd : Nat) (rs : List Str) :
    ∀ s : Server, (s.sendReplies fd rs).channels = s.channels := by
  induction rs with
  | nil => intro s; rfl
  | cons r rs ih =>
    intro s
    unfold Server.sendReplies at ih ⊢
    rw [List.foldl_cons, ih]
    simp

/-- The tail of `JoinCommand::execute` on a state where the channel exists: the invite
is removed, the `JOIN` line is broadcast to the members, and the joiner is sent the
replies of `joinReplies`. -/
theorem joinTail_eq {s0 : Server} {name : Str} {ch0 : Channel}
    (h0 : s0.getChannel name = some ch0) (fd : Nat) (c : Client) :
    Command.joinTail s0 fd c name (Utils.toLower name) =
      (((if ch0.isInvited c.nickname then
          s0.modifyChannel (Utils.toLower name) (fun ch => ch.removeInvite c.nickname)
        else s0).broadcastTo ch0.clients (c.hostmask ++ " JOIN :".toList ++ name) none).sendReplies
        fd (joinReplies s0 c.nickname name
          (if ch0.isInvited c.nickname then ch0.removeInvite c.nickname else ch0))) := by
  unfold Command.joinTail
  simp only [h0, Option.any_some]
  have h1 : (if ch0.isInvited c.nickname = true then
        s0.modifyChannel (Utils.toLower name) (fun ch => ch.removeInvite c.nickname)
      else s0).getChannel name =
      some (if ch0.isInvited c.nickname then ch0.removeInvite c.nickname else ch0) := by
    split
    · rw [getChannel_modifyChannel_self, h0]; rfl
    · exact h0
  have hb : Benign s0 ((if ch0.isInvited c.nickname = true then
        s0.modifyChannel (Utils.toLower name) (fun ch => ch.removeInvite c.nickname)
      else s0).broadcastTo ch0.clients (c.hostmask ++ " JOIN :".toList ++ name) none) := by
    refine Benign.trans ?_ (benign_broadcastTo _ _ _ _)
    split
    · exact benign_modifyChannel _ _ _
    · exact Benign.refl _
  generalize (if ch0.isInvited c.nickname = true then
        s0.modifyChannel (Utils.toLower name) (fun ch => ch.removeInvite c.nickname)
      else s0) = s1 at h1 hb ⊢
  have hcl : (if ch0.isInvited c.nickname = true then ch0.removeInvite c.nickname
      else ch0).clients = ch0.clients := by split <;> rfl
  have htop : (if ch0.isInvited c.nickname = true then ch0.removeInvite c.nickname
      else ch0).topic = ch0.topic := by split <;> rfl
  generalize (if ch0.isInvited c.nickname = true then ch0.removeInvite c.nickname
      else ch0) = ch1 at h1 hcl htop ⊢
  have hbc : s1.channelBroadcast (Utils.toLower name)
      (c.hostmask ++ " JOIN :".toList ++ name) none =
      s1.broadcastTo ch0.clients (c.hostmask ++ " JOIN :".toList ++ name) none := by
    unfold Server.channelBroadcast
    rw [getChannel_find h1]
    simp only [hcl]
  rw [hbc]
  rw [getChannel_congr (broadcastTo_channels _ _ _ _), h1]
  simp only
  unfold joinReplies Command.sendNames
  by_cases ht : ch1.topic = []
  · simp only [ht, ne_eq, not_true_eq_false, ↓reduceIte, List.nil_append]
    rw [namesList_benign hb]
    rfl
  · simp only [ne_eq, ht, not_false_eq_true, ↓reduceIte]
    rw [namesList_benign (hb.sendReply_right _ _)]
    rfl

theorem outStream_of_getClient_none {s : Server} {x : Nat} (h : s.getClient x = none) :
    s.outStream x = [] := by
  unfold Server.outStream; rw [h]

/-- What the tail of `JoinCommand::execute` sends, on a state where the channel exists,
its member map repeats no descriptor and its members are sessions. -/
theorem joinTail_out {s0 : Server} {name : Str} {ch0 : Channel}
    (h0 : s0.getChannel name = some ch0) (fd : Nat) (c : Client)
    (hnd : (ch0.clients.map Prod.fst).Nodup)
    (hmem : ∀ x ∈ ch0.clients.map Prod.fst, (s0.getClient x).isSome = true)
    (hfd : fd ∈ ch0.clients.map Prod.fst) :
    ∃ ch1, ch1.clients = ch0.clients ∧ ch1.topic = ch0.topic ∧ ch1.name = ch0.name ∧
      (Command.joinTail s0 fd c name (Utils.toLower name)).getChannel name = some ch1 ∧
      (Command.joinTail s0 fd c name (Utils.toLower name)).outStream fd =
        s0.outStream fd ++ (c.hostmask ++ " JOIN :".toList ++ name ++ CRLF) ++
          replyBytes s0 (joinReplies s0 c.nickname name ch1) ∧
      (∀ x, x ≠ fd → x ∈ ch0.clients.map Prod.fst →
        (Command.joinTail s0 fd c name (Utils.toLower name)).outStream x =
          s0.outStream x ++ (c.hostmask ++ " JOIN :".toList ++ name ++ CRLF)) ∧
      (∀ x, x ∉ ch0.clients.map Prod.fst →
        (Command.joinTail s0 fd c name (Utils.toLower name)).outStream x = s0.outStream x) := by
  rw [joinTail_eq h0 fd c]
  have h1 : (if ch0.isInvited c.nickname = true then
        s0.modifyChannel (Utils.toLower name) (fun ch => ch.removeInvite c.nickname)
      else s0).getChannel name =
      some (if ch0.isInvited c.nickname then ch0.removeInvite c.nickname else ch0) := by
    split
    · rw [getChannel_modifyChannel_self, h0]; rfl
    · exact h0
  have hcl1 : (if ch0.isInvited c.nickname = true then
        s0.modifyChannel (Utils.toLower name) (fun ch => ch.removeInvite c.nickname)
      else s0).clients = s0.clients := by split <;> rfl
  have hsn1 : (if ch0.isInvited c.nickname = true then
        s0.modifyChannel (Utils.toLower name) (fun ch => ch.removeInvite c.nickname)
      else s0).serverName = s0.serverName := by split <;> rfl
  generalize (if ch0.isInvited c.nickname = true then
        s0.modifyChannel (Utils.toLower name) (fun ch => ch.removeInvite c.nickname)
      else s0) = s1 at h1 hcl1 hsn1 ⊢
  have hcl : (if ch0.isInvited c.nickname = true then ch0.removeInvite c.nickname
      else ch0).clients = ch0.clients := by split <;> rfl
  have htop : (if ch0.isInvited c.nickname = true then ch0.removeInvite c.nickname
      else ch0).topic = ch0.topic := by split <;> rfl
  have hname : (if ch0.isInvited c.nickname = true then ch0.removeInvite c.nickname
      else ch0).name = ch0.name := by split <;> rfl
  generalize (if ch0.isInvited c.nickname = true then ch0.removeInvite c.nickname
      else ch0) = ch1 at h1 hcl htop hname ⊢
  have hout1 : ∀ x, s1.outStream x = s0.outStream x := fun x => outStream_congr hcl1 x
  have hget1 : ∀ x, s1.getClient x = s0.getClient x := by
    intro x; unfold Server.getClient; rw [hcl1]
  refine ⟨ch1, hcl, htop, hname, ?_, ?_, ?_, ?_⟩
  · have hch : ((s1.broadcastTo ch0.clients (c.hostmask ++ " JOIN :".toList ++ name)
        none).sendReplies fd (joinReplies s0 c.nickname name ch1)).channels = s1.channels := by
      simp
    rw [getChannel_congr hch, h1]
  · have hs1 : (s1.getClient fd).isSome = true := by rw [hget1]; exact hmem fd hfd
    have hs2 : ((s1.broadcastTo ch0.clients (c.hostmask ++ " JOIN :".toList ++ name)
        none).getClient fd).isSome = true := by
      obtain ⟨d, hd⟩ := Option.isSome_iff_exists.mp hs1
      obtain ⟨e, he, _⟩ := (benign_broadcastTo s1 ch0.clients
        (c.hostmask ++ " JOIN :".toList ++ name) none).getClient hd
      rw [he]; rfl
    obtain ⟨d2, hd2⟩ := Option.isSome_iff_exists.mp hs2
    rw [outStream_sendReplies hd2, outStream_broadcastTo _ _ _ hnd s1 hs1]
    simp only [hfd, ↓reduceIte, broadcastTo_serverName, hsn1, hout1]
    rfl
  · intro x hx hxm
    have hs1 : (s1.getClient x).isSome = true := by rw [hget1]; exact hmem x hxm
    rw [outStream_sendReplies_other fd x hx, outStream_broadcastTo _ _ _ hnd s1 hs1]
    simp only [hxm, ↓reduceIte, hout1]
  · intro x hxm
    by_cases hxf : x = fd
    · exact absurd (hxf ▸ hfd) hxm
    · rw [outStream_sendReplies_other fd x hxf]
      cases hg : s1.getClient x with
      | none =>
        have hb := benign_broadcastTo s1 ch0.clients
          (c.hostmask ++ " JOIN :".toList ++ name) none
        rw [outStream_of_getClient_none (hb.getClient_none hg), ← hout1,
          outStream_of_getClient_none hg]
      | some d =>
        have hs1 : (s1.getClient x).isSome = true := by rw [hg]; rfl
        rw [outStream_broadcastTo _ _ _ hnd s1 hs1]
        simp only [hxm, ↓reduceIte, List.append_nil, hout1]

theorem RoomInv.channel_facts {s : Server} (hinv : RoomInv s) {name : Str} {ch : Channel}
    (h : s.getChannel name = some ch) :
    (ch.clients.map Prod.fst).Nodup ∧
    ∀ x ∈ ch.clients.map Prod.fst, (s.getClient x).isSome = true := by
  have hmem : (Utils.toLower name, ch) ∈ s.channels :=
    List.mem_of_find?_eq_some (getChannel_find h)
  refine ⟨hinv.2.2.2.1 _ (List.mem_map.mpr ⟨_, hmem, rfl⟩), ?_⟩
  intro x hx
  obtain ⟨m, hm, rfl⟩ := List.mem_map.mp hx
  obtain ⟨c, hc, hfd⟩ := hinv.agrees.2.2.1 _ hmem m hm
  rw [getClient_isSome_iff]
  exact List.mem_map.mpr ⟨c, hc, hfd⟩

theorem addClient_serverName (s : Server) (key : Str) (fd : Nat) (asOperator : Bool) :
    (s.addClient key fd asOperator).serverName = s.serverName := by
  unfold Server.addClient
  split
  · rfl
  · split <;> rfl

theorem createChannel_serverName (s : Server) (name : Str) (fd : Nat) :
    (s.createChannel name fd).serverName = s.serverName := by
  unfold Server.createChannel
  split <;> rfl

theorem joinReplies_benign {s t : Server} (h : Benign s t) (nickname name : Str)
    (ch : Channel) : joinReplies t nickname name ch = joinReplies s nickname name ch := by
  unfold joinReplies
  rw [namesList_benign h]

set_option maxRecDepth 100000 in
theorem keyedServer_attainable : Attainable keyedServer :=
  attainable_run demoServer_attainable keyedEvents (by rfl) (by rfl)

theorem isOperator_of_not_member (ch : Channel) (fd : Nat) (h : ch.hasClient fd = false) :
    ch.isOperator fd = false := by
  unfold Channel.hasClient at h
  unfold Channel.isOperator
  cases hf : ch.findClient fd with
  | none => rfl
  | some v => rw [hf] at h; cases h

theorem outStream_of_forgetOutbound {s t : Server} {fd : Nat}
    (h : t.forgetOutbound fd = s.forgetOutbound fd) (x : Nat) (hx : x ≠ fd) :
    t.outStream x = s.outStream x := by
  have := (forgetOutbound_eq_imp h).2.2.2.2 x hx
  unfold Server.outStream
  rw [this]

set_option maxRecDepth 100000 in
/-- C28 (code bug): `ModeCommand::execute` builds
`std::vector<std::string>(params.begin() + 2, params.end())` before it calls
`handleChannelMode`. With the single parameter `#foo` the iterator `params.begin() + 2`
lies beyond `params.end()`: the parameter list is read out of range and the behaviour
is undefined, so the line `MODE #foo` of the registered member `alice` has no defined
result, while the same request with an empty second parameter is answered 324. -/
theorem mode_single_parameter_counterexample :
    CommandHandler.parseParams (CommandHandler.paramText "MODE #foo".toList) = ["#foo".toList] ∧
    (∀ (s : Server) (fd : Nat) (target : Str),
      target.head? = some '#' ∨ target.head? = some '&' →
      Command.modeExecute s fd [target] = none) ∧
    CommandHandler.executeCommand demoServer 4 "MODE #foo".toList = none ∧
    run demoServer [Event.recv 4 "MODE #foo\r\n".toList] = none ∧
    (Command.modeExecute demoServer 4 ["#foo".toList, []]).map (fun t => t.outStream 4) =
      some (demoServer.outStream 4 ++ ":ft_irc 324 #foo +\r\n".toList) := by
  refine ⟨by rfl, ?_, by rfl, by rfl, by decide⟩
  intro s fd target ht
  unfold Command.modeExecute
  cases s.getClient fd with
  | none => rfl
  | some c => simp only [ht, ↓reduceIte]

set_option maxRecDepth 100000 in
/-- C30 (code bug): `ModeCommand::handleUserMode` compares the target with the nickname
of the sender by `!=` on the strings, without lowercasing. The session registered as
`Alice` sends `MODE alice`: it is answered 502, although `Server::getClientByNickname`
finds that very session under `alice`; `MODE Alice` is answered 221. -/
theorem user_mode_case_counterexample :
    (capsServer.getClient 4).map (fun c => (c.nickname, c.status)) =
      some ("Alice".toList, ClientStatus.REGISTERED) ∧
    Utils.toLower "alice".toList = Utils.toLower "Alice".toList ∧
    (capsServer.getClientByNickname "alice".toList).map Client.fd = some 4 ∧
    (CommandHandler.executeCommand capsServer 4 "MODE alice".toList).map
        (fun t => t.outStream 4) =
      some (capsServer.outStream 4 ++
        ":ft_irc 502 :Cannot change mode for other users\r\n".toList) ∧
    (CommandHandler.executeCommand capsServer 4 "MODE Alice".toList).map
        (fun t => t.outStream 4) =
      some (capsServer.outStream 4 ++ ":ft_irc 221 +\r\n".toList) ∧
    (∀ (s : Server) (fd : Nat) (c : Client) (target modes : Str), target ≠ c.nickname →
      Command.handleUserMode s fd c target modes =
        s.sendReply fd "502 :Cannot change mode for other users".toList) := by
  refine ⟨by rfl, by rfl, by rfl, by decide, by decide, ?_⟩
  intro s fd c target modes h
  unfold Command.handleUserMode
  simp only [ne_eq, h, not_false_eq_true, ↓reduceIte]

set_option maxRecDepth 100000 in
/-- C26 (code bug): `ModeCommand::handleChannelMode` starts the mode string of the
broadcast with `"+"` and then appends every sign character of the request to it, so a
request that starts with a sign is announced with the sign doubled. The operator
`alice` sends `MODE #foo +i`: the members are sent `MODE #foo ++i`, not `MODE #foo +i`;
`MODE #foo +i-t` is announced as `++i-t`. Only a request without a leading sign
(`MODE #foo i`) is announced as `+i`. A rejected mode character (`+k` without a key)
is left out of the mode string, and the line is broadcast all the same. -/
theorem mode_broadcast_sign_counterexample :
    (CommandHandler.executeCommand demoServer 4 "MODE #foo +i".toList).map
        (fun t => (t.outStream 4, t.outStream 5)) =
      some (demoServer.outStream 4 ++ ":alice!alice@h1 MODE #foo ++i\r\n".toList,
            demoServer.outStream 5 ++ ":alice!alice@h1 MODE #foo ++i\r\n".toList) ∧
    (CommandHandler.executeCommand demoServer 4 "MODE #foo +i-t".toList).map
        (fun t => t.outStream 5) =
      some (demoServer.outStream 5 ++ ":alice!alice@h1 MODE #foo ++i-t\r\n".toList) ∧
    (CommandHandler.executeCommand demoServer 4 "MODE #foo i".toList).map
        (fun t => t.outStream 5) =
      some (demoServer.outStream 5 ++ ":alice!alice@h1 MODE #foo +i\r\n".toList) ∧
    (CommandHandler.executeCommand demoServer 4 "MODE #foo +k".toList).map
        (fun t => (t.outStream 4, t.outStream 5)) =
      some (demoServer.outStream 4 ++
              (":ft_irc 461 MODE :Not enough parameters\r\n" ++
               ":alice!alice@h1 MODE #foo ++\r\n").toList,
            demoServer.outStream 5 ++ ":alice!alice@h1 MODE #foo ++\r\n".toList) ∧
    (∀ (fd : Nat) (channelName key : Str) (modeParams : List Str) (st : Command.ModeLoop),
      (Command.channelModeStep fd channelName key modeParams st '+').modeChanges =
        st.modeChanges ++ ['+']) ∧
    ({ server := demoServer } : Command.ModeLoop).modeChanges = ['+'] := by
  refine ⟨by decide, by decide, by decide, by decide, ?_, rfl⟩
  intro fd channelName key modeParams st
  simp [Command.channelModeStep]

theorem getClient_sendMessage_map {α : Type} (f : Client → α)
    (hf : ∀ (c : Client) (q : List Str) (w : Str) (st : ClientStatus),
      f { c with messages := q, wire := w, status := st } = f c)
    (s : Server) (fd : Nat) (m : Str) (x : Nat) :
    ((s.sendMessage fd m).getClient x).map f = (s.getClient x).map f := by
  by_cases hx : x = fd
  · subst hx
    cases h : s.getClient x with
    | none => rw [sendMessage_none h, h]
    | some c =>
      rw [getClient_sendMessage_self h]
      simp only [Option.map_some', hf]
  · rw [getClient_sendMessage_other s hx]

theorem getClient_sendReply_map {α : Type} (f : Client → α)
    (hf : ∀ (c : Client) (q : List Str) (w : Str) (st : ClientStatus),
      f { c with messages := q, wire := w, status := st } = f c)
    (s : Server) (fd : Nat) (m : Str) (x : Nat) :
    ((s.sendReply fd m).getClient x).map f = (s.getClient x).map f :=
  getClient_sendMessage_map f hf s fd _ x

theorem userModeStep_operator (fd : Nat) (st : Server × Bool) (mode : Char) (x : Nat)
    (h : ((Command.userModeStep fd st mode).1.getClient x).map Client.isOperator = some true) :
    (st.1.getClient x).map Client.isOperator = some true := by
  unfold Command.userModeStep at h
  simp only at h
  split at h
  · exact h
  · split at h
    · exact h
    · split at h
      · split at h
        · rwa [getClient_sendReply_map Client.isOperator (fun _ _ _ _ => rfl)] at h
        · split at h
          · exact h
          · split at h
            · rw [getClient_sendMessage_map Client.isOperator (fun _ _ _ _ => rfl),
                getClient_modifyClient st.1 fd x (fun e => e.setOperator false)
                  (fun _ => rfl)] at h
              cases hg : st.1.getClient x with
              | none => rw [hg] at h; cases h
              | some e =>
                rw [hg] at h
                simp only [Option.map_some', Option.some.injEq] at h ⊢
                by_cases he : e.fd = fd
                · simp [he] at h
                · simpa [he] using h
            · exact h
      · rwa [getClient_sendReply_map Client.isOperator (fun _ _ _ _ => rfl)] at h

theorem userModeLoop_operator (fd : Nat) (modes : List Char) (x : Nat) :
    ∀ st : Server × Bool,
      ((modes.foldl (Command.userModeStep fd) st).1.getClient x).map Client.isOperator =
        some true →
      (st.1.getClient x).map Client.isOperator = some true := by
  induction modes with
  | nil => intro st h; exact h
  | cons m ms ih =>
    intro st h
    exact userModeStep_operator fd st m x (ih _ h)

theorem handleUserMode_operator (s : Server) (fd : Nat) (c : Client) (target modes : Str)
    (x : Nat)
    (h : ((Command.handleUserMode s fd c target modes).getClient x).map Client.isOperator =
      some true) :
    (s.getClient x).map Client.isOperator = some true := by
  unfold Command.handleUserMode at h
  split at h
  · rwa [getClient_sendReply_map Client.isOperator (fun _ _ _ _ => rfl)] at h
  · split at h
    · rwa [getClient_sendReply_map Client.isOperator (fun _ _ _ _ => rfl)] at h
    · exact userModeLoop_operator fd modes x _ h

theorem setMode_setMode (ch : Channel) (m : Nat) (b : Bool) :
    (ch.setMode m b).setMode m b = ch.setMode m b := by
  unfold Channel.setMode
  cases b
  · simp only [Bool.false_eq_true, ↓reduceIte, Nat.land_assoc, Nat.and_self]
  · simp only [↓reduceIte, Nat.lor_assoc, Nat.or_self]

theorem setMode_fields (ch : Channel) (m : Nat) (b : Bool) :
    (ch.setMode m b).name = ch.name ∧ (ch.setMode m b).topic = ch.topic ∧
    (ch.setMode m b).clients = ch.clients ∧ (ch.setMode m b).password = ch.password ∧
    (ch.setMode m b).userLimit = ch.userLimit ∧
    (ch.setMode m b).invitedUsers = ch.invitedUsers := by
  unfold Channel.setMode
  cases b <;> simp

theorem setMode_testBit (ch : Channel) (m : Nat) (b : Bool) (hr : ch.modes < 2 ^ 32) (i : Nat)
    (hi : m.testBit i = false) :
    (ch.setMode m b).modes.testBit i = ch.modes.testBit i := by
  unfold Channel.setMode bitNot32
  cases b
  · simp only [Bool.false_eq_true, ↓reduceIte, Nat.testBit_and, Nat.testBit_xor,
      Nat.testBit_two_pow_sub_one, hi, Bool.xor_false]
    by_cases h32 : i < 32
    · simp [h32]
    · have : ch.modes.testBit i = false := by
        apply Nat.testBit_eq_false_of_lt
        exact lt_of_lt_of_le hr (Nat.pow_le_pow_right (by decide) (Nat.le_of_not_lt h32))
      simp [this]
  · simp only [↓reduceIte, Nat.testBit_or, hi, Bool.or_false]

theorem hasMode_setMode_true (ch : Channel) (m : Nat) (hm : m ≠ 0) :
    (ch.setMode m true).hasMode m = true := by
  unfold Channel.setMode Channel.hasMode
  simp only [↓reduceIte]
  have : (ch.modes ||| m) &&& m = m := by
    apply Nat.eq_of_testBit_eq
    intro i
    simp only [Nat.testBit_and, Nat.testBit_or]
    cases ch.modes.testBit i <;> cases m.testBit i <;> rfl
  rw [this]
  simpa using hm

theorem handleChannelMode_flag {s : Server} {fd : Nat} (c : Client) {name : Str} {ch : Channel}
    (hch : s.getChannel name = some ch) (hop : ch.isOperator fd = true) (l : Char)
    (hl : l = 'i' ∨ l = 't') :
    Command.handleChannelMode s fd c name ['+', l] [] =
      (s.modifyChannel (Utils.toLower name)
        (fun x => x.setMode (if l = 'i' then MODE_INVITE_ONLY else MODE_TOPIC_LOCKED)
          true)).channelBroadcast (Utils.toLower name)
        (c.hostmask ++ " MODE ".toList ++ name ++ ' ' :: ['+', '+', l]) none := by
  unfold Command.handleChannelMode
  rw [hch]
  rcases hl with rfl | rfl <;>
    simp [hop, Command.channelModeStep]

theorem modifyChannel_twice (s : Server) (key : Str) (f : Channel → Channel)
    (hf : ∀ ch, f (f ch) = f ch) :
    ((s.modifyChannel key f).modifyChannel key f).channels = (s.modifyChannel key f).channels := by
  unfold Server.modifyChannel
  simp only [List.map_map]
  apply List.map_congr_left
  intro kc _
  by_cases h : kc.1 = key <;> simp [h, hf]

theorem isOperator_setMode (ch : Channel) (m : Nat) (b : Bool) (fd : Nat) :
    (ch.setMode m b).isOperator fd = ch.isOperator fd := by
  unfold Channel.isOperator Channel.findClient
  rw [(setMode_fields ch m b).2.2.1]

/-- C27: `Channel::setMode(m, b)` applied twice gives the same channel as applied once,
changes no field other than the mode word and, in the mode word of an `unsigned int`,
no bit outside `m`. For an operator of the channel, `MODE <chan> +i` (and `+t`) sent
twice leaves the channel map as it is after the first request: the flag is set, and
modes, key, limit, members, member flags and invite set are those the first request
left. -/
theorem mode_flag_idempotent (s : Server) (fd : Nat) (c : Client) (name : Str) (ch : Channel)
    (l : Char) (hc : s.getClient fd = some c)
    (ht : name.head? = some '#' ∨ name.head? = some '&')
    (hch : s.getChannel name = some ch) (hop : ch.isOperator fd = true)
    (hl : l = 'i' ∨ l = 't') :
    (∀ (x : Channel) (m : Nat) (b : Bool),
      (x.setMode m b).setMode m b = x.setMode m b ∧
      (x.setMode m b).name = x.name ∧ (x.setMode m b).topic = x.topic ∧
      (x.setMode m b).clients = x.clients ∧ (x.setMode m b).password = x.password ∧
      (x.setMode m b).userLimit = x.userLimit ∧
      (x.setMode m b).invitedUsers = x.invitedUsers ∧
      (x.modes < 2 ^ 32 → ∀ i, m.testBit i = false →
        (x.setMode m b).modes.testBit i = x.modes.testBit i)) ∧
    ∃ t1 t2 ch1,
      Command.modeExecute s fd [name, ['+', l]] = some t1 ∧
      Command.modeExecute t1 fd [name, ['+', l]] = some t2 ∧
      t1.getChannel name = some ch1 ∧
      ch1 = ch.setMode (if l = 'i' then MODE_INVITE_ONLY else MODE_TOPIC_LOCKED) true ∧
      ch1.hasMode (if l = 'i' then MODE_INVITE_ONLY else MODE_TOPIC_LOCKED) = true ∧
      ch1.clients = ch.clients ∧ ch1.password = ch.password ∧ ch1.userLimit = ch.userLimit ∧
      ch1.invitedUsers = ch.invitedUsers ∧ ch1.topic = ch.topic ∧
      (ch.modes < 2 ^ 32 → ∀ i,
        (if l = 'i' then MODE_INVITE_ONLY else MODE_TOPIC_LOCKED).testBit i = false →
        ch1.modes.testBit i = ch.modes.testBit i) ∧
      t2.getChannel name = some ch1 ∧
      t2.channels = t1.channels := by
  refine ⟨fun x m b => ⟨setMode_setMode x m b, (setMode_fields x m b).1,
    (setMode_fields x m b).2.1, (setMode_fields x m b).2.2.1, (setMode_fields x m b).2.2.2.1,
    (setMode_fields x m b).2.2.2.2.1, (setMode_fields x m b).2.2.2.2.2,
    fun hr i hi => setMode_testBit x m b hr i hi⟩, ?_⟩
  generalize hbit : (if l = 'i' then MODE_INVITE_ONLY else MODE_TOPIC_LOCKED) = bit
  have hbit0 : bit ≠ 0 := by
    rw [← hbit]; split <;> decide
  have hfl := fun (s0 : Server) (c0 : Client) (ch0 : Channel)
      (h0 : s0.getChannel name = some ch0) (hop0 : ch0.isOperator fd = true) =>
    @handleChannelMode_flag s0 fd c0 name ch0 h0 hop0 l hl
  rw [hbit] at hfl
  -- the first request
  have e1 : Command.modeExecute s fd [name, ['+', l]] =
      some (Command.handleChannelMode s fd c name ['+', l] []) := by
    unfold Command.modeExecute
    rw [hc]
    simp only [ht, ↓reduceIte]
  have hch1 : (Command.handleChannelMode s fd c name ['+', l] []).channels =
      (s.modifyChannel (Utils.toLower name) (fun x => x.setMode bit true)).channels := by
    rw [hfl s c ch hch hop, channelBroadcast_channels]
  have hg1 : (Command.handleChannelMode s fd c name ['+', l] []).getChannel name =
      some (ch.setMode bit true) := by
    rw [getChannel_congr hch1, getChannel_modifyChannel_self, hch]
    rfl
  -- the second request
  obtain ⟨c1, hc1, _⟩ := (benign_handleChannelMode s fd c name ['+', l] []).getClient hc
  have e2 : Command.modeExecute (Command.handleChannelMode s fd c name ['+', l] []) fd
      [name, ['+', l]] =
      some (Command.handleChannelMode (Command.handleChannelMode s fd c name ['+', l] []) fd c1
        name ['+', l] []) := by
    unfold Command.modeExecute
    rw [hc1]
    simp only [ht, ↓reduceIte]
  have hop1 : (ch.setMode bit true).isOperator fd = true := by
    rw [isOperator_setMode]; exact hop
  have hch2 : (Command.handleChannelMode (Command.handleChannelMode s fd c name ['+', l] []) fd
      c1 name ['+', l] []).channels =
      (Command.handleChannelMode s fd c name ['+', l] []).channels := by
    rw [hfl _ c1 _ hg1 hop1, channelBroadcast_channels]
    have : ((Command.handleChannelMode s fd c name ['+', l] []).modifyChannel
        (Utils.toLower name) (fun x => x.setMode bit true)).channels =
        ((s.modifyChannel (Utils.toLower name) (fun x => x.setMode bit true)).modifyChannel
          (Utils.toLower name) (fun x => x.setMode bit true)).channels := by
      unfold Server.modifyChannel
      simp only
      rw [hch1]
      rfl
    rw [this, modifyChannel_twice _ _ _ (fun x => setMode_setMode x bit true), hch1]
  refine ⟨_, _, ch.setMode bit true, e1, e2, hg1, rfl, hasMode_setMode_true ch bit hbit0,
    (setMode_fields ch bit true).2.2.1, (setMode_fields ch bit true).2.2.2.1,
    (setMode_fields ch bit true).2.2.2.2.1, (setMode_fields ch bit true).2.2.2.2.2,
    (setMode_fields ch bit true).2.1, fun hr i hi => setMode_testBit ch bit true hr i hi, ?_, hch2⟩
  rw [getChannel_congr hch2, hg1]

set_option maxRecDepth 100000 in
/-- C27 on the demonstration state: `alice`, operator of `#foo`, sends `MODE #foo +i`
twice. -/
theorem mode_flag_idempotent_witness :
    ∃ t1 t2 ch1, Command.modeExecute demoServer 4 ["#foo".toList, "+i".toList] = some t1 ∧
      Command.modeExecute t1 4 ["#foo".toList, "+i".toList] = some t2 ∧
      t1.getChannel "#foo".toList = some ch1 ∧ ch1.hasMode MODE_INVITE_ONLY = true ∧
      t2.getChannel "#foo".toList = some ch1 ∧ t2.channels = t1.channels := by
  obtain ⟨_, t1, t2, ch1, h1, h2, h3, _, h5, _, _, _, _, _, _, h12, h13⟩ :=
    mode_flag_idempotent demoServer 4 ((demoServer.getClient 4).getD { fd := 4 })
      "#foo".toList ((demoServer.getChannel "#foo".toList).getD { name := [] }) 'i'
      (by rfl) (by decide) (by rfl) (by rfl) (Or.inl rfl)
  exact ⟨t1, t2, ch1, h1, h2, h3, h5, h12, h13⟩

/-- What `Channel::broadcast` without exclusion sends: on a state where the channel
exists, its member map repeats no descriptor and its members are sessions, every
member is sent the message once and nobody else is sent anything. -/
theorem outStream_channelBroadcast {s : Server} {name : Str} {ch : Channel}
    (h : s.getChannel name = some ch) (hnd : (ch.clients.map Prod.fst).Nodup)
    (hmem : ∀ x ∈ ch.clients.map Prod.fst, (s.getClient x).isSome = true) (m : Str) (x : Nat) :
    (s.channelBroadcast (Utils.toLower name) m none).outStream x =
      s.outStream x ++ (if ch.hasClient x = true then m ++ CRLF else []) := by
  unfold Server.channelBroadcast
  rw [getChannel_find h]
  simp only
  cases hg : s.getClient x with
  | none =>
    have hnm : ch.hasClient x = false := by
      cases hh : ch.hasClient x with
      | false => rfl
      | true =>
        have := hmem x ((hasClient_iff ch x).mp hh)
        rw [hg] at this
        cases this
    rw [outStream_of_getClient_none ((benign_broadcastTo s ch.clients m none).getClient_none hg),
      outStream_of_getClient_none hg, hnm]
    rfl
  | some d =>
    have hs : (s.getClient x).isSome = true := by rw [hg]; rfl
    rw [outStream_broadcastTo _ _ _ hnd s hs]
    congr 1
    by_cases hx : x ∈ ch.clients.map Prod.fst
    · rw [if_pos hx, if_pos ((hasClient_iff ch x).mpr hx)]
    · rw [if_neg hx, if_neg (fun hh => hx ((hasClient_iff ch x).mp hh))]

theorem clientCanChangeTopic_iff (ch : Channel) (fd : Nat) :
    ch.clientCanChangeTopic fd = true ↔
      ch.hasClient fd = true ∧ (ch.hasMode MODE_TOPIC_LOCKED = false ∨ ch.isOperator fd = true) := by
  unfold Channel.clientCanChangeTopic
  cases ch.hasClient fd <;> cases ch.hasMode MODE_TOPIC_LOCKED <;> cases ch.isOperator fd <;> simp

theorem getChannel_channelRemoveClient {s : Server} {name : Str} {ch : Channel}
    (h : s.getChannel name = some ch) (fd : Nat) :
    (s.channelRemoveClient (Utils.toLower name) fd).getChannel name =
      some (if ch.hasClient fd = true then ch.eraseMember fd else ch) := by
  unfold Server.channelRemoveClient
  rw [getChannel_find h]
  simp only
  split
  · have : ((s.modifyChannel (Utils.toLower name) (fun x => x.eraseMember fd)).modifyClient fd
        (fun c => c.leaveChannel (Utils.toLower name))).channels =
        (s.modifyChannel (Utils.toLower name) (fun x => x.eraseMember fd)).channels := rfl
    rw [getChannel_congr this, getChannel_modifyChannel_self, h]
    rfl
  · exact h

theorem getChannel_channelRemoveClient_other (s : Server) (key name2 : Str) (fd : Nat)
    (hne : Utils.toLower name2 ≠ key) :
    (s.channelRemoveClient key fd).getChannel name2 = s.getChannel name2 := by
  unfold Server.channelRemoveClient
  split
  · rfl
  · split
    · have : ((s.modifyChannel key (fun x => x.eraseMember fd)).modifyClient fd
          (fun c => c.leaveChannel key)).channels =
          (s.modifyChannel key (fun x => x.eraseMember fd)).channels := rfl
      rw [getChannel_congr this, getChannel_modifyChannel_other _ _ _ _ hne]
    · rfl

theorem getChannel_removeChannel_self (s : Server) (name : Str) :
    (s.removeChannel name).getChannel name = none := by
  unfold Server.removeChannel Server.getChannel
  simp only [Option.map_eq_none']
  rw [List.find?_eq_none]
  intro kc hkc
  have := (List.mem_filter.mp hkc).2
  simpa using this

theorem getChannel_removeChannel_other (s : Server) (name name2 : Str)
    (hne : Utils.toLower name2 ≠ Utils.toLower name) :
    (s.removeChannel name).getChannel name2 = s.getChannel name2 := by
  unfold Server.removeChannel Server.getChannel
  simp only
  congr 1
  rw [List.find?_filter]
  congr 1
  funext kc
  by_cases h2 : kc.1 = Utils.toLower name2
  · have h1 : ¬ kc.1 = Utils.toLower name := fun h => hne (h2.symm.trans h)
    simp [h2, hne]
  · simp [h2]

theorem outStream_channelRemoveClient (s : Server) (key : Str) (fd x : Nat) :
    (s.channelRemoveClient key fd).outStream x = s.outStream x := by
  unfold Server.channelRemoveClient
  split
  · rfl
  · split
    · rw [outStream_modifyClient (s.modifyChannel key (fun ch => ch.eraseMember fd)) fd x
        (fun c => c.leaveChannel key) (fun _ => rfl) (fun _ => rfl), outStream_modifyChannel]
    · rfl

theorem getClient_channelRemoveClient {s : Server} {name : Str} {ch : Channel}
    (h : s.getChannel name = some ch) {fd : Nat} (hm : ch.hasClient fd = true) (x : Nat) :
    ((s.channelRemoveClient (Utils.toLower name) fd).getClient x).map Client.channels =
      (s.getClient x).map
        (fun c => if c.fd = fd then c.channels.erase (Utils.toLower name) else c.channels) := by
  unfold Server.channelRemoveClient
  rw [getChannel_find h]
  simp only [hm, ↓reduceIte]
  rw [getClient_modifyClient _ fd x (fun c => c.leaveChannel (Utils.toLower name)) (fun _ => rfl)]
  have : (s.modifyChannel (Utils.toLower name) (fun x => x.eraseMember fd)).getClient x =
      s.getClient x := rfl
  rw [this]
  cases s.getClient x with
  | none => rfl
  | some c =>
    simp only [Option.map_some', Option.some.injEq]
    split <;> rfl

set_option maxRecDepth 100000 in
theorem soloServer_attainable : Attainable soloServer :=
  attainable_run demoServer_attainable [Event.recv 5 "PART #foo\r\n".toList] (by rfl) (by rfl)

theorem hasClient_of_isOperator (ch : Channel) (fd : Nat) (h : ch.isOperator fd = true) :
    ch.hasClient fd = true := by
  cases hm : ch.hasClient fd with
  | true => rfl
  | false => rw [isOperator_of_not_member ch fd hm] at h; cases h

theorem channelRemoveClient_lists {s s1 : Server} {name : Str} {ch : Channel}
    (h1 : s1.getChannel name = some ch) (hs : SameRooms s s1) {fd : Nat}
    (hm : ch.hasClient fd = true) (x : Nat) :
    ((s1.channelRemoveClient (Utils.toLower name) fd).getClient x).map Client.channels =
      (s.getClient x).map
        (fun d => if d.fd = fd then d.channels.erase (Utils.toLower name) else d.channels) := by
  rw [getClient_channelRemoveClient h1 hm x]
  have h5 := hs.getClient_channels x
  cases h6 : s1.getClient x with
  | none =>
    rw [h6] at h5
    cases h7 : s.getClient x with
    | none => rfl
    | some d => rw [h7] at h5; cases h5
  | some d1 =>
    rw [h6] at h5
    cases h7 : s.getClient x with
    | none => rw [h7] at h5; cases h5
    | some d =>
      rw [h7] at h5
      simp only [Option.map_some', Option.some.injEq] at h5 ⊢
      have hfd1 : d1.fd = x := getClient_fd h6
      have hfd : d.fd = x := getClient_fd h7
      rw [hfd1, hfd, h5]

set_option maxRecDepth 100000 in
/-- C23, the case the claim leaves out: the operator `alice` sends `KICK #foo nobody`
and no session has the nickname `nobody`. The reply is 401, not 441, and no `KICK`
line is sent. -/
theorem kick_unknown_nick_counterexample :
    demoServer.getClientByNickname "nobody".toList = none ∧
    (demoServer.getChannel "#foo".toList).map (fun ch => ch.isOperator 4) = some true ∧
    (CommandHandler.executeCommand demoServer 4 "KICK #foo nobody".toList).map
        (fun t => t.outStream 4) =
      some (demoServer.outStream 4 ++ ":ft_irc 401 nobody :No such nick/channel\r\n".toList) ∧
    (CommandHandler.executeCommand demoServer 4 "KICK #foo nobody".toList).map
        (fun t => t.outStream 5) = some (demoServer.outStream 5) ∧
    (CommandHandler.executeCommand demoServer 4 "KICK #foo nobody".toList).map
        (fun t => t.channels) = some demoServer.channels := by
  refine ⟨by rfl, by rfl, by decide, by decide, by decide⟩

theorem NamesInv.shrunk {s t : Server} (hn : NamesInv s) (h : NamesShrunk s t) : NamesInv t := by
  intro d hd
  obtain ⟨c, hc, h1, h2⟩ := h d hd
  rcases hn c hc with ⟨a, b⟩ | v
  · left; exact ⟨h1.trans a, h2 b⟩
  · right; rw [h1]; exact v

theorem NamesShrunk.nrefl (s : Server) : NamesShrunk s s :=
  fun d hd => ⟨d, hd, rfl, fun h => h⟩

theorem NamesShrunk.ntrans {s t u : Server} (h1 : NamesShrunk s t) (h2 : NamesShrunk t u) :
    NamesShrunk s u := by
  intro e he
  obtain ⟨d, hd, a1, a2⟩ := h2 e he
  obtain ⟨c, hc, b1, b2⟩ := h1 d hd
  exact ⟨c, hc, a1.trans b1, fun h => a2 (b2 h)⟩

theorem forall₂_evolves_names {l1 l2 : List Client} (h : List.Forall₂ Client.Evolves l1 l2)
    (hv : l2.map (fun c => (c.fd, c.channels)) = l1.map (fun c => (c.fd, c.channels))) :
    ∀ d ∈ l2, ∃ c ∈ l1, d.nickname = c.nickname ∧ d.channels = c.channels := by
  induction h with
  | nil => intro d hd; cases hd
  | @cons c d l1 l2 hcd _ ih =>
    simp only [List.map_cons, List.cons.injEq, Prod.mk.injEq] at hv
    intro e he
    rcases List.mem_cons.mp he with rfl | he
    · exact ⟨c, List.mem_cons_self _ _, hcd.2.1, hv.1.2⟩
    · obtain ⟨x, hx, hx2⟩ := ih hv.2 e he
      exact ⟨x, List.mem_cons_of_mem _ hx, hx2⟩

theorem namesShrunk_of_benign {s t : Server} (hb : Benign s t) (hr : SameRooms s t) :
    NamesShrunk s t := by
  intro d hd
  obtain ⟨c, hc, h1, h2⟩ := forall₂_evolves_names hb (congrArg Prod.snd hr) d hd
  exact ⟨c, hc, h1, fun h => h2.trans h⟩

theorem namesShrunk_of_clients {s t : Server} (h : t.clients = s.clients) : NamesShrunk s t := by
  intro d hd
  rw [h] at hd
  exact ⟨d, hd, rfl, fun h => h⟩

theorem namesShrunk_modifyClient (s : Server) (fd : Nat) (f : Client → Client)
    (hf : ∀ c, (f c).nickname = c.nickname ∧ (c.channels = [] → (f c).channels = [])) :
    NamesShrunk s (s.modifyClient fd f) := by
  intro d hd
  obtain ⟨c, hc, rfl⟩ := mem_modifyClient hd
  refine ⟨c, hc, ?_⟩
  split
  · exact hf c
  · exact ⟨rfl, fun h => h⟩

theorem NamesShrunk.past_modifyClient {s t : Server} {fd : Nat} {f : Client → Client}
    (h : NamesShrunk (s.modifyClient fd f) t)
    (hf : ∀ c, (f c).nickname = c.nickname ∧ (c.channels = [] → (f c).channels = [])) :
    NamesShrunk s t :=
  (namesShrunk_modifyClient s fd f hf).ntrans h

theorem namesShrunk_channelRemoveClient (s : Server) (key : Str) (fd : Nat) :
    NamesShrunk s (s.channelRemoveClient key fd) := by
  unfold Server.channelRemoveClient
  split
  · exact NamesShrunk.nrefl s
  · split
    · refine NamesShrunk.ntrans (namesShrunk_of_clients (t := s.modifyChannel key
        (fun ch => ch.eraseMember fd)) rfl) ?_
      apply namesShrunk_modifyClient
      intro c
      refine ⟨rfl, fun h => ?_⟩
      simp [Client.leaveChannel, h]
    · exact NamesShrunk.nrefl s

theorem namesShrunk_sendReply (s : Server) (fd : Nat) (m : Str) :
    NamesShrunk s (s.sendReply fd m) :=
  namesShrunk_of_benign (benign_sendReply s fd m) (sameRooms_sendReply s fd m)

theorem namesShrunk_partExecute {s t : Server} {fd : Nat} {params : List Str}
    (h : Command.partExecute s fd params = some t) : NamesShrunk s t := by
  unfold Command.partExecute at h
  split at h
  · simp only at h
    split at h
    · cases h; exact namesShrunk_sendReply _ _ _
    · split at h
      · cases h; exact namesShrunk_sendReply _ _ _
      · have h2 : ∀ key m, NamesShrunk s ((s.channelBroadcast key m none).channelRemoveClient
            key fd) :=
          fun key m => (namesShrunk_of_benign (benign_channelBroadcast s key m none)
            (sameRooms_channelBroadcast s key m none)).ntrans
              (namesShrunk_channelRemoveClient _ key fd)
        repeat' split at h
        all_goals
          cases h
          exact (h2 _ _).ntrans (namesShrunk_of_clients rfl)
  · cases h

theorem namesShrunk_kickExecute {s t : Server} {fd : Nat} {params : List Str}
    (h : Command.kickExecute s fd params = some t) : NamesShrunk s t := by
  unfold Command.kickExecute at h
  split at h
  · simp only at h
    repeat' split at h
    all_goals
      cases h
      first
        | exact namesShrunk_sendReply _ _ _
        | exact (namesShrunk_of_benign (benign_channelBroadcast s _ _ _)
            (sameRooms_channelBroadcast s _ _ _)).ntrans (namesShrunk_channelRemoveClient _ _ _)
  · cases h

theorem namesShrunk_passExecute {s t : Server} {fd : Nat} {params : List Str}
    (h : Command.passExecute s fd params = some t) : NamesShrunk s t := by
  unfold Command.passExecute at h
  split at h
  · split at h
    · cases h; exact namesShrunk_sendReply _ _ _
    · split at h
      · cases h; exact namesShrunk_sendReply _ _ _
      · cases h
        exact namesShrunk_modifyClient _ _ _ (fun _ => ⟨rfl, fun h => h⟩)
  · cases h

theorem namesShrunk_sendWelcomeMessages (s : Server) (fd : Nat) :
    NamesShrunk s (Command.sendWelcomeMessages s fd) :=
  namesShrunk_of_benign (benign_sendWelcomeMessages s fd) (sameRooms_sendWelcomeMessages s fd)

theorem namesShrunk_userExecute {s t : Server} {fd : Nat} {params : List Str}
    (h : Command.userExecute s fd params = some t) : NamesShrunk s t := by
  unfold Command.userExecute at h
  split at h
  · rename_i c p0 p1 p2 p3 rest hc
    simp only at h
    split at h
    · cases h; exact namesShrunk_sendReply _ _ _
    · have hs1 : NamesShrunk s (s.modifyClient fd (fun d => (d.setUsername p0).setRealname p3)) :=
        namesShrunk_modifyClient _ _ _ (fun _ => ⟨rfl, fun h => h⟩)
      split at h
      · cases h
        exact hs1.ntrans ((namesShrunk_sendWelcomeMessages _ _).past_modifyClient
          (fun _ => ⟨rfl, fun h => h⟩))
      · cases h; exact hs1
  · cases h

theorem NamesInv.modifyClient_ok {s : Server} (hn : NamesInv s) (fd : Nat) (f : Client → Client)
    (hf : ∀ c ∈ s.clients, c.fd = fd →
      ((f c).nickname = [] ∧ (f c).channels = []) ∨ Utils.isValidNickname (f c).nickname = true) :
    NamesInv (s.modifyClient fd f) := by
  intro d hd
  obtain ⟨c, hc, rfl⟩ := mem_modifyClient hd
  split
  · rename_i hfd; exact hf c hc hfd
  · exact hn c hc

theorem NamesInv.nick_step {s t : Server} (hn : NamesInv s) {fd : Nat} {params : List Str}
    (h : Command.nickExecute s fd params = some t) : NamesInv t := by
  unfold Command.nickExecute at h
  split at h
  · rename_i c newNick rest hc
    simp only at h
    split at h
    · cases h; exact hn.shrunk (namesShrunk_sendReply _ _ _)
    · rename_i hv0
      have hv : Utils.isValidNickname newNick = true := by simpa using hv0
      split at h
      · cases h; exact hn.shrunk (namesShrunk_sendReply _ _ _)
      · have hs1 : NamesInv (s.modifyClient fd (fun d => d.setNickname newNick)) :=
          hn.modifyClient_ok fd _ (fun _ _ _ => Or.inr hv)
        split at h
        · cases h
          refine hs1.shrunk (namesShrunk_of_benign
            ((benign_sendMessage _ _ _).foldl_channelBroadcast _ _ _)
            ((sameRooms_sendMessage _ _ _).foldl_broadcasts _ _ _))
        · split at h
          · cases h
            exact hs1.shrunk ((namesShrunk_sendWelcomeMessages _ _).past_modifyClient
              (fun _ => ⟨rfl, fun h => h⟩))
          · cases h; exact hs1
  · cases h

theorem NamesInv.join_member {s : Server} (hn : NamesInv s) (hs : SessionInv s) {fd : Nat}
    {c : Client} (hc : s.getClient fd = some c) (hreg : c.status = ClientStatus.REGISTERED)
    (key : Str) :
    NamesInv (s.modifyClient fd (fun d => d.joinChannel key)) := by
  apply hn.modifyClient_ok
  intro d hd hfd
  have hdc : d = c := SortedFds.getClient_unique hs.1 hc hd hfd
  subst hdc
  right
  have hne := (hs.2.1 d hd hreg).1
  rcases hn d hd with ⟨a, _⟩ | v
  · exact absurd a hne
  · have : (d.joinChannel key).nickname = d.nickname := (evolves_joinChannel d key).2.1
    rw [this]; exact v

theorem NamesInv.join_step {s t : Server} (hn : NamesInv s) (hs : SessionInv s) {fd : Nat}
    {c : Client} {params : List Str} (hc : s.getClient fd = some c)
    (hreg : c.status = ClientStatus.REGISTERED)
    (h : Command.joinExecute s fd params = some t) : NamesInv t := by
  have hcr : ∀ name, NamesInv (s.createChannel name fd) := by
    intro name
    unfold Server.createChannel
    split
    · exact hn
    · exact hn.join_member hs hc hreg _
  have hadd : ∀ key, NamesInv (s.addClient key fd false) := by
    intro key
    unfold Server.addClient
    split
    · exact hn
    · split
      · exact hn
      · exact hn.join_member hs hc hreg _
  have htail : ∀ (x : Server) (d : Client) (name key : Str), NamesInv x →
      NamesInv (Command.joinTail x fd d name key) :=
    fun x d name key hx => hx.shrunk (namesShrunk_of_benign (benign_joinTail x fd d name key)
      (sameRooms_joinTail x fd d name key))
  unfold Command.joinExecute at h
  split at h
  · simp only at h
    split at h
    · cases h; exact hn.shrunk (namesShrunk_sendReply _ _ _)
    · split at h
      · cases h
        exact htail _ _ _ _ (hcr _)
      · split at h
        · repeat' split at h
          all_goals
            cases h
            exact hn.shrunk (namesShrunk_sendReply _ _ _)
        · cases h
          exact htail _ _ _ _ (hadd _)
  · cases h

theorem namesShrunk_execute (cmd : CommandKind)
    (hcmd : cmd ≠ CommandKind.NICK ∧ cmd ≠ CommandKind.JOIN) {s t : Server} {fd : Nat}
    {params : List Str} (h : cmd.execute s fd params = some t) : NamesShrunk s t := by
  cases cmd <;> simp only [CommandKind.execute] at h
  case PASS => exact namesShrunk_passExecute h
  case NICK => exact absurd rfl hcmd.1
  case USER => exact namesShrunk_userExecute h
  case QUIT => exact namesShrunk_of_benign (benign_quitExecute h) (sameRooms_quitExecute h)
  case JOIN => exact absurd rfl hcmd.2
  case PART => exact namesShrunk_partExecute h
  case PRIVMSG =>
    exact namesShrunk_of_benign (benign_privmsgExecute h) (sameRooms_privmsgExecute h)
  case NOTICE => exact namesShrunk_of_benign (benign_noticeExecute h) (sameRooms_noticeExecute h)
  case MODE => exact namesShrunk_of_benign (benign_modeExecute h) (sameRooms_modeExecute h)
  case TOPIC => exact namesShrunk_of_benign (benign_topicExecute h) (sameRooms_topicExecute h)
  case KICK => exact namesShrunk_kickExecute h
  case PING => exact namesShrunk_of_benign (benign_pingExecute h) (sameRooms_pingExecute h)
  all_goals exact namesShrunk_of_benign (benign_stubExecute h) (sameRooms_stubExecute h)

theorem NamesInv.exec_kind {s t : Server} (hn : NamesInv s) (hs : SessionInv s)
    (cmd : CommandKind) {fd : Nat} {c : Client} {params : List Str}
    (hc : s.getClient fd = some c)
    (hreg : cmd.requiresRegistration = true → c.status = ClientStatus.REGISTERED)
    (h : cmd.execute s fd params = some t) : NamesInv t := by
  by_cases h1 : cmd = CommandKind.NICK
  · subst h1; exact hn.nick_step h
  · by_cases h2 : cmd = CommandKind.JOIN
    · subst h2; exact hn.join_step hs hc (hreg rfl) h
    · exact hn.shrunk (namesShrunk_execute cmd ⟨h1, h2⟩ h)

theorem NamesInv.exec_line {s t : Server} (hn : NamesInv s) (hs : SessionInv s) {fd : Nat}
    {line : Str} (h : CommandHandler.executeCommand s fd line = some t) : NamesInv t := by
  unfold CommandHandler.executeCommand at h
  split at h
  · cases h; exact hn
  · rename_i client hc
    simp only at h
    split at h
    · cases h; exact hn.shrunk (namesShrunk_sendReply _ _ _)
    · rename_i cmd hcmd
      split at h
      · cases h; exact hn.shrunk (namesShrunk_sendReply _ _ _)
      · rename_i hreg0
        split at h
        · cases h; exact hn.shrunk (namesShrunk_sendReply _ _ _)
        · refine hn.exec_kind hs cmd hc ?_ h
          intro hr
          simp only [hr, Bool.true_and, Bool.not_eq_true', Bool.not_eq_false,
            Client.isRegistered, decide_eq_true_eq] at hreg0
          exact hreg0

theorem NamesInv.proc_line {s t : Server} (hn : NamesInv s) (hs : SessionInv s) {fd : Nat}
    {line : Str} (h : s.processLine fd line = some t) : NamesInv t := by
  unfold Server.processLine at h
  split at h
  · cases h; exact hn
  · simp only at h
    split at h
    · cases h
      exact hn.shrunk (namesShrunk_of_benign (benign_sendMessage _ _ _)
        (sameRooms_sendMessage _ _ _))
    · exact hn.exec_line hs h

theorem NamesInv.loop_lines (fuel : Nat) :
    ∀ {s t : Server} {fd : Nat} {buf rest : Str}, NamesInv s → SessionInv s →
      Server.messageLoop fuel s fd buf = some (t, rest) → NamesInv t := by
  induction fuel with
  | zero =>
    intro s t fd buf rest hn _ h
    simp only [Server.messageLoop, Option.some.injEq, Prod.mk.injEq] at h
    rw [← h.1]; exact hn
  | succ n ih =>
    intro s t fd buf rest hn hs h
    simp only [Server.messageLoop] at h
    split at h
    · simp only [Option.some.injEq, Prod.mk.injEq] at h
      rw [← h.1]; exact hn
    · split at h
      · split at h
        · cases h
        · rename_i s1 hs1
          exact ih (hn.proc_line hs hs1) (hs.processLine hs1) h
      · exact ih hn hs h

theorem namesShrunk_leaveAndReap (clientFd : Nat) (s : Server) (key : Str) :
    NamesShrunk s (Server.leaveAndReap clientFd s key) := by
  unfold Server.leaveAndReap
  simp only
  split
  · exact namesShrunk_channelRemoveClient _ _ _
  · split
    · exact (namesShrunk_channelRemoveClient _ _ _).ntrans (namesShrunk_of_clients rfl)
    · exact namesShrunk_channelRemoveClient _ _ _

theorem namesShrunk_foldl {α : Type} (l : List α) (g : Server → α → Server)
    (hg : ∀ s a, NamesShrunk s (g s a)) (s : Server) : NamesShrunk s (l.foldl g s) := by
  induction l generalizing s with
  | nil => exact NamesShrunk.nrefl s
  | cons a l ih => exact (hg s a).ntrans (ih (g s a))

theorem NamesInv.remove_client {s t : Server} (hn : NamesInv s) {fd : Nat}
    (h : s.removeClient fd = some t) : NamesInv t := by
  unfold Server.removeClient at h
  split at h
  · cases h; exact hn
  · rename_i client hc
    simp only at h
    split at h
    · cases h
    · cases h
      have hb : NamesShrunk s (List.foldl (Server.leaveAndReap fd)
          (if client.isRegistered = true ∧ client.nickname ≠ [] then
            s.broadcast (':' :: client.nickname ++ " !".toList ++ client.username ++
              '@' :: client.hostname ++ " QUIT :Connection closed".toList) fd
          else s) client.channels) := by
        refine NamesShrunk.ntrans ?_
          (namesShrunk_foldl _ _ (fun x k => namesShrunk_leaveAndReap fd x k) _)
        split
        · exact namesShrunk_of_benign (benign_broadcast _ _ _) (sameRooms_broadcast _ _ _)
        · exact NamesShrunk.nrefl s
      have h2 := hn.shrunk hb
      intro d hd
      exact h2 d (List.mem_of_mem_filter hd)

theorem NamesInv.accept_conn {s : Server} (hn : NamesInv s) (fd : Nat) (host : Str)
    (addr : Nat) : NamesInv (s.acceptNewConnection fd host addr) := by
  unfold Server.acceptNewConnection
  split
  · exact hn
  · intro d hd
    rcases mem_insertClient hd with rfl | hd
    · left; exact ⟨rfl, rfl⟩
    · exact hn d hd

theorem NamesInv.handle_message {s t : Server} (hn : NamesInv s) (hs : SessionInv s) {fd : Nat}
    {data : Str} (h : s.handleClientMessage fd data = some t) : NamesInv t := by
  unfold Server.handleClientMessage at h
  split at h
  · cases h; exact hn
  · split at h
    · exact hn.remove_client h
    · simp only at h
      split at h
      · cases h
      · rename_i s2 rest hloop
        cases h
        have hn1 : NamesInv (s.modifyClient fd (fun d => { d with buffer := d.buffer ++ data })) :=
          hn.shrunk (namesShrunk_modifyClient _ _ _ (fun _ => ⟨rfl, fun h => h⟩))
        have hs1 : SessionInv (s.modifyClient fd (fun d => { d with buffer := d.buffer ++ data })) :=
          hs.benign (benign_modifyClient _ _ _ (fun c => ⟨rfl, rfl, rfl, rfl, Or.inl rfl⟩))
        have h2 := NamesInv.loop_lines _ hn1 hs1 hloop
        exact h2.shrunk ((namesShrunk_of_benign (benign_processMessages _ _)
          (sameRooms_processMessages _ _)).past_modifyClient (fun _ => ⟨rfl, fun h => h⟩))

theorem NamesInv.of_reachable {s : Server} (h : Reachable s) : NamesInv s := by
  induction h with
  | init a b c d => intro x hx; simp [Server.init] at hx
  | step e hr hs ih =>
    cases e with
    | accept fd host addr =>
      simp only [step, Option.some.injEq] at hs
      rw [← hs]
      exact ih.accept_conn fd host addr
    | recv fd data =>
      simp only [step] at hs
      exact ih.handle_message (SessionInv.reachable hr) hs

/-- In a state the server reaches, every member of a channel is a session whose
nickname `Utils::isValidNickname` accepts. -/
theorem member_nickname_valid {s : Server} (hr : RoomInv s) (hn : NamesInv s) {name : Str}
    {ch : Channel} (hch : s.getChannel name = some ch) {m : Nat × Nat} (hm : m ∈ ch.clients) :
    ∃ d, s.getClient m.1 = some d ∧ Utils.isValidNickname d.nickname = true := by
  have hkc : (Utils.toLower name, ch) ∈ s.channels :=
    List.mem_of_find?_eq_some (getChannel_find hch)
  obtain ⟨c, hc, hfd⟩ := hr.agrees.2.2.1 _ hkc m hm
  have hhas : ch.hasClient c.fd = true := by
    rw [hasClient_iff, hfd]
    exact List.mem_map.mpr ⟨m, hm, rfl⟩
  have hlist := (hr.agrees.1 c hc _ hkc).mp hhas
  have hsome : (s.getClient m.1).isSome = true :=
    (getClient_isSome_iff s m.1).mpr (List.mem_map.mpr ⟨c, hc, hfd⟩)
  obtain ⟨d, hd⟩ := Option.isSome_iff_exists.mp hsome
  have hnd : (s.clients.map Client.fd).Nodup := by rw [← roomView_fds]; exact hr.1
  have hdc : d = c :=
    List.inj_on_of_nodup_map hnd (getClient_mem hd) hc ((getClient_fd hd).trans hfd.symm)
  refine ⟨d, hd, ?_⟩
  rw [hdc]
  rcases hn c hc with ⟨_, b⟩ | v
  · rw [b] at hlist; cases hlist
  · exact v

theorem isValidNickname_not_forbidden {n : Str} (h : Utils.isValidNickname n = true) :
    ∀ x ∈ n, Utils.nickForbidden x = false := by
  cases n with
  | nil => simp [Utils.isValidNickname] at h
  | cons c0 tl =>
    unfold Utils.isValidNickname at h
    simp only at h
    split at h
    · cases h
    · simp only [Bool.not_eq_true', List.any_eq_false, Bool.not_eq_true] at h
      exact h

theorem namesList_eq (s : Server) (ch : Channel) :
    Command.namesList s ch = [' '].intercalate (ch.clients.map (Command.nameEntry s ch)) := rfl

theorem nameEntry_facts (s : Server) (ch : Channel) (m : Nat × Nat) (d : Client)
    (hd : s.getClient m.1 = some d) (hv : Utils.isValidNickname d.nickname = true) :
    Command.nameEntry s ch m =
      (if ch.isOperator m.1 then ['@'] else if ch.hasVoice m.1 then ['+'] else []) ++
        d.nickname ∧
    ((Command.nameEntry s ch m).head? = some '@' ↔ ch.isOperator m.1 = true) ∧
    (ch.isOperator m.1 = false → ch.hasVoice m.1 = true →
      (Command.nameEntry s ch m).head? = some '+') ∧
    Command.nameEntry s ch m ≠ [] ∧ ' ' ∉ Command.nameEntry s ch m := by
  have hne := isValidNickname_ne_nil hv
  have hnf := isValidNickname_not_forbidden hv
  have e : Command.nameEntry s ch m =
      (if ch.isOperator m.1 then ['@'] else if ch.hasVoice m.1 then ['+'] else []) ++
        d.nickname := by
    unfold Command.nameEntry
    rw [hd]
  have hat : d.nickname.head? ≠ some '@' := by
    intro h
    obtain ⟨x, tl, hx⟩ := List.exists_cons_of_ne_nil hne
    rw [hx] at h
    simp only [List.head?_cons, Option.some.injEq] at h
    have := hnf x (by rw [hx]; exact List.mem_cons_self _ _)
    rw [h] at this
    exact absurd this (by decide)
  have hsp : ' ' ∉ d.nickname := by
    intro h
    exact absurd (hnf ' ' h) (by decide)
  refine ⟨e, ?_, ?_, ?_, ?_⟩
  · rw [e]
    cases hop : ch.isOperator m.1
    · cases hvo : ch.hasVoice m.1
      · simpa using hat
      · simp
    · simp
  · intro hop hvo
    rw [e, hop, hvo]
    rfl
  · rw [e]
    intro h
    exact hne (List.append_eq_nil.mp h).2
  · rw [e]
    intro h
    rcases List.mem_append.mp h with h | h
    · cases hop : ch.isOperator m.1
      · cases hvo : ch.hasVoice m.1
        · simp [hop, hvo] at h
        · simp [hop, hvo] at h
      · simp [hop] at h
    · exact hsp h

/-- The state a `JOIN` that goes through hands to the tail of the handler: the channel
exists there and the sender is a member of it. -/
theorem joinExecute_tail (s : Server) (fd : Nat) (c : Client) (name : Str) (rest : List Str)
    (hinv : RoomInv s) (hc : s.getClient fd = some c)
    (hv : Utils.isValidChannelName name = true)
    (hok : ∀ ch, s.getChannel name = some ch →
      ch.clientCanJoin c.nickname (rest.headD []) = true) :
    ∃ s0 ch0, Command.joinExecute s fd (name :: rest) =
        some (Command.joinTail s0 fd c name (Utils.toLower name)) ∧
      s0.getChannel name = some ch0 ∧ RoomInv s0 ∧ Benign s s0 ∧
      (∀ x, s0.outStream x = s.outStream x) ∧ s0.serverName = s.serverName ∧
      fd ∈ ch0.clients.map Prod.fst := by
  have hsome : (s.getClient fd).isSome = true := by rw [hc]; rfl
  cases hch : s.getChannel name with
  | none =>
    have hcr := getChannel_createChannel hch fd
    refine ⟨s.createChannel name fd, _, ?_, hcr.2, hinv.createChannel name hsome,
      benign_createChannel s name fd, outStream_createChannel s name fd,
      createChannel_serverName s name fd, by simp⟩
    unfold Command.joinExecute
    rw [hc]
    simp only [hv, Bool.not_true, Bool.false_eq_true, ↓reduceIte, hch]
  | some ch =>
    have hcan := hok ch hch
    have hadd := getChannel_addClient hch fd false
    refine ⟨s.addClient (Utils.toLower name) fd false, _, ?_, hadd,
      hinv.addClient _ hsome false, benign_addClient s _ fd false,
      outStream_addClient s _ fd false, addClient_serverName s _ fd false, ?_⟩
    · unfold Command.joinExecute
      rw [hc]
      cases rest <;>
        simp only [hv, Bool.not_true, Bool.false_eq_true, ↓reduceIte, hch] <;>
        simp only [List.headD_nil, List.headD_cons] at hcan <;>
        simp only [hcan, Bool.not_true, Bool.false_eq_true, ↓reduceIte]
    · split
      · rename_i hm; exact (hasClient_iff ch fd).mp hm
      · simp only [map_fst_insertMember, mem_insertFd, true_or]

theorem replyBytes_append (s : Server) (a b : List Str) :
    replyBytes s (a ++ b) = replyBytes s a ++ replyBytes s b := by
  unfold replyBytes
  simp only [List.map_append, List.flatten_append]

set_option maxRecDepth 100000 in
theorem lobbyServer_attainable : Attainable lobbyServer :=
  attainable_run (Attainable.init 3 "secret".toList "today".toList []) lobbyEvents (by rfl)
    (by rfl)

theorem sendReply_ne {s : Server} {fd : Nat} {c : Client} (hc : s.getClient fd = some c)
    {a b : Str} (hab : a ≠ b) : s.sendReply fd a ≠ s.sendReply fd b := by
  intro heq
  have h := congrArg (fun t => t.outStream fd) heq
  simp only [Server.sendReply, outStream_sendMessage_self hc] at h
  have h2 := List.append_cancel_left h
  have h3 := List.append_cancel_right h2
  exact hab (by simpa using h3)

/-- C39: whenever `Channel::clientCanJoin` refuses a session, one of the three
conditions `JoinCommand::execute` tests again holds (invite-only and not invited, key
mismatch, limit reached); so a `JOIN` ends in one of the replies 403, 473, 475, 471 or
in the tail of the handler (which sends the `JOIN` line, 332, 353 and 366): the branch
of the fallback reply 474 is never taken. -/
theorem joinExecute_no_fallback (s : Server) (fd : Nat) (c : Client) (name : Str)
    (rest : List Str) (hc : s.getClient fd = some c) :
    (∀ (ch : Channel) (nick key : Str), ch.clientCanJoin nick key = false →
      (ch.hasMode MODE_INVITE_ONLY && !ch.isInvited nick) = true ∨
      (ch.hasMode MODE_PASSWORD && key != ch.password) = true ∨
      (ch.hasMode MODE_USER_LIMIT && decide (ch.getClientCount ≥ ch.userLimit)) = true) ∧
    ∃ t, Command.joinExecute s fd (name :: rest) = some t ∧
      (t = s.sendReply fd ("403 ".toList ++ name ++ " :No such channel".toList) ∨
       t = s.sendReply fd ("473 ".toList ++ name ++ " :Cannot join channel (+i)".toList) ∨
       t = s.sendReply fd ("475 ".toList ++ name ++ " :Cannot join channel (+k)".toList) ∨
       t = s.sendReply fd ("471 ".toList ++ name ++ " :Cannot join channel (+l)".toList) ∨
       t = Command.joinTail (s.createChannel name fd) fd c name (Utils.toLower name) ∨
       t = Command.joinTail (s.addClient (Utils.toLower name) fd false) fd c name
         (Utils.toLower name)) ∧
      (∀ ch, Utils.isValidChannelName name = true → s.getChannel name = some ch →
        ch.clientCanJoin c.nickname (rest.headD []) = false →
        (t = s.sendReply fd ("473 ".toList ++ name ++ " :Cannot join channel (+i)".toList) ∨
         t = s.sendReply fd ("475 ".toList ++ name ++ " :Cannot join channel (+k)".toList) ∨
         t = s.sendReply fd ("471 ".toList ++ name ++ " :Cannot join channel (+l)".toList)) ∧
        t ≠ s.sendReply fd ("474 ".toList ++ name ++ " :Cannot join channel".toList)) := by
  have hcan : ∀ (ch : Channel) (nick key : Str), ch.clientCanJoin nick key = false →
      (ch.hasMode MODE_INVITE_ONLY && !ch.isInvited nick) = true ∨
      (ch.hasMode MODE_PASSWORD && key != ch.password) = true ∨
      (ch.hasMode MODE_USER_LIMIT && decide (ch.getClientCount ≥ ch.userLimit)) = true := by
    intro ch nick key h
    unfold Channel.clientCanJoin at h
    by_cases h1 : (ch.hasMode MODE_INVITE_ONLY && !ch.isInvited nick) = true
    · exact Or.inl h1
    · by_cases h2 : (ch.hasMode MODE_PASSWORD && key != ch.password) = true
      · exact Or.inr (Or.inl h2)
      · by_cases h3 : (ch.hasMode MODE_USER_LIMIT &&
            decide (ch.getClientCount ≥ ch.userLimit)) = true
        · exact Or.inr (Or.inr h3)
        · rw [if_neg h1, if_neg h2, if_neg h3] at h
          cases h
  refine ⟨hcan, ?_⟩
  have key : ∀ (password : Str) (t : Server),
      (if !Utils.isValidChannelName name then
        some (s.sendReply fd ("403 ".toList ++ name ++ " :No such channel".toList))
      else
        match s.getChannel name with
        | none => some (Command.joinTail (s.createChannel name fd) fd c name (Utils.toLower name))
        | some ch =>
          if !ch.clientCanJoin c.nickname password then
            if ch.hasMode MODE_INVITE_ONLY && !ch.isInvited c.nickname then
              some (s.sendReply fd ("473 ".toList ++ name ++
                " :Cannot join channel (+i)".toList))
            else if ch.hasMode MODE_PASSWORD && password != ch.password then
              some (s.sendReply fd ("475 ".toList ++ name ++
                " :Cannot join channel (+k)".toList))
            else if ch.hasMode MODE_USER_LIMIT && decide (ch.getClientCount ≥ ch.userLimit) then
              some (s.sendReply fd ("471 ".toList ++ name ++
                " :Cannot join channel (+l)".toList))
            else
              some (s.sendReply fd ("474 ".toList ++ name ++
                " :Cannot join channel".toList))
          else
            some (Command.joinTail (s.addClient (Utils.toLower name) fd false) fd c name
              (Utils.toLower name))) = some t →
      (t = s.sendReply fd ("403 ".toList ++ name ++ " :No such channel".toList) ∨
       t = s.sendReply fd ("473 ".toList ++ name ++ " :Cannot join channel (+i)".toList) ∨
       t = s.sendReply fd ("475 ".toList ++ name ++ " :Cannot join channel (+k)".toList) ∨
       t = s.sendReply fd ("471 ".toList ++ name ++ " :Cannot join channel (+l)".toList) ∨
       t = Command.joinTail (s.createChannel name fd) fd c name (Utils.toLower name) ∨
       t = Command.joinTail (s.addClient (Utils.toLower name) fd false) fd c name
         (Utils.toLower name)) ∧
      (∀ ch, Utils.isValidChannelName name = true → s.getChannel name = some ch →
        ch.clientCanJoin c.nickname password = false →
        (t = s.sendReply fd ("473 ".toList ++ name ++ " :Cannot join channel (+i)".toList) ∨
         t = s.sendReply fd ("475 ".toList ++ name ++ " :Cannot join channel (+k)".toList) ∨
         t = s.sendReply fd ("471 ".toList ++ name ++ " :Cannot join channel (+l)".toList)) ∧
        t ≠ s.sendReply fd ("474 ".toList ++ name ++ " :Cannot join channel".toList)) := by
    intro password t h
    refine ⟨?_, ?_⟩
    rotate_left
    · intro ch hv hch hno
      have hno1 := hcan ch c.nickname password hno
      simp only [hv, hch, hno, Bool.not_true, Bool.not_false, Bool.false_eq_true, if_false,
        if_true] at h
      by_cases h1 : (ch.hasMode MODE_INVITE_ONLY && !ch.isInvited c.nickname) = true
      · rw [if_pos h1] at h
        cases h
        exact ⟨Or.inl rfl, sendReply_ne hc (by intro h; cases h)⟩
      · rw [if_neg h1] at h
        by_cases h2 : (ch.hasMode MODE_PASSWORD && password != ch.password) = true
        · rw [if_pos h2] at h
          cases h
          exact ⟨Or.inr (Or.inl rfl), sendReply_ne hc (by intro h; cases h)⟩
        · rw [if_neg h2] at h
          by_cases h3 : (ch.hasMode MODE_USER_LIMIT &&
              decide (ch.getClientCount ≥ ch.userLimit)) = true
          · rw [if_pos h3] at h
            cases h
            exact ⟨Or.inr (Or.inr rfl), sendReply_ne hc (by intro h; cases h)⟩
          · rcases hno1 with h | h | h
            · exact absurd h h1
            · exact absurd h h2
            · exact absurd h h3
    split at h
    · cases h; exact Or.inl rfl
    · split at h
      · cases h; exact Or.inr (Or.inr (Or.inr (Or.inr (Or.inl rfl))))
      · rename_i ch hch
        split at h
        · rename_i hno
          split at h
          · cases h; exact Or.inr (Or.inl rfl)
          · rename_i h1
            split at h
            · cases h; exact Or.inr (Or.inr (Or.inl rfl))
            · rename_i h2
              split at h
              · cases h; exact Or.inr (Or.inr (Or.inr (Or.inl rfl)))
              · rename_i h3
                exfalso
                have hf : ch.clientCanJoin c.nickname password = false := by simpa using hno
                rcases hcan _ _ _ hf with h | h | h
                · exact h1 h
                · exact h2 h
                · exact h3 h
        · cases h; exact Or.inr (Or.inr (Or.inr (Or.inr (Or.inr rfl))))
  have hsome : (Command.joinExecute s fd (name :: rest)).isSome = true := by
    unfold Command.joinExecute
    rw [hc]
    simp only
    repeat' split
    all_goals rfl
  obtain ⟨t, ht⟩ := Option.isSome_iff_exists.mp hsome
  refine ⟨t, ht, ?_⟩
  unfold Command.joinExecute at ht
  rw [hc] at ht
  cases rest with
  | nil => exact key [] t ht
  | cons p ps => exact key p t ht

set_option maxRecDepth 100000 in
/-- C39 on the state where `#foo` has the key `hunter2`: `carol` (descriptor 8) joins
without the key; `clientCanJoin` refuses, the reply is one of 473, 475, 471, and it is
not the fallback 474. -/
theorem joinExecute_no_fallback_witness :
    keyedServer.getClient 8 = some ((keyedServer.getClient 8).getD { fd := 8 }) ∧
    ∃ t, Command.joinExecute keyedServer 8 ["#foo".toList] = some t ∧
      (t = keyedServer.sendReply 8 ("473 ".toList ++ "#foo".toList ++
          " :Cannot join channel (+i)".toList) ∨
       t = keyedServer.sendReply 8 ("475 ".toList ++ "#foo".toList ++
          " :Cannot join channel (+k)".toList) ∨
       t = keyedServer.sendReply 8 ("471 ".toList ++ "#foo".toList ++
          " :Cannot join channel (+l)".toList)) ∧
      t ≠ keyedServer.sendReply 8 ("474 ".toList ++ "#foo".toList ++
          " :Cannot join channel".toList) := by
  refine ⟨by rfl, ?_⟩
  obtain ⟨t, h1, _, h3⟩ :=
    (joinExecute_no_fallback keyedServer 8 ((keyedServer.getClient 8).getD { fd := 8 })
      "#foo".toList [] (by rfl)).2
  exact ⟨t, h1, h3 ((keyedServer.getChannel "#foo".toList).getD { name := [] })
    (by rfl) (by rfl) (by rfl)⟩

/-- The compaction of the poll array does not return exactly when the descriptor is
tracked and is not the last one. -/
theorem compactFds_eq_none_iff (fds : List Nat) (clientFd : Nat) :
    Server.compactFds fds clientFd = none ↔
      clientFd ∈ fds ∧ fds.indexOf clientFd + 1 < fds.length := by
  unfold Server.compactFds
  by_cases h1 : clientFd ∈ fds
  · by_cases h2 : fds.indexOf clientFd + 1 < fds.length
    · simp [h1, h2]
    · simp [h1, h2]
  · simp [h1]

set_option maxRecDepth 100000 in
/-- C35 (code bug): the inner loop of the compaction in `Server::removeClient` is
`for (int j = i; j < _nfds - 1; ++i)`: it increments `i`, its condition reads only `j`,
so it never ends once entered. In the demonstration state the poll array is
`[3, 4, 5, 6, 7, 8]`; removing descriptor 4 (`alice`), directly or because `recv`
returned 0, does not return. Removing the last descriptor, 8, never enters the inner
loop and leaves `[3, 4, 5, 6, 7]` and the sessions 4, 5, 6, 7. -/
theorem removeClient_compaction_counterexample :
    demoServer.fds = [3, 4, 5, 6, 7, 8] ∧
    (demoServer.getClient 4).isSome = true ∧
    Server.compactFds [3, 4, 5, 6, 7, 8] 4 = none ∧
    demoServer.removeClient 4 = none ∧
    step demoServer (Event.recv 4 []) = none ∧
    (demoServer.removeClient 8).map (fun t => (t.fds, t.clients.map (fun c => c.fd))) =
      some ([3, 4, 5, 6, 7], [4, 5, 6, 7]) := by
  refine ⟨by rfl, by rfl, by rfl, by rfl, by rfl, by rfl⟩

set_option maxRecDepth 100000 in
/-- C38 (code bug): the body of `InviteCommand::execute` is empty (`TODO`). In the state
where `alice` (descriptor 4) is operator of `#foo` and `carol` (descriptor 8) is a
registered session outside the channel, `INVITE carol #foo` from `alice` leaves the
server as it was: no 341, no entry in the invite set. When `alice` makes the channel
invite-only and invites `carol`, the `JOIN` of `carol` with the right key is answered
473 and she is not a member; without `+i` the same `JOIN` succeeds. -/
theorem invite_stub_counterexample :
    (keyedServer.getChannel "#foo".toList).map
        (fun ch => (ch.isOperator 4, ch.hasClient 8, ch.invitedUsers)) =
      some (true, false, []) ∧
    (keyedServer.getClientByNickname "carol".toList).map (fun c => c.fd) = some 8 ∧
    CommandHandler.executeCommand keyedServer 4 "INVITE carol #foo".toList =
      some keyedServer ∧
    (run keyedServer [Event.recv 4 "MODE #foo +i\r\nINVITE carol #foo\r\n".toList,
        Event.recv 8 "JOIN #foo hunter2\r\n".toList]).map (fun t => t.outStream 4) =
      some (keyedServer.outStream 4 ++ ":alice!alice@h1 MODE #foo ++i\r\n".toList) ∧
    (run keyedServer [Event.recv 4 "MODE #foo +i\r\nINVITE carol #foo\r\n".toList,
        Event.recv 8 "JOIN #foo hunter2\r\n".toList]).map (fun t => t.outStream 8) =
      some (keyedServer.outStream 8 ++
        ":ft_irc 473 #foo :Cannot join channel (+i)\r\n".toList) ∧
    (run keyedServer [Event.recv 4 "MODE #foo +i\r\nINVITE carol #foo\r\n".toList,
        Event.recv 8 "JOIN #foo hunter2\r\n".toList]).map
        (fun t => (t.getChannel "#foo".toList).map
          (fun ch => (ch.clients.map Prod.fst, ch.invitedUsers))) =
      some (some ([4, 5], [])) ∧
    (run keyedServer [Event.recv 8 "JOIN #foo hunter2\r\n".toList]).map
        (fun t => (t.getChannel "#foo".toList).map (fun ch => ch.clients.map Prod.fst)) =
      some (some [4, 5, 8]) := by
  refine ⟨by rfl, by rfl, by rfl, by decide, by decide, by rfl, by rfl⟩

set_option maxRecDepth 100000 in
/-- C40 (code bug): `Server::removeClient` announces the departure with
`Server::broadcast`, which sends to every registered session. `carol` (descriptor 8) is
registered and in no channel; `alice` and `bob` are in `#foo`. When the connection of
`carol` is removed, `alice` and `bob` are both sent
`:carol !carol@h5 QUIT :Connection closed`. The `QUIT` command of `carol` in the same
state sends them nothing. -/
theorem removeClient_quit_notice_counterexample :
    (keyedServer.getClient 8).map (fun c => (c.isRegistered, c.nickname, c.channels)) =
      some (true, "carol".toList, []) ∧
    (keyedServer.getClient 4).map (fun c => c.channels) = some ["#foo".toList] ∧
    (keyedServer.getClient 5).map (fun c => c.channels) = some ["#foo".toList] ∧
    (keyedServer.removeClient 8).map (fun t => t.outStream 4) =
      some (keyedServer.outStream 4 ++
        ":carol !carol@h5 QUIT :Connection closed\r\n".toList) ∧
    (keyedServer.removeClient 8).map (fun t => t.outStream 5) =
      some (keyedServer.outStream 5 ++
        ":carol !carol@h5 QUIT :Connection closed\r\n".toList) ∧
    (Command.quitExecute keyedServer 8 []).map
        (fun t => decide (t.outStream 4 = keyedServer.outStream 4 ∧
          t.outStream 5 = keyedServer.outStream 5)) =
      some true := by
  refine ⟨by rfl, by rfl, by rfl, by decide, by decide, by decide⟩

set_option maxRecDepth 100000 in
/-- C34 (code bug): the loop of `Server::handleClientMessage` never looks at the status
of the session. The read `QUIT\r\nNICK x\r\n` from `alice` is cut into the two lines
`QUIT` and `NICK x`, and both are dispatched: afterwards the session is `DISCONNECTED`
and its nickname is `x`. In the same way `QUIT\r\nUSER mallory 0 * M\r\n` changes the
user name, and `QUIT\r\nJOIN #x\r\n` is answered 451 after the `QUIT`. -/
theorem quit_then_nick_counterexample :
    Server.frames "QUIT\r\nNICK x\r\n".toList = (["QUIT".toList, "NICK x".toList], []) ∧
    (demoServer.getClient 4).map (fun c => (c.status, c.nickname, c.username)) =
      some (ClientStatus.REGISTERED, "alice".toList, "alice".toList) ∧
    (Server.handleClientMessage demoServer 4 "QUIT\r\nNICK x\r\n".toList).map
        (fun t => (t.getClient 4).map (fun c => (c.status, c.nickname))) =
      some (some (ClientStatus.DISCONNECTED, "x".toList)) ∧
    (Server.handleClientMessage demoServer 4 "QUIT\r\nUSER mallory 0 * M\r\n".toList).map
        (fun t => (t.getClient 4).map (fun c => (c.status, c.username))) =
      some (some (ClientStatus.DISCONNECTED, "mallory".toList)) ∧
    (Server.handleClientMessage demoServer 4 "QUIT\r\nJOIN #x\r\n".toList).map
        (fun t => t.outStream 4) =
      some (demoServer.outStream 4 ++
        ":ft_irc 451 alice :You have not registered\r\n".toList) := by
  refine ⟨by rfl, by rfl, by rfl, by rfl, by decide⟩

set_option maxRecDepth 100000 in
/-- C37 (code bug): only the dispatcher builds its replies with
`CommandHandler::formatReply`. The password gate sends
`464 : You must provide a valid password first with PASS command` with `sendMessage`:
no `:<server>` in front and no target. The handlers call `sendReply` with a text that
has no target: `PART #nope` from `alice` is answered `:ft_irc 403 #nope :No such channel`
and a wrong `PASS` is answered `:ft_irc 464 :Password incorrect`. The dispatcher
answers `:ft_irc 461 alice JOIN :Not enough parameters` to `alice` and
`:ft_irc 451 * :You have not registered` to a session without nickname;
`formatReply` pads the code to three digits and writes `*` for an empty nickname. -/
theorem numeric_reply_shape_counterexample :
    (Server.processLine demoServer 6 "NICK x".toList).map (fun t => t.outStream 6) =
      some "464 : You must provide a valid password first with PASS command\r\n".toList ∧
    (CommandHandler.executeCommand demoServer 4 "PART #nope".toList).map
        (fun t => t.outStream 4) =
      some (demoServer.outStream 4 ++ ":ft_irc 403 #nope :No such channel\r\n".toList) ∧
    (CommandHandler.executeCommand demoServer 6 "PASS wrong".toList).map
        (fun t => t.outStream 6) =
      some ":ft_irc 464 :Password incorrect\r\n".toList ∧
    (CommandHandler.executeCommand demoServer 4 "JOIN".toList).map
        (fun t => t.outStream 4) =
      some (demoServer.outStream 4 ++
        ":ft_irc 461 alice JOIN :Not enough parameters\r\n".toList) ∧
    (CommandHandler.executeCommand demoServer 7 "JOIN #x".toList).map
        (fun t => t.outStream 7) =
      some ":ft_irc 451 * :You have not registered\r\n".toList ∧
    CommandHandler.formatReply 1 { fd := 4 } "hi".toList = "001 * hi".toList ∧
    CommandHandler.formatReply 461 ((demoServer.getClient 4).getD { fd := 4 })
        "JOIN :Not enough parameters".toList =
      "461 alice JOIN :Not enough parameters".toList := by
  refine ⟨by decide, by decide, by decide, by decide, by decide, by rfl, by rfl⟩

set_option maxRecDepth 100000 in
/-- C33 (code bug): `QuitCommand::execute` calls `Channel::broadcast` once for each
channel of the sender. `alice` and `bob` share `#foo` and `#bar`; on `QUIT bye` from
`alice` the session becomes `DISCONNECTED` and `bob` is sent the line
`:alice!alice@h1 QUIT :bye` twice. `carol`, who shares no channel, and `alice` herself
are sent nothing. With the single shared channel of the demonstration state `bob` is
sent the line once. -/
theorem quit_shared_channels_counterexample :
    (twoRoomsServer.getClient 4).map (fun c => c.channels) =
      some ["#foo".toList, "#bar".toList] ∧
    (twoRoomsServer.getClient 5).map (fun c => c.channels) =
      some ["#foo".toList, "#bar".toList] ∧
    (Server.handleClientMessage twoRoomsServer 4 "QUIT bye\r\n".toList).map
        (fun t => (t.getClient 4).map (fun c => c.status)) =
      some (some ClientStatus.DISCONNECTED) ∧
    (Server.handleClientMessage twoRoomsServer 4 "QUIT bye\r\n".toList).map
        (fun t => t.outStream 5) =
      some (twoRoomsServer.outStream 5 ++
        ":alice!alice@h1 QUIT :bye\r\n:alice!alice@h1 QUIT :bye\r\n".toList) ∧
    (Server.handleClientMessage twoRoomsServer 4 "QUIT bye\r\n".toList).map
        (fun t => decide (t.outStream 4 = twoRoomsServer.outStream 4 ∧
          t.outStream 8 = twoRoomsServer.outStream 8)) =
      some true ∧
    (Server.handleClientMessage demoServer 4 "QUIT bye\r\n".toList).map
        (fun t => t.outStream 5) =
      some (demoServer.outStream 5 ++ ":alice!alice@h1 QUIT :bye\r\n".toList) := by
  refine ⟨by rfl, by rfl, by rfl, by decide, by decide, by rfl⟩

theorem sendCalls_cons (s : Server) (p : Nat × Str) (calls : List (Nat × Str)) :
    s.sendCalls (p :: calls) = (s.sendMessage p.1 p.2).sendCalls calls := rfl

/-- C36: whatever `send` answers (the environment of `s` is arbitrary), after any
sequence of `sendMessage` calls the bytes accepted for a session followed by its
outbound queue are what they were before followed by every message sent to that
session, each with CR LF, in call order: nothing is lost, duplicated or reordered.
One pass of `processMessages` keeps the stream; after a partial write of `n` bytes
the head of the queue is the unsent suffix and the loop stops; `EAGAIN` and a fatal
error leave the queue and the accepted bytes as they are; a complete write pops the
head and goes on. -/
theorem sendCalls_stream (s : Server) (calls : List (Nat × Str)) (x : Nat)
    (hx : (s.getClient x).isSome = true) :
    ((s.sendCalls calls).getClient x).isSome = true ∧
    (s.sendCalls calls).outStream x =
      s.outStream x ++ ((calls.filter (fun p => p.1 = x)).map (fun p => p.2 ++ CRLF)).flatten ∧
    (∀ (q : List Str) (env : List SendResult) (wire : Str),
      (sendLoop q env wire).2.2.1 ++ (sendLoop q env wire).1.flatten = wire ++ q.flatten) ∧
    (∀ (m : Str) (q : List Str) (env : List SendResult) (wire : Str) (n : Nat),
      sendLoop (m :: q) (SendResult.accepted n :: env) wire =
        if n < m.length then (m.drop n :: q, env, wire ++ m.take n, false)
        else sendLoop q env (wire ++ m)) ∧
    (∀ (m : Str) (q : List Str) (env : List SendResult) (wire : Str),
      sendLoop (m :: q) (SendResult.wouldBlock :: env) wire = (m :: q, env, wire, false) ∧
      sendLoop (m :: q) (SendResult.fatal :: env) wire = (m :: q, env, wire, true)) := by
  refine ⟨?_, ?_, sendLoop_stream, fun m q env wire n => rfl,
    fun m q env wire => ⟨rfl, rfl⟩⟩
  · induction calls generalizing s with
    | nil => exact hx
    | cons p calls ih =>
      rw [sendCalls_cons]
      exact ih _ (by rw [getClient_sendMessage_isSome]; exact hx)
  · induction calls generalizing s with
    | nil => simp [Server.sendCalls]
    | cons p calls ih =>
      rw [sendCalls_cons, ih _ (by rw [getClient_sendMessage_isSome]; exact hx)]
      by_cases hp : p.1 = x
      · obtain ⟨c, hc⟩ := Option.isSome_iff_exists.mp hx
        obtain ⟨a, m⟩ := p
        simp only at hp
        subst hp
        rw [outStream_sendMessage_self hc m]
        simp [List.filter_cons]
      · have hne : x ≠ p.1 := fun h => hp h.symm
        rw [outStream_sendMessage_other s hne]
        simp [List.filter_cons, hp]

set_option maxRecDepth 100000 in
/-- C36 on a session whose socket accepts 3 bytes, answers `EAGAIN`, accepts 4 bytes,
accepts 1 byte and then fails: after the calls `hello`, `yo`, `a`, `b` the bytes
accepted are `hello\r\ny`, the queue is `o\r\n`, `a\r\n`, `b\r\n`, and together they
are the four messages in order. -/
theorem sendCalls_stream_witness :
    (trickleServer.sendCalls [(4, "hello".toList), (4, "yo".toList), (4, "a".toList),
        (4, "b".toList)]).outStream 4 = "hello\r\nyo\r\na\r\nb\r\n".toList ∧
    ((trickleServer.sendCalls [(4, "hello".toList)]).getClient 4).map
        (fun d => (d.wire, d.messages)) = some ("hel".toList, ["lo\r\n".toList]) ∧
    ((trickleServer.sendCalls [(4, "hello".toList), (4, "yo".toList), (4, "a".toList),
        (4, "b".toList)]).getClient 4).map (fun d => (d.wire, d.messages)) =
      some ("hello\r\ny".toList, ["o\r\n".toList, "a\r\n".toList, "b\r\n".toList]) := by
  refine ⟨?_, by rfl, by rfl⟩
  rw [(sendCalls_stream trickleServer [(4, "hello".toList), (4, "yo".toList),
    (4, "a".toList), (4, "b".toList)] 4 (by rfl)).2.1]
  decide

/-- What `Channel::broadcast` sends to a session, on any member list and with any
exclusion: one copy of the line for each entry of the list that carries the descriptor
of the session and is not excluded. -/
theorem outStream_broadcastTo_count (members : List (Nat × Nat)) (m : Str)
    (exclude : Option Nat) (x : Nat) :
    ∀ s : Server, (s.getClient x).isSome = true →
      (s.broadcastTo members m exclude).outStream x =
        s.outStream x ++ (List.replicate
          (members.countP (fun a => decide (a.1 = x ∧ some a.1 ≠ exclude)))
          (m ++ CRLF)).flatten := by
  induction members with
  | nil => intro s _; simp [Server.broadcastTo]
  | cons a l ih =>
    intro s hx
    by_cases hex : some a.1 = exclude
    · have hstep : s.broadcastTo (a :: l) m exclude = s.broadcastTo l m exclude := by
        simp [Server.broadcastTo, hex]
      rw [hstep, ih s hx, List.countP_cons]
      simp [hex]
    · have hstep : s.broadcastTo (a :: l) m exclude =
          (s.sendMessage a.1 m).broadcastTo l m exclude := by
        simp [Server.broadcastTo, hex]
      have hx1 : ((s.sendMessage a.1 m).getClient x).isSome = true := by
        rw [getClient_sendMessage_isSome]; exact hx
      rw [hstep, ih _ hx1, List.countP_cons]
      by_cases hax : a.1 = x
      · obtain ⟨c, hc⟩ := Option.isSome_iff_exists.mp hx
        rw [hax, outStream_sendMessage_self hc]
        have hex1 : ¬ some x = exclude := by rw [← hax]; exact hex
        simp [hax, hex1, List.replicate_succ]
      · have hxa : x ≠ a.1 := fun e => hax e.symm
        rw [outStream_sendMessage_other s hxa]
        simp [hax]

theorem countP_fst_nodup (members : List (Nat × Nat))
    (hnd : (members.map Prod.fst).Nodup) (x fd : Nat) :
    members.countP (fun a => decide (a.1 = x ∧ some a.1 ≠ some fd)) =
      if x ∈ members.map Prod.fst ∧ x ≠ fd then 1 else 0 := by
  induction members with
  | nil => simp
  | cons a l ih =>
    rw [List.map_cons] at hnd
    have hn := List.nodup_cons.mp hnd
    rw [List.countP_cons, ih hn.2]
    by_cases hax : a.1 = x
    · have hxl : x ∉ l.map Prod.fst := by rw [← hax]; exact hn.1
      by_cases hxf : x = fd
      · simp [hax, hxl, hxf]
      · simp [hax, hxl, hxf]
    · have hxa : ¬ x = a.1 := fun e => hax e.symm
      have e : (x ∈ a.1 :: List.map Prod.fst l ∧ ¬ x = fd) ↔
          (x ∈ List.map Prod.fst l ∧ ¬ x = fd) := by
        rw [List.mem_cons]
        exact ⟨fun h => ⟨h.1.resolve_left hxa, h.2⟩, fun h => ⟨Or.inr h.1, h.2⟩⟩
      simp [hax]
      exact (if_congr e rfl rfl).symm

/-- What a channel broadcast that leaves out the sender sends, on a state where the
member map repeats no descriptor and the members are sessions: the line, once, to every
member other than the sender, and nothing to anybody else. -/
theorem outStream_channelBroadcast_except {s : Server} {name : Str} {ch : Channel}
    (h : s.getChannel name = some ch) (hnd : (ch.clients.map Prod.fst).Nodup)
    (hmem : ∀ x ∈ ch.clients.map Prod.fst, (s.getClient x).isSome = true) (m : Str)
    (fd x : Nat) :
    (s.channelBroadcast (Utils.toLower name) m (some fd)).outStream x =
      s.outStream x ++ (if ch.hasClient x = true ∧ x ≠ fd then m ++ CRLF else []) := by
  unfold Server.channelBroadcast
  rw [getChannel_find h]
  simp only
  cases hg : s.getClient x with
  | none =>
    have hnm : ch.hasClient x = false := by
      cases hh : ch.hasClient x with
      | false => rfl
      | true =>
        have := hmem x ((hasClient_iff ch x).mp hh)
        rw [hg] at this
        cases this
    rw [outStream_of_getClient_none
      ((benign_broadcastTo s ch.clients m (some fd)).getClient_none hg),
      outStream_of_getClient_none hg, hnm]
    simp
  | some d =>
    have hs : (s.getClient x).isSome = true := by rw [hg]; rfl
    rw [outStream_broadcastTo_count _ _ _ _ s hs, countP_fst_nodup _ hnd]
    congr 1
    by_cases hx : x ∈ ch.clients.map Prod.fst ∧ x ≠ fd
    · have hx2 : ch.hasClient x = true ∧ x ≠ fd := ⟨(hasClient_iff ch x).mpr hx.1, hx.2⟩
      rw [if_pos hx, if_pos hx2]
      simp
    · have hx2 : ¬ (ch.hasClient x = true ∧ x ≠ fd) :=
        fun hh => hx ⟨(hasClient_iff ch x).mp hh.1, hh.2⟩
      rw [if_neg hx, if_neg hx2]
      simp

theorem outStream_sendMessage_any (s : Server) (fd : Nat) (m : Str) (x : Nat) :
    (s.sendMessage fd m).outStream x =
      s.outStream x ++ (List.replicate
        (if x = fd ∧ (s.getClient x).isSome = true then 1 else 0) (m ++ CRLF)).flatten := by
  by_cases hx : x = fd
  · subst hx
    cases hg : s.getClient x with
    | none => rw [sendMessage_none hg]; simp
    | some d => rw [outStream_sendMessage_self hg]; simp
  · rw [outStream_sendMessage_other s hx]
    simp [hx]

theorem outStream_sendReply_any {s : Server} {fd : Nat} {c : Client}
    (hc : s.getClient fd = some c) (r : Str) (x : Nat) :
    (s.sendReply fd r).outStream x =
      s.outStream x ++ (if x = fd then replyBytes s [r] else []) := by
  unfold Server.sendReply
  by_cases hx : x = fd
  · subst hx
    rw [outStream_sendMessage_self hc]
    simp [replyBytes]
  · rw [outStream_sendMessage_other s hx]
    simp [hx]

theorem outStream_channelBroadcast_count {s : Server} {name : Str} {ch : Channel}
    (h : s.getChannel name = some ch) (m : Str) (exclude : Option Nat) (x : Nat) :
    (s.channelBroadcast (Utils.toLower name) m exclude).outStream x =
      s.outStream x ++ (List.replicate
        (if (s.getClient x).isSome = true then
          ch.clients.countP (fun a => decide (a.1 = x ∧ some a.1 ≠ exclude)) else 0)
        (m ++ CRLF)).flatten := by
  unfold Server.channelBroadcast
  rw [getChannel_find h]
  simp only
  cases hg : s.getClient x with
  | none =>
    rw [outStream_of_getClient_none
      ((benign_broadcastTo s ch.clients m exclude).getClient_none hg),
      outStream_of_getClient_none hg]
    simp
  | some d =>
    have hs : (s.getClient x).isSome = true := by rw [hg]; rfl
    rw [outStream_broadcastTo_count _ _ _ _ s hs]
    simp

theorem countP_excluded (members : List (Nat × Nat)) (fd : Nat) :
    members.countP (fun a => decide (a.1 = fd ∧ some a.1 ≠ some fd)) = 0 := by
  rw [List.countP_eq_zero]
  intro a _
  simp

/-- C32 (as amended): for every state, every sender with a session and every parameter
list `target :: text :: rest`, both handlers return, and there is a number of copies
`n x` for each descriptor `x` such that `NOTICE` sends `x` exactly `n x` copies of the
line `:<nick>!<user>@<host> NOTICE <target> :<text>` while `PRIVMSG` sends `x` the same
number of copies of the line with the verb `PRIVMSG`, followed, for the sender only, by
its numeric reply: none, 403, 442, 401 or 301. `NOTICE` sends no numeric. The sender is
sent a copy only when the target is not a channel and is the nickname of the sender's
own session. Neither handler changes the channels. -/
theorem noticeExecute_refines (s : Server) (fd : Nat) (c : Client) (target text : Str)
    (rest : List Str) (hc : s.getClient fd = some c) :
    ∃ (tn tp : Server) (n : Nat → Nat) (numerics : List Str),
      Command.noticeExecute s fd (target :: text :: rest) = some tn ∧
      Command.privmsgExecute s fd (target :: text :: rest) = some tp ∧
      (∀ x, tn.outStream x = s.outStream x ++ (List.replicate (n x)
        (c.hostmask ++ " NOTICE ".toList ++ target ++ " :".toList ++ text ++ CRLF)).flatten) ∧
      (∀ x, tp.outStream x = s.outStream x ++ (List.replicate (n x)
        (c.hostmask ++ " PRIVMSG ".toList ++ target ++ " :".toList ++ text ++ CRLF)).flatten ++
        (if x = fd then replyBytes s numerics else [])) ∧
      (numerics = [] ∨
       numerics = ["403 ".toList ++ target ++ " :No such channel".toList] ∨
       numerics = ["442 ".toList ++ target ++ " :You're not on that channel".toList] ∨
       numerics = ["401 ".toList ++ target ++ " :No such nick/channel".toList] ∨
       ∃ msg, numerics = ["301 ".toList ++ target ++ " :".toList ++ msg]) ∧
      (n fd ≠ 0 → ¬ (target.head? = some '#' ∨ target.head? = some '&') ∧
        (s.getClientByNickname target).map Client.fd = some fd) ∧
      tn.channels = s.channels ∧ tp.channels = s.channels := by
  by_cases htg : (target.head? = some '#' ∨ target.head? = some '&')
  · cases hch : s.getChannel target with
    | none =>
      refine ⟨s, s.sendReply fd ("403 ".toList ++ target ++ " :No such channel".toList),
        fun _ => 0, ["403 ".toList ++ target ++ " :No such channel".toList],
        ?_, ?_, ?_, ?_, Or.inr (Or.inl rfl), ?_, rfl, ?_⟩
      · unfold Command.noticeExecute
        rw [hc]
        simp only [htg, hch, ↓reduceIte]
      · unfold Command.privmsgExecute
        rw [hc]
        simp only [htg, hch, ↓reduceIte]
      · intro x; simp
      · intro x; rw [outStream_sendReply_any hc]; simp
      · intro h; exact absurd rfl h
      · simp [Server.sendReply]
    | some ch =>
      by_cases hm : ch.hasClient fd = true
      · refine ⟨s.channelBroadcast (Utils.toLower target)
            (c.hostmask ++ " NOTICE ".toList ++ target ++ " :".toList ++ text) (some fd),
          s.channelBroadcast (Utils.toLower target)
            (c.hostmask ++ " PRIVMSG ".toList ++ target ++ " :".toList ++ text) (some fd),
          fun x => if (s.getClient x).isSome = true then
            ch.clients.countP (fun a => decide (a.1 = x ∧ some a.1 ≠ some fd)) else 0,
          [], ?_, ?_, ?_, ?_, Or.inl rfl, ?_, channelBroadcast_channels _ _ _ _,
          channelBroadcast_channels _ _ _ _⟩
        · unfold Command.noticeExecute
          rw [hc]
          simp only [htg, hch, hm, Bool.not_true, Bool.false_eq_true, ↓reduceIte]
        · unfold Command.privmsgExecute
          rw [hc]
          simp only [htg, hch, hm, Bool.not_true, Bool.false_eq_true, ↓reduceIte]
        · intro x
          exact outStream_channelBroadcast_count hch _ _ x
        · intro x
          rw [outStream_channelBroadcast_count hch]
          simp [replyBytes]
        · intro h
          exfalso
          apply h
          simp only [countP_excluded]
          simp
      · have hm0 : ch.hasClient fd = false := by simpa using hm
        refine ⟨s, s.sendReply fd
            ("442 ".toList ++ target ++ " :You're not on that channel".toList),
          fun _ => 0, ["442 ".toList ++ target ++ " :You're not on that channel".toList],
          ?_, ?_, ?_, ?_, Or.inr (Or.inr (Or.inl rfl)), ?_, rfl, ?_⟩
        · unfold Command.noticeExecute
          rw [hc]
          simp only [htg, hch, hm0, Bool.not_false, ↓reduceIte]
        · unfold Command.privmsgExecute
          rw [hc]
          simp only [htg, hch, hm0, Bool.not_false, ↓reduceIte]
        · intro x; simp
        · intro x; rw [outStream_sendReply_any hc]; simp
        · intro h; exact absurd rfl h
        · simp [Server.sendReply]
  · cases hn : s.getClientByNickname target with
    | none =>
      refine ⟨s, s.sendReply fd ("401 ".toList ++ target ++ " :No such nick/channel".toList),
        fun _ => 0, ["401 ".toList ++ target ++ " :No such nick/channel".toList],
        ?_, ?_, ?_, ?_, Or.inr (Or.inr (Or.inr (Or.inl rfl))), ?_, rfl, ?_⟩
      · unfold Command.noticeExecute
        rw [hc]
        simp only [htg, hn, ↓reduceIte]
      · unfold Command.privmsgExecute
        rw [hc]
        simp only [htg, hn, ↓reduceIte]
      · intro x; simp
      · intro x; rw [outStream_sendReply_any hc]; simp
      · intro h; exact absurd rfl h
      · simp [Server.sendReply]
    | some d =>
      have hnfd : ∀ n : Nat → Nat, (n = fun x => if x = d.fd ∧ (s.getClient x).isSome = true
          then 1 else 0) → n fd ≠ 0 →
          ¬ (target.head? = some '#' ∨ target.head? = some '&') ∧
            (some d).map Client.fd = some fd := by
        intro n hn0 h
        refine ⟨htg, ?_⟩
        by_cases hfd : fd = d.fd
        · rw [hfd]; rfl
        · exfalso
          apply h
          rw [hn0]
          simp [hfd]
      have en : Command.noticeExecute s fd (target :: text :: rest) =
          some (s.sendMessage d.fd
            (c.hostmask ++ " NOTICE ".toList ++ target ++ " :".toList ++ text)) := by
        unfold Command.noticeExecute
        rw [hc]
        simp only [htg, hn, ↓reduceIte]
      have hc1 : ((s.sendMessage d.fd
          (c.hostmask ++ " PRIVMSG ".toList ++ target ++ " :".toList ++ text)).getClient
            fd).isSome = true := by
        rw [getClient_sendMessage_isSome, hc]; rfl
      obtain ⟨c1, hc1⟩ := Option.isSome_iff_exists.mp hc1
      cases hg1 : (s.sendMessage d.fd
          (c.hostmask ++ " PRIVMSG ".toList ++ target ++ " :".toList ++ text)).getClient
            d.fd with
      | none =>
        refine ⟨_, s.sendMessage d.fd
            (c.hostmask ++ " PRIVMSG ".toList ++ target ++ " :".toList ++ text),
          fun x => if x = d.fd ∧ (s.getClient x).isSome = true then 1 else 0, [],
          en, ?_, ?_, ?_, Or.inl rfl, hnfd _ rfl, sendMessage_channels _ _ _,
          sendMessage_channels _ _ _⟩
        · unfold Command.privmsgExecute
          rw [hc]
          simp only [htg, hn, ↓reduceIte, hg1]
        · intro x
          exact outStream_sendMessage_any s _ _ x
        · intro x
          rw [outStream_sendMessage_any]
          simp [replyBytes]
      | some t1 =>
        by_cases haw : t1.isAway = true
        · refine ⟨_, (s.sendMessage d.fd
              (c.hostmask ++ " PRIVMSG ".toList ++ target ++ " :".toList ++ text)).sendReply fd
                ("301 ".toList ++ target ++ " :".toList ++ t1.away_message),
            fun x => if x = d.fd ∧ (s.getClient x).isSome = true then 1 else 0,
            ["301 ".toList ++ target ++ " :".toList ++ t1.away_message],
            en, ?_, ?_, ?_, Or.inr (Or.inr (Or.inr (Or.inr ⟨_, rfl⟩))), hnfd _ rfl,
            sendMessage_channels _ _ _, ?_⟩
          · unfold Command.privmsgExecute
            rw [hc]
            simp only [htg, hn, ↓reduceIte, hg1, haw]
          · intro x
            exact outStream_sendMessage_any s _ _ x
          · intro x
            rw [outStream_sendReply_any hc1, outStream_sendMessage_any]
            simp [replyBytes]
          · simp [Server.sendReply]
        · have haw0 : t1.isAway = false := by simpa using haw
          refine ⟨_, s.sendMessage d.fd
              (c.hostmask ++ " PRIVMSG ".toList ++ target ++ " :".toList ++ text),
            fun x => if x = d.fd ∧ (s.getClient x).isSome = true then 1 else 0, [],
            en, ?_, ?_, ?_, Or.inl rfl, hnfd _ rfl, sendMessage_channels _ _ _,
            sendMessage_channels _ _ _⟩
          · unfold Command.privmsgExecute
            rw [hc]
            simp only [htg, hn, ↓reduceIte, hg1, haw0, Bool.false_eq_true]
          · intro x
            exact outStream_sendMessage_any s _ _ x
          · intro x
            rw [outStream_sendMessage_any]
            simp [replyBytes]

set_option maxRecDepth 100000 in
/-- C32 (counterexample): a notice addressed to the sender's own nickname is delivered
to the sender. `alice` (descriptor 4) sends `NOTICE alice hi`: her own session is sent
`:alice!alice@h1 NOTICE alice :hi`, through the handler and through the dispatcher. -/
theorem notice_to_self_counterexample :
    (demoServer.getClient 4).map (fun c => c.nickname) = some "alice".toList ∧
    (Command.noticeExecute demoServer 4 ["alice".toList, "hi".toList]).map
        (fun t => t.outStream 4) =
      some (demoServer.outStream 4 ++ ":alice!alice@h1 NOTICE alice :hi\r\n".toList) ∧
    (CommandHandler.executeCommand demoServer 4 "NOTICE alice hi".toList).map
        (fun t => t.outStream 4) =
      some (demoServer.outStream 4 ++ ":alice!alice@h1 NOTICE alice :hi\r\n".toList) := by
  refine ⟨by rfl, by decide, by decide⟩

set_option maxRecDepth 100000 in
/-- C32 on the demonstration state, for `bob` (descriptor 5) sending `hello` to `#foo`:
the two handlers send every session the same number of copies of their line. `alice`
is sent `:bob!bob@h2 NOTICE #foo :hello`; on the unknown channel `#nope`, `PRIVMSG` is
answered 403 and `NOTICE` sends `bob` nothing. -/
theorem noticeExecute_refines_witness :
    (∃ (tn tp : Server) (n : Nat → Nat) (numerics : List Str),
      Command.noticeExecute demoServer 5 ["#foo".toList, "hello".toList] = some tn ∧
      Command.privmsgExecute demoServer 5 ["#foo".toList, "hello".toList] = some tp ∧
      (∀ x, tn.outStream x = demoServer.outStream x ++ (List.replicate (n x)
        ":bob!bob@h2 NOTICE #foo :hello\r\n".toList).flatten) ∧
      (∀ x, tp.outStream x = demoServer.outStream x ++ (List.replicate (n x)
        ":bob!bob@h2 PRIVMSG #foo :hello\r\n".toList).flatten ++
        (if x = 5 then replyBytes demoServer numerics else [])) ∧
      n 5 = 0) ∧
    (Command.noticeExecute demoServer 5 ["#foo".toList, "hello".toList]).map
        (fun t => t.outStream 4) =
      some (demoServer.outStream 4 ++ ":bob!bob@h2 NOTICE #foo :hello\r\n".toList) ∧
    (Command.noticeExecute demoServer 5 ["#nope".toList, "hello".toList]).map
        (fun t => decide (t.outStream 5 = demoServer.outStream 5)) = some true ∧
    (Command.privmsgExecute demoServer 5 ["#nope".toList, "hello".toList]).map
        (fun t => t.outStream 5) =
      some (demoServer.outStream 5 ++ ":ft_irc 403 #nope :No such channel\r\n".toList) := by
  refine ⟨?_, by decide, by decide, by decide⟩
  obtain ⟨tn, tp, n, numerics, h1, h2, h3, h4, _, h6, _⟩ :=
    noticeExecute_refines demoServer 5 ((demoServer.getClient 5).getD { fd := 5 })
      "#foo".toList "hello".toList [] (by rfl)
  refine ⟨tn, tp, n, numerics, h1, h2, h3, h4, ?_⟩
  by_contra h0
  exact (h6 h0).1 (by decide)

set_option maxRecDepth 100000 in
theorem failingServer_attainable : Attainable failingServer :=
  attainable_run (Attainable.init 3 "secret".toList "today".toList
    (List.replicate 35 SendResult.wouldBlock ++ [SendResult.fatal])) demoEvents (by rfl) (by rfl)

set_option maxRecDepth 100000 in
/-- The state `failingServer` has the sessions, the channels and the poll array of the
demonstration state, and a `send` that fails next. -/
theorem failingServer_eq :
    (failingServer.clients = demoServer.clients ∧
      failingServer.channels = demoServer.channels ∧ failingServer.fds = demoServer.fds) ∧
    failingServer.env = [SendResult.fatal] :=
  ⟨of_decide_eq_true (by rfl), by rfl⟩

set_option maxRecDepth 100000 in
/-- C3 as stated fails when the `send` of the reply meets a fatal error:
`Client::processMessages` then sets the session to `DISCONNECTED`. In the state
`failingServer` descriptor 6 (`CONNECTING`) sends a wrong password and descriptor 7
(`PASSWORD_SENT`) sends `PASS` again: each is sent its reply, 464 or 462, and ends
`DISCONNECTED`. -/
theorem pass_reply_fatal_counterexample :
    failingServer.env = [SendResult.fatal] ∧
    (failingServer.getClient 6).map (fun c => c.status) = some ClientStatus.CONNECTING ∧
    (Command.passExecute failingServer 6 ["wrong".toList]).map
        (fun t => ((t.getClient 6).map (fun c => c.status), t.outStream 6)) =
      some (some ClientStatus.DISCONNECTED, ":ft_irc 464 :Password incorrect\r\n".toList) ∧
    (failingServer.getClient 7).map (fun c => c.status) = some ClientStatus.PASSWORD_SENT ∧
    (Command.passExecute failingServer 7 ["secret".toList]).map
        (fun t => ((t.getClient 7).map (fun c => c.status), t.outStream 7)) =
      some (some ClientStatus.DISCONNECTED,
        ":ft_irc 462 :You may not reregister\r\n".toList) := by
  refine ⟨by rfl, by rfl, by rfl, by rfl, by rfl⟩

/-- C3 (as amended): `PassCommand::execute` with parameter `p`, whatever `send`
answers. In `CONNECTING` with `p` equal to the server password the status becomes
`PASSWORD_SENT` and nothing is sent to any session. In `CONNECTING` with another `p`
the session is sent `:<server> 464 :Password incorrect`; in every other status it is
sent `:<server> 462 :You may not reregister`. In both cases nothing else changes, and
the status is what it was, except that it is `DISCONNECTED` exactly when the `send` of
the reply met a fatal error (`Server.sendFails`). -/
theorem passExecute_spec (s : Server) (fd : Nat) (c : Client) (p : Str) (rest : List Str)
    (hc : s.getClient fd = some c) :
    ∃ t, Command.passExecute s fd (p :: rest) = some t ∧
      (c.status = ClientStatus.CONNECTING → p = s.password →
        (t.getClient fd).map Client.status = some ClientStatus.PASSWORD_SENT ∧
        ∀ fd1, t.outStream fd1 = s.outStream fd1) ∧
      (c.status = ClientStatus.CONNECTING → p ≠ s.password →
        RepliedOnly s t fd (':' :: s.serverName ++ " 464 :Password incorrect".toList) ∧
        (t.getClient fd).map Client.status =
          some (if s.sendFails fd (':' :: s.serverName ++ " 464 :Password incorrect".toList)
            then ClientStatus.DISCONNECTED else ClientStatus.CONNECTING)) ∧
      (c.status ≠ ClientStatus.CONNECTING →
        RepliedOnly s t fd (':' :: s.serverName ++ " 462 :You may not reregister".toList) ∧
        (t.getClient fd).map Client.status =
          some (if s.sendFails fd (':' :: s.serverName ++ " 462 :You may not reregister".toList)
            then ClientStatus.DISCONNECTED else c.status)) := by
  unfold Command.passExecute
  rw [hc]
  simp only
  by_cases hs : c.status = ClientStatus.CONNECTING
  · by_cases hp : p = s.password
    · refine ⟨_, by simp only [hs, hp, ne_eq, not_true_eq_false, ↓reduceIte]; rfl, ?_, ?_, ?_⟩
      · intro _ _
        constructor
        · simp [getClient_modifyClient_self, hc, Client.setStatus]
        · intro fd1
          unfold Server.outStream
          rw [getClient_modifyClient]
          · cases s.getClient fd1 with
            | none => rfl
            | some d => by_cases hd : d.fd = fd <;> simp [hd, Client.outStream, Client.setStatus]
          · intro _; rfl
      · intro _ h; exact absurd hp h
      · intro h; exact absurd hs h
    · refine ⟨_, by simp only [hs, hp, ne_eq, not_true_eq_false, not_false_eq_true, ↓reduceIte]; rfl, ?_, ?_, ?_⟩
      · intro _ h; exact absurd h hp
      · intro _ _
        have h3 := repliedOnly_sendReply hc "464 :Password incorrect".toList
        have h4 := h3.status_eq hc
        rw [hs] at h4
        exact ⟨by simpa using h3, by simpa using h4⟩
      · intro h; exact absurd hs h
  · refine ⟨_, by simp only [hs, ne_eq, not_false_eq_true, ↓reduceIte]; rfl, ?_, ?_, ?_⟩
    · intro h; exact absurd h hs
    · intro h; exact absurd h hs
    · intro _
      have h3 := repliedOnly_sendReply hc "462 :You may not reregister".toList
      exact ⟨by simpa using h3, by simpa using h3.status_eq hc⟩

set_option maxRecDepth 100000 in
/-- C3 on the demonstration state, where no `send` fails: descriptor 6 sends the right
password and is `PASSWORD_SENT`; descriptor 7, past `PASS`, sends it again, is sent 462
and stays `PASSWORD_SENT`; descriptor 6 sends a wrong password, is sent 464 and stays
`CONNECTING`. And on the state `failingServer`, where the next `send` fails: descriptor
6 sends a wrong password, is sent 464 and is `DISCONNECTED`. -/
theorem passExecute_spec_witness :
    (∃ t, Command.passExecute demoServer 6 ["secret".toList] = some t ∧
      (t.getClient 6).map Client.status = some ClientStatus.PASSWORD_SENT) ∧
    (∃ t, Command.passExecute demoServer 7 ["secret".toList] = some t ∧
      RepliedOnly demoServer t 7 ":ft_irc 462 :You may not reregister".toList ∧
      (t.getClient 7).map Client.status = some ClientStatus.PASSWORD_SENT) ∧
    (∃ t, Command.passExecute demoServer 6 ["wrong".toList] = some t ∧
      RepliedOnly demoServer t 6 ":ft_irc 464 :Password incorrect".toList ∧
      (t.getClient 6).map Client.status = some ClientStatus.CONNECTING) ∧
    (∃ t, Command.passExecute failingServer 6 ["wrong".toList] = some t ∧
      RepliedOnly failingServer t 6 ":ft_irc 464 :Password incorrect".toList ∧
      (t.getClient 6).map Client.status = some ClientStatus.DISCONNECTED) := by
  refine ⟨?_, ?_, ?_, ?_⟩
  · obtain ⟨t, h1, h2, _⟩ := passExecute_spec demoServer 6
      ((demoServer.getClient 6).getD { fd := 6 }) "secret".toList [] (by rfl)
    exact ⟨t, h1, (h2 (by rfl) (by rfl)).1⟩
  · obtain ⟨t, h1, _, _, h4⟩ := passExecute_spec demoServer 7
      ((demoServer.getClient 7).getD { fd := 7 }) "secret".toList [] (by rfl)
    have h5 := h4 (by decide)
    exact ⟨t, h1, h5.1, h5.2.trans (by rfl)⟩
  · obtain ⟨t, h1, _, h3, _⟩ := passExecute_spec demoServer 6
      ((demoServer.getClient 6).getD { fd := 6 }) "wrong".toList [] (by rfl)
    have h5 := h3 (by rfl) (by decide)
    exact ⟨t, h1, h5.1, h5.2.trans (by rfl)⟩
  · obtain ⟨t, h1, _, h3, _⟩ := passExecute_spec failingServer 6
      ((failingServer.getClient 6).getD { fd := 6 }) "wrong".toList [] (by rfl)
    have h5 := h3 (by rfl) (by decide)
    exact ⟨t, h1, h5.1, h5.2.trans (by rfl)⟩

set_option maxRecDepth 100000 in
/-- C7 as stated fails when the `send` of the reply meets a fatal error: in the state
`failingServer` descriptor 7 (`PASSWORD_SENT`) asks for the nickname `9lives`; it is
sent 432 and ends `DISCONNECTED`, not `PASSWORD_SENT`. The same happens with 433 for the
nickname `ALICE`. -/
theorem nick_reply_fatal_counterexample :
    failingServer.env = [SendResult.fatal] ∧
    (failingServer.getClient 7).map (fun c => c.status) = some ClientStatus.PASSWORD_SENT ∧
    (Command.nickExecute failingServer 7 ["9lives".toList]).map
        (fun t => ((t.getClient 7).map (fun c => c.status), t.outStream 7)) =
      some (some ClientStatus.DISCONNECTED,
        ":ft_irc 432 9lives :Erroneous nickname\r\n".toList) ∧
    (Command.nickExecute failingServer 7 ["ALICE".toList]).map
        (fun t => ((t.getClient 7).map (fun c => c.status), t.outStream 7)) =
      some (some ClientStatus.DISCONNECTED,
        ":ft_irc 433 ALICE :Nickname is already in use\r\n".toList) := by
  refine ⟨by rfl, by rfl, by rfl, by rfl⟩

/-- C7 (as amended): `NICK <n>`, whatever `send` answers. When `n` is empty, starts
with a digit, `-`, `#` or `&`, or contains one of `space , * ? ! @ . $ :`, the session
is sent `:<server> 432 <n> :Erroneous nickname`; otherwise, when some session has a
nickname equal to `n` up to ASCII case, it is sent `:<server> 433 <n> :Nickname is
already in use`. In both cases the nickname of the session is the same, every other
session and every channel is unchanged, no other session is sent anything, and the
status of the session is the same, except that it is `DISCONNECTED` exactly when the
`send` of the reply met a fatal error (`Server.sendFails`). Otherwise the command is
accepted and the nickname becomes `n`. -/
theorem nickExecute_rejections (s : Server) (fd : Nat) (c : Client) (n : Str) (rest : List Str)
    (hc : s.getClient fd = some c) :
    ∃ t, Command.nickExecute s fd (n :: rest) = some t ∧
      (nickErroneous n →
        RepliedOnly s t fd (':' :: s.serverName ++ " 432 ".toList ++ n ++
          " :Erroneous nickname".toList) ∧
        (t.getClient fd).map Client.nickname = some c.nickname ∧
        (t.getClient fd).map Client.status =
          some (if s.sendFails fd (':' :: s.serverName ++ " 432 ".toList ++ n ++
              " :Erroneous nickname".toList)
            then ClientStatus.DISCONNECTED else c.status) ∧
        t.channels = s.channels ∧
        ∀ fd1, fd1 ≠ fd → t.getClient fd1 = s.getClient fd1) ∧
      (¬ nickErroneous n →
        (∃ d ∈ s.clients, Utils.toLower d.nickname = Utils.toLower n) →
        RepliedOnly s t fd (':' :: s.serverName ++ " 433 ".toList ++ n ++
          " :Nickname is already in use".toList) ∧
        (t.getClient fd).map Client.nickname = some c.nickname ∧
        (t.getClient fd).map Client.status =
          some (if s.sendFails fd (':' :: s.serverName ++ " 433 ".toList ++ n ++
              " :Nickname is already in use".toList)
            then ClientStatus.DISCONNECTED else c.status) ∧
        t.channels = s.channels ∧
        ∀ fd1, fd1 ≠ fd → t.getClient fd1 = s.getClient fd1) ∧
      (¬ nickErroneous n →
        (¬ ∃ d ∈ s.clients, Utils.toLower d.nickname = Utils.toLower n) →
        (t.getClient fd).map Client.nickname = some n) := by
  have hrep : ∀ reply : Str, RepliedOnly s (s.sendReply fd reply) fd
        (':' :: s.serverName ++ ' ' :: reply) ∧
      ((s.sendReply fd reply).getClient fd).map Client.nickname = some c.nickname ∧
      ((s.sendReply fd reply).getClient fd).map Client.status =
        some (if s.sendFails fd (':' :: s.serverName ++ ' ' :: reply)
          then ClientStatus.DISCONNECTED else c.status) ∧
      (s.sendReply fd reply).channels = s.channels ∧
      ∀ fd1, fd1 ≠ fd → (s.sendReply fd reply).getClient fd1 = s.getClient fd1 := by
    intro reply
    have h1 := repliedOnly_sendReply hc reply
    have h2 := h1.frame
    refine ⟨h1, ?_, h1.status_eq hc, h2.1, h2.2.2.2.2⟩
    rw [(h2.2.2.2.1 fd).2.2.1, hc]; rfl
  unfold Command.nickExecute
  rw [hc]
  simp only
  by_cases hv : Utils.isValidNickname n = false
  · have he : nickErroneous n := (isValidNickname_false_iff n).mp hv
    refine ⟨_, by simp only [hv, Bool.not_false, ↓reduceIte]; rfl, ?_, ?_, ?_⟩
    · intro _
      have := hrep ("432 ".toList ++ n ++ " :Erroneous nickname".toList)
      simpa using this
    · intro h; exact absurd he h
    · intro h; exact absurd he h
  · have he : ¬ nickErroneous n := fun h => hv ((isValidNickname_false_iff n).mpr h)
    have hv1 : Utils.isValidNickname n = true := by simpa using hv
    by_cases hu : (s.getClientByNickname n).isSome = true
    · have hex := (getClientByNickname_isSome_iff s n).mp hu
      refine ⟨_, by simp only [hv1, Bool.not_true, Bool.false_eq_true, hu, ↓reduceIte]; rfl,
        ?_, ?_, ?_⟩
      · intro h; exact absurd h he
      · intro _ _
        have := hrep ("433 ".toList ++ n ++ " :Nickname is already in use".toList)
        simpa using this
      · intro _ h; exact absurd hex h
    · have hnex : ¬ ∃ d ∈ s.clients, Utils.toLower d.nickname = Utils.toLower n :=
        fun h => hu ((getClientByNickname_isSome_iff s n).mpr h)
      have hs1 : (s.modifyClient fd (fun d => d.setNickname n)).getClient fd =
          some (c.setNickname n) := by
        simp [getClient_modifyClient_self, hc]
      have key : ∀ (base t : Server) (d0 : Client), base.getClient fd = some d0 →
          d0.nickname = n → Benign base t →
          (t.getClient fd).map Client.nickname = some n := by
        intro base t d0 hb hn ht
        obtain ⟨d, hd, hev⟩ := ht.getClient hb
        rw [hd]
        simp [hev.2.1, hn]
      by_cases hreg : c.isRegistered = true
      · refine ⟨_, by simp only [hv1, Bool.not_true, Bool.false_eq_true, hu, hreg,
          ↓reduceIte]; rfl, ?_, ?_, ?_⟩
        · intro h; exact absurd h he
        · intro _ h; exact absurd h hnex
        · intro _ _
          apply key _ _ _ hs1 rfl
          apply Benign.foldl_channelBroadcast
          exact benign_sendMessage _ _ _
      · by_cases hps : c.status = ClientStatus.PASSWORD_SENT ∧ c.username ≠ []
        · refine ⟨_, by simp only [hv1, Bool.not_true, Bool.false_eq_true, hu, hreg, hps,
            ne_eq, not_false_eq_true, and_self, ↓reduceIte]; rfl, ?_, ?_, ?_⟩
          · intro h; exact absurd h he
          · intro _ h; exact absurd h hnex
          · intro _ _
            have hs2 : ((s.modifyClient fd (fun d => d.setNickname n)).modifyClient fd
                (fun d => d.setStatus ClientStatus.REGISTERED)).getClient fd =
                some ((c.setNickname n).setStatus ClientStatus.REGISTERED) := by
              simp [getClient_modifyClient_self, hc]
            exact key _ _ _ hs2 rfl (benign_sendWelcomeMessages _ _)
        · refine ⟨_, by simp only [hv1, Bool.not_true, Bool.false_eq_true, hu, hreg, hps,
            ↓reduceIte]; rfl, ?_, ?_, ?_⟩
          · intro h; exact absurd h he
          · intro _ h; exact absurd h hnex
          · intro _ _
            exact key _ _ _ hs1 rfl (Benign.refl _)

set_option maxRecDepth 100000 in
/-- C7 on the demonstration state, where no `send` fails: descriptor 7 asks for `9lives`
(432) and for `ALICE` (433, `alice` being registered) and stays `PASSWORD_SENT`. And on
the state `failingServer`, where the next `send` fails: descriptor 7 asks for `ALICE`,
is sent 433, keeps its empty nickname and is `DISCONNECTED`. -/
theorem nickExecute_rejections_witness :
    (∃ t, Command.nickExecute demoServer 7 ["9lives".toList] = some t ∧
      RepliedOnly demoServer t 7 ":ft_irc 432 9lives :Erroneous nickname".toList ∧
      (t.getClient 7).map Client.status = some ClientStatus.PASSWORD_SENT) ∧
    (∃ t, Command.nickExecute demoServer 7 ["ALICE".toList] = some t ∧
      RepliedOnly demoServer t 7 ":ft_irc 433 ALICE :Nickname is already in use".toList ∧
      (t.getClient 7).map Client.status = some ClientStatus.PASSWORD_SENT) ∧
    (∃ t, Command.nickExecute failingServer 7 ["ALICE".toList] = some t ∧
      RepliedOnly failingServer t 7 ":ft_irc 433 ALICE :Nickname is already in use".toList ∧
      (t.getClient 7).map Client.nickname = some [] ∧
      (t.getClient 7).map Client.status = some ClientStatus.DISCONNECTED) := by
  refine ⟨?_, ?_, ?_⟩
  · obtain ⟨t, h1, h2, _⟩ := nickExecute_rejections demoServer 7
      ((demoServer.getClient 7).getD { fd := 7 }) "9lives".toList [] (by rfl)
    have h5 := h2 (Or.inr (Or.inl ⟨'9', rfl, by decide⟩))
    exact ⟨t, h1, h5.1, h5.2.2.1.trans (by rfl)⟩
  · obtain ⟨t, h1, _, h3, _⟩ := nickExecute_rejections demoServer 7
      ((demoServer.getClient 7).getD { fd := 7 }) "ALICE".toList [] (by rfl)
    have h5 := h3 (fun h => absurd ((isValidNickname_false_iff _).mpr h) (by decide)) (by decide)
    exact ⟨t, h1, h5.1, h5.2.2.1.trans (by rfl)⟩
  · obtain ⟨t, h1, _, h3, _⟩ := nickExecute_rejections failingServer 7
      ((failingServer.getClient 7).getD { fd := 7 }) "ALICE".toList [] (by rfl)
    have h5 := h3 (fun h => absurd ((isValidNickname_false_iff _).mpr h) (by decide))
      ⟨(failingServer.getClient 4).getD { fd := 4 }, by decide, by decide⟩
    exact ⟨t, h1, h5.1, h5.2.1.trans (by rfl), h5.2.2.1.trans (by rfl)⟩

theorem sendWelcomeMessages_eq {s : Server} {fd : Nat} {c : Client}
    (hc : s.getClient fd = some c) :
    Command.sendWelcomeMessages s fd = s.sendReplies fd (welcomeReplies s c) := by
  unfold Command.sendWelcomeMessages
  rw [hc]
  simp only [Server.sendReplies, welcomeReplies, List.foldl, Server.getClientCount,
    Server.getChannelCount]

set_option maxRecDepth 100000 in
/-- C4 as stated fails when a `send` of the welcome block meets a fatal error: in the
state `failingServer` descriptor 8 (`PASSWORD_SENT`, user name `carol`) sends
`NICK carol`; the first `send` fails and the session ends `DISCONNECTED`, not
`REGISTERED`. -/
theorem welcome_fatal_counterexample :
    failingServer.env = [SendResult.fatal] ∧
    (failingServer.getClient 8).map (fun c => (c.status, c.username)) =
      some (ClientStatus.PASSWORD_SENT, "carol".toList) ∧
    (Command.nickExecute failingServer 8 ["carol".toList]).map
        (fun t => (t.getClient 8).map (fun c => (c.status, c.nickname))) =
      some (some (ClientStatus.DISCONNECTED, "carol".toList)) := by
  refine ⟨by rfl, by rfl, by rfl⟩

/-- C4 (as amended): for a session in `PASSWORD_SENT`, whatever `send` answers. A
valid, unused `NICK` with the user name already set, and a `USER` with at least four
parameters with the nickname already set, send the session exactly the replies of
`welcomeReplies`, in order, whose codes are 001, 002, 003, 004, 251, 252, 254, 255,
375, 372, 372, 372, 376, and leave it `REGISTERED`, except that it is `DISCONNECTED`
exactly when one of the `send` calls of the welcome block met a fatal error
(`Server.repliesFail`); when the other of nickname and user name is still empty the
session stays `PASSWORD_SENT` and is sent nothing. -/
theorem registration_welcome (s : Server) (fd : Nat) (c : Client)
    (hc : s.getClient fd = some c)
    (hps : c.status = ClientStatus.PASSWORD_SENT) :
    (∀ n rest, ¬ nickErroneous n →
      (¬ ∃ d ∈ s.clients, Utils.toLower d.nickname = Utils.toLower n) →
      ∃ t, Command.nickExecute s fd (n :: rest) = some t ∧
        (c.username ≠ [] →
          (t.getClient fd).map Client.status =
            some (if s.repliesFail fd (welcomeReplies s (c.setNickname n))
              then ClientStatus.DISCONNECTED else ClientStatus.REGISTERED) ∧
          t.outStream fd = s.outStream fd ++
            replyBytes s (welcomeReplies s (c.setNickname n))) ∧
        (c.username = [] →
          (t.getClient fd).map Client.status = some ClientStatus.PASSWORD_SENT ∧
          t.outStream fd = s.outStream fd)) ∧
    (∀ p0 p1 p2 p3 rest,
      ∃ t, Command.userExecute s fd (p0 :: p1 :: p2 :: p3 :: rest) = some t ∧
        (c.nickname ≠ [] →
          (t.getClient fd).map Client.status =
            some (if s.repliesFail fd (welcomeReplies s (c.setUsername p0))
              then ClientStatus.DISCONNECTED else ClientStatus.REGISTERED) ∧
          t.outStream fd = s.outStream fd ++
            replyBytes s (welcomeReplies s (c.setUsername p0))) ∧
        (c.nickname = [] →
          (t.getClient fd).map Client.status = some ClientStatus.PASSWORD_SENT ∧
          t.outStream fd = s.outStream fd)) ∧
    (∀ d, (welcomeReplies s d).map (fun r => (r.take 3, (r.drop 3).head?)) =
      ["001".toList, "002".toList, "003".toList, "004".toList, "251".toList, "252".toList,
       "254".toList, "255".toList, "375".toList, "372".toList, "372".toList, "372".toList,
       "376".toList].map (fun k => (k, some ' '))) := by
  have hnreg : c.isRegistered = false := by simp [Client.isRegistered, hps]
  -- the welcome block sent from a state whose session `fd` is `c2`
  have hwelcome : ∀ (s2 : Server) (c2 : Client), s2.getClient fd = some c2 →
      c2.status = ClientStatus.REGISTERED →
      ((Command.sendWelcomeMessages s2 fd).getClient fd).map Client.status =
        some (if s2.repliesFail fd (welcomeReplies s2 c2)
          then ClientStatus.DISCONNECTED else ClientStatus.REGISTERED) ∧
      (Command.sendWelcomeMessages s2 fd).outStream fd =
        s2.outStream fd ++ replyBytes s2 (welcomeReplies s2 c2) := by
    intro s2 c2 h2 hst
    obtain ⟨h3, _⟩ := sendWelcomeMessages_spec h2
    refine ⟨?_, h3⟩
    rw [sendWelcomeMessages_eq h2, status_sendReplies fd _ s2 c2 h2, hst]
  refine ⟨?_, ?_, fun d => welcomeReplies_codes s d⟩
  · intro n rest hv hun
    have hv1 : Utils.isValidNickname n = true := by
      by_contra h
      exact hv ((isValidNickname_false_iff n).mp (by simpa using h))
    have hu : (s.getClientByNickname n).isSome = false := by
      cases h : (s.getClientByNickname n).isSome with
      | false => rfl
      | true => exact absurd ((getClientByNickname_isSome_iff s n).mp h) hun
    unfold Command.nickExecute
    rw [hc]
    simp only [hv1, hu, hnreg, hps, Bool.not_true, Bool.false_eq_true, ↓reduceIte, true_and]
    by_cases hun2 : c.username = []
    · refine ⟨_, by simp only [hun2, ne_eq, not_true_eq_false, ↓reduceIte]; rfl, ?_, ?_⟩
      · intro h; exact absurd hun2 h
      · intro _
        constructor
        · simp [getClient_modifyClient_self, hc, hps]
        · rw [outStream_modifyClient]
          all_goals intro _; rfl
    · refine ⟨_, by simp only [hun2, ne_eq, not_false_eq_true, ↓reduceIte]; rfl, ?_, ?_⟩
      · intro _
        have h2 : ((s.modifyClient fd (fun d => d.setNickname n)).modifyClient fd
            (fun d => d.setStatus ClientStatus.REGISTERED)).getClient fd =
            some ((c.setNickname n).setStatus ClientStatus.REGISTERED) := by
          simp [getClient_modifyClient_self, hc]
        obtain ⟨h3, h4⟩ := hwelcome _ _ h2 rfl
        refine ⟨?_, ?_⟩
        · rw [h3, repliesFail_modifyClient _ fd (fun d => d.setStatus ClientStatus.REGISTERED)
              (fun _ => rfl) (fun _ => rfl) (fun _ => rfl),
            repliesFail_modifyClient _ fd (fun d => d.setNickname n)
              (fun _ => rfl) (fun _ => rfl) (fun _ => rfl)]
          simp [welcomeReplies, Server.modifyClient]
        · rw [h4, outStream_modifyClient, outStream_modifyClient]
          · simp [replyBytes, welcomeReplies, Server.modifyClient]
          all_goals intro _; rfl
      · intro h; exact absurd h hun2
  · intro p0 p1 p2 p3 rest
    unfold Command.userExecute
    rw [hc]
    simp only [hnreg, hps, Bool.false_eq_true, ↓reduceIte, true_and]
    by_cases hn : c.nickname = []
    · refine ⟨_, by simp only [hn, ne_eq, not_true_eq_false, ↓reduceIte]; rfl, ?_, ?_⟩
      · intro h; exact absurd hn h
      · intro _
        constructor
        · simp [getClient_modifyClient_self, hc, hps]
        · rw [outStream_modifyClient]
          all_goals intro _; rfl
    · refine ⟨_, by simp only [hn, ne_eq, not_false_eq_true, ↓reduceIte]; rfl, ?_, ?_⟩
      · intro _
        have h2 : ((s.modifyClient fd (fun d => (d.setUsername p0).setRealname p3)
            ).modifyClient fd
            (fun d => d.setStatus ClientStatus.REGISTERED)).getClient fd =
            some (((c.setUsername p0).setRealname p3).setStatus ClientStatus.REGISTERED) := by
          simp [getClient_modifyClient_self, hc]
        obtain ⟨h3, h4⟩ := hwelcome _ _ h2 rfl
        refine ⟨?_, ?_⟩
        · rw [h3, repliesFail_modifyClient _ fd (fun d => d.setStatus ClientStatus.REGISTERED)
              (fun _ => rfl) (fun _ => rfl) (fun _ => rfl),
            repliesFail_modifyClient _ fd (fun d => (d.setUsername p0).setRealname p3)
              (fun _ => rfl) (fun _ => rfl) (fun _ => rfl)]
          simp [welcomeReplies, Server.modifyClient]
        · rw [h4, outStream_modifyClient, outStream_modifyClient]
          · simp [replyBytes, welcomeReplies, Server.modifyClient]
          all_goals intro _; rfl
      · intro h; exact absurd h hn

set_option maxRecDepth 100000 in
/-- C4 on the demonstration state, where no `send` fails: descriptor 8, past `PASS` and
`USER`, sends `NICK carol` and becomes registered; descriptor 7, past `PASS` only,
stays `PASSWORD_SENT` and is sent nothing. And on the state `failingServer`, where the
next `send` fails: descriptor 8 sends `NICK carol` and is `DISCONNECTED`. -/
theorem registration_welcome_witness :
    (∃ t, Command.nickExecute demoServer 8 ["carol".toList] = some t ∧
      (t.getClient 8).map Client.status = some ClientStatus.REGISTERED) ∧
    (∃ t, Command.nickExecute demoServer 7 ["dave".toList] = some t ∧
      (t.getClient 7).map Client.status = some ClientStatus.PASSWORD_SENT ∧
      t.outStream 7 = demoServer.outStream 7) ∧
    (∃ t, Command.nickExecute failingServer 8 ["carol".toList] = some t ∧
      (t.getClient 8).map Client.status = some ClientStatus.DISCONNECTED) := by
  refine ⟨?_, ?_, ?_⟩
  · obtain ⟨t, h1, h2, _⟩ := (registration_welcome demoServer 8
      ((demoServer.getClient 8).getD { fd := 8 }) (by rfl) (by rfl)).1 "carol".toList []
      (fun h => absurd ((isValidNickname_false_iff _).mpr h) (by decide)) (by decide)
    exact ⟨t, h1, (h2 (by decide)).1.trans (by rfl)⟩
  · obtain ⟨t, h1, _, h3⟩ := (registration_welcome demoServer 7
      ((demoServer.getClient 7).getD { fd := 7 }) (by rfl) (by rfl)).1 "dave".toList []
      (fun h => absurd ((isValidNickname_false_iff _).mpr h) (by decide)) (by decide)
    exact ⟨t, h1, h3 (by rfl)⟩
  · obtain ⟨t, h1, h2, _⟩ := (registration_welcome failingServer 8
      ((failingServer.getClient 8).getD { fd := 8 }) (by rfl) (by rfl)).1 "carol".toList []
      (fun h => absurd ((isValidNickname_false_iff _).mpr h) (by decide)) (by decide)
    exact ⟨t, h1, (h2 (by decide)).1.trans (by rfl)⟩

set_option maxRecDepth 100000 in
/-- C1 as stated fails when the `send` of the reply meets a fatal error: more than the
outbound queue changes. In the state `failingServer` descriptor 7 (`PASSWORD_SENT`)
sends `JOIN #x` and `alice` (`REGISTERED`) sends `JOIN`: each is sent its reply, 451 or
461, and ends `DISCONNECTED`. -/
theorem dispatch_reply_fatal_counterexample :
    failingServer.env = [SendResult.fatal] ∧
    (failingServer.getClient 7).map (fun c => c.status) = some ClientStatus.PASSWORD_SENT ∧
    (CommandHandler.executeCommand failingServer 7 "JOIN #x".toList).map
        (fun t => ((t.getClient 7).map (fun c => c.status), t.outStream 7)) =
      some (some ClientStatus.DISCONNECTED,
        ":ft_irc 451 * :You have not registered\r\n".toList) ∧
    (failingServer.getClient 4).map (fun c => c.status) = some ClientStatus.REGISTERED ∧
    (CommandHandler.executeCommand failingServer 4 "JOIN".toList).map
        (fun t => (t.getClient 4).map (fun c => c.status)) =
      some (some ClientStatus.DISCONNECTED) ∧
    (CommandHandler.executeCommand failingServer 4 "JOIN".toList).map
        (fun t => t.outStream 4) =
      some (failingServer.outStream 4 ++
        ":ft_irc 461 alice JOIN :Not enough parameters\r\n".toList) := by
  refine ⟨by rfl, by rfl, by rfl, by rfl, by rfl, by decide⟩

/-- C1 (as amended): `CommandHandler::executeCommand` on a line of an existing session,
whatever `send` answers. The command is the text before the first space, uppercased. If it
is not registered the session is sent `421 <target> <command> :Unknown command`; else if
the command requires registration and the session is not `REGISTERED`, it is sent
`451 <target> :You have not registered`; else if the line has fewer parsed parameters
than the command's minimum, it is sent `461 <target> <command> :Not enough parameters`;
else the result is that of the handler on the parsed parameters. In the three rejections
no handler runs and the state differs from the old one only in the outbound side of the
session and, exactly when the `send` of the reply met a fatal error, in the status of
the session, which is then `DISCONNECTED` (`RepliedOnly`). -/
theorem executeCommand_dispatch (s : Server) (fd : Nat) (c : Client) (line : Str)
    (hc : s.getClient fd = some c) :
    CommandHandler.commandName line = Utils.toUpper (line.takeWhile (fun x => x != ' ')) ∧
    (CommandHandler.findCommand (CommandHandler.commandName line) = none →
      ∃ t, CommandHandler.executeCommand s fd line = some t ∧
        RepliedOnly s t fd (':' :: s.serverName ++ " 421 ".toList ++
          (if c.nickname = [] then ['*'] else c.nickname) ++
          ' ' :: CommandHandler.commandName line ++ " :Unknown command".toList)) ∧
    (∀ cmd, CommandHandler.findCommand (CommandHandler.commandName line) = some cmd →
      (cmd.requiresRegistration = true ∧ c.status ≠ ClientStatus.REGISTERED →
        ∃ t, CommandHandler.executeCommand s fd line = some t ∧
          RepliedOnly s t fd (':' :: s.serverName ++ " 451 ".toList ++
            (if c.nickname = [] then ['*'] else c.nickname) ++
            " :You have not registered".toList)) ∧
      (¬ (cmd.requiresRegistration = true ∧ c.status ≠ ClientStatus.REGISTERED) →
        ((CommandHandler.parseParams (CommandHandler.paramText line)).length <
            cmd.getMinParams →
          ∃ t, CommandHandler.executeCommand s fd line = some t ∧
            RepliedOnly s t fd (':' :: s.serverName ++ " 461 ".toList ++
              (if c.nickname = [] then ['*'] else c.nickname) ++
              ' ' :: CommandHandler.commandName line ++ " :Not enough parameters".toList)) ∧
        (cmd.getMinParams ≤
            (CommandHandler.parseParams (CommandHandler.paramText line)).length →
          CommandHandler.executeCommand s fd line =
            cmd.execute s fd (CommandHandler.parseParams (CommandHandler.paramText line))))) := by
  have hrep : ∀ (code : Nat) (m : Str), 100 ≤ code ∧ code < 1000 →
      RepliedOnly s (s.sendReply fd (CommandHandler.formatReply code c m)) fd
        (':' :: s.serverName ++ ' ' :: Utils.toString code ++
          ' ' :: (if c.nickname = [] then ['*'] else c.nickname) ++ ' ' :: m) := by
    intro code m hcode
    rw [formatReply_eq code c m hcode]
    have := repliedOnly_sendReply hc
      (Utils.toString code ++ ' ' :: (if c.nickname = [] then ['*'] else c.nickname) ++ ' ' :: m)
    simpa [List.append_assoc] using this
  refine ⟨rfl, ?_, ?_⟩
  · intro hnone
    refine ⟨_, by unfold CommandHandler.executeCommand; rw [hc]; simp only [hnone]; rfl, ?_⟩
    have := hrep CommandHandler.ERR_UNKNOWNCOMMAND
      (CommandHandler.commandName line ++ " :Unknown command".toList) (by decide)
    simpa [List.append_assoc] using this
  · intro cmd hcmd
    constructor
    · rintro ⟨hreq, hst⟩
      have hn : c.isRegistered = false := by simpa [Client.isRegistered] using hst
      refine ⟨_, by unfold CommandHandler.executeCommand; rw [hc]
                    simp only [hcmd, hreq, hn, Bool.not_false, Bool.and_self, ↓reduceIte]; rfl, ?_⟩
      have := hrep CommandHandler.ERR_NOTREGISTERED ":You have not registered".toList
        (by decide)
      simpa [List.append_assoc] using this
    · intro hgate
      have hg : (cmd.requiresRegistration && !c.isRegistered) = false := by
        cases hr : cmd.requiresRegistration with
        | false => rfl
        | true =>
          have : ¬ c.status ≠ ClientStatus.REGISTERED := fun h => hgate ⟨hr, h⟩
          simp only [ne_eq, not_not] at this
          simp [Client.isRegistered, this]
      constructor
      · intro hlt
        refine ⟨_, by unfold CommandHandler.executeCommand; rw [hc]
                      simp only [hcmd, hg, hlt, Bool.false_eq_true, ↓reduceIte]; rfl, ?_⟩
        have := hrep CommandHandler.ERR_NEEDMOREPARAMS
          (CommandHandler.commandName line ++ " :Not enough parameters".toList) (by decide)
        simpa [List.append_assoc] using this
      · intro hge
        unfold CommandHandler.executeCommand
        rw [hc]
        simp only [hcmd, hg, Nat.not_lt.mpr hge, Bool.false_eq_true, ↓reduceIte]

set_option maxRecDepth 100000 in
/-- C1 on the demonstration state, where no `send` fails: descriptor 7, not registered,
sends `JOIN #x` and is answered 451; it sends `frob x` and is answered 421; in both
cases it stays `PASSWORD_SENT`. And on the state `failingServer`, where the next `send`
fails: `alice`, registered, sends `JOIN`, is answered 461 and is `DISCONNECTED`. -/
theorem executeCommand_dispatch_witness :
    (∃ t, CommandHandler.executeCommand demoServer 7 "JOIN #x".toList = some t ∧
      RepliedOnly demoServer t 7 ":ft_irc 451 * :You have not registered".toList ∧
      (t.getClient 7).map Client.status = some ClientStatus.PASSWORD_SENT) ∧
    (∃ t, CommandHandler.executeCommand demoServer 7 "frob x".toList = some t ∧
      RepliedOnly demoServer t 7 ":ft_irc 421 * FROB :Unknown command".toList ∧
      (t.getClient 7).map Client.status = some ClientStatus.PASSWORD_SENT) ∧
    (∃ t, CommandHandler.executeCommand failingServer 4 "JOIN".toList = some t ∧
      RepliedOnly failingServer t 4 ":ft_irc 461 alice JOIN :Not enough parameters".toList ∧
      (t.getClient 4).map Client.status = some ClientStatus.DISCONNECTED) := by
  have hc : demoServer.getClient 7 = some ((demoServer.getClient 7).getD { fd := 7 }) := by
    rfl
  have hc4 : failingServer.getClient 4 =
      some ((failingServer.getClient 4).getD { fd := 4 }) := by
    rfl
  refine ⟨?_, ?_, ?_⟩
  · obtain ⟨t, h1, h2⟩ := ((executeCommand_dispatch demoServer 7
      ((demoServer.getClient 7).getD { fd := 7 })
      "JOIN #x".toList (by rfl)).2.2 CommandKind.JOIN (by rfl)).1 ⟨rfl, by decide⟩
    exact ⟨t, h1, h2, (h2.status_eq hc).trans (by rfl)⟩
  · obtain ⟨t, h1, h2⟩ := (executeCommand_dispatch demoServer 7
      ((demoServer.getClient 7).getD { fd := 7 })
      "frob x".toList (by rfl)).2.1 (by rfl)
    exact ⟨t, h1, h2, (h2.status_eq hc).trans (by rfl)⟩
  · obtain ⟨t, h1, h2⟩ := (((executeCommand_dispatch failingServer 4
      ((failingServer.getClient 4).getD { fd := 4 })
      "JOIN".toList (by rfl)).2.2 CommandKind.JOIN (by rfl)).2
        (fun h => absurd rfl h.2)).1 (by decide)
    exact ⟨t, h1, h2, (h2.status_eq hc4).trans (by rfl)⟩

set_option maxRecDepth 100000 in
/-- C2 as stated fails when the `send` of the 464 meets a fatal error: in the state
`failingServer` descriptor 6 (`CONNECTING`) sends `NICK y`; it is sent the 464 and ends
`DISCONNECTED`. The gate tests only for `CONNECTING`, so the following lines of the same
read are dispatched without `PASS`: after `NICK x`, `NICK y`, `USER u 0 * r` in one
read the session has the nickname `y` and the user name `u`. -/
theorem gate_reply_fatal_counterexample :
    failingServer.env = [SendResult.fatal] ∧
    (failingServer.getClient 6).map (fun c => (c.status, c.nickname, c.username)) =
      some (ClientStatus.CONNECTING, [], []) ∧
    (failingServer.processLine 6 "NICK y".toList).map
        (fun t => ((t.getClient 6).map (fun c => c.status), t.outStream 6)) =
      some (some ClientStatus.DISCONNECTED,
        "464 : You must provide a valid password first with PASS command\r\n".toList) ∧
    (failingServer.handleClientMessage 6 "NICK x\r\nNICK y\r\nUSER u 0 * r\r\n".toList).map
        (fun t => (t.getClient 6).map (fun c => (c.status, c.nickname, c.username))) =
      some (some (ClientStatus.DISCONNECTED, "y".toList, "u".toList)) := by
  refine ⟨by rfl, by rfl, by rfl, by rfl⟩

/-- C2 (as amended): the password gate of `Server::handleClientMessage` (the loop body,
Server.cpp 412-430), whatever `send` answers. For a session in `CONNECTING` and a line
whose command (the text before the first space, uppercased) is none of `PASS`, `QUIT`,
`PING`, the session is sent the line `464 : You must provide a valid password first
with PASS command` and the line is not dispatched: its nickname and user name, every
channel and every other session are unchanged, and it stays `CONNECTING`, except that
it is `DISCONNECTED` exactly when the `send` of the reply met a fatal error
(`Server.sendFails`). -/
theorem processLine_passwordGate (s : Server) (fd : Nat) (c : Client) (line : Str)
    (hc : s.getClient fd = some c)
    (hst : c.status = ClientStatus.CONNECTING)
    (hcmd : Utils.toUpper (line.takeWhile (fun x => x != ' ')) ∉
      ["PASS".toList, "QUIT".toList, "PING".toList]) :
    ∃ t, s.processLine fd line = some t ∧
      RepliedOnly s t fd
        "464 : You must provide a valid password first with PASS command".toList ∧
      (t.getClient fd).map Client.status =
        some (if s.sendFails fd
            "464 : You must provide a valid password first with PASS command".toList
          then ClientStatus.DISCONNECTED else ClientStatus.CONNECTING) ∧
      (t.getClient fd).map Client.nickname = some c.nickname ∧
      (t.getClient fd).map Client.username = some c.username ∧
      t.channels = s.channels ∧
      ∀ fd1, fd1 ≠ fd → t.getClient fd1 = s.getClient fd1 := by
  simp only [List.mem_cons, List.mem_singleton, List.not_mem_nil, or_false, not_or] at hcmd
  obtain ⟨h1, h2, h3⟩ := hcmd
  have hrep := repliedOnly_sendMessage hc Server.passwordRequired
  have hfr := hrep.frame
  refine ⟨s.sendMessage fd Server.passwordRequired, ?_, hrep, ?_, ?_, ?_, hfr.1, hfr.2.2.2.2⟩
  · unfold Server.processLine
    rw [hc]
    simp only [hst, CommandHandler.commandName, ne_eq, h1, h2, h3, not_false_eq_true,
      and_self, ↓reduceIte]
  · have h5 := hrep.status_eq hc
    rw [hst] at h5
    exact h5
  · rw [(hfr.2.2.2.1 fd).2.2.1, hc]; rfl
  · rw [(hfr.2.2.2.1 fd).2.2.2.1, hc]; rfl

set_option maxRecDepth 100000 in
/-- C2 on the demonstration state, where no `send` fails: descriptor 6, which has not
sent `PASS`, sends `NICK eve`; it is sent the 464, stays `CONNECTING` and has no
nickname. And on the state `failingServer`, where the next `send` fails: it is sent
the 464, has no nickname and is `DISCONNECTED`. -/
theorem processLine_passwordGate_witness :
    (∃ t, demoServer.processLine 6 "NICK eve".toList = some t ∧
      t.outStream 6 = demoServer.outStream 6 ++
        "464 : You must provide a valid password first with PASS command\r\n".toList ∧
      (t.getClient 6).map Client.status = some ClientStatus.CONNECTING ∧
      (t.getClient 6).map Client.nickname = some []) ∧
    (∃ t, failingServer.processLine 6 "NICK eve".toList = some t ∧
      t.outStream 6 = failingServer.outStream 6 ++
        "464 : You must provide a valid password first with PASS command\r\n".toList ∧
      (t.getClient 6).map Client.status = some ClientStatus.DISCONNECTED ∧
      (t.getClient 6).map Client.nickname = some []) := by
  constructor
  · obtain ⟨t, h1, h2, h3, h4, _⟩ := processLine_passwordGate demoServer 6
      ((demoServer.getClient 6).getD { fd := 6 }) "NICK eve".toList (by rfl) (by rfl)
      (by decide)
    exact ⟨t, h1, h2.1, h3.trans (by rfl), h4⟩
  · obtain ⟨t, h1, h2, h3, h4, _⟩ := processLine_passwordGate failingServer 6
      ((failingServer.getClient 6).getD { fd := 6 }) "NICK eve".toList (by rfl) (by rfl)
      (by decide)
    exact ⟨t, h1, h2.1, h3.trans (by rfl), h4⟩

set_option maxRecDepth 100000 in
theorem shuffledServer_attainable : Attainable shuffledServer :=
  attainable_run (Attainable.init 3 "secret".toList "today".toList []) shuffledEvents
    (by rfl) (by rfl)

/-- C20 (as amended): a `JOIN` that goes through (the channel does not exist, or
`clientCanJoin` accepts the session), from a state the server reaches, sends the
joiner the line `:<nick>!<user>@<host> JOIN :<chan>`, then 332 when the topic of the
channel is not empty and nothing when it is empty, then 353, then 366; every other
member of the channel is sent the `JOIN` line once, and the sessions that are not
members are sent nothing. The name list of the 353 follows the member map, which is
ordered by the addresses of the sessions. -/
theorem joinExecute_replies (s : Server) (fd : Nat) (c : Client) (name : Str)
    (rest : List Str) (ha : Attainable s) (hc : s.getClient fd = some c)
    (hv : Utils.isValidChannelName name = true)
    (hok : ∀ ch, s.getChannel name = some ch →
      ch.clientCanJoin c.nickname (rest.headD []) = true) :
    ∃ t ch1, Command.joinExecute s fd (name :: rest) = some t ∧
      t.getChannel name = some ch1 ∧ ch1.hasClient fd = true ∧
      t.outStream fd =
        s.outStream fd ++ (c.hostmask ++ " JOIN :".toList ++ name ++ CRLF) ++
          replyBytes s (joinReplies s c.nickname name ch1) ∧
      (ch1.topic = [] → (joinReplies s c.nickname name ch1).map (fun r => r.take 4) =
        ["353 ".toList, "366 ".toList]) ∧
      (ch1.topic ≠ [] → (joinReplies s c.nickname name ch1).map (fun r => r.take 4) =
        ["332 ".toList, "353 ".toList, "366 ".toList]) ∧
      (∀ x, x ≠ fd → ch1.hasClient x = true →
        t.outStream x = s.outStream x ++ (c.hostmask ++ " JOIN :".toList ++ name ++ CRLF)) ∧
      (∀ x, ch1.hasClient x = false → t.outStream x = s.outStream x) := by
  have hinv := RoomInv.attainable ha
  have hsome : (s.getClient fd).isSome = true := by rw [hc]; rfl
  -- the state after the channel was created or the session added
  have key : ∀ (s0 : Server) (ch0 : Channel),
      Command.joinExecute s fd (name :: rest) =
        some (Command.joinTail s0 fd c name (Utils.toLower name)) →
      s0.getChannel name = some ch0 → RoomInv s0 → Benign s s0 →
      (∀ x, s0.outStream x = s.outStream x) → s0.serverName = s.serverName →
      fd ∈ ch0.clients.map Prod.fst →
      ∃ t ch1, Command.joinExecute s fd (name :: rest) = some t ∧
        t.getChannel name = some ch1 ∧ ch1.hasClient fd = true ∧
        t.outStream fd =
          s.outStream fd ++ (c.hostmask ++ " JOIN :".toList ++ name ++ CRLF) ++
            replyBytes s (joinReplies s c.nickname name ch1) ∧
        (ch1.topic = [] → (joinReplies s c.nickname name ch1).map (fun r => r.take 4) =
          ["353 ".toList, "366 ".toList]) ∧
        (ch1.topic ≠ [] → (joinReplies s c.nickname name ch1).map (fun r => r.take 4) =
          ["332 ".toList, "353 ".toList, "366 ".toList]) ∧
        (∀ x, x ≠ fd → ch1.hasClient x = true →
          t.outStream x = s.outStream x ++ (c.hostmask ++ " JOIN :".toList ++ name ++ CRLF)) ∧
        (∀ x, ch1.hasClient x = false → t.outStream x = s.outStream x) := by
    intro s0 ch0 hj h0 hinv0 hb hout hsn hfd
    obtain ⟨hnd, hmem⟩ := hinv0.channel_facts h0
    obtain ⟨ch1, hcl, htop, hname, hg, ho1, ho2, ho3⟩ := joinTail_out h0 fd c hnd hmem hfd
    have hrb : replyBytes s0 (joinReplies s0 c.nickname name ch1) =
        replyBytes s (joinReplies s c.nickname name ch1) := by
      rw [joinReplies_benign hb]
      unfold replyBytes
      rw [hsn]
    refine ⟨_, ch1, hj, hg, ?_, ?_, ?_, ?_, ?_, ?_⟩
    · rw [hasClient_iff, hcl]; exact hfd
    · rw [ho1, hout, hrb]
    · intro ht
      simp [joinReplies, ht]
    · intro ht
      simp [joinReplies, ht]
    · intro x hx hm
      rw [hasClient_iff, hcl] at hm
      rw [ho2 x hx hm, hout]
    · intro x hm
      have hnm : x ∉ ch0.clients.map Prod.fst := by
        intro hx
        rw [← hcl, ← hasClient_iff, hm] at hx
        cases hx
      rw [ho3 x hnm, hout]
  cases hch : s.getChannel name with
  | none =>
    have hcr := getChannel_createChannel hch fd
    refine key (s.createChannel name fd) _ ?_ hcr.2 (hinv.createChannel name hsome)
      (benign_createChannel s name fd) (outStream_createChannel s name fd)
      (createChannel_serverName s name fd) (by simp)
    unfold Command.joinExecute
    rw [hc]
    simp only [hv, Bool.not_true, Bool.false_eq_true, ↓reduceIte, hch]
  | some ch =>
    have hcan := hok ch hch
    have hadd := getChannel_addClient hch fd false
    refine key (s.addClient (Utils.toLower name) fd false) _ ?_ hadd
      (hinv.addClient _ hsome false) (benign_addClient s _ fd false)
      (outStream_addClient s _ fd false) (addClient_serverName s _ fd false) ?_
    · unfold Command.joinExecute
      rw [hc]
      cases rest <;>
        simp only [hv, Bool.not_true, Bool.false_eq_true, ↓reduceIte, hch] <;>
        simp only [List.headD_nil, List.headD_cons] at hcan <;>
        simp only [hcan, Bool.not_true, Bool.false_eq_true, ↓reduceIte]
    · split
      · rename_i hm; exact (hasClient_iff ch fd).mp hm
      · simp only [map_fst_insertMember, mem_insertFd, true_or]

set_option maxRecDepth 100000 in
/-- C20 on two states without topic on `#foo`. In the state where `#foo` has the key
`hunter2`, `carol` sends `JOIN #foo hunter2`: she is sent the `JOIN` line, 353 and 366,
and `alice` is sent the `JOIN` line. In `shuffledServer`, where the session of `carol`
lies at an address between those of `alice` and `bob`, the name list of her 353 is
`@alice carol bob`. -/
theorem joinExecute_replies_witness :
    (∃ t, Command.joinExecute keyedServer 8 ["#foo".toList, "hunter2".toList] = some t ∧
      t.outStream 8 = keyedServer.outStream 8 ++
        (":carol!carol@h5 JOIN :#foo\r\n:ft_irc 353 carol = #foo :@alice bob carol\r\n" ++
         ":ft_irc 366 carol #foo :End of /NAMES list\r\n").toList ∧
      t.outStream 4 = keyedServer.outStream 4 ++ ":carol!carol@h5 JOIN :#foo\r\n".toList) ∧
    (∃ t, Command.joinExecute shuffledServer 8 ["#foo".toList] = some t ∧
      t.outStream 8 = shuffledServer.outStream 8 ++
        (":carol!carol@h5 JOIN :#foo\r\n:ft_irc 353 carol = #foo :@alice carol bob\r\n" ++
         ":ft_irc 366 carol #foo :End of /NAMES list\r\n").toList ∧
      t.outStream 5 = shuffledServer.outStream 5 ++ ":carol!carol@h5 JOIN :#foo\r\n".toList) := by
  constructor
  · obtain ⟨t, ch1, h1, h2, _, h4, _, _, h7, _⟩ :=
      joinExecute_replies keyedServer 8 ((keyedServer.getClient 8).getD { fd := 8 })
        "#foo".toList ["hunter2".toList] keyedServer_attainable (by rfl) (by decide)
        (by
          intro ch h
          have e : keyedServer.getChannel "#foo".toList =
              some { name := "#foo".toList, clients := [(4, 1), (5, 0)], modes := 4,
                     password := "hunter2".toList } := by rfl
          rw [e] at h
          cases h
          decide)
    have e1 : Command.joinExecute keyedServer 8 ["#foo".toList, "hunter2".toList] =
        some ((Command.joinExecute keyedServer 8 ["#foo".toList, "hunter2".toList]).getD
          keyedServer) := by rfl
    have ht : t = (Command.joinExecute keyedServer 8 ["#foo".toList, "hunter2".toList]).getD
        keyedServer := Option.some.inj (h1.symm.trans e1)
    rw [ht] at h2
    have e2 : ((Command.joinExecute keyedServer 8 ["#foo".toList, "hunter2".toList]).getD
        keyedServer).getChannel "#foo".toList =
        some ((((Command.joinExecute keyedServer 8 ["#foo".toList, "hunter2".toList]).getD
          keyedServer).getChannel "#foo".toList).getD { name := [] }) := by rfl
    have hch := Option.some.inj (h2.symm.trans e2)
    subst hch
    refine ⟨t, h1, ?_, ?_⟩
    · rw [h4]; decide
    · rw [h7 4 (by decide) (by decide)]; decide
  · obtain ⟨t, ch1, h1, h2, _, h4, _, _, h7, _⟩ :=
      joinExecute_replies shuffledServer 8 ((shuffledServer.getClient 8).getD { fd := 8 })
        "#foo".toList [] shuffledServer_attainable (by rfl) (by decide)
        (by
          intro ch h
          have e : shuffledServer.getChannel "#foo".toList =
              some { name := "#foo".toList, clients := [(4, 1), (5, 0)] } := by rfl
          rw [e] at h
          cases h
          decide)
    have e1 : Command.joinExecute shuffledServer 8 ["#foo".toList] =
        some ((Command.joinExecute shuffledServer 8 ["#foo".toList]).getD shuffledServer) := by
      rfl
    have ht : t = (Command.joinExecute shuffledServer 8 ["#foo".toList]).getD shuffledServer :=
      Option.some.inj (h1.symm.trans e1)
    rw [ht] at h2
    have e2 : ((Command.joinExecute shuffledServer 8 ["#foo".toList]).getD
        shuffledServer).getChannel "#foo".toList =
        some ((((Command.joinExecute shuffledServer 8 ["#foo".toList]).getD
          shuffledServer).getChannel "#foo".toList).getD { name := [] }) := by rfl
    have hch := Option.some.inj (h2.symm.trans e2)
    subst hch
    refine ⟨t, h1, ?_, ?_⟩
    · rw [h4]; decide
    · rw [h7 5 (by decide) (by decide)]; decide

theorem findClient_of_mem {ch : Channel} (hnd : (ch.clients.map Prod.fst).Nodup)
    {m : Nat × Nat} (hm : m ∈ ch.clients) : ch.findClient m.1 = some m.2 := by
  unfold Channel.findClient
  have : ch.clients.find? (fun x => x.1 = m.1) = some m := by
    generalize ch.clients = l at hnd hm
    induction l with
    | nil => cases hm
    | cons a l ih =>
      rw [List.map_cons] at hnd
      have hn := List.nodup_cons.mp hnd
      rcases List.mem_cons.mp hm with h | h
      · subst h; simp [List.find?]
      · have hne : ¬ a.1 = m.1 := fun e =>
          hn.1 (by rw [e]; exact List.mem_map.mpr ⟨m, h, rfl⟩)
        simp only [List.find?, hne, decide_False]
        exact ih hn.2 h
  rw [this]
  rfl

/-- The entry of a member in the name list, read off the flags the member map stores
for it. -/
theorem nameEntry_bits (s : Server) (ch : Channel) (m : Nat × Nat) (d : Client)
    (hfind : ch.findClient m.1 = some m.2)
    (hd : s.getClient m.1 = some d) (hv : Utils.isValidNickname d.nickname = true) :
    Command.nameEntry s ch m =
      (if m.2 &&& USER_MODE_OPERATOR ≠ 0 then ['@']
        else if m.2 &&& USER_MODE_VOICE ≠ 0 then ['+'] else []) ++ d.nickname ∧
    ((Command.nameEntry s ch m).head? = some '@' ↔ m.2 &&& USER_MODE_OPERATOR ≠ 0) ∧
    (m.2 &&& USER_MODE_OPERATOR = 0 → m.2 &&& USER_MODE_VOICE ≠ 0 →
      (Command.nameEntry s ch m).head? = some '+') ∧
    (m.2 &&& USER_MODE_OPERATOR = 0 → m.2 &&& USER_MODE_VOICE = 0 →
      Command.nameEntry s ch m = d.nickname) ∧
    Command.nameEntry s ch m ≠ [] ∧ ' ' ∉ Command.nameEntry s ch m := by
  obtain ⟨e, h1, h2, h3, h4⟩ := nameEntry_facts s ch m d hd hv
  have hop : ch.isOperator m.1 = true ↔ m.2 &&& USER_MODE_OPERATOR ≠ 0 := by
    unfold Channel.isOperator
    rw [hfind]
    simp
  have hvo : ch.hasVoice m.1 = true ↔ m.2 &&& USER_MODE_VOICE ≠ 0 := by
    unfold Channel.hasVoice
    rw [hfind]
    simp
  have e2 : Command.nameEntry s ch m =
      (if m.2 &&& USER_MODE_OPERATOR ≠ 0 then ['@']
        else if m.2 &&& USER_MODE_VOICE ≠ 0 then ['+'] else []) ++ d.nickname := by
    rw [e]
    congr 1
    by_cases ho : m.2 &&& USER_MODE_OPERATOR ≠ 0
    · rw [if_pos (hop.mpr ho), if_pos ho]
    · rw [if_neg (fun h => ho (hop.mp h)), if_neg ho]
      by_cases hvv : m.2 &&& USER_MODE_VOICE ≠ 0
      · rw [if_pos (hvo.mpr hvv), if_pos hvv]
      · rw [if_neg (fun h => hvv (hvo.mp h)), if_neg hvv]
  refine ⟨e2, h1.trans hop, ?_, ?_, h3, h4⟩
  · intro ho hvv
    apply h2
    · cases hh : ch.isOperator m.1 with
      | false => rfl
      | true => exact absurd ho (hop.mp hh)
    · exact hvo.mpr hvv
  · intro ho hvv
    rw [e2, if_neg (fun h => h ho), if_neg (fun h => h hvv)]
    rfl

/-- C21: the 353 reply of a `JOIN` that goes through, sent by a registered session in a
state the server reaches (or in any state with the invariants of the member maps, the
session map and the nicknames, which every state the server reaches has). The joiner
is sent the `JOIN` line, 332 when the topic is set, then `353 <nick> = <chan> :<names>`
and 366. `<names>` is the entries of the members of the channel, in the order of the
member map (the order of the addresses of the sessions), joined by single spaces; the
member map repeats no descriptor and holds the joiner; every member is a session with
a valid nickname, and its entry is read off the flags the map stores for it: `@` and
the nickname when the operator bit (1) is set, `+` and the nickname when the operator
bit is clear and the voice bit (2) is set, the nickname alone when both are clear. An
entry starts with `@` exactly when the operator bit is set, is not empty and holds no
space, so splitting `<names>` at the spaces gives back the entries: no space is
doubled, none leads and none trails. -/
theorem joinExecute_names (s : Server) (fd : Nat) (c : Client) (name : Str)
    (rest : List Str) (hst : Attainable s ∨ (RoomInv s ∧ SessionInv s ∧ NamesInv s))
    (hc : s.getClient fd = some c)
    (hreg : c.status = ClientStatus.REGISTERED)
    (hv : Utils.isValidChannelName name = true)
    (hok : ∀ ch, s.getChannel name = some ch →
      ch.clientCanJoin c.nickname (rest.headD []) = true) :
    ∃ t ch1, Command.joinExecute s fd (name :: rest) = some t ∧
      t.getChannel name = some ch1 ∧
      t.outStream fd =
        s.outStream fd ++ (c.hostmask ++ " JOIN :".toList ++ name ++ CRLF) ++
          replyBytes s (if ch1.topic ≠ [] then
            ["332 ".toList ++ c.nickname ++ ' ' :: name ++ " :".toList ++ ch1.topic] else []) ++
          replyBytes s
            ["353 ".toList ++ c.nickname ++ " = ".toList ++ ch1.name ++ " :".toList ++
               Command.namesList t ch1,
             "366 ".toList ++ c.nickname ++ ' ' :: ch1.name ++ " :End of /NAMES list".toList] ∧
      Command.namesList t ch1 =
        [' '].intercalate (ch1.clients.map (Command.nameEntry t ch1)) ∧
      (ch1.clients.map Prod.fst).Nodup ∧ fd ∈ ch1.clients.map Prod.fst ∧
      (∀ m ∈ ch1.clients, ∃ d, t.getClient m.1 = some d ∧
        Utils.isValidNickname d.nickname = true ∧
        ch1.findClient m.1 = some m.2 ∧
        Command.nameEntry t ch1 m =
          (if m.2 &&& USER_MODE_OPERATOR ≠ 0 then ['@']
            else if m.2 &&& USER_MODE_VOICE ≠ 0 then ['+'] else []) ++ d.nickname ∧
        ((Command.nameEntry t ch1 m).head? = some '@' ↔ m.2 &&& USER_MODE_OPERATOR ≠ 0) ∧
        (m.2 &&& USER_MODE_OPERATOR = 0 → m.2 &&& USER_MODE_VOICE ≠ 0 →
          (Command.nameEntry t ch1 m).head? = some '+') ∧
        (m.2 &&& USER_MODE_OPERATOR = 0 → m.2 &&& USER_MODE_VOICE = 0 →
          Command.nameEntry t ch1 m = d.nickname) ∧
        Command.nameEntry t ch1 m ≠ [] ∧ ' ' ∉ Command.nameEntry t ch1 m) ∧
      (Command.namesList t ch1).splitOn ' ' = ch1.clients.map (Command.nameEntry t ch1) := by
  have hinv : RoomInv s := by
    rcases hst with ha | h
    · exact RoomInv.attainable ha
    · exact h.1
  have hsess : SessionInv s := by
    rcases hst with ha | h
    · exact SessionInv.reachable ha.to_reachable
    · exact h.2.1
  have hnames : NamesInv s := by
    rcases hst with ha | h
    · exact NamesInv.of_reachable ha.to_reachable
    · exact h.2.2
  obtain ⟨s0, ch0, hj, h0, hinv0, hb0, hout0, hsn0, hfd0⟩ :=
    joinExecute_tail s fd c name rest hinv hc hv hok
  obtain ⟨hnd0, hmem0⟩ := hinv0.channel_facts h0
  obtain ⟨ch1, hcl, _, _, hg, ho1, _, _⟩ := joinTail_out h0 fd c hnd0 hmem0 hfd0
  have hbt : Benign s (Command.joinTail s0 fd c name (Utils.toLower name)) :=
    benign_joinExecute hj
  have hrt : RoomInv (Command.joinTail s0 fd c name (Utils.toLower name)) := hinv.joinExecute hj
  have hnt : NamesInv (Command.joinTail s0 fd c name (Utils.toLower name)) :=
    hnames.join_step hsess hc hreg hj
  generalize Command.joinTail s0 fd c name (Utils.toLower name) = t at hj hg ho1 hbt hrt hnt
  have hfacts : ∀ m ∈ ch1.clients, ∃ d, t.getClient m.1 = some d ∧
      Utils.isValidNickname d.nickname = true ∧
      ch1.findClient m.1 = some m.2 ∧
      Command.nameEntry t ch1 m =
        (if m.2 &&& USER_MODE_OPERATOR ≠ 0 then ['@']
          else if m.2 &&& USER_MODE_VOICE ≠ 0 then ['+'] else []) ++ d.nickname ∧
      ((Command.nameEntry t ch1 m).head? = some '@' ↔ m.2 &&& USER_MODE_OPERATOR ≠ 0) ∧
      (m.2 &&& USER_MODE_OPERATOR = 0 → m.2 &&& USER_MODE_VOICE ≠ 0 →
        (Command.nameEntry t ch1 m).head? = some '+') ∧
      (m.2 &&& USER_MODE_OPERATOR = 0 → m.2 &&& USER_MODE_VOICE = 0 →
        Command.nameEntry t ch1 m = d.nickname) ∧
      Command.nameEntry t ch1 m ≠ [] ∧ ' ' ∉ Command.nameEntry t ch1 m := by
    intro m hm
    obtain ⟨d, hd, hvd⟩ := member_nickname_valid hrt hnt hg hm
    have hfind := findClient_of_mem (hrt.channel_facts hg).1 hm
    exact ⟨d, hd, hvd, hfind, nameEntry_bits t ch1 m d hfind hd hvd⟩
  have hfd1 : fd ∈ ch1.clients.map Prod.fst := by rw [hcl]; exact hfd0
  refine ⟨t, ch1, hj, hg, ?_, namesList_eq t ch1, (hrt.channel_facts hg).1, hfd1, hfacts, ?_⟩
  · rw [ho1, hout0]
    have hrb : replyBytes s0 (joinReplies s0 c.nickname name ch1) =
        replyBytes s (joinReplies s c.nickname name ch1) := by
      rw [joinReplies_benign hb0]
      unfold replyBytes
      rw [hsn0]
    rw [hrb]
    unfold joinReplies
    rw [replyBytes_append, namesList_benign hbt]
    simp only [List.append_assoc]
  · rw [namesList_eq]
    apply List.splitOn_intercalate
    · intro l hl
      obtain ⟨m, hm, rfl⟩ := List.mem_map.mp hl
      obtain ⟨_, _, _, _, _, _, _, _, _, hsp⟩ := hfacts m hm
      exact hsp
    · intro h
      rw [List.map_eq_nil_iff] at h
      rw [h] at hfd1
      cases hfd1

/-- The state `voicedServer` has the invariants of the states the server reaches:
`Channel::setVoice` changes a flag and nothing else. -/
theorem voicedServer_invariants :
    RoomInv voicedServer ∧ SessionInv voicedServer ∧ NamesInv voicedServer := by
  have ha := shuffledServer_attainable
  refine ⟨?_, ?_, ?_⟩
  · apply (RoomInv.attainable ha).sameRooms
    apply sameRooms_modifyChannel
    intro ch
    refine ⟨rfl, ?_⟩
    simp only [Channel.setVoice, List.map_map]
    apply List.map_congr_left
    intro m _
    simp only [Function.comp]
    split <;> rfl
  · exact (SessionInv.reachable ha.to_reachable).benign (benign_modifyChannel _ _ _)
  · exact (NamesInv.of_reachable ha.to_reachable).shrunk (namesShrunk_of_clients rfl)

set_option maxRecDepth 100000 in
/-- C21 on three states. The scenario of the specification: `alice` has created `#foo`,
`bob` sends `JOIN #foo`, and the name list of his 353 reply is `@alice bob`. In
`shuffledServer` the session of `carol` lies at an address between those of `alice` and
`bob`, both in `#foo`: the name list of her 353 is `@alice carol bob`. In
`voicedServer`, where `bob` also has the voice flag, it is `@alice carol +bob`. -/
theorem joinExecute_names_witness :
    (∃ t ch1, Command.joinExecute lobbyServer 5 ["#foo".toList] = some t ∧
      t.getChannel "#foo".toList = some ch1 ∧
      Command.namesList t ch1 = "@alice bob".toList ∧
      (Command.namesList t ch1).splitOn ' ' = ["@alice".toList, "bob".toList] ∧
      t.outStream 5 = lobbyServer.outStream 5 ++
        (":bob!bob@h2 JOIN :#foo\r\n:ft_irc 353 bob = #foo :@alice bob\r\n" ++
         ":ft_irc 366 bob #foo :End of /NAMES list\r\n").toList) ∧
    (∃ t ch1, Command.joinExecute shuffledServer 8 ["#foo".toList] = some t ∧
      t.getChannel "#foo".toList = some ch1 ∧
      ch1.clients = [(4, 1), (8, 0), (5, 0)] ∧
      Command.namesList t ch1 = "@alice carol bob".toList) ∧
    (∃ t ch1, Command.joinExecute voicedServer 8 ["#foo".toList] = some t ∧
      t.getChannel "#foo".toList = some ch1 ∧
      ch1.clients = [(4, 1), (8, 0), (5, 2)] ∧
      Command.namesList t ch1 = "@alice carol +bob".toList ∧
      (Command.namesList t ch1).splitOn ' ' =
        ["@alice".toList, "carol".toList, "+bob".toList]) := by
  refine ⟨?_, ?_, ?_⟩
  · obtain ⟨t, ch1, h1, h2, h3, _, _, _, _, h8⟩ :=
      joinExecute_names lobbyServer 5 ((lobbyServer.getClient 5).getD { fd := 5 })
        "#foo".toList [] (Or.inl lobbyServer_attainable) (by rfl) (by rfl) (by decide)
        (by
          intro ch h
          have e : lobbyServer.getChannel "#foo".toList =
              some { name := "#foo".toList, clients := [(4, 1)] } := by rfl
          rw [e] at h
          cases h
          decide)
    have e1 : Command.joinExecute lobbyServer 5 ["#foo".toList] =
        some ((Command.joinExecute lobbyServer 5 ["#foo".toList]).getD lobbyServer) := by rfl
    have ht : t = (Command.joinExecute lobbyServer 5 ["#foo".toList]).getD lobbyServer :=
      Option.some.inj (h1.symm.trans e1)
    have h2' := h2
    rw [ht] at h2'
    have e2 : ((Command.joinExecute lobbyServer 5 ["#foo".toList]).getD
        lobbyServer).getChannel "#foo".toList =
        some ((((Command.joinExecute lobbyServer 5 ["#foo".toList]).getD
          lobbyServer).getChannel "#foo".toList).getD { name := [] }) := by rfl
    have hch := Option.some.inj (h2'.symm.trans e2)
    subst hch
    refine ⟨t, _, h1, h2, ?_, ?_, ?_⟩
    · rw [ht]; decide
    · rw [ht]; decide
    · rw [ht]; decide
  · obtain ⟨t, ch1, h1, h2, _⟩ :=
      joinExecute_names shuffledServer 8 ((shuffledServer.getClient 8).getD { fd := 8 })
        "#foo".toList [] (Or.inl shuffledServer_attainable) (by rfl) (by rfl) (by decide)
        (by
          intro ch h
          have e : shuffledServer.getChannel "#foo".toList =
              some { name := "#foo".toList, clients := [(4, 1), (5, 0)] } := by rfl
          rw [e] at h
          cases h
          decide)
    have e1 : Command.joinExecute shuffledServer 8 ["#foo".toList] =
        some ((Command.joinExecute shuffledServer 8 ["#foo".toList]).getD shuffledServer) := by
      rfl
    have ht : t = (Command.joinExecute shuffledServer 8 ["#foo".toList]).getD shuffledServer :=
      Option.some.inj (h1.symm.trans e1)
    have h2' := h2
    rw [ht] at h2'
    have e2 : ((Command.joinExecute shuffledServer 8 ["#foo".toList]).getD
        shuffledServer).getChannel "#foo".toList =
        some ((((Command.joinExecute shuffledServer 8 ["#foo".toList]).getD
          shuffledServer).getChannel "#foo".toList).getD { name := [] }) := by rfl
    have hch := Option.some.inj (h2'.symm.trans e2)
    subst hch
    refine ⟨t, _, h1, h2, ?_, ?_⟩
    · decide
    · rw [ht]; decide
  · obtain ⟨t, ch1, h1, h2, _⟩ :=
      joinExecute_names voicedServer 8 ((voicedServer.getClient 8).getD { fd := 8 })
        "#foo".toList [] (Or.inr voicedServer_invariants) (by rfl) (by rfl) (by decide)
        (by
          intro ch h
          have e : voicedServer.getChannel "#foo".toList =
              some { name := "#foo".toList, clients := [(4, 1), (5, 2)] } := by rfl
          rw [e] at h
          cases h
          decide)
    have e1 : Command.joinExecute voicedServer 8 ["#foo".toList] =
        some ((Command.joinExecute voicedServer 8 ["#foo".toList]).getD voicedServer) := by
      rfl
    have ht : t = (Command.joinExecute voicedServer 8 ["#foo".toList]).getD voicedServer :=
      Option.some.inj (h1.symm.trans e1)
    have h2' := h2
    rw [ht] at h2'
    have e2 : ((Command.joinExecute voicedServer 8 ["#foo".toList]).getD
        voicedServer).getChannel "#foo".toList =
        some ((((Command.joinExecute voicedServer 8 ["#foo".toList]).getD
          voicedServer).getChannel "#foo".toList).getD { name := [] }) := by rfl
    have hch := Option.some.inj (h2'.symm.trans e2)
    subst hch
    refine ⟨t, _, h1, h2, ?_, ?_, ?_⟩
    · decide
    · rw [ht]; decide
    · rw [ht]; decide

set_option maxRecDepth 100000 in
/-- C22 as stated fails when the `send` of the reply meets a fatal error: in the state
`failingServer`, `bob` (`REGISTERED`) sends `PART #nope`; he is sent 403 and ends
`DISCONNECTED`. The same happens with 442 for descriptor 8, which is not a member of
`#foo`. -/
theorem part_reply_fatal_counterexample :
    failingServer.env = [SendResult.fatal] ∧
    (failingServer.getClient 5).map (fun c => c.status) = some ClientStatus.REGISTERED ∧
    (Command.partExecute failingServer 5 ["#nope".toList]).map
        (fun t => (t.getClient 5).map (fun c => c.status)) =
      some (some ClientStatus.DISCONNECTED) ∧
    (Command.partExecute failingServer 5 ["#nope".toList]).map (fun t => t.outStream 5) =
      some (failingServer.outStream 5 ++ ":ft_irc 403 #nope :No such channel\r\n".toList) ∧
    (failingServer.getClient 8).map (fun c => c.status) = some ClientStatus.PASSWORD_SENT ∧
    (Command.partExecute failingServer 8 ["#foo".toList]).map
        (fun t => ((t.getClient 8).map (fun c => c.status), t.outStream 8)) =
      some (some ClientStatus.DISCONNECTED,
        ":ft_irc 442 #foo :You're not on that channel\r\n".toList) := by
  refine ⟨by rfl, by rfl, by rfl, by decide, by rfl, by rfl⟩

/-- C22 (as amended): `PART <chan>`. An unknown channel is answered 403 and a sender
that is not a member 442; whatever `send` answers, nothing else changes but the
outbound side of the sender and, exactly when the `send` of the reply met a fatal
error, its status, which is then `DISCONNECTED` (`RepliedOnly`). Otherwise (from a
state the server reaches) every member of the channel, the sender included, is sent
the `PART` line once and nobody else is sent anything; the sender is taken out of the member map and the channel out
of the channel list of the sender; the channel is removed from the channel map exactly
when no member is left, and otherwise keeps its other members with their flags and its
other fields; the other channels and the channel lists of the other sessions are
unchanged. -/
theorem partExecute_spec (s : Server) (fd : Nat) (c : Client) (name : Str) (rest : List Str)
    (hc : s.getClient fd = some c) :
    (s.getChannel name = none →
      ∃ t, Command.partExecute s fd (name :: rest) = some t ∧
        RepliedOnly s t fd
          (':' :: s.serverName ++ " 403 ".toList ++ name ++ " :No such channel".toList)) ∧
    (∀ ch, s.getChannel name = some ch → ch.hasClient fd = false →
      ∃ t, Command.partExecute s fd (name :: rest) = some t ∧
        RepliedOnly s t fd
          (':' :: s.serverName ++ " 442 ".toList ++ name ++
            " :You're not on that channel".toList)) ∧
    (∀ ch, s.getChannel name = some ch → ch.hasClient fd = true → Attainable s →
      ∃ t, Command.partExecute s fd (name :: rest) = some t ∧
        (∀ x, t.outStream x = s.outStream x ++
          (if ch.hasClient x = true then
            c.hostmask ++ " PART ".toList ++ name ++ " :".toList ++ partText rest ++ CRLF
          else [])) ∧
        (ch.clients.filter (fun m => m.1 != fd) = [] → t.getChannel name = none) ∧
        (ch.clients.filter (fun m => m.1 != fd) ≠ [] →
          t.getChannel name =
            some { ch with clients := ch.clients.filter (fun m => m.1 != fd) }) ∧
        (∀ name2, Utils.toLower name2 ≠ Utils.toLower name →
          t.getChannel name2 = s.getChannel name2) ∧
        (t.getClient fd).map Client.channels = some (c.channels.erase (Utils.toLower name)) ∧
        Utils.toLower name ∉ c.channels.erase (Utils.toLower name) ∧
        (∀ x, x ≠ fd → (t.getClient x).map Client.channels =
          (s.getClient x).map Client.channels)) := by
  refine ⟨?_, ?_, ?_⟩
  · intro hch
    have h3 := repliedOnly_sendReply hc ("403 ".toList ++ name ++ " :No such channel".toList)
    have e : Command.partExecute s fd (name :: rest) =
        some (s.sendReply fd ("403 ".toList ++ name ++ " :No such channel".toList)) := by
      unfold Command.partExecute
      rw [hc]
      simp only [hch]
    exact ⟨_, e, by simpa using h3⟩
  · intro ch hch hm
    have h3 := repliedOnly_sendReply hc
      ("442 ".toList ++ name ++ " :You're not on that channel".toList)
    have e : Command.partExecute s fd (name :: rest) =
        some (s.sendReply fd ("442 ".toList ++ name ++ " :You're not on that channel".toList)) := by
      unfold Command.partExecute
      rw [hc]
      simp only [hch, hm, Bool.not_false, ↓reduceIte]
    exact ⟨_, e, by simpa using h3⟩
  · intro ch hch hm ha
    have hinv := RoomInv.attainable ha
    obtain ⟨hnd, hmem⟩ := hinv.channel_facts hch
    have hg1 : ∀ line, (s.channelBroadcast (Utils.toLower name) line none).getChannel name =
        some ch := by
      intro line
      rw [getChannel_congr (channelBroadcast_channels _ _ _ _), hch]
    have hg2 : ∀ line, ((s.channelBroadcast (Utils.toLower name) line none).channelRemoveClient
        (Utils.toLower name) fd).getChannel name = some (ch.eraseMember fd) := by
      intro line
      have := getChannel_channelRemoveClient (hg1 line) fd
      rwa [if_pos hm] at this
    have hL : ("Leaving".toList.head? = some ':') ↔ False := by decide
    have e : Command.partExecute s fd (name :: rest) =
        some (if (ch.eraseMember fd).getClientCount = 0 then
          ((s.channelBroadcast (Utils.toLower name)
            (c.hostmask ++ " PART ".toList ++ name ++ " :".toList ++ partText rest)
            none).channelRemoveClient (Utils.toLower name) fd).removeChannel name
        else (s.channelBroadcast (Utils.toLower name)
            (c.hostmask ++ " PART ".toList ++ name ++ " :".toList ++ partText rest)
            none).channelRemoveClient (Utils.toLower name) fd) := by
      unfold Command.partExecute
      rw [hc]
      cases rest <;>
        simp only [hch, hm, Bool.not_true, Bool.false_eq_true, ↓reduceIte, hg2,
          Option.any_some, decide_eq_true_eq, partText, List.headD_nil, List.headD_cons, hL] <;>
        exact (apply_ite some _ _ _).symm
    generalize c.hostmask ++ " PART ".toList ++ name ++ " :".toList ++ partText rest = line at e ⊢
    have hg1 := hg1 line
    have hg2 := hg2 line
    have hcnt : (ch.eraseMember fd).getClientCount = 0 ↔
        ch.clients.filter (fun m => m.1 != fd) = [] := by
      unfold Channel.getClientCount Channel.eraseMember
      exact List.length_eq_zero
    have hout : ∀ x, ((s.channelBroadcast (Utils.toLower name) line none).channelRemoveClient
        (Utils.toLower name) fd).outStream x =
        s.outStream x ++ (if ch.hasClient x = true then line ++ CRLF else []) := by
      intro x
      rw [outStream_channelRemoveClient, outStream_channelBroadcast hch hnd hmem]
    have hlist : ∀ x, (((s.channelBroadcast (Utils.toLower name) line none).channelRemoveClient
        (Utils.toLower name) fd).getClient x).map Client.channels =
        (s.getClient x).map
          (fun d => if d.fd = fd then d.channels.erase (Utils.toLower name) else d.channels) := by
      intro x
      rw [getClient_channelRemoveClient hg1 hm x]
      have h5 := (sameRooms_channelBroadcast s (Utils.toLower name) line none).getClient_channels x
      cases h6 : (s.channelBroadcast (Utils.toLower name) line none).getClient x with
      | none =>
        rw [h6] at h5
        cases h7 : s.getClient x with
        | none => rfl
        | some d => rw [h7] at h5; cases h5
      | some d1 =>
        rw [h6] at h5
        cases h7 : s.getClient x with
        | none => rw [h7] at h5; cases h5
        | some d =>
          rw [h7] at h5
          simp only [Option.map_some', Option.some.injEq] at h5 ⊢
          have hfd1 : d1.fd = x := getClient_fd h6
          have hfd : d.fd = x := getClient_fd h7
          rw [hfd1, hfd, h5]
    have hnodup : c.channels.Nodup := hinv.agrees.2.2.2 c (getClient_mem hc)
    refine ⟨_, e, ?_, ?_, ?_, ?_, ?_, ?_, ?_⟩
    · intro x
      split
      · exact hout x
      · exact hout x
    · intro hempty
      rw [if_pos (hcnt.mpr hempty)]
      exact getChannel_removeChannel_self _ _
    · intro hne
      rw [if_neg (fun h => hne (hcnt.mp h)), hg2]
      rfl
    · intro name2 hne2
      split
      · rw [getChannel_removeChannel_other _ _ _ hne2,
          getChannel_channelRemoveClient_other _ _ _ _ hne2,
          getChannel_congr (channelBroadcast_channels _ _ _ _)]
      · rw [getChannel_channelRemoveClient_other _ _ _ _ hne2,
          getChannel_congr (channelBroadcast_channels _ _ _ _)]
    · have := hlist fd
      rw [hc] at this
      simp only [Option.map_some', getClient_fd hc, ↓reduceIte] at this
      split
      · exact this
      · exact this
    · intro hmem2
      exact ((List.Nodup.mem_erase_iff hnodup).mp hmem2).1 rfl
    · intro x hx
      have := hlist x
      have h8 : (s.getClient x).map
          (fun d => if d.fd = fd then d.channels.erase (Utils.toLower name) else d.channels) =
          (s.getClient x).map Client.channels := by
        cases h7 : s.getClient x with
        | none => rfl
        | some d =>
          simp only [Option.map_some', Option.some.injEq]
          rw [if_neg]
          rw [getClient_fd h7]; exact hx
      rw [h8] at this
      split
      · exact this
      · exact this

set_option maxRecDepth 100000 in
/-- C22 on the demonstration state, where no `send` fails: `bob` leaves `#foo` (both
members are sent the line, `alice` stays with her operator flag); then `alice`, the
last member, leaves and the channel is removed; `carol`, who is not a member, is
answered 442, and `PART` on a channel that does not exist 403. And on the state
`failingServer`, where the next `send` fails: `bob` is answered 403 and is
`DISCONNECTED`. -/
theorem partExecute_spec_witness :
    (∃ t, Command.partExecute demoServer 5 ["#foo".toList] = some t ∧
      t.outStream 4 = demoServer.outStream 4 ++ ":bob!bob@h2 PART #foo :Leaving\r\n".toList ∧
      t.outStream 5 = demoServer.outStream 5 ++ ":bob!bob@h2 PART #foo :Leaving\r\n".toList ∧
      t.getChannel "#foo".toList = some { name := "#foo".toList, clients := [(4, 1)] } ∧
      (t.getClient 5).map Client.channels = some []) ∧
    (∃ t, Command.partExecute soloServer 4 ["#foo".toList, ":bye".toList] = some t ∧
      t.outStream 4 = soloServer.outStream 4 ++ ":alice!alice@h1 PART #foo :bye\r\n".toList ∧
      t.getChannel "#foo".toList = none) ∧
    (∃ t, Command.partExecute keyedServer 8 ["#foo".toList] = some t ∧
      RepliedOnly keyedServer t 8 ":ft_irc 442 #foo :You're not on that channel".toList) ∧
    (∃ t, Command.partExecute demoServer 5 ["#nope".toList] = some t ∧
      RepliedOnly demoServer t 5 ":ft_irc 403 #nope :No such channel".toList) ∧
    (∃ t, Command.partExecute failingServer 5 ["#nope".toList] = some t ∧
      RepliedOnly failingServer t 5 ":ft_irc 403 #nope :No such channel".toList ∧
      (t.getClient 5).map Client.status = some ClientStatus.DISCONNECTED) := by
  refine ⟨?_, ?_, ?_, ?_, ?_⟩
  · obtain ⟨t, h1, h2, _, h4, _, h6, _⟩ :=
      (partExecute_spec demoServer 5 ((demoServer.getClient 5).getD { fd := 5 })
        "#foo".toList [] (by rfl)).2.2
        ((demoServer.getChannel "#foo".toList).getD { name := [] })
        (by rfl) (by rfl) demoServer_attainable
    refine ⟨t, h1, ?_, ?_, ?_, ?_⟩
    · rw [h2 4]; decide
    · rw [h2 5]; decide
    · rw [h4 (by decide)]; rfl
    · rw [h6]; rfl
  · obtain ⟨t, h1, h2, h3, _⟩ :=
      (partExecute_spec soloServer 4 ((soloServer.getClient 4).getD { fd := 4 })
        "#foo".toList [":bye".toList] (by rfl)).2.2
        ((soloServer.getChannel "#foo".toList).getD { name := [] })
        (by rfl) (by rfl) soloServer_attainable
    refine ⟨t, h1, ?_, h3 (by decide)⟩
    rw [h2 4]; decide
  · obtain ⟨t, h1, h2⟩ :=
      (partExecute_spec keyedServer 8 ((keyedServer.getClient 8).getD { fd := 8 })
        "#foo".toList [] (by rfl)).2.1
        ((keyedServer.getChannel "#foo".toList).getD { name := [] })
        (by rfl) (by rfl)
    exact ⟨t, h1, h2⟩
  · obtain ⟨t, h1, h2⟩ :=
      (partExecute_spec demoServer 5 ((demoServer.getClient 5).getD { fd := 5 })
        "#nope".toList [] (by rfl)).1 (by rfl)
    exact ⟨t, h1, h2⟩
  · obtain ⟨t, h1, h2⟩ :=
      (partExecute_spec failingServer 5 ((failingServer.getClient 5).getD { fd := 5 })
        "#nope".toList [] (by rfl)).1 (by rfl)
    have hc : failingServer.getClient 5 =
        some ((failingServer.getClient 5).getD { fd := 5 }) := by rfl
    exact ⟨t, h1, h2, (h2.status_eq hc).trans (by rfl)⟩

/-- C23 (as amended): `KICK <chan> <nick>`. The checks are made in this order: unknown
channel 403, sender not a member 442, sender not an operator 482, no session with the
nickname `<nick>` 401, that session not a member 441; whatever `send` answers, each of
them only sends the reply (`RepliedOnly`: nothing changes but the outbound side of
the sender and, exactly when the `send` of the reply met a fatal error, its status)
and leaves the membership data as it is. Otherwise (from a state the server reaches)
every member, the target included, is sent the `KICK` line once and nobody else is
sent anything; the target is taken out of the member map and the channel out
of the channel list of the target; the other members keep their flags, the channel
its other fields, and the other channels and channel lists are unchanged. -/
theorem kickExecute_spec (s : Server) (fd : Nat) (c : Client) (name nick : Str)
    (rest : List Str) (hc : s.getClient fd = some c) :
    (s.getChannel name = none →
      ∃ t, Command.kickExecute s fd (name :: nick :: rest) = some t ∧
        RepliedOnly s t fd
          (':' :: s.serverName ++ " 403 ".toList ++ name ++ " :No such channel".toList) ∧
        t.roomView = s.roomView) ∧
    (∀ ch, s.getChannel name = some ch → ch.hasClient fd = false →
      ∃ t, Command.kickExecute s fd (name :: nick :: rest) = some t ∧
        RepliedOnly s t fd
          (':' :: s.serverName ++ " 442 ".toList ++ name ++
            " :You're not on that channel".toList) ∧
        t.roomView = s.roomView) ∧
    (∀ ch, s.getChannel name = some ch → ch.hasClient fd = true →
      ch.isOperator fd = false →
      ∃ t, Command.kickExecute s fd (name :: nick :: rest) = some t ∧
        RepliedOnly s t fd
          (':' :: s.serverName ++ " 482 ".toList ++ name ++
            " :You're not channel operator".toList) ∧
        t.roomView = s.roomView) ∧
    (∀ ch, s.getChannel name = some ch → ch.isOperator fd = true →
      s.getClientByNickname nick = none →
      ∃ t, Command.kickExecute s fd (name :: nick :: rest) = some t ∧
        RepliedOnly s t fd
          (':' :: s.serverName ++ " 401 ".toList ++ nick ++ " :No such nick/channel".toList) ∧
        t.roomView = s.roomView) ∧
    (∀ ch target, s.getChannel name = some ch → ch.isOperator fd = true →
      s.getClientByNickname nick = some target → ch.hasClient target.fd = false →
      ∃ t, Command.kickExecute s fd (name :: nick :: rest) = some t ∧
        RepliedOnly s t fd
          (':' :: s.serverName ++ " 441 ".toList ++ nick ++ ' ' :: name ++
            " :They aren't on that channel".toList) ∧
        t.roomView = s.roomView) ∧
    (∀ ch target, s.getChannel name = some ch → ch.isOperator fd = true →
      s.getClientByNickname nick = some target → ch.hasClient target.fd = true →
      Attainable s →
      ∃ t, Command.kickExecute s fd (name :: nick :: rest) = some t ∧
        (∀ x, t.outStream x = s.outStream x ++
          (if ch.hasClient x = true then
            c.hostmask ++ " KICK ".toList ++ name ++ ' ' :: nick ++ " :".toList ++
              rest.headD "No reason given".toList ++ CRLF
          else [])) ∧
        t.getChannel name =
          some { ch with clients := ch.clients.filter (fun m => m.1 != target.fd) } ∧
        (∀ name2, Utils.toLower name2 ≠ Utils.toLower name →
          t.getChannel name2 = s.getChannel name2) ∧
        (∀ x, (t.getClient x).map Client.channels =
          (s.getClient x).map (fun d =>
            if d.fd = target.fd then d.channels.erase (Utils.toLower name) else d.channels))) := by
  have hrep : ∀ reply,
      Command.kickExecute s fd (name :: nick :: rest) = some (s.sendReply fd reply) →
      ∃ t, Command.kickExecute s fd (name :: nick :: rest) = some t ∧
        RepliedOnly s t fd (':' :: s.serverName ++ ' ' :: reply) ∧ t.roomView = s.roomView :=
    fun reply e => ⟨_, e, repliedOnly_sendReply hc reply, sameRooms_sendReply s fd reply⟩
  refine ⟨?_, ?_, ?_, ?_, ?_, ?_⟩
  · intro hch
    have := hrep ("403 ".toList ++ name ++ " :No such channel".toList) (by
      unfold Command.kickExecute
      rw [hc]
      simp only [hch])
    simpa using this
  · intro ch hch hm
    have := hrep ("442 ".toList ++ name ++ " :You're not on that channel".toList) (by
      unfold Command.kickExecute
      rw [hc]
      simp only [hch, hm, Bool.not_false, ↓reduceIte])
    simpa using this
  · intro ch hch hm hop
    have := hrep ("482 ".toList ++ name ++ " :You're not channel operator".toList) (by
      unfold Command.kickExecute
      rw [hc]
      simp only [hch, hm, hop, Bool.not_false, Bool.not_true, Bool.false_eq_true, ↓reduceIte])
    simpa using this
  · intro ch hch hop hno
    have hm := hasClient_of_isOperator ch fd hop
    have := hrep ("401 ".toList ++ nick ++ " :No such nick/channel".toList) (by
      unfold Command.kickExecute
      rw [hc]
      simp only [hch, hm, hop, Bool.not_true, Bool.false_eq_true, ↓reduceIte, hno])
    simpa using this
  · intro ch target hch hop htg hnm
    have hm := hasClient_of_isOperator ch fd hop
    have := hrep ("441 ".toList ++ nick ++ ' ' :: name ++
        " :They aren't on that channel".toList) (by
      unfold Command.kickExecute
      rw [hc]
      simp only [hch, hm, hop, Bool.not_true, Bool.false_eq_true, ↓reduceIte, htg, hnm,
        Bool.not_false])
    simpa using this
  · intro ch target hch hop htg htm ha
    have hm := hasClient_of_isOperator ch fd hop
    have hinv := RoomInv.attainable ha
    obtain ⟨hnd, hmem⟩ := hinv.channel_facts hch
    have e : Command.kickExecute s fd (name :: nick :: rest) =
        some ((s.channelBroadcast (Utils.toLower name)
          (c.hostmask ++ " KICK ".toList ++ name ++ ' ' :: nick ++ " :".toList ++
            rest.headD "No reason given".toList) none).channelRemoveClient
          (Utils.toLower name) target.fd) := by
      unfold Command.kickExecute
      rw [hc]
      cases rest <;>
        simp only [hch, hm, hop, Bool.not_true, Bool.false_eq_true, ↓reduceIte, htg, htm,
          List.headD_nil, List.headD_cons]
    generalize c.hostmask ++ " KICK ".toList ++ name ++ ' ' :: nick ++ " :".toList ++
      rest.headD "No reason given".toList = line at e ⊢
    have hg1 : (s.channelBroadcast (Utils.toLower name) line none).getChannel name = some ch := by
      rw [getChannel_congr (channelBroadcast_channels _ _ _ _), hch]
    refine ⟨_, e, ?_, ?_, ?_, ?_⟩
    · intro x
      rw [outStream_channelRemoveClient, outStream_channelBroadcast hch hnd hmem]
    · rw [getChannel_channelRemoveClient hg1, if_pos htm]
      rfl
    · intro name2 hne2
      rw [getChannel_channelRemoveClient_other _ _ _ _ hne2,
        getChannel_congr (channelBroadcast_channels _ _ _ _)]
    · intro x
      exact channelRemoveClient_lists hg1 (sameRooms_channelBroadcast s _ line none) htm x

set_option maxRecDepth 100000 in
/-- C23 on the demonstration state: `alice` kicks `bob` (both are sent the line, `alice`
stays with her operator flag, `#foo` leaves the channel list of `bob`); `bob`, who is
not an operator, is answered 482; `alice` kicking `carol`, who is not on the channel,
is answered 441. And on the state `failingServer`, where the next `send` fails: `bob`
is answered 482 all the same and the membership data are unchanged. -/
theorem kickExecute_spec_witness :
    (∃ t, Command.kickExecute demoServer 4 ["#foo".toList, "bob".toList] = some t ∧
      t.outStream 4 = demoServer.outStream 4 ++
        ":alice!alice@h1 KICK #foo bob :No reason given\r\n".toList ∧
      t.outStream 5 = demoServer.outStream 5 ++
        ":alice!alice@h1 KICK #foo bob :No reason given\r\n".toList ∧
      t.getChannel "#foo".toList = some { name := "#foo".toList, clients := [(4, 1)] } ∧
      (t.getClient 5).map Client.channels = some []) ∧
    (∃ t, Command.kickExecute demoServer 5 ["#foo".toList, "alice".toList] = some t ∧
      RepliedOnly demoServer t 5 ":ft_irc 482 #foo :You're not channel operator".toList) ∧
    (∃ t, Command.kickExecute keyedServer 4 ["#foo".toList, "carol".toList] = some t ∧
      RepliedOnly keyedServer t 4
        ":ft_irc 441 carol #foo :They aren't on that channel".toList) ∧
    (∃ t, Command.kickExecute failingServer 5 ["#foo".toList, "alice".toList] = some t ∧
      RepliedOnly failingServer t 5 ":ft_irc 482 #foo :You're not channel operator".toList ∧
      t.roomView = failingServer.roomView) := by
  refine ⟨?_, ?_, ?_, ?_⟩
  · obtain ⟨t, h1, h2, h3, _, h5⟩ :=
      (kickExecute_spec demoServer 4 ((demoServer.getClient 4).getD { fd := 4 })
        "#foo".toList "bob".toList [] (by rfl)).2.2.2.2.2
        ((demoServer.getChannel "#foo".toList).getD { name := [] })
        ((demoServer.getClient 5).getD { fd := 5 })
        (by rfl) (by rfl) (by rfl) (by rfl) demoServer_attainable
    refine ⟨t, h1, ?_, ?_, ?_, ?_⟩
    · rw [h2 4]; decide
    · rw [h2 5]; decide
    · rw [h3]; rfl
    · rw [h5 5]; rfl
  · obtain ⟨t, h1, h2, _⟩ :=
      (kickExecute_spec demoServer 5 ((demoServer.getClient 5).getD { fd := 5 })
        "#foo".toList "alice".toList [] (by rfl)).2.2.1
        ((demoServer.getChannel "#foo".toList).getD { name := [] })
        (by rfl) (by rfl) (by rfl)
    exact ⟨t, h1, h2⟩
  · obtain ⟨t, h1, h2, _⟩ :=
      (kickExecute_spec keyedServer 4 ((keyedServer.getClient 4).getD { fd := 4 })
        "#foo".toList "carol".toList [] (by rfl)).2.2.2.2.1
        ((keyedServer.getChannel "#foo".toList).getD { name := [] })
        ((keyedServer.getClient 8).getD { fd := 8 })
        (by rfl) (by rfl) (by rfl) (by rfl)
    exact ⟨t, h1, h2⟩
  · obtain ⟨t, h1, h2, h3⟩ :=
      (kickExecute_spec failingServer 5 ((failingServer.getClient 5).getD { fd := 5 })
        "#foo".toList "alice".toList [] (by rfl)).2.2.1
        ((failingServer.getChannel "#foo".toList).getD { name := [] })
        (by rfl) (by rfl) (by rfl)
    exact ⟨t, h1, h2, h3⟩

set_option maxRecDepth 100000 in
/-- C24 as stated fails when the `send` of the reply meets a fatal error: in the state
`failingServer`, `bob` (`REGISTERED`) sends `TOPIC #nope x`; he is sent 403 and ends
`DISCONNECTED`. The same happens with 442 for descriptor 8, which is not a member of
`#foo`. -/
theorem topic_reply_fatal_counterexample :
    failingServer.env = [SendResult.fatal] ∧
    (failingServer.getClient 5).map (fun c => c.status) = some ClientStatus.REGISTERED ∧
    (Command.topicExecute failingServer 5 ["#nope".toList, "x".toList]).map
        (fun t => (t.getClient 5).map (fun c => c.status)) =
      some (some ClientStatus.DISCONNECTED) ∧
    (Command.topicExecute failingServer 5 ["#nope".toList, "x".toList]).map
        (fun t => t.outStream 5) =
      some (failingServer.outStream 5 ++ ":ft_irc 403 #nope :No such channel\r\n".toList) ∧
    (failingServer.getClient 8).map (fun c => c.status) = some ClientStatus.PASSWORD_SENT ∧
    (Command.topicExecute failingServer 8 ["#foo".toList, "x".toList]).map
        (fun t => ((t.getClient 8).map (fun c => c.status), t.outStream 8)) =
      some (some ClientStatus.DISCONNECTED,
        ":ft_irc 442 #foo :You're not on that channel\r\n".toList) := by
  refine ⟨by rfl, by rfl, by rfl, by decide, by rfl, by rfl⟩

/-- C24 (as amended): `Channel::clientCanChangeTopic` holds exactly for the members of
the channel that are operators or find the topic unlocked. `TOPIC <chan> <text>`: an
unknown channel is answered 403, a sender that is not a member 442, and a member that
may not change the topic 482; in these three cases, whatever `send` answers, the
channel map is unchanged, nobody else is sent anything, and nothing changes but the
outbound side of the sender and, exactly when the `send` of the reply met a fatal
error, its status, which is then `DISCONNECTED` (`RepliedOnly`); a member that may
change it sets the topic to `<text>`, every member (the sender included) is sent the
`TOPIC` line once, the sessions that are not members are sent nothing, and the other
fields of the channel and the other channels are unchanged. -/
theorem topicExecute_spec (s : Server) (fd : Nat) (c : Client) (name : Str) (rest : List Str)
    (hc : s.getClient fd = some c) :
    (∀ (ch : Channel) (x : Nat), ch.clientCanChangeTopic x = true ↔
      ch.hasClient x = true ∧
        (ch.hasMode MODE_TOPIC_LOCKED = false ∨ ch.isOperator x = true)) ∧
    (s.getChannel name = none →
      ∃ t, Command.topicExecute s fd (name :: rest) = some t ∧
        RepliedOnly s t fd
          (':' :: s.serverName ++ " 403 ".toList ++ name ++ " :No such channel".toList)) ∧
    (∀ ch, s.getChannel name = some ch → ch.hasClient fd = false →
      ∃ t, Command.topicExecute s fd (name :: rest) = some t ∧
        RepliedOnly s t fd
          (':' :: s.serverName ++ " 442 ".toList ++ name ++
            " :You're not on that channel".toList)) ∧
    (∀ ch text more, s.getChannel name = some ch → ch.hasClient fd = true →
      rest = text :: more → ch.clientCanChangeTopic fd = false →
      ∃ t, Command.topicExecute s fd (name :: rest) = some t ∧
        RepliedOnly s t fd
          (':' :: s.serverName ++ " 482 ".toList ++ name ++
            " :You're not channel operator".toList) ∧
        t.channels = s.channels ∧ t.getChannel name = some ch ∧
        ∀ x, x ≠ fd → t.outStream x = s.outStream x) ∧
    (∀ ch text more, s.getChannel name = some ch → rest = text :: more →
      ch.clientCanChangeTopic fd = true → Attainable s →
      ∃ t, Command.topicExecute s fd (name :: rest) = some t ∧
        t.getChannel name = some { ch with topic := text } ∧
        (∀ x, t.outStream x = s.outStream x ++
          (if ch.hasClient x = true then
            c.hostmask ++ " TOPIC ".toList ++ name ++ " :".toList ++ text ++ CRLF
          else [])) ∧
        (∀ name2, Utils.toLower name2 ≠ Utils.toLower name →
          t.getChannel name2 = s.getChannel name2) ∧
        t.roomView = s.roomView) := by
  refine ⟨clientCanChangeTopic_iff, ?_, ?_, ?_, ?_⟩
  · intro hch
    have h3 := repliedOnly_sendReply hc ("403 ".toList ++ name ++ " :No such channel".toList)
    have e : Command.topicExecute s fd (name :: rest) =
        some (s.sendReply fd ("403 ".toList ++ name ++ " :No such channel".toList)) := by
      unfold Command.topicExecute
      rw [hc]
      simp only [hch]
    exact ⟨_, e, by simpa using h3⟩
  · intro ch hch hm
    have h3 := repliedOnly_sendReply hc
      ("442 ".toList ++ name ++ " :You're not on that channel".toList)
    have e : Command.topicExecute s fd (name :: rest) =
        some (s.sendReply fd ("442 ".toList ++ name ++ " :You're not on that channel".toList)) := by
      unfold Command.topicExecute
      rw [hc]
      simp only [hch, hm, Bool.not_false, ↓reduceIte]
    exact ⟨_, e, by simpa using h3⟩
  · intro ch text more hch hm hrest hcan
    have h3 := repliedOnly_sendReply hc
      ("482 ".toList ++ name ++ " :You're not channel operator".toList)
    have h4 := h3.frame
    have e : Command.topicExecute s fd (name :: rest) =
        some (s.sendReply fd ("482 ".toList ++ name ++ " :You're not channel operator".toList)) := by
      unfold Command.topicExecute
      rw [hc, hrest]
      simp only [hch, hm, Bool.not_true, Bool.false_eq_true, ↓reduceIte, hcan, Bool.not_false]
    refine ⟨_, e, by simpa using h3, h4.1, ?_, fun x hx => h3.outStream_other x hx⟩
    rw [getChannel_congr h4.1, hch]
  · intro ch text more hch hrest hcan ha
    have hinv := RoomInv.attainable ha
    obtain ⟨hnd, hmem⟩ := hinv.channel_facts hch
    have hm : ch.hasClient fd = true := ((clientCanChangeTopic_iff ch fd).mp hcan).1
    have e : Command.topicExecute s fd (name :: rest) =
        some ((s.modifyChannel (Utils.toLower name)
          (fun x => { x with topic := text })).channelBroadcast (Utils.toLower name)
          (c.hostmask ++ " TOPIC ".toList ++ name ++ " :".toList ++ text) none) := by
      unfold Command.topicExecute
      rw [hc, hrest]
      simp only [hch, hm, Bool.not_true, Bool.false_eq_true, ↓reduceIte, hcan]
    have hg1 : (s.modifyChannel (Utils.toLower name)
        (fun x => { x with topic := text })).getChannel name = some { ch with topic := text } := by
      rw [getChannel_modifyChannel_self, hch]; rfl
    refine ⟨_, e, ?_, ?_, ?_, ?_⟩
    · rw [getChannel_congr (channelBroadcast_channels _ _ _ _), hg1]
    · intro x
      rw [outStream_channelBroadcast hg1 hnd hmem, outStream_modifyChannel]
      simp only [List.append_assoc]
      rfl
    · intro name2 hne
      rw [getChannel_congr (channelBroadcast_channels _ _ _ _),
        getChannel_modifyChannel_other _ _ _ _ hne]
    · exact (sameRooms_modifyChannel s (Utils.toLower name) (fun x => { x with topic := text })
        (fun _ => ⟨rfl, rfl⟩)).channelBroadcast_then _ _ _

set_option maxRecDepth 100000 in
/-- C24 on the demonstration state, where no `send` fails: `bob`, a member of `#foo`
without the operator flag, sets the topic while it is unlocked, is refused once `alice`
has sent `MODE #foo +t`, and is answered 403 on a channel that does not exist. And on
the state `failingServer`, where the next `send` fails: he is answered 403 and is
`DISCONNECTED`. -/
theorem topicExecute_spec_witness :
    (∃ t, Command.topicExecute demoServer 5 ["#foo".toList, "hello".toList] = some t ∧
      (t.getChannel "#foo".toList).map Channel.topic = some "hello".toList ∧
      t.outStream 4 = demoServer.outStream 4 ++ ":bob!bob@h2 TOPIC #foo :hello\r\n".toList ∧
      t.outStream 5 = demoServer.outStream 5 ++ ":bob!bob@h2 TOPIC #foo :hello\r\n".toList) ∧
    (∃ t, Command.topicExecute lockedServer 5 ["#foo".toList, "hello".toList] = some t ∧
      RepliedOnly lockedServer t 5 ":ft_irc 482 #foo :You're not channel operator".toList ∧
      t.channels = lockedServer.channels) ∧
    (∃ t, Command.topicExecute demoServer 5 ["#nope".toList, "hello".toList] = some t ∧
      RepliedOnly demoServer t 5 ":ft_irc 403 #nope :No such channel".toList) ∧
    (∃ t, Command.topicExecute failingServer 5 ["#nope".toList, "hello".toList] = some t ∧
      RepliedOnly failingServer t 5 ":ft_irc 403 #nope :No such channel".toList ∧
      (t.getClient 5).map Client.status = some ClientStatus.DISCONNECTED) := by
  refine ⟨?_, ?_, ?_, ?_⟩
  · obtain ⟨t, h1, h2, h3, _⟩ :=
      (topicExecute_spec demoServer 5 ((demoServer.getClient 5).getD { fd := 5 })
        "#foo".toList ["hello".toList] (by rfl)).2.2.2.2
        ((demoServer.getChannel "#foo".toList).getD { name := [] }) "hello".toList []
        (by rfl) rfl (by rfl) demoServer_attainable
    refine ⟨t, h1, ?_, ?_, ?_⟩
    · rw [h2]; rfl
    · rw [h3 4]; decide
    · rw [h3 5]; decide
  · obtain ⟨t, h1, h2, h3, _⟩ :=
      (topicExecute_spec lockedServer 5 ((lockedServer.getClient 5).getD { fd := 5 })
        "#foo".toList ["hello".toList] (by rfl)).2.2.2.1
        ((lockedServer.getChannel "#foo".toList).getD { name := [] }) "hello".toList []
        (by rfl) (by rfl) rfl (by rfl)
    exact ⟨t, h1, h2, h3⟩
  · obtain ⟨t, h1, h2⟩ :=
      (topicExecute_spec demoServer 5 ((demoServer.getClient 5).getD { fd := 5 })
        "#nope".toList ["hello".toList] (by rfl)).2.1 (by rfl)
    exact ⟨t, h1, h2⟩
  · obtain ⟨t, h1, h2⟩ :=
      (topicExecute_spec failingServer 5 ((failingServer.getClient 5).getD { fd := 5 })
        "#nope".toList ["hello".toList] (by rfl)).2.1 (by rfl)
    have hc : failingServer.getClient 5 =
        some ((failingServer.getClient 5).getD { fd := 5 }) := by rfl
    exact ⟨t, h1, h2, (h2.status_eq hc).trans (by rfl)⟩

/-- C25: on an existing channel, a `MODE` with a non-empty mode string from a session
that is not an operator of the channel (a member without the operator flag, or not a
member at all) is answered `482 <chan> :You're not channel operator`, whatever `send`
answers, and does nothing else: the channel map (modes, keys, limits, member flags) is
unchanged, no other session is sent anything or changed, and the sender differs only in
its outbound side and, exactly when the `send` of the reply met a fatal error, in its
status (`RepliedOnly`). -/
theorem handleChannelMode_not_operator (s : Server) (fd : Nat) (c : Client)
    (name modes : Str) (modeParams : List Str) (ch : Channel)
    (hc : s.getClient fd = some c)
    (ht : name.head? = some '#' ∨ name.head? = some '&')
    (hch : s.getChannel name = some ch) (hm : modes ≠ [])
    (hop : ch.hasClient fd = false ∨ ch.isOperator fd = false) :
    ∃ t, Command.modeExecute s fd (name :: modes :: modeParams) = some t ∧
      t = Command.handleChannelMode s fd c name modes modeParams ∧
      RepliedOnly s t fd (':' :: s.serverName ++ " 482 ".toList ++ name ++
        " :You're not channel operator".toList) ∧
      t.channels = s.channels ∧ t.getChannel name = some ch ∧
      (∀ x, x ≠ fd → t.outStream x = s.outStream x) ∧
      (∀ x, x ≠ fd → t.getClient x = s.getClient x) := by
  have hop2 : ch.isOperator fd = false := by
    rcases hop with h | h
    · exact isOperator_of_not_member ch fd h
    · exact h
  have h1 : Command.modeExecute s fd (name :: modes :: modeParams) =
      some (Command.handleChannelMode s fd c name modes modeParams) := by
    unfold Command.modeExecute
    rw [hc]
    simp only [ht, ↓reduceIte]
  have h2 : Command.handleChannelMode s fd c name modes modeParams =
      s.sendReply fd ("482 ".toList ++ name ++ " :You're not channel operator".toList) := by
    unfold Command.handleChannelMode
    rw [hch]
    simp only [hm, ↓reduceIte, hop2, Bool.not_false]
  have h3 := repliedOnly_sendReply hc
    ("482 ".toList ++ name ++ " :You're not channel operator".toList)
  rw [← h2] at h3
  have h4 := h3.frame
  refine ⟨_, h1, rfl, ?_, h4.1, ?_, ?_, h4.2.2.2.2⟩
  · simpa using h3
  · rw [getChannel_congr h4.1, hch]
  · exact fun x hx => h3.outStream_other x hx

set_option maxRecDepth 100000 in
/-- C25 on the demonstration state: `bob`, a member of `#foo` without the operator flag,
sends `MODE #foo +i`. And on the state `failingServer`, where the next `send` fails:
he is sent the 482 all the same, the channels are unchanged, and he is
`DISCONNECTED`. -/
theorem handleChannelMode_not_operator_witness :
    (∃ t, Command.modeExecute demoServer 5 ["#foo".toList, "+i".toList] = some t ∧
      RepliedOnly demoServer t 5 ":ft_irc 482 #foo :You're not channel operator".toList ∧
      t.channels = demoServer.channels) ∧
    (∃ t, Command.modeExecute failingServer 5 ["#foo".toList, "+i".toList] = some t ∧
      RepliedOnly failingServer t 5 ":ft_irc 482 #foo :You're not channel operator".toList ∧
      t.channels = failingServer.channels ∧
      (t.getClient 5).map Client.status = some ClientStatus.DISCONNECTED) := by
  constructor
  · obtain ⟨t, h1, _, h3, h4, _⟩ :=
      handleChannelMode_not_operator demoServer 5 ((demoServer.getClient 5).getD { fd := 5 })
        "#foo".toList "+i".toList [] (((demoServer.getChannel "#foo".toList)).getD { name := [] })
        (by rfl) (by decide) (by rfl) (by decide) (Or.inr (by rfl))
    exact ⟨t, h1, h3, h4⟩
  · obtain ⟨t, h1, _, h3, h4, _⟩ :=
      handleChannelMode_not_operator failingServer 5
        ((failingServer.getClient 5).getD { fd := 5 })
        "#foo".toList "+i".toList []
        (((failingServer.getChannel "#foo".toList)).getD { name := [] })
        (by rfl) (by decide) (by rfl) (by decide) (Or.inr (by rfl))
    have hc : failingServer.getClient 5 =
        some ((failingServer.getClient 5).getD { fd := 5 }) := by rfl
    exact ⟨t, h1, h3, h4, (h3.status_eq hc).trans (by rfl)⟩

set_option maxRecDepth 100000 in
/-- C29 as stated fails when the `send` of the reply meets a fatal error: in the state
`failingServer`, `alice` (`REGISTERED`) sends `MODE bob +i`; she is sent 502 and ends
`DISCONNECTED`. -/
theorem user_mode_reply_fatal_counterexample :
    failingServer.env = [SendResult.fatal] ∧
    (failingServer.getClient 4).map (fun c => (c.status, c.nickname)) =
      some (ClientStatus.REGISTERED, "alice".toList) ∧
    (Command.modeExecute failingServer 4 ["bob".toList, "+i".toList]).map
        (fun t => (t.getClient 4).map (fun c => c.status)) =
      some (some ClientStatus.DISCONNECTED) ∧
    (Command.modeExecute failingServer 4 ["bob".toList, "+i".toList]).map
        (fun t => t.outStream 4) =
      some (failingServer.outStream 4 ++
        ":ft_irc 502 :Cannot change mode for other users\r\n".toList) := by
  refine ⟨by rfl, by rfl, by rfl, by decide⟩

/-- C29 (as amended): a `MODE` whose target is not a channel name, sent by the session
`fd` with the parameters `target :: rest` (the mode string is the second parameter,
empty when absent), whatever `send` answers. If `target` is not the nickname of the
sender the reply is 502. On the sender itself: without mode string the reply is
`221 +o` for a global operator and `221 +` otherwise; `+o` is answered 501 and leaves
the operator flag as it is. In these cases nothing else changes but the outbound side
of the sender and, exactly when the `send` of the reply met a fatal error, its status,
which is then `DISCONNECTED` (`RepliedOnly`). After `-o` the operator flag of the sender is
off. Whatever the parameters, a session that has the operator flag afterwards had it
before. -/
theorem handleUserMode_spec (s : Server) (fd : Nat) (c : Client) (target : Str)
    (rest : List Str) (hc : s.getClient fd = some c)
    (ht : ¬ (target.head? = some '#' ∨ target.head? = some '&')) :
    ∃ t, Command.modeExecute s fd (target :: rest) = some t ∧
      t = Command.handleUserMode s fd c target (rest.headD []) ∧
      (target ≠ c.nickname →
        RepliedOnly s t fd
          (':' :: s.serverName ++ " 502 :Cannot change mode for other users".toList)) ∧
      (target = c.nickname → rest.headD [] = [] →
        RepliedOnly s t fd
          (':' :: s.serverName ++ " 221 +".toList ++ (if c.isOperator then ['o'] else []))) ∧
      (target = c.nickname → rest.headD [] = "+o".toList →
        RepliedOnly s t fd (':' :: s.serverName ++ " 501 :Cannot set user mode +o".toList) ∧
        (t.getClient fd).map Client.isOperator = some c.isOperator) ∧
      (target = c.nickname → rest.headD [] = "-o".toList →
        (t.getClient fd).map Client.isOperator = some false ∧
        ∀ x, x ≠ fd → (t.getClient x).map Client.isOperator =
          (s.getClient x).map Client.isOperator) ∧
      (∀ x, (t.getClient x).map Client.isOperator = some true →
        (s.getClient x).map Client.isOperator = some true) := by
  have h1 : Command.modeExecute s fd (target :: rest) =
      some (Command.handleUserMode s fd c target (rest.headD [])) := by
    unfold Command.modeExecute
    rw [hc]
    cases rest <;> simp only [ht, ↓reduceIte, List.headD_nil, List.headD_cons]
  refine ⟨_, h1, rfl, ?_, ?_, ?_, ?_, ?_⟩
  · intro hne
    have : Command.handleUserMode s fd c target (rest.headD []) =
        s.sendReply fd "502 :Cannot change mode for other users".toList := by
      unfold Command.handleUserMode
      simp only [ne_eq, hne, not_false_eq_true, ↓reduceIte]
    rw [this]
    simpa using repliedOnly_sendReply hc "502 :Cannot change mode for other users".toList
  · intro he hm
    have : Command.handleUserMode s fd c target (rest.headD []) =
        s.sendReply fd ("221 ".toList ++ '+' :: (if c.isOperator then ['o'] else [])) := by
      unfold Command.handleUserMode
      simp only [ne_eq, he, not_true_eq_false, ↓reduceIte, hm]
    rw [this]
    simpa using repliedOnly_sendReply hc
      ("221 ".toList ++ '+' :: (if c.isOperator then ['o'] else []))
  · intro he hm
    have : Command.handleUserMode s fd c target (rest.headD []) =
        s.sendReply fd "501 :Cannot set user mode +o".toList := by
      unfold Command.handleUserMode
      rw [hm]
      simp [he, Command.userModeStep]
    rw [this]
    refine ⟨by simpa using repliedOnly_sendReply hc "501 :Cannot set user mode +o".toList, ?_⟩
    rw [getClient_sendReply_map Client.isOperator (fun _ _ _ _ => rfl), hc]
    rfl
  · intro he hm
    have : Command.handleUserMode s fd c target (rest.headD []) =
        if c.isOperator then
          (s.modifyClient fd (fun e => e.setOperator false)).sendMessage fd
            (c.hostmask ++ " MODE ".toList ++ c.nickname ++ " -o".toList)
        else s := by
      unfold Command.handleUserMode
      rw [hm]
      simp [he, Command.userModeStep, hc]
      split <;> rfl
    rw [this]
    split
    · rename_i hop
      refine ⟨?_, ?_⟩
      · rw [getClient_sendMessage_map Client.isOperator (fun _ _ _ _ => rfl),
          getClient_modifyClient_self s fd (fun e => e.setOperator false) (fun _ => rfl), hc]
        rfl
      · intro x hx
        rw [getClient_sendMessage_map Client.isOperator (fun _ _ _ _ => rfl),
          getClient_modifyClient_other s fd x (fun e => e.setOperator false) (fun _ => rfl)
            hx]
    · rename_i hop
      refine ⟨?_, fun _ _ => rfl⟩
      rw [hc]
      simpa using hop
  · intro x h
    exact handleUserMode_operator s fd c target _ x h

set_option maxRecDepth 100000 in
/-- C29 on the demonstration state, where no `send` fails and `alice` is not a global
operator, and on `operServer`, where she is. `MODE bob` from `alice` is answered 502;
`MODE alice` is answered `221 +` in the first state and `221 +o` in the second;
`MODE alice +o` is answered 501 and leaves her without the flag; `MODE alice -o` takes
the flag from her in the second state. And on the state `failingServer`, where the
next `send` fails: `MODE bob` from `alice` is answered 502 and she is
`DISCONNECTED`. -/
theorem handleUserMode_spec_witness :
    (∃ t, Command.modeExecute demoServer 4 ["bob".toList] = some t ∧
      RepliedOnly demoServer t 4 ":ft_irc 502 :Cannot change mode for other users".toList) ∧
    (∃ t, Command.modeExecute demoServer 4 ["alice".toList] = some t ∧
      RepliedOnly demoServer t 4 ":ft_irc 221 +".toList) ∧
    (operServer.getClient 4).map Client.isOperator = some true ∧
    (∃ t, Command.modeExecute operServer 4 ["alice".toList] = some t ∧
      RepliedOnly operServer t 4 ":ft_irc 221 +o".toList) ∧
    (∃ t, Command.modeExecute demoServer 4 ["alice".toList, "+o".toList] = some t ∧
      RepliedOnly demoServer t 4 ":ft_irc 501 :Cannot set user mode +o".toList ∧
      (t.getClient 4).map Client.isOperator = some false) ∧
    (∃ t, Command.modeExecute operServer 4 ["alice".toList, "-o".toList] = some t ∧
      (t.getClient 4).map Client.isOperator = some false) ∧
    (∃ t, Command.modeExecute failingServer 4 ["bob".toList] = some t ∧
      RepliedOnly failingServer t 4
        ":ft_irc 502 :Cannot change mode for other users".toList ∧
      (t.getClient 4).map Client.status = some ClientStatus.DISCONNECTED) := by
  refine ⟨?_, ?_, by rfl, ?_, ?_, ?_, ?_⟩
  · obtain ⟨t, h1, _, h3, _⟩ :=
      handleUserMode_spec demoServer 4 ((demoServer.getClient 4).getD { fd := 4 })
        "bob".toList [] (by rfl) (by decide)
    exact ⟨t, h1, h3 (by decide)⟩
  · obtain ⟨t, h1, _, _, h4, _⟩ :=
      handleUserMode_spec demoServer 4 ((demoServer.getClient 4).getD { fd := 4 })
        "alice".toList [] (by rfl) (by decide)
    exact ⟨t, h1, h4 (by rfl) (by rfl)⟩
  · obtain ⟨t, h1, _, _, h4, _⟩ :=
      handleUserMode_spec operServer 4 ((operServer.getClient 4).getD { fd := 4 })
        "alice".toList [] (by rfl) (by decide)
    exact ⟨t, h1, h4 (by rfl) (by rfl)⟩
  · obtain ⟨t, h1, _, _, _, h5, _⟩ :=
      handleUserMode_spec demoServer 4 ((demoServer.getClient 4).getD { fd := 4 })
        "alice".toList ["+o".toList] (by rfl) (by decide)
    have h6 := h5 (by rfl) (by rfl)
    exact ⟨t, h1, h6.1, h6.2⟩
  · obtain ⟨t, h1, _, _, _, _, h6, _⟩ :=
      handleUserMode_spec operServer 4 ((operServer.getClient 4).getD { fd := 4 })
        "alice".toList ["-o".toList] (by rfl) (by decide)
    exact ⟨t, h1, (h6 (by rfl) (by rfl)).1⟩
  · obtain ⟨t, h1, _, h3, _⟩ :=
      handleUserMode_spec failingServer 4 ((failingServer.getClient 4).getD { fd := 4 })
        "bob".toList [] (by rfl) (by decide)
    have hc : failingServer.getClient 4 =
        some ((failingServer.getClient 4).getD { fd := 4 }) := by rfl
    have h5 := h3 (by decide)
    exact ⟨t, h1, h5, (h5.status_eq hc).trans (by rfl)⟩

/-- C31: `PRIVMSG <target> <text>` from the session `fd`. A target that starts with `#`
or `&` is a channel: an unknown channel is answered 403 and a sender that is not a
member 442; any other target that is the nickname of no session is answered 401. In
these three cases, whatever `send` answers, the sender is sent the reply and nothing
else changes but its outbound side and, exactly when the `send` of the reply met a
fatal error, its status (`RepliedOnly`): no other session is sent anything. When the sender is a member of the
channel, the line `:<nick>!<user>@<host> PRIVMSG <target> :<text>` is sent once to every
member other than the sender, nothing is sent to the sender or to a session that is not
a member, and the channels are unchanged. -/
theorem privmsgExecute_spec (s : Server) (fd : Nat) (c : Client) (target text : Str)
    (rest : List Str) (hc : s.getClient fd = some c) :
    ((target.head? = some '#' ∨ target.head? = some '&') → s.getChannel target = none →
      ∃ t, Command.privmsgExecute s fd (target :: text :: rest) = some t ∧
        RepliedOnly s t fd
          (':' :: s.serverName ++ " 403 ".toList ++ target ++ " :No such channel".toList) ∧
        ∀ x, x ≠ fd → t.outStream x = s.outStream x) ∧
    (∀ ch, (target.head? = some '#' ∨ target.head? = some '&') →
      s.getChannel target = some ch → ch.hasClient fd = false →
      ∃ t, Command.privmsgExecute s fd (target :: text :: rest) = some t ∧
        RepliedOnly s t fd
          (':' :: s.serverName ++ " 442 ".toList ++ target ++
            " :You're not on that channel".toList) ∧
        ∀ x, x ≠ fd → t.outStream x = s.outStream x) ∧
    (¬ (target.head? = some '#' ∨ target.head? = some '&') →
      s.getClientByNickname target = none →
      ∃ t, Command.privmsgExecute s fd (target :: text :: rest) = some t ∧
        RepliedOnly s t fd
          (':' :: s.serverName ++ " 401 ".toList ++ target ++
            " :No such nick/channel".toList) ∧
        ∀ x, x ≠ fd → t.outStream x = s.outStream x) ∧
    (∀ ch, (target.head? = some '#' ∨ target.head? = some '&') →
      s.getChannel target = some ch → ch.hasClient fd = true → Attainable s →
      ∃ t, Command.privmsgExecute s fd (target :: text :: rest) = some t ∧
        (∀ x, t.outStream x = s.outStream x ++
          (if ch.hasClient x = true ∧ x ≠ fd then
            c.hostmask ++ " PRIVMSG ".toList ++ target ++ " :".toList ++ text ++ CRLF
          else [])) ∧
        t.channels = s.channels ∧ t.roomView = s.roomView) := by
  refine ⟨?_, ?_, ?_, ?_⟩
  · intro htg hch
    have h3 := repliedOnly_sendReply hc ("403 ".toList ++ target ++ " :No such channel".toList)
    have e : Command.privmsgExecute s fd (target :: text :: rest) =
        some (s.sendReply fd ("403 ".toList ++ target ++ " :No such channel".toList)) := by
      unfold Command.privmsgExecute
      rw [hc]
      simp only [htg, hch, ↓reduceIte]
    exact ⟨_, e, by simpa using h3, fun x hx => h3.outStream_other x hx⟩
  · intro ch htg hch hm
    have h3 := repliedOnly_sendReply hc
      ("442 ".toList ++ target ++ " :You're not on that channel".toList)
    have e : Command.privmsgExecute s fd (target :: text :: rest) =
        some (s.sendReply fd
          ("442 ".toList ++ target ++ " :You're not on that channel".toList)) := by
      unfold Command.privmsgExecute
      rw [hc]
      simp only [htg, hch, hm, Bool.not_false, ↓reduceIte]
    exact ⟨_, e, by simpa using h3, fun x hx => h3.outStream_other x hx⟩
  · intro htg hn
    have h3 := repliedOnly_sendReply hc
      ("401 ".toList ++ target ++ " :No such nick/channel".toList)
    have e : Command.privmsgExecute s fd (target :: text :: rest) =
        some (s.sendReply fd ("401 ".toList ++ target ++ " :No such nick/channel".toList)) := by
      unfold Command.privmsgExecute
      rw [hc]
      simp only [htg, hn, ↓reduceIte]
    exact ⟨_, e, by simpa using h3, fun x hx => h3.outStream_other x hx⟩
  · intro ch htg hch hm ha
    have hinv := RoomInv.attainable ha
    obtain ⟨hnd, hmem⟩ := hinv.channel_facts hch
    have e : Command.privmsgExecute s fd (target :: text :: rest) =
        some (s.channelBroadcast (Utils.toLower target)
          (c.hostmask ++ " PRIVMSG ".toList ++ target ++ " :".toList ++ text) (some fd)) := by
      unfold Command.privmsgExecute
      rw [hc]
      simp only [htg, hch, hm, Bool.not_true, Bool.false_eq_true, ↓reduceIte]
    refine ⟨_, e, ?_, channelBroadcast_channels _ _ _ _, ?_⟩
    · intro x
      rw [outStream_channelBroadcast_except hch hnd hmem]
    · exact sameRooms_channelBroadcast s _ _ _

set_option maxRecDepth 100000 in
/-- C31 on the demonstration state: `bob` (descriptor 5) sends `hello` to `#foo`;
`alice` is sent `:bob!bob@h2 PRIVMSG #foo :hello`, `bob` and the sessions outside the
channel are sent nothing. `PRIVMSG #nope`, `PRIVMSG #foo` from `carol`, who is not a
member, and `PRIVMSG nobody` are answered 403, 442 and 401. And on the state
`failingServer`, where the next `send` fails: `PRIVMSG #nope` from `bob` is answered
403 all the same, and `alice` is sent nothing. -/
theorem privmsgExecute_spec_witness :
    (∃ t, Command.privmsgExecute demoServer 5 ["#foo".toList, "hello".toList] = some t ∧
      t.outStream 4 = demoServer.outStream 4 ++ ":bob!bob@h2 PRIVMSG #foo :hello\r\n".toList ∧
      t.outStream 5 = demoServer.outStream 5 ∧
      t.outStream 8 = demoServer.outStream 8) ∧
    (∃ t, Command.privmsgExecute demoServer 5 ["#nope".toList, "hello".toList] = some t ∧
      RepliedOnly demoServer t 5 ":ft_irc 403 #nope :No such channel".toList) ∧
    (∃ t, Command.privmsgExecute keyedServer 8 ["#foo".toList, "hello".toList] = some t ∧
      RepliedOnly keyedServer t 8 ":ft_irc 442 #foo :You're not on that channel".toList) ∧
    (∃ t, Command.privmsgExecute demoServer 5 ["nobody".toList, "hello".toList] = some t ∧
      RepliedOnly demoServer t 5 ":ft_irc 401 nobody :No such nick/channel".toList) ∧
    (∃ t, Command.privmsgExecute failingServer 5 ["#nope".toList, "hello".toList] = some t ∧
      RepliedOnly failingServer t 5 ":ft_irc 403 #nope :No such channel".toList ∧
      t.outStream 4 = failingServer.outStream 4) := by
  refine ⟨?_, ?_, ?_, ?_, ?_⟩
  · obtain ⟨t, h1, h2, _⟩ :=
      (privmsgExecute_spec demoServer 5 ((demoServer.getClient 5).getD { fd := 5 })
        "#foo".toList "hello".toList [] (by rfl)).2.2.2
        ((demoServer.getChannel "#foo".toList).getD { name := [] })
        (by decide) (by rfl) (by rfl) demoServer_attainable
    refine ⟨t, h1, ?_, ?_, ?_⟩
    · rw [h2 4]; decide
    · rw [h2 5]; decide
    · rw [h2 8]; decide
  · obtain ⟨t, h1, h2, _⟩ :=
      (privmsgExecute_spec demoServer 5 ((demoServer.getClient 5).getD { fd := 5 })
        "#nope".toList "hello".toList [] (by rfl)).1 (by decide) (by rfl)
    exact ⟨t, h1, h2⟩
  · obtain ⟨t, h1, h2, _⟩ :=
      (privmsgExecute_spec keyedServer 8 ((keyedServer.getClient 8).getD { fd := 8 })
        "#foo".toList "hello".toList [] (by rfl)).2.1
        ((keyedServer.getChannel "#foo".toList).getD { name := [] })
        (by decide) (by rfl) (by rfl)
    exact ⟨t, h1, h2⟩
  · obtain ⟨t, h1, h2, _⟩ :=
      (privmsgExecute_spec demoServer 5 ((demoServer.getClient 5).getD { fd := 5 })
        "nobody".toList "hello".toList [] (by rfl)).2.2.1 (by decide) (by rfl)
    exact ⟨t, h1, h2⟩
  · obtain ⟨t, h1, h2, h3⟩ :=
      (privmsgExecute_spec failingServer 5 ((failingServer.getClient 5).getD { fd := 5 })
        "#nope".toList "hello".toList [] (by rfl)).1 (by decide) (by rfl)
    exact ⟨t, h1, h2, h3 4 (by decide)⟩

end Irc
